import Mathlib

/-!
Loki CachedFactory: a shallow embedding

Source files embedded here: `include/loki/Key.h`, `include/loki/Factory.h`,
`include/loki/CachedFactory.h`.

Conventions of the embedding.

* `AbstractProduct*` is a natural number (an address); `NULL` is `0`.
* `IdentifierType` and every construction parameter are integers; the
  parameter pack `Parms...` is the list of its values.
* `unsigned` counters are natural numbers reduced modulo `2^32` at every
  increment and decrement.
* `std::map<AbstractProduct*, T>` is the list of its entries in iteration
  order (ascending address).  `std::map<MyKey, ObjVector>` is the list of its
  entries in iteration order; `lower_bound` is the first entry whose key is
  not less than the searched key, and an entry inserted by `operator[]` goes
  right before that position.  This is what `std::map` does when its
  comparison is a strict weak ordering, as the C++ standard requires.
  `operator<(Key, Key)` is one on keys of a single identifier with the same
  positive number of parameters (`key_lt_strict_on_uniform`); it is not one
  on keys without parameters, nor on the keys of several identifiers.  There
  the standard leaves the behaviour of the container undefined, and a
  balanced tree can drop entries that the list keeps.  The theorems that rest
  on a lookup finding the entry made by an earlier call are therefore stated
  for histories of calls with such keys (`UniformHistory`).
* `std::vector` is a list; `back()` is the last element.
* A C++ exception is an `Error`; a member function that can throw returns
  the pair of its result and of the object state at the point of the throw or
  return (nothing is rolled back by the source).
* Values the program reads from its environment (the address handed out by
  the allocator inside a creator, `clock()`, `rand()`) are inputs of the call,
  gathered in `Env`.
* The free store is the field `heap`: the objects built by the factory and not
  yet deleted, each with the identifier and parameters it was built from; the
  field `deleted` counts the `delete` expressions executed.
-/

namespace Loki

/-! ## Basic types -/

abbrev IdentifierType := Int

abbrev Parm := Int

/-- An `AbstractProduct*`. -/
abbrev Product := Nat

/-- The null pointer. -/
def NULL : Product := 0

/-- Exceptions thrown by the embedded code, and the two ways it can leave
defined behaviour (a failed `assert`, an out-of-range dereference). -/
inductive Error where
  | neverCreate
  | rateLimited
  | eviction
  | cache
  | unknownType
  | assertion
  | undefined
deriving DecidableEq, Repr

/-- Pre-increment of an `unsigned`. -/
def incU (n : Nat) : Nat := (n + 1) % 2 ^ 32

/-- Pre-decrement of an `unsigned`: `n - 1` modulo `2^32`, that is
`(n + (2^32 - 1)) % 2^32` (lemma `decU_eq_mod`). -/
def decU (n : Nat) : Nat := if n % 2 ^ 32 = 0 then 2 ^ 32 - 1 else n % 2 ^ 32 - 1

/-- What a call reads from its environment. -/
structure Env where
  /-- address of the object a creator allocates during this call -/
  alloc : Product
  /-- value of `clock()` read by `RateLimitedCreation::cleanVector` -/
  clockCan : Int
  /-- value of `clock()` read by `RateLimitedCreation::onCreate` -/
  clockCreate : Int
  /-- value of `rand()` read by `EvictRandom::evict` -/
  rand : Nat

/-! ## Key.h -/

/-- Class `Key`: an identifier and the tuple of parameters. -/
structure Key where
  id : IdentifierType
  values : List Parm
deriving DecidableEq, Repr

/-- `operator<` of `std::tuple`: lexicographic comparison. -/
def tupleLt : List Parm → List Parm → Bool
  | a :: as, b :: bs => if a < b then true else if b < a then false else tupleLt as bs
  | _, _ => false

/-- `operator==(Key, Key)`, Key.h lines 73-79. -/
def Key.eq (k1 k2 : Key) : Bool :=
  if k1.values.length ≠ k2.values.length then false
  else decide (k1.values = k2.values)

/-- `operator<(Key, Key)`, Key.h lines 81-94. -/
def Key.lt (k1 k2 : Key) : Bool :=
  if k1.values.length < k2.values.length then true
  else if k1.values.length = 0 then true
  else if k1.id < k2.id then true
  else tupleLt k1.values k2.values

/-! ## Standard containers -/

/-- `std::map<AbstractProduct*, β>` in iteration order. -/
abbrev PtrMap (β : Type) := List (Product × β)

/-- `std::map::find` on a pointer-keyed map. -/
def ptrFind {β : Type} : PtrMap β → Product → Option β
  | [], _ => none
  | (k1, v) :: rest, k => if k1 = k then some v else ptrFind rest k

/-- The assignment `m[k] = v` on a pointer-keyed map. -/
def ptrSet {β : Type} : PtrMap β → Product → β → PtrMap β
  | [], k, v => [(k, v)]
  | (k1, v1) :: rest, k, v =>
      if k < k1 then (k, v) :: (k1, v1) :: rest
      else if k1 < k then (k1, v1) :: ptrSet rest k v
      else (k, v) :: rest

/-- `std::map::erase(key)` on a pointer-keyed map. -/
def ptrErase {β : Type} (m : PtrMap β) (k : Product) : PtrMap β :=
  m.filter (fun e => decide (e.1 ≠ k))

/-- The keys of a pointer-keyed map, in iteration order. -/
def ptrKeys {β : Type} (m : PtrMap β) : List Product := m.map Prod.fst

/-- `ObjVector`: `std::vector<AbstractProduct*>`. -/
abbrev ObjVector := List Product

/-- `KeyToObjVectorMap`: `std::map<MyKey, ObjVector>` in iteration order. -/
abbrev KeyToObjVectorMap := List (Key × ObjVector)

/-- `std::map::operator[]` on the idle pool: the map after the call and the
position of the entry the returned reference designates.  The search is
`lower_bound` with `operator<(Key, Key)`; a new entry with an empty vector is
inserted when the search ends at `end()` or at an entry the key is less than.
The entries are visited in iteration order, which is the search of the
container when `operator<` orders the keys present and the key searched
strictly (keys of one identifier with the same positive number of parameters,
see `UniformHistory`); on other keys the outcome of the container is not
fixed by the C++ standard. -/
def mapIndex : KeyToObjVectorMap → Key → KeyToObjVectorMap × Nat
  | [], k => ([(k, [])], 0)
  | (k1, v) :: rest, k =>
      if Key.lt k1 k then
        ((k1, v) :: (mapIndex rest k).1, (mapIndex rest k).2 + 1)
      else if Key.lt k k1 then ((k, []) :: (k1, v) :: rest, 0)
      else ((k1, v) :: rest, 0)

/-- The vector stored at a position of the idle pool. -/
def entryAt : KeyToObjVectorMap → Nat → ObjVector
  | [], _ => []
  | (_, v) :: _, 0 => v
  | _ :: rest, i + 1 => entryAt rest i

/-- Update through a reference to the vector stored at a position. -/
def modifyEntry : KeyToObjVectorMap → Nat → (ObjVector → ObjVector) → KeyToObjVectorMap
  | [], _, _ => []
  | (k, v) :: rest, 0, f => (k, f v) :: rest
  | e :: rest, i + 1, f => e :: modifyEntry rest i f

/-- All idle instances, vector after vector in map order. -/
def idleObjects (m : KeyToObjVectorMap) : List Product := (m.map Prod.snd).flatten

/-- `std::multimap<ST, DT>::insert`: the new pair goes after every pair whose
score is not greater. -/
def multimapInsert : List (Nat × Product) → Nat × Product → List (Nat × Product)
  | [], x => [x]
  | y :: rest, x => if x.1 < y.1 then x :: y :: rest else y :: multimapInsert rest x

/-! ## Creation policies (CachedFactory.h lines 112-268) -/

/-- `CLOCKS_PER_SEC` (the POSIX value). -/
def CLOCKS_PER_SEC : Int := 1000000

/-- Data members of `RateLimitedCreation`. -/
structure RateLimitedCreation where
  m_vTimes : List Int
  maxCreation : Nat
  timeValidity : Int
  lastUpdate : Int
deriving DecidableEq, Repr

/-- Data members of `AmountLimitedCreation`. -/
structure AmountLimitedCreation where
  maxCreation : Nat
  created : Nat
deriving DecidableEq, Repr

/-- The `CreationPolicy` template argument together with its state. -/
inductive CreationPolicy where
  | neverCreate
  | alwaysCreate
  | rateLimited (p : RateLimitedCreation)
  | amountLimited (p : AmountLimitedCreation)
deriving DecidableEq, Repr

/-- Constructor `RateLimitedCreation()`; `now` is the value of `clock()`. -/
def RateLimitedCreation.init (now : Int) : RateLimitedCreation :=
  { m_vTimes := [], maxCreation := 10, timeValidity := CLOCKS_PER_SEC, lastUpdate := now }

/-- `RateLimitedCreation::cleanVector`, lines 166-190. -/
def RateLimitedCreation.cleanVector (p : RateLimitedCreation) (currentTime : Int) :
    RateLimitedCreation :=
  if currentTime - p.lastUpdate > p.timeValidity then
    { p with m_vTimes := [], lastUpdate := currentTime }
  else
    { p with
      m_vTimes := p.m_vTimes.filter (fun t => !decide (t < currentTime - p.timeValidity)),
      lastUpdate := currentTime }

/-- `RateLimitedCreation::canCreate`, lines 210-216. -/
def RateLimitedCreation.canCreate (p : RateLimitedCreation) (currentTime : Int) :
    Except Error Bool × RateLimitedCreation :=
  let q := p.cleanVector currentTime
  if q.m_vTimes.length > q.maxCreation then (.error .rateLimited, q) else (.ok true, q)

/-- `RateLimitedCreation::onCreate`, line 218. -/
def RateLimitedCreation.onCreate (p : RateLimitedCreation) (now : Int) : RateLimitedCreation :=
  { p with m_vTimes := p.m_vTimes ++ [now] }

/-- `RateLimitedCreation::setRate`, lines 226-232; `none` is the failed `assert`. -/
def RateLimitedCreation.setRate (p : RateLimitedCreation) (maxCreation byTime : Nat) :
    Option RateLimitedCreation :=
  if byTime > 0 then
    some { p with maxCreation := maxCreation,
                  timeValidity := (byTime : Int) * CLOCKS_PER_SEC / 1000 }
  else none

/-- Constructor `AmountLimitedCreation()`. -/
def AmountLimitedCreation.init : AmountLimitedCreation := { maxCreation := 10, created := 0 }

/-- `AmountLimitedCreation::canCreate`, line 253. -/
def AmountLimitedCreation.canCreate (p : AmountLimitedCreation) : Bool :=
  !decide (p.created ≥ p.maxCreation)

/-- `AmountLimitedCreation::onCreate`, line 255. -/
def AmountLimitedCreation.onCreate (p : AmountLimitedCreation) : AmountLimitedCreation :=
  { p with created := incU p.created }

/-- `AmountLimitedCreation::onDestroy`, line 257. -/
def AmountLimitedCreation.onDestroy (p : AmountLimitedCreation) : AmountLimitedCreation :=
  { p with created := decU p.created }

/-- `AmountLimitedCreation::setMaxCreation`, lines 262-267; `none` is the failed
`assert`. -/
def AmountLimitedCreation.setMaxCreation (p : AmountLimitedCreation) (maxCreation : Nat) :
    Option AmountLimitedCreation :=
  if maxCreation > 0 then some { p with maxCreation := maxCreation } else none

/-- `CP::canCreate()` for the policy in use. -/
def CreationPolicy.canCreate (cp : CreationPolicy) (currentTime : Int) :
    Except Error Bool × CreationPolicy :=
  match cp with
  | .neverCreate => (.error .neverCreate, .neverCreate)
  | .alwaysCreate => (.ok true, .alwaysCreate)
  | .rateLimited p => ((p.canCreate currentTime).1, .rateLimited (p.canCreate currentTime).2)
  | .amountLimited p => (.ok p.canCreate, .amountLimited p)

/-- `CP::onCreate()` for the policy in use. -/
def CreationPolicy.onCreate (cp : CreationPolicy) (now : Int) : CreationPolicy :=
  match cp with
  | .neverCreate => .neverCreate
  | .alwaysCreate => .alwaysCreate
  | .rateLimited p => .rateLimited (p.onCreate now)
  | .amountLimited p => .amountLimited p.onCreate

/-- `CP::onDestroy()` for the policy in use. -/
def CreationPolicy.onDestroy (cp : CreationPolicy) : CreationPolicy :=
  match cp with
  | .neverCreate => .neverCreate
  | .alwaysCreate => .alwaysCreate
  | .rateLimited p => .rateLimited p
  | .amountLimited p => .amountLimited p.onDestroy

/-! ## Eviction policies (CachedFactory.h lines 277-474) -/

/-- `EvictionHelper::HitMap`: `std::map<DT, ST>` with `ST = unsigned`. -/
abbrev HitMap := PtrMap Nat

/-- The local `copyMap` of `getLowerBound`: every entry of the score table,
swapped, inserted into a multimap in the iteration order of the table. -/
def EvictionHelper.copyMap (m_mHitCount : HitMap) : List (Nat × Product) :=
  m_mHitCount.foldl (fun acc e => multimapInsert acc (e.2, e.1)) []

/-- `EvictionHelper::getLowerBound`, lines 304-313. -/
def EvictionHelper.getLowerBound (m_mHitCount : HitMap) : Except Error Product :=
  if m_mHitCount.isEmpty then .error .assertion
  else
    match (EvictionHelper.copyMap m_mHitCount).getLast?, (EvictionHelper.copyMap m_mHitCount).head? with
    | some last, some first => if last.1 = 0 then .error .eviction else .ok first.2
    | _, _ => .error .undefined

/-- `EvictLRU::onCreate`, line 340. -/
def EvictLRU.onCreate (m : HitMap) (key : Product) : HitMap := ptrSet m key 0

/-- `EvictLRU::onFetch`, line 342. -/
def EvictLRU.onFetch (m : HitMap) (_key : Product) : HitMap := m

/-- `EvictLRU::onRelease`, line 345: `++m_mHitCount[key]`. -/
def EvictLRU.onRelease (m : HitMap) (key : Product) : HitMap :=
  ptrSet m key (incU ((ptrFind m key).getD 0))

/-- `EvictLRU::onDestroy`, line 347. -/
def EvictLRU.onDestroy (m : HitMap) (key : Product) : HitMap := ptrErase m key

/-- `EvictLRU::evict`, line 354: `remove(EH::getLowerBound())`, with the
virtual `remove` passed as an argument. -/
def EvictLRU.evict {ρ : Type} (m : HitMap) (remove : Product → ρ) : Except Error ρ :=
  match EvictionHelper.getLowerBound m with
  | .error e => .error e
  | .ok key => .ok (remove key)

/-- `EvictAging::updateCounter::operator()`, lines 384-389: the value the
functor assigns to `x.second` of its by-value argument `x`. -/
def EvictAging.updateCounter (key_ : Product) (x : Product × Nat) : Product × Nat :=
  (x.1, if x.1 = key_ then (x.2 / 2) ||| (1 <<< ((4 - 1) * 8)) else x.2 / 2)

/-- `EvictAging::onCreate`, line 403. -/
def EvictAging.onCreate (m : HitMap) (key : Product) : HitMap := ptrSet m key 0

/-- `EvictAging::onFetch`, line 405. -/
def EvictAging.onFetch (m : HitMap) (_key : Product) : HitMap := m

/-- `EvictAging::onRelease`, lines 413-416: `std::for_each` hands every entry to
`updateCounter`, whose `operator()(T x)` takes it by value; the assignments go
to the copies and the table is left as it was. -/
def EvictAging.onRelease (m : HitMap) (key : Product) : HitMap :=
  let _copies := m.map (EvictAging.updateCounter key)
  m

/-- `EvictAging::onDestroy`, line 418. -/
def EvictAging.onDestroy (m : HitMap) (key : Product) : HitMap := ptrErase m key

/-- `EvictAging::evict`, line 425. -/
def EvictAging.evict {ρ : Type} (m : HitMap) (remove : Product → ρ) : Except Error ρ :=
  match EvictionHelper.getLowerBound m with
  | .error e => .error e
  | .ok key => .ok (remove key)

/-- `RAND_MAX` (the glibc value). -/
def RAND_MAX : Nat := 2147483647

/-- `EvictRandom::onRelease`, line 453. -/
def EvictRandom.onRelease (m_vKeys : List Product) (key : Product) : List Product :=
  m_vKeys ++ [key]

/-- `EvictRandom::onDestroy`, lines 455-460. -/
def EvictRandom.onDestroy (m_vKeys : List Product) (key : Product) : List Product :=
  m_vKeys.filter (fun k => !decide (k = key))

/-- `EvictRandom::evict`, lines 466-472; `r` is the value of `rand()`, the
product is computed in the 64-bit `size_type`. -/
def EvictRandom.evict {ρ : Type} (m_vKeys : List Product) (r : Nat) (remove : Product → ρ) :
    Except Error ρ :=
  if m_vKeys.isEmpty then .error .eviction
  else
    match m_vKeys.get? (((m_vKeys.length * r) % 2 ^ 64) / (RAND_MAX + 1)) with
    | some key => .ok (remove key)
    | none => .error .undefined

/-- The `EvictionPolicy` template argument together with its state. -/
inductive EvictionPolicy where
  | lru (m_mHitCount : HitMap)
  | aging (m_mHitCount : HitMap)
  | random (m_vKeys : List Product)
deriving DecidableEq, Repr

/-- `EP::onCreate(pProduct)`. -/
def EvictionPolicy.onCreate (ep : EvictionPolicy) (p : Product) : EvictionPolicy :=
  match ep with
  | .lru m => .lru (EvictLRU.onCreate m p)
  | .aging m => .aging (EvictAging.onCreate m p)
  | .random v => .random v

/-- `EP::onFetch(pProduct)`. -/
def EvictionPolicy.onFetch (ep : EvictionPolicy) (p : Product) : EvictionPolicy :=
  match ep with
  | .lru m => .lru (EvictLRU.onFetch m p)
  | .aging m => .aging (EvictAging.onFetch m p)
  | .random v => .random v

/-- `EP::onRelease(pProduct)`. -/
def EvictionPolicy.onRelease (ep : EvictionPolicy) (p : Product) : EvictionPolicy :=
  match ep with
  | .lru m => .lru (EvictLRU.onRelease m p)
  | .aging m => .aging (EvictAging.onRelease m p)
  | .random v => .random (EvictRandom.onRelease v p)

/-- `EP::onDestroy(pProduct)`. -/
def EvictionPolicy.onDestroy (ep : EvictionPolicy) (p : Product) : EvictionPolicy :=
  match ep with
  | .lru m => .lru (EvictLRU.onDestroy m p)
  | .aging m => .aging (EvictAging.onDestroy m p)
  | .random v => .random (EvictRandom.onDestroy v p)

/-- `EP::evict()` with the virtual `remove` passed as an argument. -/
def EvictionPolicy.evict {ρ : Type} (ep : EvictionPolicy) (r : Nat) (remove : Product → ρ) :
    Except Error ρ :=
  match ep with
  | .lru m => EvictLRU.evict m remove
  | .aging m => EvictAging.evict m remove
  | .random v => EvictRandom.evict v r remove

/-! ## Statistic policies (CachedFactory.h lines 492-568) -/

/-- Data members of `SimpleStatisticPolicy`. -/
structure SimpleStatisticPolicy where
  allocated : Nat
  created : Nat
  hit : Nat
  out : Nat
  fetched : Nat
deriving DecidableEq, Repr

/-- Constructor `SimpleStatisticPolicy()`. -/
def SimpleStatisticPolicy.init : SimpleStatisticPolicy :=
  { allocated := 0, created := 0, hit := 0, out := 0, fetched := 0 }

/-- `SimpleStatisticPolicy::onFetch`, lines 545-549. -/
def SimpleStatisticPolicy.onFetch (p : SimpleStatisticPolicy) : SimpleStatisticPolicy :=
  { p with fetched := incU p.fetched, out := incU p.out, hit := incU p.hit }

/-- `SimpleStatisticPolicy::onRelease`, line 550. -/
def SimpleStatisticPolicy.onRelease (p : SimpleStatisticPolicy) : SimpleStatisticPolicy :=
  { p with out := decU p.out }

/-- `SimpleStatisticPolicy::onCreate`, lines 551-555. -/
def SimpleStatisticPolicy.onCreate (p : SimpleStatisticPolicy) : SimpleStatisticPolicy :=
  { p with created := incU p.created, allocated := incU p.allocated, hit := decU p.hit }

/-- `SimpleStatisticPolicy::onDestroy`, line 556. -/
def SimpleStatisticPolicy.onDestroy (p : SimpleStatisticPolicy) : SimpleStatisticPolicy :=
  { p with allocated := decU p.allocated }

/-- `getCreated`, line 561. -/
def SimpleStatisticPolicy.getCreated (p : SimpleStatisticPolicy) : Nat := p.created

/-- `getFetched`, line 562. -/
def SimpleStatisticPolicy.getFetched (p : SimpleStatisticPolicy) : Nat := p.fetched

/-- `getHit`, line 563. -/
def SimpleStatisticPolicy.getHit (p : SimpleStatisticPolicy) : Nat := p.hit

/-- `getMissed`, line 564: an `unsigned` subtraction. -/
def SimpleStatisticPolicy.getMissed (p : SimpleStatisticPolicy) : Nat :=
  (p.fetched + (2 ^ 32 - p.hit % 2 ^ 32)) % 2 ^ 32

/-- `getAllocated`, line 565. -/
def SimpleStatisticPolicy.getAllocated (p : SimpleStatisticPolicy) : Nat := p.allocated

/-- `getOut`, line 566. -/
def SimpleStatisticPolicy.getOut (p : SimpleStatisticPolicy) : Nat := p.out

/-- `getDestroyed`, line 567: an `unsigned` subtraction. -/
def SimpleStatisticPolicy.getDestroyed (p : SimpleStatisticPolicy) : Nat :=
  (p.created + (2 ^ 32 - p.allocated % 2 ^ 32)) % 2 ^ 32

/-- The `StatisticPolicy` template argument together with its state. -/
inductive StatisticPolicy where
  | noStatistic
  | simple (p : SimpleStatisticPolicy)
deriving DecidableEq, Repr

/-- `SP::onFetch()`. -/
def StatisticPolicy.onFetch : StatisticPolicy → StatisticPolicy
  | .noStatistic => .noStatistic
  | .simple p => .simple p.onFetch

/-- `SP::onRelease()`. -/
def StatisticPolicy.onRelease : StatisticPolicy → StatisticPolicy
  | .noStatistic => .noStatistic
  | .simple p => .simple p.onRelease

/-- `SP::onCreate()`. -/
def StatisticPolicy.onCreate : StatisticPolicy → StatisticPolicy
  | .noStatistic => .noStatistic
  | .simple p => .simple p.onCreate

/-- `SP::onDestroy()`. -/
def StatisticPolicy.onDestroy : StatisticPolicy → StatisticPolicy
  | .noStatistic => .noStatistic
  | .simple p => .simple p.onDestroy

/-! ## Factory.h -/

/-- `ProductCreator`: a functor from the construction parameters to a product.  The
second argument is the address the allocator hands out during the call. -/
abbrev ProductCreator := List Parm → Product → Product

/-- `IdToProductMap`: `std::map<IdentifierType, ProductCreator>` in iteration
order. -/
abbrev IdToProductMap := List (IdentifierType × ProductCreator)

/-- `std::map::find` on the associations. -/
def assocFind : IdToProductMap → IdentifierType → Option ProductCreator
  | [], _ => none
  | (i, c) :: rest, id => if i = id then some c else assocFind rest id

/-- `std::map::insert(value_type(id, creator))`: the new map and whether the
insertion took place. -/
def assocInsert : IdToProductMap → IdentifierType → ProductCreator → IdToProductMap × Bool
  | [], id, c => ([(id, c)], true)
  | (i, c1) :: rest, id, c =>
      if id < i then ((id, c) :: (i, c1) :: rest, true)
      else if i < id then ((i, c1) :: (assocInsert rest id c).1, (assocInsert rest id c).2)
      else ((i, c1) :: rest, false)

/-- Class `Factory`: its data member `associations_`. -/
structure Factory where
  associations_ : IdToProductMap

/-- `Factory::Register`, lines 162-166. -/
def Factory.Register (f : Factory) (id : IdentifierType) (creator : ProductCreator) :
    Bool × Factory :=
  ((assocInsert f.associations_ id creator).2,
   { associations_ := (assocInsert f.associations_ id creator).1 })

/-- `Factory::Unregister`, lines 176-178. -/
def Factory.Unregister (f : Factory) (id : IdentifierType) : Bool × Factory :=
  ((assocFind f.associations_ id).isSome,
   { associations_ := f.associations_.filter (fun e => decide (e.1 ≠ id)) })

/-- `Factory::IsRegistered`, lines 180-182. -/
def Factory.IsRegistered (f : Factory) (id : IdentifierType) : Bool :=
  (assocFind f.associations_ id).isSome

/-- `Factory::CreateObject`, lines 193-198, with `DefaultFactoryError`. -/
def Factory.CreateObject (f : Factory) (id : IdentifierType) (parms : List Parm)
    (alloc : Product) : Except Error Product :=
  match assocFind f.associations_ id with
  | some creator => .ok (creator parms alloc)
  | none => .error .unknownType

/-! ## CachedFactory (CachedFactory.h lines 597-815) -/

/-- Class `CachedFactory`: its data members, the state of the policies it
inherits from, and the free store. -/
structure CachedFactory where
  factory : Factory
  fromKeyToObjVector : KeyToObjVectorMap
  providedObjects : PtrMap Key
  outObjects : Nat
  cp : CreationPolicy
  sp : StatisticPolicy
  ep : EvictionPolicy
  /-- objects built by the factory and not deleted, with what they were built from -/
  heap : List (Product × Key)
  /-- how many times `remove` has executed `delete pProduct` -/
  deleted : Nat

/-- The choice of the `CreationPolicy` template argument. -/
inductive CreationKind where
  | neverCreate
  | alwaysCreate
  | rateLimited
  | amountLimited
deriving DecidableEq, Repr

/-- The choice of the `EvictionPolicy` template argument. -/
inductive EvictionKind where
  | lru
  | aging
  | random
deriving DecidableEq, Repr

/-- The choice of the `StatisticPolicy` template argument. -/
inductive StatisticKind where
  | noStatistic
  | simple
deriving DecidableEq, Repr

/-- Default constructor of the creation policy; `now` is the value of `clock()`. -/
def CreationKind.init (k : CreationKind) (now : Int) : CreationPolicy :=
  match k with
  | .neverCreate => .neverCreate
  | .alwaysCreate => .alwaysCreate
  | .rateLimited => .rateLimited (RateLimitedCreation.init now)
  | .amountLimited => .amountLimited AmountLimitedCreation.init

/-- Default constructor of the eviction policy. -/
def EvictionKind.init (k : EvictionKind) : EvictionPolicy :=
  match k with
  | .lru => .lru []
  | .aging => .aging []
  | .random => .random []

/-- Default constructor of the statistic policy. -/
def StatisticKind.init (k : StatisticKind) : StatisticPolicy :=
  match k with
  | .noStatistic => .noStatistic
  | .simple => .simple SimpleStatisticPolicy.init

/-- Constructor `CachedFactory()`, lines 728-729. -/
def CachedFactory.new (ck : CreationKind) (ek : EvictionKind) (sk : StatisticKind)
    (now : Int) : CachedFactory :=
  { factory := { associations_ := [] },
    fromKeyToObjVector := [],
    providedObjects := [],
    outObjects := 0,
    cp := ck.init now,
    sp := sk.init,
    ep := ek.init,
    heap := [],
    deleted := 0 }

/-- The addresses of the objects on the free store. -/
def CachedFactory.liveObjects (s : CachedFactory) : List Product := s.heap.map Prod.fst

/-- `getContainerFromKey`, line 623: the state after `fromKeyToObjVector[key]`
and the position of the vector the returned reference designates. -/
def CachedFactory.getContainerFromKey (s : CachedFactory) (key : Key) : CachedFactory × Nat :=
  ({ s with fromKeyToObjVector := (mapIndex s.fromKeyToObjVector key).1 },
   (mapIndex s.fromKeyToObjVector key).2)

/-- `getPointerToObjectInContainer`, lines 625-637, on the vector at position
`entry`. -/
def CachedFactory.getPointerToObjectInContainer (s : CachedFactory) (entry : Nat) :
    Except Error Product × CachedFactory :=
  match (entryAt s.fromKeyToObjVector entry).getLast? with
  | none => (.ok NULL, s)
  | some pObject =>
      if pObject = NULL then (.error .assertion, s)
      else (.ok pObject,
            { s with fromKeyToObjVector :=
                modifyEntry s.fromKeyToObjVector entry List.dropLast })

/-- `ReleaseObjectFromContainer`, lines 647-650, on the vector at position
`entry`. -/
def CachedFactory.ReleaseObjectFromContainer (s : CachedFactory) (entry : Nat)
    (object : Product) : CachedFactory :=
  { s with fromKeyToObjVector :=
      modifyEntry s.fromKeyToObjVector entry (fun v => v ++ [object]) }

/-- `CachedFactory::onFetch`, lines 652-656. -/
def CachedFactory.onFetch (s : CachedFactory) (pProduct : Product) : CachedFactory :=
  { s with sp := s.sp.onFetch, ep := s.ep.onFetch pProduct, outObjects := incU s.outObjects }

/-- `CachedFactory::onRelease`, lines 658-662. -/
def CachedFactory.onRelease (s : CachedFactory) (pProduct : Product) : CachedFactory :=
  { s with sp := s.sp.onRelease, ep := s.ep.onRelease pProduct,
           outObjects := decU s.outObjects }

/-- `CachedFactory::onCreate`, lines 664-668; `now` is the value of `clock()`
read by `RateLimitedCreation::onCreate`. -/
def CachedFactory.onCreate (s : CachedFactory) (pProduct : Product) (now : Int) :
    CachedFactory :=
  { s with cp := s.cp.onCreate now, sp := s.sp.onCreate, ep := s.ep.onCreate pProduct }

/-- `CachedFactory::onDestroy`, lines 670-674. -/
def CachedFactory.onDestroy (s : CachedFactory) (pProduct : Product) : CachedFactory :=
  { s with cp := s.cp.onDestroy, sp := s.sp.onDestroy, ep := s.ep.onDestroy pProduct }

/-- The loop of `remove`, lines 706-721: the first vector holding `p` loses
every occurrence of `p`; `none` when no vector holds it. -/
def removeFromVectors : KeyToObjVectorMap → Product → Option KeyToObjVectorMap
  | [], _ => none
  | (k, v) :: rest, p =>
      if p ∈ v then some ((k, v.filter (fun x => !decide (x = p))) :: rest)
      else (removeFromVectors rest p).map (fun r => (k, v) :: r)

/-- `CachedFactory::remove`, lines 698-725. -/
def CachedFactory.remove (s : CachedFactory) (pProduct : Product) :
    Except Error Unit × CachedFactory :=
  match ptrFind s.providedObjects pProduct with
  | some _ => (.error .cache, s)
  | none =>
      match removeFromVectors s.fromKeyToObjVector pProduct with
      | none => (.error .cache, s)
      | some m =>
          (.ok (),
           { (s.onDestroy pProduct) with
             fromKeyToObjVector := m,
             heap := s.heap.filter (fun o => !decide (o.1 = pProduct)),
             deleted := s.deleted + 1 })

/-- `EP::evict()` called on the cache: the eviction policy picks an instance
and calls the cache's `remove` on it. -/
def CachedFactory.evict (s : CachedFactory) (r : Nat) : Except Error Unit × CachedFactory :=
  match s.ep.evict r (fun key => s.remove key) with
  | .error e => (.error e, s)
  | .ok res => res

/-- `shouldCreateObject`, lines 639-645. -/
def CachedFactory.shouldCreateObject (s : CachedFactory) (pProduct : Product) (env : Env) :
    Except Error Bool × CachedFactory :=
  if pProduct ≠ NULL then (.ok false, s)
  else
    match s.cp.canCreate env.clockCan with
    | (.error e, cp1) => (.error e, { s with cp := cp1 })
    | (.ok true, cp1) => (.ok true, { s with cp := cp1 })
    | (.ok false, cp1) =>
        match CachedFactory.evict { s with cp := cp1 } env.rand with
        | (.error e, s1) => (.error e, s1)
        | (.ok _, s1) => (.ok true, s1)

/-- Lines 784-786 of `CreateObject`: `onFetch`, the registry entry, the
handle (`SimplePointer::encapsulate` is the identity). -/
def CachedFactory.provide (s : CachedFactory) (pProduct : Product) (key : Key) :
    Except Error Product × CachedFactory :=
  (.ok pProduct,
   { (s.onFetch pProduct) with
     providedObjects := ptrSet (s.onFetch pProduct).providedObjects pProduct key })

/-- `CachedFactory::CreateObject`, lines 776-787. -/
def CachedFactory.CreateObject (s : CachedFactory) (id : IdentifierType) (parms : List Parm)
    (env : Env) : Except Error Product × CachedFactory :=
  let key : Key := { id := id, values := parms }
  match (s.getContainerFromKey key).1.getPointerToObjectInContainer
          (s.getContainerFromKey key).2 with
  | (.error e, s2) => (.error e, s2)
  | (.ok pProduct, s2) =>
      match s2.shouldCreateObject pProduct env with
      | (.error e, s3) => (.error e, s3)
      | (.ok false, s3) => s3.provide pProduct key
      | (.ok true, s3) =>
          match s3.factory.CreateObject key.id parms env.alloc with
          | .error e => (.error e, s3)
          | .ok p =>
              (CachedFactory.onCreate { s3 with heap := (p, key) :: s3.heap } p
                env.clockCreate).provide p key

/-- `CachedFactory::ReleaseObject`, lines 795-803 (`SimplePointer::release`
hands over the pointer held by the handle). -/
def CachedFactory.ReleaseObject (s : CachedFactory) (object : Product) :
    Except Error Unit × CachedFactory :=
  match ptrFind s.providedObjects object with
  | none => (.error .cache, s)
  | some key =>
      let s1 := s.onRelease object
      let s2 := (s1.getContainerFromKey key).1.ReleaseObjectFromContainer
                  (s1.getContainerFromKey key).2 object
      (.ok (), { s2 with providedObjects := ptrErase s2.providedObjects object })

/-- `CachedFactory::Register`, lines 760-762. -/
def CachedFactory.Register (s : CachedFactory) (id : IdentifierType)
    (creator : ProductCreator) : Bool × CachedFactory :=
  ((s.factory.Register id creator).1, { s with factory := (s.factory.Register id creator).2 })

/-- `CachedFactory::Unregister`, line 769. -/
def CachedFactory.Unregister (s : CachedFactory) (id : IdentifierType) : Bool × CachedFactory :=
  ((s.factory.Unregister id).1, { s with factory := (s.factory.Unregister id).2 })

/-- `setMaxCreation` inherited from `AmountLimitedCreation`; `none` when the
assertion fails or the creation policy is another one. -/
def CachedFactory.setMaxCreation (s : CachedFactory) (maxCreation : Nat) : Option CachedFactory :=
  match s.cp with
  | .amountLimited a =>
      (a.setMaxCreation maxCreation).map (fun a1 => { s with cp := .amountLimited a1 })
  | _ => none

/-- The state of the second base class when it is `SimpleStatisticPolicy`
(the zero counters otherwise). -/
def CachedFactory.stats (s : CachedFactory) : SimpleStatisticPolicy :=
  match s.sp with
  | .simple p => p
  | .noStatistic => SimpleStatisticPolicy.init

/-! ## Call sequences -/

/-- A call of a public member function by a client. -/
inductive Op where
  | register (id : IdentifierType) (creator : ProductCreator)
  | unregister (id : IdentifierType)
  | createObject (id : IdentifierType) (parms : List Parm) (env : Env)
  | releaseObject (object : Product)

/-- The cache after a call, whether it returned or threw. -/
def step (s : CachedFactory) : Op → CachedFactory
  | .register id creator => (s.Register id creator).2
  | .unregister id => (s.Unregister id).2
  | .createObject id parms env => (s.CreateObject id parms env).2
  | .releaseObject object => (s.ReleaseObject object).2

/-- The cache after a sequence of calls. -/
def run (s : CachedFactory) (ops : List Op) : CachedFactory := ops.foldl step s

/-- The cache at the moment `CreateObject` calls the factory, when it does. -/
def CachedFactory.atFactoryCall (s : CachedFactory) (id : IdentifierType) (parms : List Parm)
    (env : Env) : Option CachedFactory :=
  match (s.getContainerFromKey { id := id, values := parms }).1.getPointerToObjectInContainer
          (s.getContainerFromKey { id := id, values := parms }).2 with
  | (.error _, _) => none
  | (.ok pProduct, s2) =>
      match s2.shouldCreateObject pProduct env with
      | (.ok true, s3) => some s3
      | _ => none

/-- The creator invoked by this call, if one is, returns the address of an
object that is not on the free store: it builds a new instance. -/
def CachedFactory.freshCall (s : CachedFactory) (id : IdentifierType) (parms : List Parm)
    (env : Env) : Bool :=
  match s.atFactoryCall id parms env with
  | none => true
  | some s3 =>
      match s3.factory.CreateObject id parms env.alloc with
      | .ok p => !decide (p ∈ s3.liveObjects)
      | .error _ => true

/-- Every construction along the sequence of calls yields a new instance. -/
def freshRun : CachedFactory → List Op → Bool
  | _, [] => true
  | s, op :: rest =>
      (match op with
       | .createObject id parms env => s.freshCall id parms env
       | _ => true) && freshRun (step s op) rest

/-! ## Invariants -/

/-- The key stored at a position of the idle pool. -/
def keyAt : KeyToObjVectorMap → Nat → Option Key
  | [], _ => none
  | (k, _) :: _, 0 => some k
  | _ :: rest, i + 1 => keyAt rest i

/-- The instances an eviction policy keeps bookkeeping for. -/
def EvictionPolicy.tracked : EvictionPolicy → List Product
  | .lru m => ptrKeys m
  | .aging m => ptrKeys m
  | .random v => v

/-- The bookkeeping of the eviction policy agrees with the live instances:
a score table has exactly one entry per live instance, a release log names
live instances only. -/
def EvictionPolicy.Tracks (ep : EvictionPolicy) (live : List Product) : Prop :=
  match ep with
  | .lru m => (ptrKeys m).Pairwise (· < ·) ∧ ∀ p, p ∈ ptrKeys m ↔ p ∈ live
  | .aging m => (ptrKeys m).Pairwise (· < ·) ∧ ∀ p, p ∈ ptrKeys m ↔ p ∈ live
  | .random v => ∀ p, p ∈ v → p ∈ live

/-- Ownership invariant of the cache while a member function holds the
instances `held` in local variables (none between calls). -/
structure InvH (held : List Product) (s : CachedFactory) : Prop where
  nodup : (held ++ idleObjects s.fromKeyToObjVector).Nodup
  disjoint : ∀ x, x ∈ held ∨ x ∈ idleObjects s.fromKeyToObjVector →
    x ∉ ptrKeys s.providedObjects
  sorted : (ptrKeys s.providedObjects).Pairwise (· < ·)
  live : ∀ x, x ∈ s.liveObjects ↔
    (x ∈ held ∨ x ∈ idleObjects s.fromKeyToObjVector ∨ x ∈ ptrKeys s.providedObjects)
  heapNodup : s.liveObjects.Nodup
  heldKey : ∀ x, x ∈ held → ∃ k, (x, k) ∈ s.heap
  provKey : ∀ x k, ptrFind s.providedObjects x = some k → (x, k) ∈ s.heap
  idleKey : ∀ k v x, (k, v) ∈ s.fromKeyToObjVector → x ∈ v → (x, k) ∈ s.heap
  tracked : s.ep.Tracks s.liveObjects

/-- Ownership invariant of the cache between calls. -/
def Inv (s : CachedFactory) : Prop := InvH [] s

/-- With `AmountLimitedCreation` set to at most `N` objects: the counter of the
policy is the number of objects on the free store, and it is at most `N`. -/
def AmountInv (N : Nat) (s : CachedFactory) : Prop :=
  s.cp = .amountLimited { maxCreation := N, created := s.heap.length } ∧ s.heap.length ≤ N

/-- A cache that holds no instance: the state after the constructor and any
configuration of the policies. -/
def CachedFactory.IsEmpty (s : CachedFactory) : Prop :=
  s.fromKeyToObjVector = [] ∧ s.providedObjects = [] ∧ s.heap = [] ∧ s.ep.tracked = []

/-! ## Sample data for the concrete runs -/

/-- A creator that builds a new object at the address the allocator hands out. -/
def newObject : ProductCreator := fun _ addr => addr

/-- An environment in which the allocator hands out `addr`; the clock stands
at `0` and `rand()` yields `0`. -/
def envAt (addr : Product) : Env := { alloc := addr, clockCan := 0, clockCreate := 0, rand := 0 }

/-- A sample sequence of calls: three instances under three keys, capacity
for two. -/
def sampleOps : List Op :=
  [.register 1 newObject,
   .createObject 1 [7] (envAt 100),
   .releaseObject 100,
   .createObject 1 [8] (envAt 200),
   .releaseObject 200,
   .createObject 1 [9] (envAt 300)]

/-- A cache with `AmountLimitedCreation` set to two objects, `EvictLRU` and
`SimpleStatisticPolicy`. -/
def sampleCache : CachedFactory :=
  { CachedFactory.new .amountLimited .lru .simple 0 with
    cp := .amountLimited { maxCreation := 2, created := 0 } }

/-- A cache whose factory takes no construction parameter (`Parms...` is
empty), with `AlwaysCreate`, `EvictRandom` and `SimpleStatisticPolicy`, and
identifier `1` registered to a creator that builds a new object. -/
def noParmCache : CachedFactory :=
  ((CachedFactory.new .alwaysCreate .random .simple 0).Register 1 newObject).2

/-- A sequence of calls after which, on `sampleCache`, instance `100` is
checked out and was never released while instance `200` is idle. -/
def mixedOps : List Op :=
  [.register 1 newObject,
   .createObject 1 [7] (envAt 100),
   .createObject 1 [8] (envAt 200),
   .releaseObject 200]

/-- The idle-pool map of a factory with `n` construction parameters: every key
has `n` parameters and the entries stand in the order of `operator<`. -/
def MapWF (n : Nat) (m : KeyToObjVectorMap) : Prop :=
  (∀ k ∈ m.map Prod.fst, k.values.length = n) ∧
  (m.map Prod.fst).Pairwise (fun k1 k2 => Key.lt k1 k2 = true)

/-- The keys stored by a cache whose factory takes `n` construction
parameters, `n` positive. -/
def KeysWF (n : Nat) (s : CachedFactory) : Prop :=
  0 < n ∧ MapWF n s.fromKeyToObjVector ∧ ∀ e ∈ s.providedObjects, e.2.values.length = n

/-- Every `CreateObject` of the sequence passes `n` construction parameters. -/
def arityRun (n : Nat) : List Op → Bool
  | [] => true
  | .createObject _ parms _ :: rest => decide (parms.length = n) && arityRun n rest
  | _ :: rest => arityRun n rest

/-- A cache with `AmountLimitedCreation` set to three objects, `EvictLRU` and
`SimpleStatisticPolicy`. -/
def lruCache3 : CachedFactory :=
  { CachedFactory.new .amountLimited .lru .simple 0 with
    cp := .amountLimited { maxCreation := 3, created := 0 } }

/-- Three instances `A = 300`, `B = 200`, `C = 100` built under the keys
`(1, [1])`, `(1, [2])`, `(1, [3])` and released once each, in the order
`A`, `B`, `C`. -/
def lruOps : List Op :=
  [.register 1 newObject,
   .createObject 1 [1] (envAt 300),
   .createObject 1 [2] (envAt 200),
   .createObject 1 [3] (envAt 100),
   .releaseObject 300,
   .releaseObject 200,
   .releaseObject 100]

/-- The rate limiter after `setRate(1, 1000)` on a limiter built at clock
reading `0`. -/
def rateOne : RateLimitedCreation :=
  { m_vTimes := [], maxCreation := 1, timeValidity := 1000000, lastUpdate := 0 }

/-- A default rate limiter (ten creations a second) built at clock reading
`0`, after `canCreate` at reading `0` and `onCreate` at reading `900000`. -/
def rateLate : RateLimitedCreation :=
  { m_vTimes := [900000], maxCreation := 10, timeValidity := 1000000, lastUpdate := 0 }

/-- The idle instances stored under a key: the vectors of the entries with
that identifier and those parameters. -/
def idleUnder (m : KeyToObjVectorMap) (k : Key) : List Product :=
  idleObjects (m.filter (fun e => decide (e.1 = k)))

/-- `setRate` inherited from `RateLimitedCreation`; `none` when the assertion
fails or the creation policy is another one. -/
def CachedFactory.setRate (s : CachedFactory) (maxCreation byTime : Nat) :
    Option CachedFactory :=
  match s.cp with
  | .rateLimited p =>
      (p.setRate maxCreation byTime).map (fun p1 => { s with cp := .rateLimited p1 })
  | _ => none

/-- A cache with `RateLimitedCreation` after `setRate(0, 1000)`, `EvictLRU`
and `SimpleStatisticPolicy`, built at clock reading `0`. -/
def rateCache : CachedFactory :=
  { CachedFactory.new .rateLimited .lru .simple 0 with
    cp := .rateLimited
      { m_vTimes := [], maxCreation := 0, timeValidity := 1000000, lastUpdate := 0 } }

/-- One instance built for `(1, (7))` and released. -/
def rateOps : List Op :=
  [.register 1 newObject,
   .createObject 1 [7] (envAt 100),
   .releaseObject 100]

/-- Two instances built under two keys and kept by the client. -/
def heldOps : List Op :=
  [.register 1 newObject,
   .createObject 1 [7] (envAt 100),
   .createObject 1 [8] (envAt 200)]

/-! ## Tallies of a call sequence -/

/-- A call returned: it did not throw. -/
def succeeded {α : Type} : Except Error α → Bool
  | .ok _ => true
  | .error _ => false

/-- This `CreateObject` is served from the idle pool:
`getPointerToObjectInContainer` returns a non-null pointer. -/
def CachedFactory.servedFromPool (s : CachedFactory) (id : IdentifierType)
    (parms : List Parm) : Bool :=
  match (s.getContainerFromKey { id := id, values := parms }).1.getPointerToObjectInContainer
          (s.getContainerFromKey { id := id, values := parms }).2 with
  | (.ok pProduct, _) => !decide (pProduct = NULL)
  | (.error _, _) => false

/-- This `CreateObject` causes a construction: it calls the factory and the
factory returns an instance. -/
def CachedFactory.builds (s : CachedFactory) (id : IdentifierType) (parms : List Parm)
    (env : Env) : Bool :=
  match s.atFactoryCall id parms env with
  | some s3 => succeeded (s3.factory.CreateObject id parms env.alloc)
  | none => false

/-- The number of calls of a sequence that are a `CreateObject` with the
given property, each call taken in the state the preceding calls leave. -/
def countCreate (f : CachedFactory → IdentifierType → List Parm → Env → Bool) :
    CachedFactory → List Op → Nat
  | _, [] => 0
  | s, op :: rest =>
      (match op with
       | .createObject id parms env => if f s id parms env then 1 else 0
       | _ => 0) + countCreate f (step s op) rest

/-- The number of `CreateObject` calls of a sequence that return a handle. -/
def fetchCount (s : CachedFactory) (ops : List Op) : Nat :=
  countCreate (fun s id parms env => succeeded (s.CreateObject id parms env).1) s ops

/-- The number of `CreateObject` calls of a sequence served from the idle
pool. -/
def hitCount (s : CachedFactory) (ops : List Op) : Nat :=
  countCreate (fun s id parms _ => s.servedFromPool id parms) s ops

/-- The number of `CreateObject` calls of a sequence that cause a
construction. -/
def buildCount (s : CachedFactory) (ops : List Op) : Nat :=
  countCreate (fun s id parms env => s.builds id parms env) s ops

/-- The counters of `SimpleStatisticPolicy` and the out-counter of the cache
agree, modulo `2^32`, with the registry, the free store and the number of
deletions. -/
def StatInv (s : CachedFactory) : Prop :=
  ∃ p, s.sp = .simple p ∧
    p.out = s.providedObjects.length % 2 ^ 32 ∧
    s.outObjects = s.providedObjects.length % 2 ^ 32 ∧
    p.allocated = s.heap.length % 2 ^ 32 ∧
    p.created = (s.heap.length + s.deleted) % 2 ^ 32

/-- An instance built, released and fetched again under the same key, then an
instance built under another key. -/
def hitOps : List Op :=
  [.register 1 newObject,
   .createObject 1 [7] (envAt 100),
   .releaseObject 100,
   .createObject 1 [7] (envAt 100),
   .createObject 1 [8] (envAt 200)]

/-- The sequence of `n` calls `CreateObject(1)` without construction
parameter in which the allocator hands out the addresses `a`, `a + 1`, ... -/
def createsFrom (a : Product) : Nat → List Op
  | 0 => []
  | n + 1 => .createObject 1 [] (envAt a) :: createsFrom (a + 1) n

/-- The representation invariant of `std::map<IdentifierType, ProductCreator>`:
the entries stand in ascending order of their identifiers, each once. -/
def Factory.WF (f : Factory) : Prop :=
  (f.associations_.map Prod.fst).Pairwise (· < ·)

/-- With `NeverCreate`: no instance is on the free store, in the idle pool or
in the registry. -/
def NeverInv (s : CachedFactory) : Prop :=
  s.cp = .neverCreate ∧ (∀ e ∈ s.fromKeyToObjVector, e.2 = []) ∧
  s.providedObjects = [] ∧ s.heap = []

/-- A cache with `NeverCreate`, `EvictLRU` and `SimpleStatisticPolicy`. -/
def neverCache : CachedFactory := CachedFactory.new .neverCreate .lru .simple 0

/-- A registration, two `CreateObject` calls and a `ReleaseObject`. -/
def neverOps : List Op :=
  [.register 1 newObject,
   .createObject 1 [7] (envAt 100),
   .createObject 2 [] (envAt 200),
   .releaseObject 100]

/-- The instance this `CreateObject` builds, when it calls the factory and the
factory returns. -/
def CachedFactory.built (s : CachedFactory) (id : IdentifierType) (parms : List Parm)
    (env : Env) : Option Product :=
  match s.atFactoryCall id parms env with
  | some s3 =>
      match s3.factory.CreateObject id parms env.alloc with
      | .ok p => some p
      | .error _ => none
  | none => none

/-- The tally of releases after one call: a construction at an address starts
the count of that address at zero, a `ReleaseObject` that returns adds one to
the count of its instance. -/
def tallyStep (s : CachedFactory) (f : Product → Nat) : Op → Product → Nat
  | .createObject id parms env =>
      match s.built id parms env with
      | some p => Function.update f p 0
      | none => f
  | .releaseObject x =>
      if succeeded (s.ReleaseObject x).1 then Function.update f x (f x + 1) else f
  | _ => f

/-- For each address, the number of `ReleaseObject` calls of the sequence on
it that returned since the latest construction at that address; `f` is the
tally before the sequence. -/
def releaseTally : CachedFactory → List Op → (Product → Nat) → Product → Nat
  | _, [], f => f
  | s, op :: rest, f => releaseTally (step s op) rest (tallyStep s f op)

/-- The score table of `EvictLRU` holds, for every live instance, its tally
of releases modulo `2^32`. -/
def LruInv (s : CachedFactory) (f : Product → Nat) : Prop :=
  ∃ m, s.ep = .lru m ∧ ∀ x ∈ s.liveObjects, ptrFind m x = some (f x % 2 ^ 32)

/-- On a factory without construction parameter: two instances built and
kept, then released, `100` first and `200` second. -/
def noParmOps : List Op :=
  [.createObject 1 [] (envAt 100),
   .createObject 1 [] (envAt 200),
   .releaseObject 100,
   .releaseObject 200]

/-- Two instances built under the key `(1, (7))` and kept by the client. -/
def sameKeyOps : List Op :=
  [.register 1 newObject,
   .createObject 1 [7] (envAt 100),
   .createObject 1 [7] (envAt 200)]

/-- A call of one of the four hooks of an eviction policy. -/
inductive Hook where
  | onCreate (key : Product)
  | onFetch (key : Product)
  | onRelease (key : Product)
  | onDestroy (key : Product)
deriving DecidableEq, Repr

/-- The score table of `EvictAging` after a call of a hook. -/
def EvictAging.hook (m : HitMap) : Hook → HitMap
  | .onCreate key => EvictAging.onCreate m key
  | .onFetch key => EvictAging.onFetch m key
  | .onRelease key => EvictAging.onRelease m key
  | .onDestroy key => EvictAging.onDestroy m key

/-- The score table of `EvictAging` after a sequence of calls of its hooks. -/
def EvictAging.hooks (m : HitMap) (calls : List Hook) : HitMap :=
  calls.foldl EvictAging.hook m

/-- The greatest score of a table (`0` for the empty table): what
`(*copyMap.rbegin()).first` is in `getLowerBound`. -/
def maxScore (m : HitMap) : Nat := (m.map Prod.snd).foldl max 0

/-- The admission policy is one whose `canCreate` has no `return false`:
`NeverCreate`, `AlwaysCreate` or `RateLimitedCreation`. -/
def CreationPolicy.neverRefuses : CreationPolicy → Bool
  | .amountLimited _ => false
  | _ => true

/-- Which eviction policy is in use. -/
def EvictionPolicy.kind : EvictionPolicy → EvictionKind
  | .lru _ => .lru
  | .aging _ => .aging
  | .random _ => .random

/-- Two instances built under two keys and released: on `sampleCache` the
cache is at its capacity and both instances are idle. -/
def fullOps : List Op :=
  [.register 1 newObject,
   .createObject 1 [7] (envAt 100),
   .releaseObject 100,
   .createObject 1 [8] (envAt 200),
   .releaseObject 200]

/-- As `fullOps`, then the identifier is unregistered. -/
def unregisteredOps : List Op :=
  [.register 1 newObject,
   .createObject 1 [7] (envAt 100),
   .releaseObject 100,
   .createObject 1 [8] (envAt 200),
   .releaseObject 200,
   .unregister 1]

/-- A cache with `AmountLimitedCreation` set to one object, `EvictLRU` and
`SimpleStatisticPolicy`. -/
def oneCache : CachedFactory :=
  { CachedFactory.new .amountLimited .lru .simple 0 with
    cp := .amountLimited { maxCreation := 1, created := 0 } }

/-- On a factory without construction parameter: one instance built and
released. -/
def noParmOneOps : List Op :=
  [.register 1 newObject,
   .createObject 1 [] (envAt 100),
   .releaseObject 100]

/-! ## Keys that `operator<` orders strictly -/

/-- Every `CreateObject` of the sequence asks for the identifier `i` with `n`
construction parameters. -/
def uniformRun (i : IdentifierType) (n : Nat) : List Op → Bool
  | [] => true
  | .createObject id parms _ :: rest =>
      decide (id = i) && decide (parms.length = n) && uniformRun i n rest
  | _ :: rest => uniformRun i n rest

/-- A history of calls on which `operator<` meets the requirement `std::map`
puts on its comparison: the cache starts empty and every `CreateObject` asks
for the identifier `i` with `n > 0` construction parameters, so that every key
the idle pool and the registry ever hold has that identifier and that arity,
and two such keys are compared by their parameter tuples alone. -/
def UniformHistory (i : IdentifierType) (n : Nat) (s0 : CachedFactory) (ops : List Op) : Prop :=
  s0.IsEmpty ∧ 0 < n ∧ uniformRun i n ops = true

/-- The keys held by the cache have the identifier `i` and `n > 0` parameters,
and the idle pool is ordered. -/
def Uniform (i : IdentifierType) (n : Nat) (s : CachedFactory) : Prop :=
  KeysWF n s ∧ (∀ e ∈ s.fromKeyToObjVector, e.1.id = i) ∧ ∀ e ∈ s.providedObjects, e.2.id = i

/-- One instance built under the key `(1, (7))` and released, then the
identifier is unregistered: on `sampleCache` the cache is below its capacity
and the instance is idle. -/
def idleUnregisteredOps : List Op :=
  [.register 1 newObject,
   .createObject 1 [7] (envAt 100),
   .releaseObject 100,
   .unregister 1]

/-! ## Lemmas on keys and containers -/

/-! ### Machine arithmetic -/

theorem decU_eq_mod (n : Nat) : decU n = (n + (2 ^ 32 - 1)) % 2 ^ 32 := by
  unfold decU
  split <;> omega

/-! ### Keys -/

theorem tupleLt_irrefl (a : List Parm) : tupleLt a a = false := by
  induction a with
  | nil => rfl
  | cons x xs ih => simp [tupleLt, ih]

theorem tupleLt_total (a b : List Parm) (hlen : a.length = b.length)
    (h1 : tupleLt a b = false) (h2 : tupleLt b a = false) : a = b := by
  induction a generalizing b with
  | nil =>
    cases b with
    | nil => rfl
    | cons y ys => simp at hlen
  | cons x xs ih =>
    cases b with
    | nil => simp at hlen
    | cons y ys =>
      simp only [tupleLt] at h1 h2
      by_cases hxy : x < y
      · simp [hxy] at h1
      · by_cases hyx : y < x
        · simp [hyx] at h2
        · have hx : x = y := le_antisymm (not_lt.mp hyx) (not_lt.mp hxy)
          simp [hxy, hyx] at h1 h2
          simp only [List.length_cons, Nat.add_right_cancel_iff] at hlen
          rw [hx, ih ys hlen h1 h2]

theorem key_lt_empty (k1 k2 : Key) (h : k1.values = []) (h2 : k2.values = []) :
    Key.lt k1 k2 = true := by
  simp [Key.lt, h, h2]

theorem key_equiv_eq (a b : Key) (h1 : Key.lt a b = false) (h2 : Key.lt b a = false) :
    a = b := by
  unfold Key.lt at h1 h2
  split at h1
  · simp at h1
  · split at h1
    · simp at h1
    · split at h1
      · simp at h1
      · split at h2
        · simp at h2
        · split at h2
          · simp at h2
          · split at h2
            · simp at h2
            · rename_i g1 g2 g3 g4 g5 g6
              have hlen : a.values.length = b.values.length := by omega
              have hv := tupleLt_total a.values b.values hlen h1 h2
              have hid : a.id = b.id := le_antisymm (not_lt.mp g6) (not_lt.mp g3)
              cases a; cases b; simp_all

/-! ### Pointer-keyed maps -/

theorem ptrFind_eq_none {β : Type} (m : PtrMap β) (k : Product) :
    ptrFind m k = none ↔ k ∉ ptrKeys m := by
  induction m with
  | nil => simp [ptrFind, ptrKeys]
  | cons e rest ih =>
    obtain ⟨k1, v⟩ := e
    simp only [ptrFind, ptrKeys, List.map_cons, List.mem_cons, not_or] at ih ⊢
    by_cases h : k1 = k
    · simp [h]
    · simp [h, ih, Ne.symm h]

theorem ptrFind_some_mem {β : Type} (m : PtrMap β) (k : Product) (v : β)
    (h : ptrFind m k = some v) : (k, v) ∈ m := by
  induction m with
  | nil => simp [ptrFind] at h
  | cons e rest ih =>
    obtain ⟨k1, v1⟩ := e
    simp only [ptrFind] at h
    by_cases hk : k1 = k
    · simp [hk] at h
      simp [hk, h]
    · simp [hk] at h
      exact List.mem_cons_of_mem _ (ih h)

theorem ptrFind_some_keys {β : Type} (m : PtrMap β) (k : Product) (v : β)
    (h : ptrFind m k = some v) : k ∈ ptrKeys m := by
  by_contra hn
  rw [← ptrFind_eq_none] at hn
  rw [hn] at h
  cases h

theorem mem_ptrKeys_ptrSet {β : Type} (m : PtrMap β) (k : Product) (v : β) (x : Product) :
    x ∈ ptrKeys (ptrSet m k v) ↔ x = k ∨ x ∈ ptrKeys m := by
  induction m with
  | nil => simp [ptrSet, ptrKeys]
  | cons e rest ih =>
    obtain ⟨k1, v1⟩ := e
    simp only [ptrSet]
    split
    · simp [ptrKeys]
    · split
      · simp only [ptrKeys, List.map_cons, List.mem_cons] at ih ⊢
        rw [ih]
        tauto
      · rename_i h1 h2
        have : k1 = k := Nat.le_antisymm (Nat.le_of_not_lt h1) (Nat.le_of_not_lt h2)
        simp [ptrKeys, this]

theorem ptrSet_sorted {β : Type} (m : PtrMap β) (k : Product) (v : β)
    (h : (ptrKeys m).Pairwise (· < ·)) : (ptrKeys (ptrSet m k v)).Pairwise (· < ·) := by
  induction m with
  | nil => simp [ptrSet, ptrKeys]
  | cons e rest ih =>
    obtain ⟨k1, v1⟩ := e
    simp only [ptrKeys, List.map_cons, List.pairwise_cons] at h
    simp only [ptrSet]
    split
    · rename_i hlt
      simp only [ptrKeys, List.map_cons, List.pairwise_cons, List.mem_cons]
      refine ⟨?_, h.1, h.2⟩
      intro a ha
      rcases ha with rfl | ha
      · exact hlt
      · exact lt_trans hlt (h.1 a ha)
    · split
      · rename_i hlt
        simp only [ptrKeys, List.map_cons, List.pairwise_cons]
        refine ⟨?_, ih h.2⟩
        intro a ha
        have := (mem_ptrKeys_ptrSet rest k v a).mp ha
        rcases this with rfl | ha
        · exact hlt
        · exact h.1 a ha
      · rename_i h1 h2
        have hk : k1 = k := Nat.le_antisymm (Nat.le_of_not_lt h1) (Nat.le_of_not_lt h2)
        subst hk
        simp only [ptrKeys, List.map_cons, List.pairwise_cons]
        exact h

theorem ptrKeys_ptrErase {β : Type} (m : PtrMap β) (k : Product) :
    ptrKeys (ptrErase m k) = (ptrKeys m).filter (fun x => decide (x ≠ k)) := by
  induction m with
  | nil => rfl
  | cons e rest ih =>
    obtain ⟨k1, v1⟩ := e
    simp only [ptrErase, ptrKeys, List.filter_cons, List.map_cons] at ih ⊢
    by_cases h : k1 = k
    · simpa [h] using ih
    · simpa [h] using ih

theorem ptrFind_ptrSet {β : Type} (m : PtrMap β) (k : Product) (v : β) (x : Product) :
    ptrFind (ptrSet m k v) x = if x = k then some v else ptrFind m x := by
  induction m with
  | nil =>
    simp only [ptrSet, ptrFind]
    by_cases h : k = x
    · simp [h]
    · simp [h, Ne.symm h]
  | cons e rest ih =>
    obtain ⟨k1, v1⟩ := e
    simp only [ptrSet]
    split
    · simp only [ptrFind]
      by_cases h : k = x
      · simp [h]
      · simp [h, Ne.symm h]
    · split
      · rename_i h1 h2
        simp only [ptrFind, ih]
        by_cases h : k1 = x
        · have : x ≠ k := by rw [← h]; exact Nat.ne_of_lt h2
          simp [h, this]
        · simp [h]
      · rename_i h1 h2
        have hk : k1 = k := Nat.le_antisymm (Nat.le_of_not_lt h1) (Nat.le_of_not_lt h2)
        subst hk
        simp only [ptrFind]
        by_cases h : k1 = x
        · simp [h]
        · simp [h, Ne.symm h]

theorem ptrFind_ptrErase {β : Type} (m : PtrMap β) (k : Product) (x : Product) :
    ptrFind (ptrErase m k) x = if x = k then none else ptrFind m x := by
  induction m with
  | nil => simp [ptrErase, ptrFind]
  | cons e rest ih =>
    obtain ⟨k1, v1⟩ := e
    simp only [ptrErase, List.filter_cons] at ih ⊢
    by_cases h : k1 = k
    · subst h
      simp only [ne_eq, not_true_eq_false, decide_False, Bool.false_eq_true, ↓reduceIte, ih, ptrFind]
      by_cases hx : x = k1
      · simp [hx]
      · simp [hx, Ne.symm hx]
    · simp only [ne_eq, h, not_false_eq_true, decide_True, ↓reduceIte, ptrFind, ih]
      by_cases hx : k1 = x
      · have : x ≠ k := by rw [← hx]; exact h
        simp [hx, this]
      · simp [hx]

/-! ### The idle pool -/

theorem idleObjects_cons (k : Key) (v : ObjVector) (rest : KeyToObjVectorMap) :
    idleObjects ((k, v) :: rest) = v ++ idleObjects rest := by
  simp [idleObjects]

theorem mapIndex_idle (m : KeyToObjVectorMap) (k : Key) :
    idleObjects (mapIndex m k).1 = idleObjects m := by
  induction m with
  | nil => simp [mapIndex, idleObjects]
  | cons e rest ih =>
    obtain ⟨k1, v⟩ := e
    simp only [mapIndex]
    split
    · simp only [idleObjects_cons, ih]
    · split
      · simp [idleObjects_cons]
      · rfl

theorem mapIndex_lt (m : KeyToObjVectorMap) (k : Key) :
    (mapIndex m k).2 < (mapIndex m k).1.length := by
  induction m with
  | nil => simp [mapIndex]
  | cons e rest ih =>
    obtain ⟨k1, v⟩ := e
    simp only [mapIndex]
    split
    · simpa using ih
    · split <;> simp

theorem mapIndex_keyAt (m : KeyToObjVectorMap) (k : Key) :
    keyAt (mapIndex m k).1 (mapIndex m k).2 = some k := by
  induction m with
  | nil => simp [mapIndex, keyAt]
  | cons e rest ih =>
    obtain ⟨k1, v⟩ := e
    simp only [mapIndex]
    split
    · simpa [keyAt] using ih
    · split
      · simp [keyAt]
      · rename_i h1 h2
        simp only [keyAt]
        rw [key_equiv_eq k1 k (by simpa using h1) (by simpa using h2)]

theorem mapIndex_mem (m : KeyToObjVectorMap) (k : Key) (e : Key × ObjVector)
    (h : e ∈ (mapIndex m k).1) : e ∈ m ∨ e = (k, []) := by
  induction m with
  | nil => simpa [mapIndex] using h
  | cons e1 rest ih =>
    obtain ⟨k1, v⟩ := e1
    simp only [mapIndex] at h
    split at h
    · simp only [List.mem_cons] at h ⊢
      rcases h with h | h
      · exact Or.inl (Or.inl h)
      · rcases ih h with h | h
        · exact Or.inl (Or.inr h)
        · exact Or.inr h
    · split at h
      · simp only [List.mem_cons] at h ⊢
        tauto
      · exact Or.inl h

theorem mapIndex_mem_old (m : KeyToObjVectorMap) (k : Key) (e : Key × ObjVector)
    (h : e ∈ m) : e ∈ (mapIndex m k).1 := by
  induction m with
  | nil => cases h
  | cons e1 rest ih =>
    obtain ⟨k1, v⟩ := e1
    simp only [mapIndex]
    split
    · simp only [List.mem_cons] at h ⊢
      rcases h with h | h
      · exact Or.inl h
      · exact Or.inr (ih h)
    · split
      · exact List.mem_cons_of_mem _ h
      · exact h

theorem keyAt_entryAt_mem (m : KeyToObjVectorMap) (i : Nat) (k : Key)
    (h : keyAt m i = some k) : (k, entryAt m i) ∈ m := by
  induction m generalizing i with
  | nil => simp [keyAt] at h
  | cons e rest ih =>
    obtain ⟨k1, v⟩ := e
    cases i with
    | zero =>
      simp only [keyAt, Option.some.injEq] at h
      simp [entryAt, h]
    | succ j =>
      simp only [keyAt] at h
      simp only [entryAt]
      exact List.mem_cons_of_mem _ (ih j h)

theorem modifyEntry_mem (m : KeyToObjVectorMap) (i : Nat) (f : ObjVector → ObjVector)
    (e : Key × ObjVector) (h : e ∈ modifyEntry m i f) :
    e ∈ m ∨ (keyAt m i = some e.1 ∧ e.2 = f (entryAt m i)) := by
  induction m generalizing i with
  | nil => simp [modifyEntry] at h
  | cons e1 rest ih =>
    obtain ⟨k1, v⟩ := e1
    cases i with
    | zero =>
      simp only [modifyEntry, List.mem_cons] at h
      rcases h with h | h
      · right
        simp [h, keyAt, entryAt]
      · left
        exact List.mem_cons_of_mem _ h
    | succ j =>
      simp only [modifyEntry, List.mem_cons] at h
      rcases h with h | h
      · left
        simp [h]
      · rcases ih j h with h | h
        · left
          exact List.mem_cons_of_mem _ h
        · right
          simpa [keyAt, entryAt] using h

theorem pop_perm (m : KeyToObjVectorMap) (i : Nat) (p : Product)
    (h : (entryAt m i).getLast? = some p) :
    (idleObjects m).Perm (p :: idleObjects (modifyEntry m i List.dropLast)) := by
  induction m generalizing i with
  | nil => simp [entryAt] at h
  | cons e rest ih =>
    obtain ⟨k1, v⟩ := e
    cases i with
    | zero =>
      simp only [entryAt] at h
      simp only [modifyEntry, idleObjects_cons]
      have hv : v.dropLast ++ [p] = v := List.dropLast_append_getLast? p h
      have h2 : v ++ idleObjects rest = v.dropLast ++ (p :: idleObjects rest) := by
        nth_rewrite 1 [← hv]
        simp
      rw [h2]
      exact List.perm_middle
    | succ j =>
      simp only [entryAt] at h
      simp only [modifyEntry, idleObjects_cons]
      have := ih j h
      exact (List.Perm.append_left v this).trans List.perm_middle

theorem push_perm (m : KeyToObjVectorMap) (i : Nat) (p : Product) (h : i < m.length) :
    (idleObjects (modifyEntry m i (fun v => v ++ [p]))).Perm (p :: idleObjects m) := by
  induction m generalizing i with
  | nil => simp at h
  | cons e rest ih =>
    obtain ⟨k1, v⟩ := e
    cases i with
    | zero =>
      simp only [modifyEntry, idleObjects_cons]
      have h2 : v ++ [p] ++ idleObjects rest = v ++ (p :: idleObjects rest) := by simp
      rw [h2]
      exact List.perm_middle
    | succ j =>
      simp only [modifyEntry, idleObjects_cons]
      have := ih j (by simpa using h)
      exact (List.Perm.append_left v this).trans List.perm_middle

theorem removeFromVectors_none (m : KeyToObjVectorMap) (p : Product) :
    removeFromVectors m p = none ↔ p ∉ idleObjects m := by
  induction m with
  | nil => simp [removeFromVectors, idleObjects]
  | cons e rest ih =>
    obtain ⟨k1, v⟩ := e
    simp only [removeFromVectors, idleObjects_cons, List.mem_append, not_or]
    split
    · rename_i h
      simp [h]
    · rename_i h
      simp [h, ih]

theorem removeFromVectors_perm (m m1 : KeyToObjVectorMap) (p : Product)
    (h : removeFromVectors m p = some m1) (hnd : (idleObjects m).Nodup) :
    (idleObjects m).Perm (p :: idleObjects m1) := by
  induction m generalizing m1 with
  | nil => simp [removeFromVectors] at h
  | cons e rest ih =>
    obtain ⟨k1, v⟩ := e
    simp only [removeFromVectors] at h
    rw [idleObjects_cons] at hnd ⊢
    split at h
    · rename_i hp
      simp only [Option.some.injEq] at h
      subst h
      rw [idleObjects_cons]
      have hv : v.Nodup := (List.nodup_append.mp hnd).1
      have hperm : v.Perm (p :: v.filter (fun x => !decide (x = p))) := by
        have h1 := List.perm_cons_erase hp
        have h2 : v.erase p = v.filter (fun x => !decide (x = p)) := by
          rw [hv.erase_eq_filter]
          congr 1
        rw [← h2]
        exact h1
      exact (List.Perm.append_right _ hperm)
    · rename_i hp
      cases hr : removeFromVectors rest p with
      | none => simp [hr] at h
      | some r =>
        simp only [hr, Option.map_some', Option.some.injEq] at h
        subst h
        rw [idleObjects_cons]
        have := ih r hr (List.nodup_append.mp hnd).2.1
        exact (List.Perm.append_left v this).trans List.perm_middle

theorem removeFromVectors_mem (m m1 : KeyToObjVectorMap) (p : Product)
    (h : removeFromVectors m p = some m1) (e : Key × ObjVector) (he : e ∈ m1) :
    ∃ v, (e.1, v) ∈ m ∧ ∀ x ∈ e.2, x ∈ v := by
  induction m generalizing m1 with
  | nil => simp [removeFromVectors] at h
  | cons e1 rest ih =>
    obtain ⟨k1, v⟩ := e1
    simp only [removeFromVectors] at h
    split at h
    · simp only [Option.some.injEq] at h
      subst h
      simp only [List.mem_cons] at he
      rcases he with he | he
      · refine ⟨v, by simp [he], ?_⟩
        intro x hx
        simp only [he, List.mem_filter] at hx
        exact hx.1
      · exact ⟨e.2, List.mem_cons_of_mem _ he, fun x hx => hx⟩
    · cases hr : removeFromVectors rest p with
      | none => simp [hr] at h
      | some r =>
        simp only [hr, Option.map_some', Option.some.injEq] at h
        subst h
        simp only [List.mem_cons] at he
        rcases he with he | he
        · exact ⟨v, by simp [he], fun x hx => by simpa [he] using hx⟩
        · obtain ⟨w, hw, hx⟩ := ih r hr he
          exact ⟨w, List.mem_cons_of_mem _ hw, hx⟩

/-! ### Eviction bookkeeping -/

theorem evictionPolicy_onFetch_eq (ep : EvictionPolicy) (p : Product) : ep.onFetch p = ep := by
  cases ep <;> rfl

theorem tracks_congr (ep : EvictionPolicy) (l1 l2 : List Product)
    (h : ∀ x, x ∈ l1 ↔ x ∈ l2) (ht : ep.Tracks l1) : ep.Tracks l2 := by
  cases ep with
  | lru m => exact ⟨ht.1, fun p => (ht.2 p).trans (h p)⟩
  | aging m => exact ⟨ht.1, fun p => (ht.2 p).trans (h p)⟩
  | random v => exact fun p hp => (h p).mp (ht p hp)

theorem tracks_onCreate (ep : EvictionPolicy) (live : List Product) (p : Product)
    (ht : ep.Tracks live) : (ep.onCreate p).Tracks (p :: live) := by
  cases ep with
  | lru m =>
    refine ⟨ptrSet_sorted m p 0 ht.1, fun x => ?_⟩
    rw [EvictLRU.onCreate, mem_ptrKeys_ptrSet, ht.2 x, List.mem_cons]
  | aging m =>
    refine ⟨ptrSet_sorted m p 0 ht.1, fun x => ?_⟩
    rw [EvictAging.onCreate, mem_ptrKeys_ptrSet, ht.2 x, List.mem_cons]
  | random v => exact fun x hx => List.mem_cons_of_mem _ (ht x hx)

theorem tracks_onRelease (ep : EvictionPolicy) (live : List Product) (p : Product)
    (hp : p ∈ live) (ht : ep.Tracks live) : (ep.onRelease p).Tracks live := by
  cases ep with
  | lru m =>
    refine ⟨ptrSet_sorted m p _ ht.1, fun x => ?_⟩
    rw [EvictLRU.onRelease, mem_ptrKeys_ptrSet, ht.2 x]
    constructor
    · rintro (rfl | h)
      · exact hp
      · exact h
    · exact Or.inr
  | aging m => exact ht
  | random v =>
    intro x hx
    simp only [EvictRandom.onRelease, List.mem_append, List.mem_singleton] at hx
    rcases hx with hx | rfl
    · exact ht x hx
    · exact hp

theorem tracks_onDestroy (ep : EvictionPolicy) (live : List Product) (p : Product)
    (ht : ep.Tracks live) :
    (ep.onDestroy p).Tracks (live.filter (fun x => !decide (x = p))) := by
  cases ep with
  | lru m =>
    refine ⟨?_, fun x => ?_⟩
    · rw [EvictLRU.onDestroy, ptrKeys_ptrErase]
      exact ht.1.filter _
    · rw [EvictLRU.onDestroy, ptrKeys_ptrErase]
      simp only [List.mem_filter, ht.2 x]
      simp
  | aging m =>
    refine ⟨?_, fun x => ?_⟩
    · rw [EvictAging.onDestroy, ptrKeys_ptrErase]
      exact ht.1.filter _
    · rw [EvictAging.onDestroy, ptrKeys_ptrErase]
      simp only [List.mem_filter, ht.2 x]
      simp
  | random v =>
    intro x hx
    simp only [EvictRandom.onDestroy, List.mem_filter] at hx
    simp only [List.mem_filter]
    exact ⟨ht x hx.1, hx.2⟩

theorem liveObjects_filter (heap : List (Product × Key)) (p : Product) :
    (heap.filter (fun o => !decide (o.1 = p))).map Prod.fst
      = (heap.map Prod.fst).filter (fun x => !decide (x = p)) := by
  induction heap with
  | nil => rfl
  | cons e rest ih =>
    simp only [List.filter_cons, List.map_cons]
    by_cases h : e.1 = p
    · simp [h, ih]
    · simp [h, ih]

/-! ## Preservation of the ownership invariant -/

theorem mem_idleObjects (m : KeyToObjVectorMap) (x : Product) :
    x ∈ idleObjects m ↔ ∃ k v, (k, v) ∈ m ∧ x ∈ v := by
  simp only [idleObjects, List.mem_flatten, List.mem_map, Prod.exists]
  constructor
  · rintro ⟨l, ⟨k, v, hm, rfl⟩, hx⟩
    exact ⟨k, v, hm, hx⟩
  · rintro ⟨k, v, hm, hx⟩
    exact ⟨v, ⟨k, v, hm, rfl⟩, hx⟩

theorem entryAt_keyAt (m : KeyToObjVectorMap) (i : Nat) (h : entryAt m i ≠ []) :
    ∃ k, keyAt m i = some k := by
  induction m generalizing i with
  | nil => simp [entryAt] at h
  | cons e rest ih =>
    obtain ⟨k1, v⟩ := e
    cases i with
    | zero => exact ⟨k1, rfl⟩
    | succ j => exact ih j h

theorem invH_setCp {held : List Product} {s : CachedFactory} (cp1 : CreationPolicy)
    (h : InvH held s) : InvH held { s with cp := cp1 } :=
  ⟨h.nodup, h.disjoint, h.sorted, h.live, h.heapNodup, h.heldKey, h.provKey, h.idleKey,
    h.tracked⟩

theorem invH_setFactory {held : List Product} {s : CachedFactory} (f : Factory)
    (h : InvH held s) : InvH held { s with factory := f } :=
  ⟨h.nodup, h.disjoint, h.sorted, h.live, h.heapNodup, h.heldKey, h.provKey, h.idleKey,
    h.tracked⟩

theorem invH_getContainerFromKey {held : List Product} {s : CachedFactory} (k : Key)
    (h : InvH held s) : InvH held (s.getContainerFromKey k).1 := by
  have hi := mapIndex_idle s.fromKeyToObjVector k
  refine ⟨?_, ?_, h.sorted, ?_, h.heapNodup, h.heldKey, h.provKey, ?_, h.tracked⟩
  · show (held ++ idleObjects (mapIndex s.fromKeyToObjVector k).1).Nodup
    rw [hi]
    exact h.nodup
  · intro x
    show x ∈ held ∨ x ∈ idleObjects (mapIndex s.fromKeyToObjVector k).1 → _
    rw [hi]
    exact h.disjoint x
  · intro x
    show x ∈ s.liveObjects ↔
      (x ∈ held ∨ x ∈ idleObjects (mapIndex s.fromKeyToObjVector k).1 ∨ _)
    rw [hi]
    exact h.live x
  · intro k1 v x hm hx
    rcases mapIndex_mem _ _ _ hm with hm | hm
    · exact h.idleKey k1 v x hm hx
    · simp only [Prod.mk.injEq] at hm
      rw [hm.2] at hx
      cases hx

theorem invH_pop {s : CachedFactory} (i : Nat) (p : Product) (h : InvH [] s)
    (hp : (entryAt s.fromKeyToObjVector i).getLast? = some p) :
    InvH [p] { s with fromKeyToObjVector := modifyEntry s.fromKeyToObjVector i List.dropLast } := by
  have hperm := pop_perm s.fromKeyToObjVector i p hp
  have hnd : (idleObjects s.fromKeyToObjVector).Nodup := by simpa using h.nodup
  have hmem : p ∈ entryAt s.fromKeyToObjVector i := List.mem_of_getLast?_eq_some hp
  have hne : entryAt s.fromKeyToObjVector i ≠ [] := List.ne_nil_of_mem hmem
  obtain ⟨k0, hk0⟩ := entryAt_keyAt _ _ hne
  have hent := keyAt_entryAt_mem _ _ _ hk0
  refine ⟨?_, ?_, h.sorted, ?_, h.heapNodup, ?_, h.provKey, ?_, h.tracked⟩
  · show ([p] ++ idleObjects (modifyEntry s.fromKeyToObjVector i List.dropLast)).Nodup
    exact (hperm.nodup_iff).mp hnd
  · intro x hx
    apply h.disjoint x
    right
    rw [hperm.mem_iff]
    simpa using hx
  · intro x
    show x ∈ s.liveObjects ↔ (x ∈ [p] ∨
      x ∈ idleObjects (modifyEntry s.fromKeyToObjVector i List.dropLast) ∨
      x ∈ ptrKeys s.providedObjects)
    rw [h.live x, hperm.mem_iff]
    simp only [List.not_mem_nil, false_or, List.mem_cons, List.mem_singleton]
    tauto
  · intro x hx
    simp only [List.mem_singleton] at hx
    subst hx
    exact ⟨k0, h.idleKey k0 _ x hent hmem⟩
  · intro k v x hm hx
    rcases modifyEntry_mem _ _ _ _ hm with hm | ⟨hk, hv⟩
    · exact h.idleKey k v x hm hx
    · simp only at hk hv
      rw [hk0] at hk
      simp only [Option.some.injEq] at hk
      subst hk
      rw [hv] at hx
      exact h.idleKey k0 _ x hent (List.mem_of_mem_dropLast hx)

theorem invH_construct {s : CachedFactory} (p : Product) (key : Key) (now : Int)
    (h : InvH [] s) (hp : p ∉ s.liveObjects) :
    InvH [p] (CachedFactory.onCreate { s with heap := (p, key) :: s.heap } p now) := by
  have hnd : (idleObjects s.fromKeyToObjVector).Nodup := by simpa using h.nodup
  have hpi : p ∉ idleObjects s.fromKeyToObjVector := fun hx =>
    hp ((h.live p).mpr (Or.inr (Or.inl hx)))
  have hpk : p ∉ ptrKeys s.providedObjects := fun hx =>
    hp ((h.live p).mpr (Or.inr (Or.inr hx)))
  refine ⟨?_, ?_, h.sorted, ?_, ?_, ?_, ?_, ?_, ?_⟩
  · show ([p] ++ idleObjects s.fromKeyToObjVector).Nodup
    simpa using ⟨hpi, hnd⟩
  · intro x hx
    rcases hx with hx | hx
    · simp only [List.mem_singleton] at hx
      subst hx
      exact hpk
    · exact h.disjoint x (Or.inr hx)
  · intro x
    show x ∈ p :: s.liveObjects ↔ (x ∈ [p] ∨ x ∈ idleObjects s.fromKeyToObjVector ∨
      x ∈ ptrKeys s.providedObjects)
    rw [List.mem_cons, h.live x]
    simp
  · show (p :: s.liveObjects).Nodup
    exact List.nodup_cons.mpr ⟨hp, h.heapNodup⟩
  · intro x hx
    simp only [List.mem_singleton] at hx
    subst hx
    exact ⟨key, List.mem_cons_self _ _⟩
  · intro x k hx
    exact List.mem_cons_of_mem _ (h.provKey x k hx)
  · intro k v x hm hx
    exact List.mem_cons_of_mem _ (h.idleKey k v x hm hx)
  · exact tracks_onCreate s.ep s.liveObjects p h.tracked

theorem invH_provide {s : CachedFactory} (p : Product) (key : Key)
    (h : InvH [p] s) (hk : (p, key) ∈ s.heap) : InvH [] (s.provide p key).2 := by
  have hnd := h.nodup
  simp only [List.singleton_append, List.nodup_cons] at hnd
  refine ⟨?_, ?_, ?_, ?_, h.heapNodup, ?_, ?_, h.idleKey, ?_⟩
  · simpa using hnd.2
  · intro x hx
    simp only [List.not_mem_nil, false_or] at hx
    show x ∉ ptrKeys (ptrSet s.providedObjects p key)
    rw [mem_ptrKeys_ptrSet]
    rintro (rfl | hx2)
    · exact hnd.1 hx
    · exact h.disjoint x (Or.inr hx) hx2
  · exact ptrSet_sorted _ _ _ h.sorted
  · intro x
    show x ∈ s.liveObjects ↔
      (x ∈ [] ∨ x ∈ idleObjects s.fromKeyToObjVector ∨
        x ∈ ptrKeys (ptrSet s.providedObjects p key))
    rw [mem_ptrKeys_ptrSet, h.live x]
    simp only [List.mem_singleton, List.not_mem_nil, false_or]
    tauto
  · intro x hx
    cases hx
  · intro x k hx
    change ptrFind (ptrSet s.providedObjects p key) x = some k at hx
    rw [ptrFind_ptrSet] at hx
    split at hx
    · rename_i hxp
      simp only [Option.some.injEq] at hx
      subst hx hxp
      exact hk
    · exact h.provKey x k hx
  · show (s.ep.onFetch p).Tracks s.liveObjects
    rw [evictionPolicy_onFetch_eq]
    exact h.tracked

theorem invH_remove_ok {s : CachedFactory} (p : Product) (m1 : KeyToObjVectorMap)
    (h : InvH [] s) (hp : ptrFind s.providedObjects p = none)
    (hr : removeFromVectors s.fromKeyToObjVector p = some m1) :
    InvH [] { (s.onDestroy p) with
              fromKeyToObjVector := m1,
              heap := s.heap.filter (fun o => !decide (o.1 = p))
              deleted := s.deleted + 1 } := by
  have hnd : (idleObjects s.fromKeyToObjVector).Nodup := by simpa using h.nodup
  have hperm := removeFromVectors_perm _ _ _ hr hnd
  have hnd1 := (hperm.nodup_iff).mp hnd
  rw [List.nodup_cons] at hnd1
  have hpk : p ∉ ptrKeys s.providedObjects := (ptrFind_eq_none _ _).mp hp
  have hlive : ∀ x, x ∈ (s.heap.filter (fun o => !decide (o.1 = p))).map Prod.fst ↔
      x ∈ s.liveObjects ∧ x ≠ p := by
    intro x
    rw [liveObjects_filter]
    simp [List.mem_filter, CachedFactory.liveObjects]
  refine ⟨?_, ?_, h.sorted, ?_, ?_, ?_, ?_, ?_, ?_⟩
  · simpa using hnd1.2
  · intro x hx
    simp only [List.not_mem_nil, false_or] at hx
    apply h.disjoint x
    right
    rw [hperm.mem_iff]
    exact List.mem_cons_of_mem _ hx
  · intro x
    show x ∈ (s.heap.filter (fun o => !decide (o.1 = p))).map Prod.fst ↔
      (x ∈ [] ∨ x ∈ idleObjects m1 ∨ x ∈ ptrKeys s.providedObjects)
    rw [hlive, h.live x, hperm.mem_iff]
    simp only [List.not_mem_nil, false_or, List.mem_cons]
    constructor
    · rintro ⟨(hx | hx) | hx, hne⟩
      · exact absurd hx hne
      · exact Or.inl hx
      · exact Or.inr hx
    · rintro (hx | hx)
      · exact ⟨Or.inl (Or.inr hx), fun he => hnd1.1 (he ▸ hx)⟩
      · exact ⟨Or.inr hx, fun he => hpk (he ▸ hx)⟩
  · show ((s.heap.filter (fun o => !decide (o.1 = p))).map Prod.fst).Nodup
    rw [liveObjects_filter]
    exact h.heapNodup.filter _
  · intro x hx
    cases hx
  · intro x k hx
    show (x, k) ∈ s.heap.filter (fun o => !decide (o.1 = p))
    rw [List.mem_filter]
    refine ⟨h.provKey x k hx, ?_⟩
    have : x ≠ p := fun he => hpk (he ▸ ptrFind_some_keys _ _ _ hx)
    simpa using this
  · intro k v x hm hx
    show (x, k) ∈ s.heap.filter (fun o => !decide (o.1 = p))
    rw [List.mem_filter]
    obtain ⟨w, hw, hsub⟩ := removeFromVectors_mem _ _ _ hr (k, v) hm
    refine ⟨h.idleKey k w x hw (hsub x hx), ?_⟩
    have hx1 : x ∈ idleObjects m1 := (mem_idleObjects m1 x).mpr ⟨k, v, hm, hx⟩
    have : x ≠ p := fun he => hnd1.1 (he ▸ hx1)
    simpa using this
  · show (s.ep.onDestroy p).Tracks ((s.heap.filter (fun o => !decide (o.1 = p))).map Prod.fst)
    rw [liveObjects_filter]
    exact tracks_onDestroy s.ep s.liveObjects p h.tracked

theorem invH_remove {s : CachedFactory} (p : Product) (h : InvH [] s) :
    InvH [] (s.remove p).2 := by
  unfold CachedFactory.remove
  cases hp : ptrFind s.providedObjects p with
  | some k => exact h
  | none =>
    cases hr : removeFromVectors s.fromKeyToObjVector p with
    | none => exact h
    | some m1 => exact invH_remove_ok p m1 h hp hr

theorem policy_evict_cases {ρ : Type} (ep : EvictionPolicy) (r : Nat)
    (remove : Product → ρ) :
    (∃ e, ep.evict r remove = .error e) ∨ (∃ x, ep.evict r remove = .ok (remove x)) := by
  cases ep with
  | lru m =>
    simp only [EvictionPolicy.evict, EvictLRU.evict]
    cases EvictionHelper.getLowerBound m with
    | error e => exact Or.inl ⟨e, rfl⟩
    | ok x => exact Or.inr ⟨x, rfl⟩
  | aging m =>
    simp only [EvictionPolicy.evict, EvictAging.evict]
    cases EvictionHelper.getLowerBound m with
    | error e => exact Or.inl ⟨e, rfl⟩
    | ok x => exact Or.inr ⟨x, rfl⟩
  | random v =>
    simp only [EvictionPolicy.evict, EvictRandom.evict]
    split
    · exact Or.inl ⟨_, rfl⟩
    · split
      · exact Or.inr ⟨_, rfl⟩
      · exact Or.inl ⟨_, rfl⟩

theorem cache_evict_cases (s : CachedFactory) (r : Nat) :
    (∃ e, s.evict r = (.error e, s)) ∨ (∃ x, s.evict r = s.remove x) := by
  unfold CachedFactory.evict
  rcases policy_evict_cases s.ep r (fun key => s.remove key) with ⟨e, he⟩ | ⟨x, hx⟩
  · rw [he]
    exact Or.inl ⟨e, rfl⟩
  · rw [hx]
    exact Or.inr ⟨x, rfl⟩

theorem invH_evict {s : CachedFactory} (r : Nat) (h : InvH [] s) : InvH [] (s.evict r).2 := by
  rcases cache_evict_cases s r with ⟨e, he⟩ | ⟨x, hx⟩
  · rw [he]
    exact h
  · rw [hx]
    exact invH_remove x h

/-! ## Case analysis of `CreateObject` -/

theorem canCreate_fst_snd (cp : CreationPolicy) (t : Int) :
    cp.canCreate t = ((cp.canCreate t).1, (cp.canCreate t).2) := rfl

theorem shouldCreateObject_nonnull (s : CachedFactory) (p : Product) (env : Env)
    (hp : p ≠ NULL) : s.shouldCreateObject p env = (.ok false, s) := by
  simp [CachedFactory.shouldCreateObject, hp]

/-- The three ways `shouldCreateObject(NULL)` can go: the admission policy
throws, it allows the creation, or it refuses and `evict` runs. -/
theorem shouldCreateObject_null (s : CachedFactory) (env : Env) :
    (∃ e, (s.cp.canCreate env.clockCan).1 = .error e ∧
      s.shouldCreateObject NULL env
        = (.error e, { s with cp := (s.cp.canCreate env.clockCan).2 })) ∨
    ((s.cp.canCreate env.clockCan).1 = .ok true ∧
      s.shouldCreateObject NULL env
        = (.ok true, { s with cp := (s.cp.canCreate env.clockCan).2 })) ∨
    ((s.cp.canCreate env.clockCan).1 = .ok false ∧
      ((∃ e, (CachedFactory.evict { s with cp := (s.cp.canCreate env.clockCan).2 } env.rand).1
              = .error e ∧
          s.shouldCreateObject NULL env =
            (.error e,
             (CachedFactory.evict { s with cp := (s.cp.canCreate env.clockCan).2 } env.rand).2)) ∨
       ((CachedFactory.evict { s with cp := (s.cp.canCreate env.clockCan).2 } env.rand).1
              = .ok () ∧
          s.shouldCreateObject NULL env =
            (.ok true,
             (CachedFactory.evict { s with cp := (s.cp.canCreate env.clockCan).2 } env.rand).2)))) := by
  unfold CachedFactory.shouldCreateObject
  simp only [ne_eq, not_true_eq_false, ↓reduceIte]
  rw [canCreate_fst_snd]
  cases h1 : (s.cp.canCreate env.clockCan).1 with
  | error e => exact Or.inl ⟨e, rfl, rfl⟩
  | ok b =>
    cases b with
    | true => exact Or.inr (Or.inl ⟨rfl, rfl⟩)
    | false =>
      refine Or.inr (Or.inr ⟨rfl, ?_⟩)
      simp only
      generalize CachedFactory.evict { s with cp := (s.cp.canCreate env.clockCan).2 } env.rand = res
      obtain ⟨r, s1⟩ := res
      cases r with
      | error e => exact Or.inl ⟨e, rfl, rfl⟩
      | ok u => exact Or.inr ⟨rfl, rfl⟩

theorem shouldCreateObject_null_ne_false (s : CachedFactory) (env : Env) :
    (s.shouldCreateObject NULL env).1 ≠ .ok false := by
  rcases shouldCreateObject_null s env with ⟨e, _, h⟩ | ⟨_, h⟩ | ⟨_, ⟨e, _, h⟩ | ⟨_, h⟩⟩ <;>
    rw [h] <;> simp

/-- The ways `CreateObject` can go: a hit on the idle pool, the failed
assertion on a null pointer stored in the pool, or a miss followed by
`shouldCreateObject(NULL)` and, unless that throws, by the factory call. -/
theorem createObject_cases (s : CachedFactory) (id : IdentifierType)
    (parms : List Parm) (env : Env) :
    (∃ p, p ≠ NULL ∧
      (entryAt (s.getContainerFromKey ⟨id, parms⟩).1.fromKeyToObjVector
        (s.getContainerFromKey ⟨id, parms⟩).2).getLast? = some p ∧
      s.atFactoryCall id parms env = none ∧
      s.CreateObject id parms env =
        CachedFactory.provide
          { (s.getContainerFromKey ⟨id, parms⟩).1 with
            fromKeyToObjVector :=
              modifyEntry (s.getContainerFromKey ⟨id, parms⟩).1.fromKeyToObjVector
                (s.getContainerFromKey ⟨id, parms⟩).2 List.dropLast }
          p ⟨id, parms⟩) ∨
    ((entryAt (s.getContainerFromKey ⟨id, parms⟩).1.fromKeyToObjVector
        (s.getContainerFromKey ⟨id, parms⟩).2).getLast? = some NULL ∧
      s.atFactoryCall id parms env = none ∧
      s.CreateObject id parms env = (.error .assertion, (s.getContainerFromKey ⟨id, parms⟩).1)) ∨
    ((entryAt (s.getContainerFromKey ⟨id, parms⟩).1.fromKeyToObjVector
        (s.getContainerFromKey ⟨id, parms⟩).2).getLast? = none ∧
      ((∃ e, ((s.getContainerFromKey ⟨id, parms⟩).1.shouldCreateObject NULL env).1 = .error e ∧
          s.atFactoryCall id parms env = none ∧
          s.CreateObject id parms env =
            (.error e, ((s.getContainerFromKey ⟨id, parms⟩).1.shouldCreateObject NULL env).2)) ∨
       (((s.getContainerFromKey ⟨id, parms⟩).1.shouldCreateObject NULL env).1 = .ok true ∧
          s.atFactoryCall id parms env =
            some ((s.getContainerFromKey ⟨id, parms⟩).1.shouldCreateObject NULL env).2 ∧
          ((∃ e, ((s.getContainerFromKey ⟨id, parms⟩).1.shouldCreateObject NULL env).2.factory.CreateObject
                    id parms env.alloc = .error e ∧
              s.CreateObject id parms env =
                (.error e, ((s.getContainerFromKey ⟨id, parms⟩).1.shouldCreateObject NULL env).2)) ∨
           (∃ p, ((s.getContainerFromKey ⟨id, parms⟩).1.shouldCreateObject NULL env).2.factory.CreateObject
                    id parms env.alloc = .ok p ∧
              s.CreateObject id parms env =
                (CachedFactory.onCreate
                  { ((s.getContainerFromKey ⟨id, parms⟩).1.shouldCreateObject NULL env).2 with
                    heap := (p, ⟨id, parms⟩) ::
                      ((s.getContainerFromKey ⟨id, parms⟩).1.shouldCreateObject NULL env).2.heap }
                  p env.clockCreate).provide p ⟨id, parms⟩))))) := by
  unfold CachedFactory.CreateObject CachedFactory.atFactoryCall
  simp only
  generalize (s.getContainerFromKey ⟨id, parms⟩).1 = s1
  generalize (s.getContainerFromKey ⟨id, parms⟩).2 = i
  unfold CachedFactory.getPointerToObjectInContainer
  cases hl : (entryAt s1.fromKeyToObjVector i).getLast? with
  | none =>
    refine Or.inr (Or.inr ⟨rfl, ?_⟩)
    simp only
    have hne := shouldCreateObject_null_ne_false s1 env
    generalize s1.shouldCreateObject NULL env = res at hne
    obtain ⟨r, s3⟩ := res
    cases r with
    | error e => exact Or.inl ⟨e, rfl, rfl, rfl⟩
    | ok b =>
      cases b with
      | false => exact absurd rfl hne
      | true =>
        refine Or.inr ⟨rfl, rfl, ?_⟩
        simp only
        cases hf : s3.factory.CreateObject id parms env.alloc with
        | error e => exact Or.inl ⟨e, rfl, rfl⟩
        | ok p => exact Or.inr ⟨p, rfl, rfl⟩
  | some p =>
    simp only
    by_cases hp : p = NULL
    · subst hp
      exact Or.inr (Or.inl ⟨rfl, by simp, by simp⟩)
    · refine Or.inl ⟨p, hp, rfl, ?_, ?_⟩
      · simp [hp, shouldCreateObject_nonnull _ p env hp]
      · simp [hp, shouldCreateObject_nonnull _ p env hp]

/-! ## The ownership invariant holds after every call -/

theorem invH_shouldCreateObject_null {s : CachedFactory} (env : Env) (h : InvH [] s) :
    InvH [] (s.shouldCreateObject NULL env).2 := by
  rcases shouldCreateObject_null s env with ⟨e, _, he⟩ | ⟨_, he⟩ | ⟨_, ⟨e, _, he⟩ | ⟨_, he⟩⟩
  · rw [he]
    exact invH_setCp _ h
  · rw [he]
    exact invH_setCp _ h
  · rw [he]
    exact invH_evict env.rand (invH_setCp _ h)
  · rw [he]
    exact invH_evict env.rand (invH_setCp _ h)

theorem provide_fst (s : CachedFactory) (p : Product) (key : Key) :
    (s.provide p key).1 = .ok p := rfl

theorem freshCall_fresh (s : CachedFactory) (id : IdentifierType)
    (parms : List Parm) (env : Env) (s3 : CachedFactory) (p : Product)
    (hfresh : s.freshCall id parms env = true) (hat : s.atFactoryCall id parms env = some s3)
    (hf : s3.factory.CreateObject id parms env.alloc = .ok p) : p ∉ s3.liveObjects := by
  unfold CachedFactory.freshCall at hfresh
  rw [hat] at hfresh
  simp only [hf] at hfresh
  simpa using hfresh

theorem inv_createObject {s : CachedFactory} (id : IdentifierType) (parms : List Parm)
    (env : Env) (h : Inv s) (hfresh : s.freshCall id parms env = true) :
    Inv (s.CreateObject id parms env).2 := by
  have h1 : InvH [] (s.getContainerFromKey ⟨id, parms⟩).1 :=
    invH_getContainerFromKey ⟨id, parms⟩ h
  rcases createObject_cases s id parms env with
    ⟨p, _, hl, _, he⟩ | ⟨_, _, he⟩ | ⟨_, ⟨e, _, _, he⟩ | ⟨_, hat, ⟨e, _, he⟩ | ⟨p, hf, he⟩⟩⟩
  · rw [he]
    apply invH_provide p ⟨id, parms⟩ (invH_pop _ p h1 hl)
    have hk := mapIndex_keyAt s.fromKeyToObjVector ⟨id, parms⟩
    exact h1.idleKey _ _ p (keyAt_entryAt_mem _ _ _ hk) (List.mem_of_getLast?_eq_some hl)
  · rw [he]
    exact h1
  · rw [he]
    exact invH_shouldCreateObject_null env h1
  · rw [he]
    exact invH_shouldCreateObject_null env h1
  · rw [he]
    apply invH_provide p ⟨id, parms⟩
      (invH_construct p ⟨id, parms⟩ env.clockCreate (invH_shouldCreateObject_null env h1)
        (freshCall_fresh s id parms env _ p hfresh hat hf))
    exact List.mem_cons_self _ _

theorem releaseObject_none (s : CachedFactory) (object : Product)
    (h : ptrFind s.providedObjects object = none) :
    s.ReleaseObject object = (.error .cache, s) := by
  unfold CachedFactory.ReleaseObject
  rw [h]

theorem releaseObject_some (s : CachedFactory) (object : Product) (key : Key)
    (h : ptrFind s.providedObjects object = some key) :
    s.ReleaseObject object =
      (.ok (),
       { s with
         sp := s.sp.onRelease
         ep := s.ep.onRelease object
         outObjects := decU s.outObjects
         fromKeyToObjVector :=
           modifyEntry (mapIndex s.fromKeyToObjVector key).1
             (mapIndex s.fromKeyToObjVector key).2 (fun v => v ++ [object])
         providedObjects := ptrErase s.providedObjects object }) := by
  unfold CachedFactory.ReleaseObject
  rw [h]
  rfl

theorem inv_releaseObject {s : CachedFactory} (object : Product) (h : Inv s) :
    Inv (s.ReleaseObject object).2 := by
  cases hfind : ptrFind s.providedObjects object with
  | none =>
    rw [releaseObject_none s object hfind]
    exact h
  | some key =>
    rw [releaseObject_some s object key hfind]
    have hkeys : object ∈ ptrKeys s.providedObjects := ptrFind_some_keys _ _ _ hfind
    have hheap : (object, key) ∈ s.heap := h.provKey object key hfind
    have hnd : (idleObjects s.fromKeyToObjVector).Nodup := by simpa using h.nodup
    have hni : object ∉ idleObjects s.fromKeyToObjVector := fun hx =>
      h.disjoint object (Or.inr hx) hkeys
    have hperm := push_perm (mapIndex s.fromKeyToObjVector key).1
      (mapIndex s.fromKeyToObjVector key).2 object (mapIndex_lt _ _)
    rw [mapIndex_idle] at hperm
    have hk := mapIndex_keyAt s.fromKeyToObjVector key
    refine ⟨?_, ?_, ?_, ?_, ?_, ?_, ?_, ?_, ?_⟩
    rotate_left 4
    · exact h.heapNodup
    rotate_right 4
    · show ([] ++ idleObjects (modifyEntry (mapIndex s.fromKeyToObjVector key).1
        (mapIndex s.fromKeyToObjVector key).2 (fun v => v ++ [object]))).Nodup
      rw [List.nil_append, hperm.nodup_iff]
      exact List.nodup_cons.mpr ⟨hni, hnd⟩
    · intro x hx
      simp only [List.not_mem_nil, false_or] at hx
      change x ∈ idleObjects (modifyEntry (mapIndex s.fromKeyToObjVector key).1
        (mapIndex s.fromKeyToObjVector key).2 (fun v => v ++ [object])) at hx
      show x ∉ ptrKeys (ptrErase s.providedObjects object)
      rw [hperm.mem_iff, List.mem_cons] at hx
      rw [ptrKeys_ptrErase, List.mem_filter]
      rintro ⟨hxk, hxne⟩
      rcases hx with hx | hx
      · simp [hx] at hxne
      · exact h.disjoint x (Or.inr hx) hxk
    · show (ptrKeys (ptrErase s.providedObjects object)).Pairwise (· < ·)
      rw [ptrKeys_ptrErase]
      exact h.sorted.filter _
    · intro x
      show x ∈ s.liveObjects ↔ (x ∈ [] ∨
        x ∈ idleObjects (modifyEntry (mapIndex s.fromKeyToObjVector key).1
          (mapIndex s.fromKeyToObjVector key).2 (fun v => v ++ [object])) ∨
        x ∈ ptrKeys (ptrErase s.providedObjects object))
      rw [hperm.mem_iff, ptrKeys_ptrErase, List.mem_filter, h.live x]
      simp only [List.not_mem_nil, false_or, List.mem_cons, ne_eq, decide_not,
        Bool.not_eq_eq_eq_not, Bool.not_true, decide_eq_false_iff_not]
      by_cases hxo : x = object
      · subst hxo
        simp [hkeys]
      · simp [hxo]
    · intro x hx
      cases hx
    · intro x k hx
      change ptrFind (ptrErase s.providedObjects object) x = some k at hx
      rw [ptrFind_ptrErase] at hx
      split at hx
      · cases hx
      · exact h.provKey x k hx
    · intro k v x hm hx
      change (k, v) ∈ modifyEntry (mapIndex s.fromKeyToObjVector key).1
        (mapIndex s.fromKeyToObjVector key).2 (fun v => v ++ [object]) at hm
      show (x, k) ∈ s.heap
      rcases modifyEntry_mem _ _ _ _ hm with hm | ⟨hkk, hv⟩
      · rcases mapIndex_mem _ _ _ hm with hm | hm
        · exact h.idleKey k v x hm hx
        · simp only [Prod.mk.injEq] at hm
          rw [hm.2] at hx
          cases hx
      · simp only at hkk hv
        rw [hk] at hkk
        simp only [Option.some.injEq] at hkk
        subst hkk
        rw [hv, List.mem_append, List.mem_singleton] at hx
        rcases hx with hx | hx
        · rcases mapIndex_mem _ _ _ (keyAt_entryAt_mem _ _ _ hk) with hm | hm
          · exact h.idleKey _ _ x hm hx
          · simp only [Prod.mk.injEq, true_and] at hm
            rw [hm] at hx
            cases hx
        · subst hx
          exact hheap
    · show (s.ep.onRelease object).Tracks s.liveObjects
      exact tracks_onRelease _ _ _
        ((h.live object).mpr (Or.inr (Or.inr hkeys))) h.tracked

theorem inv_run {s : CachedFactory} (ops : List Op) (h : Inv s)
    (hfresh : freshRun s ops = true) : Inv (run s ops) := by
  induction ops generalizing s with
  | nil => exact h
  | cons op rest ih =>
    simp only [freshRun, Bool.and_eq_true] at hfresh
    cases op with
    | register id creator => exact ih (invH_setFactory _ h) hfresh.2
    | unregister id => exact ih (invH_setFactory _ h) hfresh.2
    | createObject id parms env => exact ih (inv_createObject id parms env h hfresh.1) hfresh.2
    | releaseObject object => exact ih (inv_releaseObject object h) hfresh.2

theorem inv_of_isEmpty {s : CachedFactory} (h : s.IsEmpty) : Inv s := by
  obtain ⟨h1, h2, h3, h4⟩ := h
  refine ⟨?_, ?_, ?_, ?_, ?_, ?_, ?_, ?_, ?_⟩
  · simp [h1, idleObjects]
  · simp [h1, h2, idleObjects, ptrKeys]
  · simp [h2, ptrKeys]
  · simp [h1, h2, h3, idleObjects, ptrKeys, CachedFactory.liveObjects]
  · simp [h3, CachedFactory.liveObjects]
  · simp
  · simp [h2, ptrFind]
  · simp [h1]
  · cases hep : s.ep with
    | lru m =>
      simp only [hep, EvictionPolicy.tracked] at h4
      simp [EvictionPolicy.Tracks, h4, h3, CachedFactory.liveObjects]
    | aging m =>
      simp only [hep, EvictionPolicy.tracked] at h4
      simp [EvictionPolicy.Tracks, h4, h3, CachedFactory.liveObjects]
    | random v =>
      simp only [hep, EvictionPolicy.tracked] at h4
      simp [EvictionPolicy.Tracks, h4]

theorem new_isEmpty (ck : CreationKind) (ek : EvictionKind) (sk : StatisticKind)
    (now : Int) : (CachedFactory.new ck ek sk now).IsEmpty := by
  refine ⟨rfl, rfl, rfl, ?_⟩
  cases ek <;> rfl

/-! ## `remove`, `evict` and the amount limit -/

theorem remove_cases (s : CachedFactory) (x : Product) :
    s.remove x = (.error .cache, s) ∨
    (∃ m1, ptrFind s.providedObjects x = none ∧
      removeFromVectors s.fromKeyToObjVector x = some m1 ∧
      s.remove x =
        (.ok (),
         { (s.onDestroy x) with
           fromKeyToObjVector := m1
           heap := s.heap.filter (fun o => !decide (o.1 = x))
           deleted := s.deleted + 1 })) := by
  unfold CachedFactory.remove
  cases hp : ptrFind s.providedObjects x with
  | some k => exact Or.inl rfl
  | none =>
    cases hr : removeFromVectors s.fromKeyToObjVector x with
    | none => exact Or.inl rfl
    | some m1 => exact Or.inr ⟨m1, rfl, rfl, rfl⟩

/-- `evict` either throws and leaves the cache as it was, or deletes one
instance that was idle. -/
theorem evict_outcome (s : CachedFactory) (r : Nat) :
    (∃ e, s.evict r = (.error e, s)) ∨
    (∃ x m1, ptrFind s.providedObjects x = none ∧
      removeFromVectors s.fromKeyToObjVector x = some m1 ∧
      s.evict r =
        (.ok (),
         { (s.onDestroy x) with
           fromKeyToObjVector := m1
           heap := s.heap.filter (fun o => !decide (o.1 = x))
           deleted := s.deleted + 1 })) := by
  rcases cache_evict_cases s r with ⟨e, he⟩ | ⟨x, hx⟩
  · exact Or.inl ⟨e, he⟩
  · rcases remove_cases s x with h | ⟨m1, h1, h2, h3⟩
    · exact Or.inl ⟨.cache, hx.trans h⟩
    · exact Or.inr ⟨x, m1, h1, h2, hx.trans h3⟩

theorem heap_filter_length (heap : List (Product × Key)) (p : Product)
    (hnd : (heap.map Prod.fst).Nodup) (hp : p ∈ heap.map Prod.fst) :
    (heap.filter (fun o => !decide (o.1 = p))).length + 1 = heap.length := by
  induction heap with
  | nil => simp at hp
  | cons e rest ih =>
    simp only [List.map_cons, List.nodup_cons, List.mem_cons] at hnd hp
    by_cases he : e.1 = p
    · have hrest : rest.filter (fun o => !decide (o.1 = p)) = rest := by
        rw [List.filter_eq_self]
        intro o ho
        have : o.1 ≠ p := fun h =>
          hnd.1 (he ▸ h ▸ List.mem_map_of_mem Prod.fst ho)
        simpa using this
      simp [List.filter_cons, he, hrest]
    · have hp2 : p ∈ rest.map Prod.fst := by
        rcases hp with hp | hp
        · exact absurd hp.symm he
        · exact hp
      simp only [List.filter_cons, he, decide_False, Bool.not_false, ↓reduceIte,
        List.length_cons]
      rw [ih hnd.2 hp2]

theorem decU_pos (n : Nat) (h0 : 0 < n) (h : n < 2 ^ 32) : decU n = n - 1 := by
  unfold decU
  split <;> omega

theorem incU_lt (n : Nat) (h : n + 1 < 2 ^ 32) : incU n = n + 1 := by
  unfold incU
  omega

theorem live_perm {s : CachedFactory} (h : Inv s) :
    s.liveObjects.Perm (idleObjects s.fromKeyToObjVector ++ ptrKeys s.providedObjects) := by
  rw [List.perm_ext_iff_of_nodup h.heapNodup]
  · intro x
    rw [h.live x]
    simp
  · rw [List.nodup_append]
    refine ⟨by simpa using h.nodup, h.sorted.imp (fun hab => Nat.ne_of_lt hab), ?_⟩
    intro a ha hb
    exact h.disjoint a (Or.inr ha) hb

theorem live_count {s : CachedFactory} (h : Inv s) :
    (idleObjects s.fromKeyToObjVector).length + s.providedObjects.length = s.heap.length := by
  have := (live_perm h).length_eq
  simp only [CachedFactory.liveObjects, List.length_map, List.length_append, ptrKeys] at this
  omega

theorem amountInv_canCreate {N : Nat} {s : CachedFactory} (h : AmountInv N s) (t : Int) :
    s.cp.canCreate t = (.ok (decide (s.heap.length < N)), s.cp) := by
  rw [h.1]
  simp only [CreationPolicy.canCreate, AmountLimitedCreation.canCreate, ge_iff_le]
  congr 2
  by_cases hlt : s.heap.length < N
  · simp [hlt]
  · simp [hlt, Nat.le_of_not_lt hlt]

theorem amountInv_evict {N : Nat} {s : CachedFactory} (hN : N < 2 ^ 32) (r : Nat)
    (hi : Inv s) (h : AmountInv N s) :
    AmountInv N (s.evict r).2 ∧
      ((s.evict r).1 = .ok () → (s.evict r).2.heap.length + 1 = s.heap.length) := by
  rcases evict_outcome s r with ⟨e, he⟩ | ⟨x, m1, h1, h2, he⟩
  · rw [he]
    exact ⟨h, fun hc => by cases hc⟩
  · rw [he]
    have hx : x ∈ s.liveObjects := by
      rw [hi.live x]
      right
      left
      by_contra hn
      rw [← removeFromVectors_none] at hn
      rw [hn] at h2
      cases h2
    have hlen := heap_filter_length s.heap x hi.heapNodup hx
    have hpos : 0 < s.heap.length := by omega
    refine ⟨⟨?_, ?_⟩, fun _ => hlen⟩
    · show s.cp.onDestroy = _
      rw [h.1]
      simp only [CreationPolicy.onDestroy, AmountLimitedCreation.onDestroy]
      rw [decU_pos _ hpos (by have := h.2; omega)]
      congr 2
      omega
    · show (s.heap.filter (fun o => !decide (o.1 = x))).length ≤ N
      have := h.2
      omega

theorem amountInv_shouldCreateObject_null {N : Nat} {s : CachedFactory} (hN : N < 2 ^ 32)
    (env : Env) (hi : Inv s) (h : AmountInv N s) :
    AmountInv N (s.shouldCreateObject NULL env).2 ∧
      ((s.shouldCreateObject NULL env).1 = .ok true →
        (s.shouldCreateObject NULL env).2.heap.length < N) := by
  have hcan := amountInv_canCreate h env.clockCan
  have hself : ({ s with cp := (s.cp.canCreate env.clockCan).2 } : CachedFactory) = s := by
    rw [hcan]
  rcases shouldCreateObject_null s env with ⟨e, h1, _⟩ | ⟨h1, he⟩ | ⟨h1, ⟨e, h2, he⟩ | ⟨h2, he⟩⟩
  · rw [hcan] at h1
    cases h1
  · rw [he, hself]
    rw [hcan] at h1
    simp only [Except.ok.injEq, decide_eq_true_eq] at h1
    exact ⟨h, fun _ => h1⟩
  · rw [he]
    simp only [hself]
    exact ⟨(amountInv_evict hN env.rand hi h).1, fun hc => by cases hc⟩
  · rw [he]
    rw [hself] at h2 ⊢
    have hev := amountInv_evict hN env.rand hi h
    refine ⟨hev.1, fun _ => ?_⟩
    show (s.evict env.rand).2.heap.length < N
    have := hev.2 h2
    have := h.2
    omega

theorem amountInv_createObject {N : Nat} {s : CachedFactory} (hN : N < 2 ^ 32)
    (id : IdentifierType) (parms : List Parm) (env : Env) (hi : Inv s) (h : AmountInv N s) :
    AmountInv N (s.CreateObject id parms env).2 := by
  have hi1 : Inv (s.getContainerFromKey ⟨id, parms⟩).1 := invH_getContainerFromKey ⟨id, parms⟩ hi
  have h1 : AmountInv N (s.getContainerFromKey ⟨id, parms⟩).1 := h
  have hs := amountInv_shouldCreateObject_null hN env hi1 h1
  rcases createObject_cases s id parms env with
    ⟨p, _, hl, _, he⟩ | ⟨_, _, he⟩ | ⟨_, ⟨e, _, _, he⟩ | ⟨hok, hat, ⟨e, _, he⟩ | ⟨p, hf, he⟩⟩⟩
  · rw [he]
    exact h
  · rw [he]
    exact h
  · rw [he]
    exact hs.1
  · rw [he]
    exact hs.1
  · rw [he]
    have hlt := hs.2 hok
    generalize ((s.getContainerFromKey ⟨id, parms⟩).1.shouldCreateObject NULL env).2 = s3 at hs hlt
    refine ⟨?_, ?_⟩
    · show s3.cp.onCreate env.clockCreate = _
      rw [hs.1.1]
      simp only [CreationPolicy.onCreate, AmountLimitedCreation.onCreate, List.length_cons]
      rw [incU_lt _ (by omega)]
      rfl
    · show ((p, (⟨id, parms⟩ : Key)) :: s3.heap).length ≤ N
      simp only [List.length_cons]
      omega

theorem amountInv_releaseObject {N : Nat} {s : CachedFactory} (object : Product)
    (h : AmountInv N s) : AmountInv N (s.ReleaseObject object).2 := by
  cases hfind : ptrFind s.providedObjects object with
  | none =>
    rw [releaseObject_none s object hfind]
    exact h
  | some key =>
    rw [releaseObject_some s object key hfind]
    exact h

theorem amountInv_run {N : Nat} {s : CachedFactory} (hN : N < 2 ^ 32) (ops : List Op)
    (hi : Inv s) (h : AmountInv N s) (hfresh : freshRun s ops = true) :
    AmountInv N (run s ops) := by
  induction ops generalizing s with
  | nil => exact h
  | cons op rest ih =>
    simp only [freshRun, Bool.and_eq_true] at hfresh
    cases op with
    | register id creator => exact ih (invH_setFactory _ hi) h hfresh.2
    | unregister id => exact ih (invH_setFactory _ hi) h hfresh.2
    | createObject id parms env =>
      exact ih (inv_createObject id parms env hi hfresh.1)
        (amountInv_createObject hN id parms env hi h) hfresh.2
    | releaseObject object =>
      exact ih (inv_releaseObject object hi) (amountInv_releaseObject object h) hfresh.2

theorem configured_amount {N : Nat} {ek : EvictionKind} {sk : StatisticKind} {now : Int}
    {s0 : CachedFactory}
    (hcfg : (CachedFactory.new .amountLimited ek sk now).setMaxCreation N = some s0) :
    s0.IsEmpty ∧ AmountInv N s0 ∧ 0 < N := by
  simp only [CachedFactory.setMaxCreation, CachedFactory.new, CreationKind.init,
    AmountLimitedCreation.setMaxCreation, AmountLimitedCreation.init] at hcfg
  split at hcfg
  · rename_i hpos
    simp only [Option.map_some', Option.some.injEq] at hcfg
    rw [← hcfg]
    exact ⟨new_isEmpty .amountLimited ek sk now, ⟨rfl, Nat.zero_le N⟩, hpos⟩
  · simp at hcfg

/-! ## What a successful `CreateObject` leaves behind -/

theorem provide_registry (s : CachedFactory) (p : Product) (key : Key) :
    ptrFind (s.provide p key).2.providedObjects p = some key := by
  show ptrFind (ptrSet s.providedObjects p key) p = some key
  rw [ptrFind_ptrSet]
  simp

theorem createObject_ok_registry (s : CachedFactory) (id : IdentifierType) (parms : List Parm)
    (env : Env) (x : Product) (h : (s.CreateObject id parms env).1 = .ok x) :
    ptrFind (s.CreateObject id parms env).2.providedObjects x = some ⟨id, parms⟩ := by
  rcases createObject_cases s id parms env with
    ⟨p, _, _, _, he⟩ | ⟨_, _, he⟩ | ⟨_, ⟨e, _, _, he⟩ | ⟨_, _, ⟨e, _, he⟩ | ⟨p, _, he⟩⟩⟩
  · rw [he] at h ⊢
    rw [provide_fst] at h
    cases h
    exact provide_registry _ _ _
  · rw [he] at h
    cases h
  · rw [he] at h
    cases h
  · rw [he] at h
    cases h
  · rw [he] at h ⊢
    rw [provide_fst] at h
    cases h
    exact provide_registry _ _ _

theorem heap_key_unique {s : CachedFactory} (h : Inv s) (x : Product) (k1 k2 : Key)
    (h1 : (x, k1) ∈ s.heap) (h2 : (x, k2) ∈ s.heap) : k1 = k2 := by
  have hnd := h.heapNodup
  unfold CachedFactory.liveObjects at hnd
  have hinj := List.inj_on_of_nodup_map hnd h1 h2 rfl
  exact (Prod.mk.inj hinj).2

/-! ## `EvictionHelper::getLowerBound` -/

theorem multimapInsert_mem (l : List (Nat × Product)) (x y : Nat × Product) :
    y ∈ multimapInsert l x ↔ y = x ∨ y ∈ l := by
  induction l with
  | nil => simp [multimapInsert]
  | cons z rest ih =>
    simp only [multimapInsert]
    split
    · simp
    · simp only [List.mem_cons, ih]
      tauto

theorem multimapInsert_sorted (l : List (Nat × Product)) (x : Nat × Product)
    (h : l.Pairwise (fun a b => a.1 ≤ b.1)) :
    (multimapInsert l x).Pairwise (fun a b => a.1 ≤ b.1) := by
  induction l with
  | nil => simp [multimapInsert]
  | cons z rest ih =>
    simp only [List.pairwise_cons] at h
    simp only [multimapInsert]
    split
    · rename_i hlt
      simp only [List.pairwise_cons, List.mem_cons]
      refine ⟨?_, h.1, h.2⟩
      intro a ha
      rcases ha with rfl | ha
      · exact Nat.le_of_lt hlt
      · exact Nat.le_trans (Nat.le_of_lt hlt) (h.1 a ha)
    · rename_i hlt
      simp only [List.pairwise_cons]
      refine ⟨?_, ih h.2⟩
      intro a ha
      rcases (multimapInsert_mem rest x a).mp ha with rfl | ha
      · exact Nat.le_of_not_lt hlt
      · exact h.1 a ha

theorem copyMap_foldl_mem (m : HitMap) (acc : List (Nat × Product)) (y : Nat × Product) :
    y ∈ m.foldl (fun acc e => multimapInsert acc (e.2, e.1)) acc ↔
      y ∈ acc ∨ (y.2, y.1) ∈ m := by
  induction m generalizing acc with
  | nil => simp
  | cons e rest ih =>
    simp only [List.foldl_cons, ih, multimapInsert_mem, List.mem_cons]
    constructor
    · rintro ((h | h) | h)
      · right
        left
        rw [h]
      · exact Or.inl h
      · exact Or.inr (Or.inr h)
    · rintro (h | h | h)
      · exact Or.inl (Or.inr h)
      · left
        left
        rw [← h]
      · exact Or.inr h

theorem copyMap_foldl_sorted (m : HitMap) (acc : List (Nat × Product))
    (h : acc.Pairwise (fun a b => a.1 ≤ b.1)) :
    (m.foldl (fun acc e => multimapInsert acc (e.2, e.1)) acc).Pairwise
      (fun a b => a.1 ≤ b.1) := by
  induction m generalizing acc with
  | nil => exact h
  | cons e rest ih =>
    simp only [List.foldl_cons]
    exact ih _ (multimapInsert_sorted acc _ h)

theorem copyMap_mem (m : HitMap) (y : Nat × Product) :
    y ∈ EvictionHelper.copyMap m ↔ (y.2, y.1) ∈ m := by
  unfold EvictionHelper.copyMap
  rw [copyMap_foldl_mem]
  simp

theorem copyMap_sorted (m : HitMap) :
    (EvictionHelper.copyMap m).Pairwise (fun a b => a.1 ≤ b.1) := by
  unfold EvictionHelper.copyMap
  exact copyMap_foldl_sorted m [] List.Pairwise.nil

theorem sorted_head_le (l : List (Nat × Product)) (first : Nat × Product)
    (h : l.Pairwise (fun a b => a.1 ≤ b.1)) (hf : l.head? = some first) :
    ∀ y ∈ l, first.1 ≤ y.1 := by
  cases l with
  | nil => simp at hf
  | cons z rest =>
    simp only [List.head?_cons, Option.some.injEq] at hf
    subst hf
    simp only [List.pairwise_cons] at h
    intro y hy
    rcases List.mem_cons.mp hy with rfl | hy
    · exact Nat.le_refl _
    · exact h.1 y hy

theorem sorted_le_last (l : List (Nat × Product)) (last : Nat × Product)
    (h : l.Pairwise (fun a b => a.1 ≤ b.1)) (hl : l.getLast? = some last) :
    ∀ y ∈ l, y.1 ≤ last.1 := by
  induction l with
  | nil => simp at hl
  | cons z rest ih =>
    simp only [List.pairwise_cons] at h
    cases rest with
    | nil =>
      simp only [List.getLast?_singleton, Option.some.injEq] at hl
      subst hl
      intro y hy
      simp only [List.mem_singleton] at hy
      rw [hy]
    | cons w rest2 =>
      rw [List.getLast?_cons_cons] at hl
      intro y hy
      rcases List.mem_cons.mp hy with rfl | hy
      · exact h.1 last (List.mem_of_getLast?_eq_some hl)
      · exact ih h.2 hl y hy

/-- What `getLowerBound` does on a non-empty score table: it throws
`EvictionException` when the greatest score is `0`, and otherwise returns a
tracked instance of least score. -/
theorem getLowerBound_spec (m : HitMap) (hne : m ≠ []) :
    (EvictionHelper.getLowerBound m = .error .eviction ∧ ∀ e ∈ m, e.2 = 0) ∨
    (∃ x sx, EvictionHelper.getLowerBound m = .ok x ∧ (x, sx) ∈ m ∧
      (∀ e ∈ m, sx ≤ e.2) ∧ ∃ e ∈ m, 0 < e.2) := by
  unfold EvictionHelper.getLowerBound
  have hempty : m.isEmpty = false := by
    cases m with
    | nil => exact absurd rfl hne
    | cons e rest => rfl
  simp only [hempty, Bool.false_eq_true, ↓reduceIte]
  have hsorted := copyMap_sorted m
  have hmem := copyMap_mem m
  obtain ⟨e0, he0⟩ := List.exists_mem_of_ne_nil m hne
  have hcne : EvictionHelper.copyMap m ≠ [] := by
    intro hnil
    have := (hmem (e0.2, e0.1)).mpr he0
    rw [hnil] at this
    cases this
  generalize EvictionHelper.copyMap m = c at hsorted hmem hcne
  cases hlast : c.getLast? with
  | none => exact absurd (List.getLast?_eq_none_iff.mp hlast) hcne
  | some last =>
    cases hfirst : c.head? with
    | none => exact absurd (List.head?_eq_none_iff.mp hfirst) hcne
    | some first =>
      simp only
      have hmax := sorted_le_last c last hsorted hlast
      have hmin := sorted_head_le c first hsorted hfirst
      have hlastmem : last ∈ c := List.mem_of_getLast?_eq_some hlast
      have hfirstmem : first ∈ c := List.mem_of_mem_head? hfirst
      by_cases h0 : last.1 = 0
      · left
        simp only [h0, ↓reduceIte, true_and]
        intro e he
        have h1 := hmax (e.2, e.1) ((hmem (e.2, e.1)).mpr he)
        simp only at h1
        omega
      · right
        simp only [h0, ↓reduceIte]
        refine ⟨first.2, first.1, rfl, (hmem first).mp hfirstmem, ?_, ?_⟩
        · intro e he
          exact hmin (e.2, e.1) ((hmem (e.2, e.1)).mpr he)
        · exact ⟨(last.2, last.1), (hmem last).mp hlastmem, Nat.pos_of_ne_zero h0⟩

/-! ## What `evict` selects -/

theorem policy_evict_map {ρ : Type} (ep : EvictionPolicy) (r : Nat) (f : Product → ρ) :
    ep.evict r f =
      match ep.evict r (fun y => y) with
      | .ok x => .ok (f x)
      | .error e => .error e := by
  cases ep with
  | lru m =>
    simp only [EvictionPolicy.evict, EvictLRU.evict]
    cases EvictionHelper.getLowerBound m <;> rfl
  | aging m =>
    simp only [EvictionPolicy.evict, EvictAging.evict]
    cases EvictionHelper.getLowerBound m <;> rfl
  | random v =>
    simp only [EvictionPolicy.evict, EvictRandom.evict]
    split
    · rfl
    · split <;> rfl

theorem random_index_lt (n r : Nat) (hn : 0 < n) (hr : r ≤ RAND_MAX) :
    ((n * r) % 2 ^ 64) / (RAND_MAX + 1) < n := by
  apply Nat.div_lt_of_lt_mul
  have h1 : (n * r) % 2 ^ 64 ≤ n * r := Nat.mod_le _ _
  have h2 : n * r ≤ n * RAND_MAX := Nat.mul_le_mul_left n hr
  unfold RAND_MAX at h2 ⊢
  omega

/-- On a policy that tracks at least one instance, with `rand()` in its range,
`evict` either throws `EvictionException` or calls `remove` on a tracked
instance. -/
theorem policy_evict_selects (ep : EvictionPolicy) (r : Nat) (hr : r ≤ RAND_MAX)
    (hne : ∀ m, ep = .lru m ∨ ep = .aging m → m ≠ []) :
    ep.evict r (fun y => y) = .error .eviction ∨
    (∃ x, ep.evict r (fun y => y) = .ok x ∧ x ∈ ep.tracked) := by
  cases ep with
  | lru m =>
    simp only [EvictionPolicy.evict, EvictLRU.evict, EvictionPolicy.tracked]
    rcases getLowerBound_spec m (hne m (Or.inl rfl)) with ⟨h, _⟩ | ⟨x, sx, h, hm, _⟩
    · rw [h]
      exact Or.inl rfl
    · rw [h]
      exact Or.inr ⟨x, rfl, List.mem_map_of_mem Prod.fst hm⟩
  | aging m =>
    simp only [EvictionPolicy.evict, EvictAging.evict, EvictionPolicy.tracked]
    rcases getLowerBound_spec m (hne m (Or.inr rfl)) with ⟨h, _⟩ | ⟨x, sx, h, hm, _⟩
    · rw [h]
      exact Or.inl rfl
    · rw [h]
      exact Or.inr ⟨x, rfl, List.mem_map_of_mem Prod.fst hm⟩
  | random v =>
    simp only [EvictionPolicy.evict, EvictRandom.evict, EvictionPolicy.tracked]
    cases v with
    | nil => exact Or.inl rfl
    | cons a rest =>
      simp only [List.isEmpty_cons, Bool.false_eq_true, ↓reduceIte]
      have hlt := random_index_lt (a :: rest).length r (by simp) hr
      cases hget : (a :: rest).get? (((a :: rest).length * r) % 2 ^ 64 / (RAND_MAX + 1)) with
      | none =>
        rw [List.get?_eq_none] at hget
        omega
      | some x => exact Or.inr ⟨x, rfl, List.get?_mem hget⟩

theorem tracked_live {s : CachedFactory} (h : Inv s) (x : Product) (hx : x ∈ s.ep.tracked) :
    x ∈ s.liveObjects := by
  have ht := h.tracked
  cases hep : s.ep with
  | lru m =>
    rw [hep] at ht hx
    exact (ht.2 x).mp hx
  | aging m =>
    rw [hep] at ht hx
    exact (ht.2 x).mp hx
  | random v =>
    rw [hep] at ht hx
    exact ht x hx

theorem tracked_ne_nil {s : CachedFactory} (h : Inv s) (hlive : s.heap ≠ []) :
    ∀ m, s.ep = .lru m ∨ s.ep = .aging m → m ≠ [] := by
  obtain ⟨e0, he0⟩ := List.exists_mem_of_ne_nil s.heap hlive
  have hx : e0.1 ∈ s.liveObjects := List.mem_map_of_mem Prod.fst he0
  have ht := h.tracked
  intro m hm hnil
  subst hnil
  rcases hm with hm | hm
  · rw [hm] at ht
    have := (ht.2 e0.1).mpr hx
    simp [ptrKeys] at this
  · rw [hm] at ht
    have := (ht.2 e0.1).mpr hx
    simp [ptrKeys] at this

/-- In a state that satisfies the ownership invariant and holds at least one
instance, `evict` has three outcomes: one idle instance is removed and
deleted; `EvictionException`; or `CacheException`, when the instance the policy
selected is checked out.  A failing `evict` leaves the cache as it was. -/
theorem evict_trichotomy {s : CachedFactory} (r : Nat) (hi : Inv s) (hlive : s.heap ≠ [])
    (hr : r ≤ RAND_MAX) :
    (∃ x, x ∈ idleObjects s.fromKeyToObjVector ∧ (s.evict r).1 = .ok () ∧
      (idleObjects s.fromKeyToObjVector).Perm (x :: idleObjects (s.evict r).2.fromKeyToObjVector) ∧
      s.liveObjects.Perm (x :: (s.evict r).2.liveObjects) ∧
      (s.evict r).2.providedObjects = s.providedObjects) ∨
    s.evict r = (.error .eviction, s) ∨
    (s.evict r = (.error .cache, s) ∧
      ∃ x, x ∈ ptrKeys s.providedObjects ∧ s.ep.evict r (fun y => y) = .ok x) := by
  have hmap := policy_evict_map s.ep r (fun key => s.remove key)
  rcases policy_evict_selects s.ep r hr (tracked_ne_nil hi hlive) with hsel | ⟨x, hsel, hx⟩
  · right
    left
    unfold CachedFactory.evict
    rw [hmap, hsel]
  · have hev : s.evict r = s.remove x := by
      unfold CachedFactory.evict
      rw [hmap, hsel]
    have hxl := tracked_live hi x hx
    rcases remove_cases s x with hrem | ⟨m1, h1, h2, hrem⟩
    · right
      right
      refine ⟨hev.trans hrem, x, ?_, hsel⟩
      rw [hi.live x] at hxl
      rcases hxl with hxl | hxl | hxl
      · cases hxl
      · exfalso
        have hnone : ptrFind s.providedObjects x = none :=
          (ptrFind_eq_none _ _).mpr (hi.disjoint x (Or.inr hxl))
        have hsome : removeFromVectors s.fromKeyToObjVector x ≠ none := by
          rw [Ne, removeFromVectors_none]
          exact fun hn => hn hxl
        unfold CachedFactory.remove at hrem
        rw [hnone] at hrem
        cases hr2 : removeFromVectors s.fromKeyToObjVector x with
        | none => exact hsome hr2
        | some m2 =>
          rw [hr2] at hrem
          cases hrem
      · exact hxl
    · left
      have hidle : x ∈ idleObjects s.fromKeyToObjVector := by
        by_contra hn
        rw [← removeFromVectors_none] at hn
        rw [hn] at h2
        cases h2
      have hnd : (idleObjects s.fromKeyToObjVector).Nodup := by simpa using hi.nodup
      refine ⟨x, hidle, ?_, ?_, ?_, ?_⟩
      · rw [hev, hrem]
      · rw [hev, hrem]
        exact removeFromVectors_perm _ _ _ h2 hnd
      · rw [hev, hrem]
        show s.liveObjects.Perm
          (x :: (s.heap.filter (fun o => !decide (o.1 = x))).map Prod.fst)
        rw [liveObjects_filter]
        have hheap := hi.heapNodup
        have hfe : s.liveObjects.erase x
            = s.liveObjects.filter (fun y => !decide (y = x)) := by
          rw [hheap.erase_eq_filter]
          congr 1
        have := List.perm_cons_erase hxl
        rw [hfe] at this
        exact this
      · rw [hev, hrem]
        rfl

/-! ## The idle-pool map under keys with parameters -/

theorem tupleLt_trans (a b c : List Parm) (hab : a.length = b.length)
    (hbc : b.length = c.length) (h1 : tupleLt a b = true) (h2 : tupleLt b c = true) :
    tupleLt a c = true := by
  induction a generalizing b c with
  | nil =>
    cases b with
    | nil => simp [tupleLt] at h1
    | cons y ys => simp at hab
  | cons x xs ih =>
    cases b with
    | nil => simp at hab
    | cons y ys =>
      cases c with
      | nil => simp at hbc
      | cons z zs =>
        simp only [tupleLt] at h1 h2 ⊢
        simp only [List.length_cons, Nat.add_right_cancel_iff] at hab hbc
        by_cases hxy : x < y
        · by_cases hyz : y < z
          · simp [lt_trans hxy hyz]
          · by_cases hzy : z < y
            · simp [hyz, hzy] at h2
            · have hyz2 : y = z := le_antisymm (not_lt.mp hzy) (not_lt.mp hyz)
              subst hyz2
              simp [hxy]
        · by_cases hyx : y < x
          · simp [hxy, hyx] at h1
          · have hxy2 : x = y := le_antisymm (not_lt.mp hyx) (not_lt.mp hxy)
            subst hxy2
            simp only [hxy, ↓reduceIte] at h1
            by_cases hxz : x < z
            · simp [hxz]
            · by_cases hzx : z < x
              · simp [hxz, hzx] at h2
              · simp only [hxz, hzx, ↓reduceIte] at h2 ⊢
                exact ih ys zs hab hbc h1 h2

theorem key_lt_irrefl (k : Key) (h : 0 < k.values.length) : Key.lt k k = false := by
  unfold Key.lt
  have h0 : k.values.length ≠ 0 := Nat.pos_iff_ne_zero.mp h
  simp [h0, tupleLt_irrefl]

theorem key_lt_eq (n : Nat) (h : 0 < n) (k1 k2 : Key) (h1 : k1.values.length = n)
    (h2 : k2.values.length = n) :
    Key.lt k1 k2 = (decide (k1.id < k2.id) || tupleLt k1.values k2.values) := by
  unfold Key.lt
  have h0 : k1.values.length ≠ 0 := by omega
  simp only [h1, h2, Nat.lt_irrefl, ↓reduceIte]
  have h0n : n ≠ 0 := by omega
  simp only [h0n, ↓reduceIte]
  by_cases hid : k1.id < k2.id
  · simp [hid]
  · simp [hid]

/-- The step that keeps the map in order when `operator[]` inserts a key
before the entry its search stopped at. -/
theorem key_lt_of_not_lt_of_lt (n : Nat) (h : 0 < n) (k p j : Key)
    (hk : k.values.length = n) (hp : p.values.length = n) (hj : j.values.length = n)
    (h1 : Key.lt p k = false) (h2 : Key.lt p j = true) : Key.lt k j = true := by
  rw [key_lt_eq n h p k hp hk] at h1
  rw [key_lt_eq n h p j hp hj] at h2
  rw [key_lt_eq n h k j hk hj]
  simp only [Bool.or_eq_false_iff, decide_eq_false_iff_not, not_lt] at h1
  simp only [Bool.or_eq_true, decide_eq_true_eq] at h2 ⊢
  rcases h2 with h2 | h2
  · left
    exact lt_of_le_of_lt h1.1 h2
  · right
    by_cases hkp : tupleLt k.values p.values = true
    · exact tupleLt_trans _ _ _ (by rw [hk, hp]) (by rw [hp, hj]) hkp h2
    · have heq : k.values = p.values :=
        tupleLt_total _ _ (by rw [hk, hp]) (by simpa using hkp) h1.2
      rw [heq]
      exact h2

theorem mapIndex_keys_found (m : KeyToObjVectorMap) (k : Key)
    (hirr : Key.lt k k = false)
    (hsorted : (m.map Prod.fst).Pairwise (fun k1 k2 => Key.lt k1 k2 = true))
    (hk : k ∈ m.map Prod.fst) :
    (mapIndex m k).1 = m ∧ keyAt m (mapIndex m k).2 = some k := by
  induction m with
  | nil => simp at hk
  | cons e rest ih =>
    obtain ⟨k1, v⟩ := e
    simp only [List.map_cons, List.pairwise_cons, List.mem_cons] at hsorted hk
    simp only [mapIndex]
    by_cases hlt : Key.lt k1 k = true
    · simp only [hlt, ↓reduceIte]
      have hk2 : k ∈ rest.map Prod.fst := by
        rcases hk with hk | hk
        · subst hk
          rw [hirr] at hlt
          cases hlt
        · exact hk
      have := ih hsorted.2 hk2
      simp only [keyAt]
      exact ⟨by rw [this.1], this.2⟩
    · simp only [hlt, Bool.false_eq_true, ↓reduceIte]
      have hk1 : k = k1 := by
        rcases hk with hk | hk
        · exact hk
        · exact absurd (hsorted.1 k hk) (by simpa using hlt)
      subst hk1
      simp [hirr, keyAt]

theorem mapIndex_keys (m : KeyToObjVectorMap) (k : Key) :
    (mapIndex m k).1.map Prod.fst = m.map Prod.fst ∨
    ∃ l1 l2, m.map Prod.fst = l1 ++ l2 ∧ (mapIndex m k).1.map Prod.fst = l1 ++ k :: l2 ∧
      (∀ a ∈ l1, Key.lt a k = true) ∧
      (∀ b, l2.head? = some b → Key.lt b k = false ∧ Key.lt k b = true) := by
  induction m with
  | nil =>
    right
    exact ⟨[], [], rfl, rfl, by simp, by simp⟩
  | cons e rest ih =>
    obtain ⟨k1, v⟩ := e
    simp only [mapIndex]
    by_cases hlt : Key.lt k1 k = true
    · simp only [hlt, ↓reduceIte, List.map_cons]
      rcases ih with ih | ⟨l1, l2, h1, h2, h3, h4⟩
      · left
        rw [ih]
      · right
        refine ⟨k1 :: l1, l2, by rw [h1]; rfl, by rw [h2]; rfl, ?_, h4⟩
        intro a ha
        rcases List.mem_cons.mp ha with rfl | ha
        · exact hlt
        · exact h3 a ha
    · simp only [hlt, Bool.false_eq_true, ↓reduceIte]
      by_cases hgt : Key.lt k k1 = true
      · simp only [hgt, ↓reduceIte, List.map_cons]
        right
        refine ⟨[], k1 :: rest.map Prod.fst, rfl, rfl, by simp, ?_⟩
        intro b hb
        simp only [List.head?_cons, Option.some.injEq] at hb
        subst hb
        exact ⟨by simpa using hlt, hgt⟩
      · simp only [hgt, Bool.false_eq_true, ↓reduceIte]
        left
        trivial

theorem mapIndex_wf (n : Nat) (hn : 0 < n) (m : KeyToObjVectorMap) (k : Key)
    (hk : k.values.length = n) (h : MapWF n m) : MapWF n (mapIndex m k).1 := by
  rcases mapIndex_keys m k with heq | ⟨l1, l2, h1, h2, h3, h4⟩
  · unfold MapWF
    rw [heq]
    exact h
  · unfold MapWF at h ⊢
    rw [h2]
    rw [h1] at h
    obtain ⟨hlen, hsorted⟩ := h
    rw [List.pairwise_append] at hsorted
    constructor
    · intro a ha
      simp only [List.mem_append, List.mem_cons] at ha
      rcases ha with ha | rfl | ha
      · exact hlen a (List.mem_append_left _ ha)
      · exact hk
      · exact hlen a (List.mem_append_right _ ha)
    · rw [List.pairwise_append]
      refine ⟨hsorted.1, ?_, ?_⟩
      · rw [List.pairwise_cons]
        refine ⟨?_, hsorted.2.1⟩
        intro b hb
        cases l2 with
        | nil => cases hb
        | cons b0 rest2 =>
          have hb0 := h4 b0 rfl
          rcases List.mem_cons.mp hb with rfl | hb
          · exact hb0.2
          · have hb0b : Key.lt b0 b = true := (List.pairwise_cons.mp hsorted.2.1).1 b hb
            exact key_lt_of_not_lt_of_lt n hn k b0 b hk
              (hlen b0 (List.mem_append_right _ (List.mem_cons_self _ _)))
              (hlen b (List.mem_append_right _ (List.mem_cons_of_mem _ hb)))
              hb0.1 hb0b
      · intro a ha b hb
        rcases List.mem_cons.mp hb with rfl | hb
        · exact h3 a ha
        · exact hsorted.2.2 a ha b hb

theorem modifyEntry_keys (m : KeyToObjVectorMap) (i : Nat) (f : ObjVector → ObjVector) :
    (modifyEntry m i f).map Prod.fst = m.map Prod.fst := by
  induction m generalizing i with
  | nil => rfl
  | cons e rest ih =>
    obtain ⟨k1, v⟩ := e
    cases i with
    | zero => rfl
    | succ j => simp [modifyEntry, ih]

theorem removeFromVectors_keys (m m1 : KeyToObjVectorMap) (p : Product)
    (h : removeFromVectors m p = some m1) : m1.map Prod.fst = m.map Prod.fst := by
  induction m generalizing m1 with
  | nil => simp [removeFromVectors] at h
  | cons e rest ih =>
    obtain ⟨k1, v⟩ := e
    simp only [removeFromVectors] at h
    split at h
    · simp only [Option.some.injEq] at h
      rw [← h]
      rfl
    · cases hr : removeFromVectors rest p with
      | none => simp [hr] at h
      | some r =>
        simp only [hr, Option.map_some', Option.some.injEq] at h
        rw [← h]
        simp [ih r hr]

theorem removeFromVectors_mem_old (m m1 : KeyToObjVectorMap) (p : Product)
    (h : removeFromVectors m p = some m1) (e : Key × ObjVector) (he : e ∈ m)
    (hp : p ∉ e.2) : e ∈ m1 := by
  induction m generalizing m1 with
  | nil => cases he
  | cons e1 rest ih =>
    obtain ⟨k1, v⟩ := e1
    simp only [removeFromVectors] at h
    split at h
    · rename_i hpv
      simp only [Option.some.injEq] at h
      rw [← h]
      rcases List.mem_cons.mp he with rfl | he
      · exact absurd hpv hp
      · exact List.mem_cons_of_mem _ he
    · cases hr : removeFromVectors rest p with
      | none => simp [hr] at h
      | some r =>
        simp only [hr, Option.map_some', Option.some.injEq] at h
        rw [← h]
        rcases List.mem_cons.mp he with rfl | he
        · exact List.mem_cons_self _ _
        · exact List.mem_cons_of_mem _ (ih r hr he)

theorem entry_unique (m : KeyToObjVectorMap) (k : Key) (v w : ObjVector)
    (hirr : Key.lt k k = false)
    (hsorted : (m.map Prod.fst).Pairwise (fun k1 k2 => Key.lt k1 k2 = true))
    (hv : (k, v) ∈ m) (hw : (k, w) ∈ m) : v = w := by
  induction m with
  | nil => cases hv
  | cons e rest ih =>
    simp only [List.map_cons, List.pairwise_cons] at hsorted
    rcases List.mem_cons.mp hv with hv | hv
    · rcases List.mem_cons.mp hw with hw | hw
      · rw [← hv] at hw
        exact ((Prod.mk.inj hw).2).symm
      · have := hsorted.1 k (List.mem_map_of_mem Prod.fst hw)
        rw [← hv] at this
        simp only at this
        rw [hirr] at this
        cases this
    · rcases List.mem_cons.mp hw with hw | hw
      · have := hsorted.1 k (List.mem_map_of_mem Prod.fst hv)
        rw [← hw] at this
        simp only at this
        rw [hirr] at this
        cases this
      · exact ih hsorted.2 hv hw

/-- A lookup of a key that is in the map leaves the map as it is and yields
the vector stored under the key. -/
theorem mapIndex_found (n : Nat) (hn : 0 < n) (m : KeyToObjVectorMap) (k : Key)
    (v : ObjVector) (h : MapWF n m) (hkv : (k, v) ∈ m) :
    (mapIndex m k).1 = m ∧ entryAt m (mapIndex m k).2 = v := by
  have hkm : k ∈ m.map Prod.fst := List.mem_map_of_mem Prod.fst hkv
  have hlen := h.1 k hkm
  have hirr := key_lt_irrefl k (by omega)
  have hf := mapIndex_keys_found m k hirr h.2 hkm
  refine ⟨hf.1, ?_⟩
  exact entry_unique m k _ v hirr h.2 (keyAt_entryAt_mem _ _ _ hf.2) hkv

/-! ## Well-formed keys along a run -/

theorem ptrSet_mem {β : Type} (m : PtrMap β) (k : Product) (v : β) (e : Product × β)
    (h : e ∈ ptrSet m k v) : e = (k, v) ∨ e ∈ m := by
  induction m with
  | nil =>
    simp only [ptrSet, List.mem_singleton] at h
    exact Or.inl h
  | cons e1 rest ih =>
    obtain ⟨k1, v1⟩ := e1
    simp only [ptrSet] at h
    split at h
    · rcases List.mem_cons.mp h with h | h
      · exact Or.inl h
      · exact Or.inr h
    · split at h
      · rcases List.mem_cons.mp h with h | h
        · exact Or.inr (h ▸ List.mem_cons_self _ _)
        · rcases ih h with h | h
          · exact Or.inl h
          · exact Or.inr (List.mem_cons_of_mem _ h)
      · rcases List.mem_cons.mp h with h | h
        · exact Or.inl h
        · exact Or.inr (List.mem_cons_of_mem _ h)

theorem keysWF_of_same {n : Nat} {s t : CachedFactory} (h : KeysWF n s)
    (hmap : t.fromKeyToObjVector.map Prod.fst = s.fromKeyToObjVector.map Prod.fst)
    (hreg : ∀ e ∈ t.providedObjects, e ∈ s.providedObjects ∨ e.2.values.length = n) :
    KeysWF n t := by
  refine ⟨h.1, ?_, ?_⟩
  · unfold MapWF
    rw [hmap]
    exact h.2.1
  · intro e he
    rcases hreg e he with h1 | h1
    · exact h.2.2 e h1
    · exact h1

theorem shouldCreateObject_null_frame (s : CachedFactory) (env : Env) :
    (s.shouldCreateObject NULL env).2.fromKeyToObjVector.map Prod.fst
      = s.fromKeyToObjVector.map Prod.fst ∧
    (s.shouldCreateObject NULL env).2.providedObjects = s.providedObjects ∧
    (s.shouldCreateObject NULL env).2.factory = s.factory := by
  have hev : ∀ t : CachedFactory,
      (t.evict env.rand).2.fromKeyToObjVector.map Prod.fst = t.fromKeyToObjVector.map Prod.fst ∧
      (t.evict env.rand).2.providedObjects = t.providedObjects ∧
      (t.evict env.rand).2.factory = t.factory := by
    intro t
    rcases evict_outcome t env.rand with ⟨e, he⟩ | ⟨x, m1, _, h2, he⟩
    · rw [he]
      exact ⟨rfl, rfl, rfl⟩
    · rw [he]
      exact ⟨removeFromVectors_keys _ _ _ h2, rfl, rfl⟩
  rcases shouldCreateObject_null s env with ⟨e, _, he⟩ | ⟨_, he⟩ | ⟨_, ⟨e, _, he⟩ | ⟨_, he⟩⟩
  · rw [he]
    exact ⟨rfl, rfl, rfl⟩
  · rw [he]
    exact ⟨rfl, rfl, rfl⟩
  · rw [he]
    exact hev _
  · rw [he]
    exact hev _

theorem keysWF_createObject {n : Nat} {s : CachedFactory} (id : IdentifierType)
    (parms : List Parm) (env : Env) (hlen : parms.length = n) (h : KeysWF n s) :
    KeysWF n (s.CreateObject id parms env).2 := by
  have h1 : KeysWF n (s.getContainerFromKey ⟨id, parms⟩).1 :=
    ⟨h.1, mapIndex_wf n h.1 _ ⟨id, parms⟩ hlen h.2.1, h.2.2⟩
  have hframe := shouldCreateObject_null_frame (s.getContainerFromKey ⟨id, parms⟩).1 env
  have hreg : ∀ (m : PtrMap Key) (p : Product) (e : Product × Key),
      e ∈ ptrSet m p (⟨id, parms⟩ : Key) → e ∈ m ∨ e.2.values.length = n := by
    intro m p e he
    rcases ptrSet_mem m p _ e he with he | he
    · right
      rw [he]
      exact hlen
    · exact Or.inl he
  rcases createObject_cases s id parms env with
    ⟨p, _, _, _, he⟩ | ⟨_, _, he⟩ | ⟨_, ⟨e, _, _, he⟩ | ⟨_, _, ⟨e, _, he⟩ | ⟨p, _, he⟩⟩⟩
  · rw [he]
    exact keysWF_of_same h1 (modifyEntry_keys _ _ _) (fun e he => hreg _ p e he)
  · rw [he]
    exact h1
  · rw [he]
    exact keysWF_of_same h1 hframe.1 (fun e he => Or.inl (hframe.2.1 ▸ he))
  · rw [he]
    exact keysWF_of_same h1 hframe.1 (fun e he => Or.inl (hframe.2.1 ▸ he))
  · rw [he]
    refine keysWF_of_same h1 hframe.1 (fun e he => ?_)
    rcases hreg _ p e he with he | he
    · exact Or.inl (hframe.2.1 ▸ he)
    · exact Or.inr he

theorem keysWF_releaseObject {n : Nat} {s : CachedFactory} (object : Product)
    (h : KeysWF n s) : KeysWF n (s.ReleaseObject object).2 := by
  cases hfind : ptrFind s.providedObjects object with
  | none =>
    rw [releaseObject_none s object hfind]
    exact h
  | some key =>
    rw [releaseObject_some s object key hfind]
    have hkey : key.values.length = n := h.2.2 _ (ptrFind_some_mem _ _ _ hfind)
    have hwf := mapIndex_wf n h.1 s.fromKeyToObjVector key hkey h.2.1
    refine ⟨h.1, ?_, ?_⟩
    · unfold MapWF
      show (∀ k ∈ (modifyEntry (mapIndex s.fromKeyToObjVector key).1
          (mapIndex s.fromKeyToObjVector key).2 (fun v => v ++ [object])).map Prod.fst,
            k.values.length = n) ∧ _
      rw [modifyEntry_keys]
      exact hwf
    · intro e he
      change e ∈ ptrErase s.providedObjects object at he
      exact h.2.2 e (List.mem_of_mem_filter he)

theorem keysWF_run {n : Nat} {s : CachedFactory} (ops : List Op) (h : KeysWF n s)
    (harity : arityRun n ops = true) : KeysWF n (run s ops) := by
  induction ops generalizing s with
  | nil => exact h
  | cons op rest ih =>
    cases op with
    | register id creator => exact ih (keysWF_of_same h rfl (fun e he => Or.inl he)) harity
    | unregister id => exact ih (keysWF_of_same h rfl (fun e he => Or.inl he)) harity
    | createObject id parms env =>
      simp only [arityRun, Bool.and_eq_true, decide_eq_true_eq] at harity
      exact ih (keysWF_createObject id parms env harity.1 h) harity.2
    | releaseObject object => exact ih (keysWF_releaseObject object h) harity

theorem keysWF_of_isEmpty {n : Nat} {s : CachedFactory} (hn : 0 < n) (h : s.IsEmpty) :
    KeysWF n s := by
  obtain ⟨h1, h2, _, _⟩ := h
  refine ⟨hn, ?_, ?_⟩
  · unfold MapWF
    rw [h1]
    simp
  · rw [h2]
    simp

/-! ## Hits, misses and evictions in closed form -/

/-- A `CreateObject` whose key has a non-null instance at the back of its
vector pops it and hands it out. -/
theorem createObject_hit (s : CachedFactory) (id : IdentifierType) (parms : List Parm)
    (env : Env) (x : Product) (hx : x ≠ NULL)
    (hl : (entryAt (mapIndex s.fromKeyToObjVector ⟨id, parms⟩).1
            (mapIndex s.fromKeyToObjVector ⟨id, parms⟩).2).getLast? = some x) :
    s.CreateObject id parms env =
      CachedFactory.provide
        { s with
          fromKeyToObjVector :=
            modifyEntry (mapIndex s.fromKeyToObjVector ⟨id, parms⟩).1
              (mapIndex s.fromKeyToObjVector ⟨id, parms⟩).2 List.dropLast }
        x ⟨id, parms⟩ := by
  rcases createObject_cases s id parms env with
    ⟨p, _, hl2, _, he⟩ | ⟨hl2, _, _⟩ | ⟨hl2, _⟩
  · change (entryAt (mapIndex s.fromKeyToObjVector ⟨id, parms⟩).1
      (mapIndex s.fromKeyToObjVector ⟨id, parms⟩).2).getLast? = some p at hl2
    rw [hl] at hl2
    simp only [Option.some.injEq] at hl2
    subst hl2
    rw [he]
    rfl
  · change (entryAt (mapIndex s.fromKeyToObjVector ⟨id, parms⟩).1
      (mapIndex s.fromKeyToObjVector ⟨id, parms⟩).2).getLast? = some NULL at hl2
    rw [hl] at hl2
    simp only [Option.some.injEq] at hl2
    exact absurd hl2 hx
  · change (entryAt (mapIndex s.fromKeyToObjVector ⟨id, parms⟩).1
      (mapIndex s.fromKeyToObjVector ⟨id, parms⟩).2).getLast? = none at hl2
    rw [hl] at hl2
    cases hl2

/-- A `CreateObject` whose key has an empty vector, when `shouldCreateObject`
returns and the factory builds `d`. -/
theorem createObject_miss (s s3 : CachedFactory) (id : IdentifierType) (parms : List Parm)
    (env : Env) (d : Product)
    (hl : (entryAt (mapIndex s.fromKeyToObjVector ⟨id, parms⟩).1
            (mapIndex s.fromKeyToObjVector ⟨id, parms⟩).2).getLast? = none)
    (hs : (s.getContainerFromKey ⟨id, parms⟩).1.shouldCreateObject NULL env = (.ok true, s3))
    (hf : s3.factory.CreateObject id parms env.alloc = .ok d) :
    s.CreateObject id parms env =
      (CachedFactory.onCreate { s3 with heap := (d, ⟨id, parms⟩) :: s3.heap } d
        env.clockCreate).provide d ⟨id, parms⟩ := by
  rcases createObject_cases s id parms env with
    ⟨p, _, hl2, _, he⟩ | ⟨hl2, _, _⟩ | ⟨_, ⟨e, he1, _, _⟩ | ⟨_, _, ⟨e, he1, _⟩ | ⟨p, hp, he⟩⟩⟩
  · change (entryAt (mapIndex s.fromKeyToObjVector ⟨id, parms⟩).1
      (mapIndex s.fromKeyToObjVector ⟨id, parms⟩).2).getLast? = some p at hl2
    rw [hl] at hl2
    cases hl2
  · change (entryAt (mapIndex s.fromKeyToObjVector ⟨id, parms⟩).1
      (mapIndex s.fromKeyToObjVector ⟨id, parms⟩).2).getLast? = some NULL at hl2
    rw [hl] at hl2
    cases hl2
  · rw [hs] at he1
    cases he1
  · rw [hs] at he1
    simp only at he1
    rw [hf] at he1
    cases he1
  · rw [hs] at hp he
    simp only at hp he
    rw [hf] at hp
    simp only [Except.ok.injEq] at hp
    subst hp
    exact he

/-- `evict` with `EvictLRU` when `getLowerBound` returns an idle instance. -/
theorem evict_lru_ok (t : CachedFactory) (r : Nat) (m : HitMap) (v : Product)
    (m1 : KeyToObjVectorMap) (hep : t.ep = .lru m)
    (hlow : EvictionHelper.getLowerBound m = .ok v)
    (hreg : ptrFind t.providedObjects v = none)
    (hrem : removeFromVectors t.fromKeyToObjVector v = some m1) :
    t.evict r =
      (.ok (),
       { (t.onDestroy v) with
         fromKeyToObjVector := m1
         heap := t.heap.filter (fun o => !decide (o.1 = v))
         deleted := t.deleted + 1 }) := by
  unfold CachedFactory.evict
  rw [hep]
  simp only [EvictionPolicy.evict, EvictLRU.evict, hlow]
  rcases remove_cases t v with h | ⟨m2, _, h2, h3⟩
  · unfold CachedFactory.remove at h
    rw [hreg, hrem] at h
    cases h
  · rw [hrem] at h2
    simp only [Option.some.injEq] at h2
    subst h2
    exact h3

/-- `shouldCreateObject(NULL)` at capacity with `EvictLRU`, when `getLowerBound`
returns an idle instance: that instance is removed and the creation goes on. -/
theorem shouldCreateObject_full_lru {N : Nat} (t : CachedFactory) (env : Env) (m : HitMap)
    (v : Product) (m1 : KeyToObjVectorMap) (ha : AmountInv N t) (hfull : N ≤ t.heap.length)
    (hep : t.ep = .lru m) (hlow : EvictionHelper.getLowerBound m = .ok v)
    (hreg : ptrFind t.providedObjects v = none)
    (hrem : removeFromVectors t.fromKeyToObjVector v = some m1) :
    t.shouldCreateObject NULL env =
      (.ok true,
       { (t.onDestroy v) with
         fromKeyToObjVector := m1
         heap := t.heap.filter (fun o => !decide (o.1 = v))
         deleted := t.deleted + 1 }) := by
  have hcan := amountInv_canCreate ha env.clockCan
  have hself : ({ t with cp := (t.cp.canCreate env.clockCan).2 } : CachedFactory) = t := by
    rw [hcan]
  have hev := evict_lru_ok t env.rand m v m1 hep hlow hreg hrem
  rcases shouldCreateObject_null t env with ⟨e, h1, _⟩ | ⟨h1, _⟩ | ⟨_, ⟨e, h2, _⟩ | ⟨_, he⟩⟩
  · rw [hcan] at h1
    cases h1
  · rw [hcan] at h1
    simp only [Except.ok.injEq, decide_eq_true_eq] at h1
    omega
  · rw [hself, hev] at h2
    cases h2
  · rw [he, hself, hev]

theorem multimapInsert_append (l : List (Nat × Product)) (x : Nat × Product)
    (h : ∀ y ∈ l, y.1 ≤ x.1) : multimapInsert l x = l ++ [x] := by
  induction l with
  | nil => rfl
  | cons z rest ih =>
    simp only [multimapInsert]
    have hz := h z (List.mem_cons_self _ _)
    have hnot : ¬ x.1 < z.1 := Nat.not_lt.mpr hz
    simp only [hnot, ↓reduceIte, List.cons_append]
    rw [ih (fun y hy => h y (List.mem_cons_of_mem _ hy))]

theorem copyMap_foldl_equal (m : HitMap) (c : Nat) (acc : List (Nat × Product))
    (hacc : ∀ y ∈ acc, y.1 = c) (hm : ∀ e ∈ m, e.2 = c) :
    m.foldl (fun acc e => multimapInsert acc (e.2, e.1)) acc
      = acc ++ m.map (fun e => (e.2, e.1)) := by
  induction m generalizing acc with
  | nil => simp
  | cons e rest ih =>
    have he := hm e (List.mem_cons_self _ _)
    simp only [List.foldl_cons, List.map_cons]
    rw [multimapInsert_append acc (e.2, e.1) (fun y hy => by rw [hacc y hy, he])]
    rw [ih (acc ++ [(e.2, e.1)]) ?_ (fun e1 he1 => hm e1 (List.mem_cons_of_mem _ he1))]
    · simp
    · intro y hy
      rcases List.mem_append.mp hy with hy | hy
      · exact hacc y hy
      · simp only [List.mem_singleton] at hy
        rw [hy]
        exact he

/-- When every tracked instance has the same positive score, `getLowerBound`
returns the first instance of the table, the one with the least address. -/
theorem getLowerBound_all_equal (e0 : Product × Nat) (rest : HitMap) (c : Nat) (hc : 0 < c)
    (hm : ∀ e ∈ e0 :: rest, e.2 = c) :
    EvictionHelper.getLowerBound (e0 :: rest) = .ok e0.1 := by
  have hcopy : EvictionHelper.copyMap (e0 :: rest)
      = (e0.2, e0.1) :: rest.map (fun e => (e.2, e.1)) := by
    unfold EvictionHelper.copyMap
    rw [copyMap_foldl_equal (e0 :: rest) c [] (by simp) hm]
    simp
  unfold EvictionHelper.getLowerBound
  simp only [List.isEmpty_cons, Bool.false_eq_true, ↓reduceIte, hcopy, List.head?_cons]
  cases hlast : ((e0.2, e0.1) :: rest.map (fun e => (e.2, e.1))).getLast? with
  | none => simp at hlast
  | some last =>
    simp only
    have hmem := List.mem_of_getLast?_eq_some hlast
    have hl : last.1 = c := by
      rcases List.mem_cons.mp hmem with h | h
      · rw [h]
        exact hm e0 (List.mem_cons_self _ _)
      · obtain ⟨e, he, rfl⟩ := List.mem_map.mp h
        exact hm e (List.mem_cons_of_mem _ he)
    have : last.1 ≠ 0 := by omega
    simp [this]

theorem ptrFind_of_mem {β : Type} (m : PtrMap β) (k : Product) (v : β)
    (hs : (ptrKeys m).Pairwise (· < ·)) (h : (k, v) ∈ m) : ptrFind m k = some v := by
  induction m with
  | nil => cases h
  | cons e rest ih =>
    obtain ⟨k1, v1⟩ := e
    simp only [ptrKeys, List.map_cons, List.pairwise_cons] at hs
    simp only [ptrFind]
    rcases List.mem_cons.mp h with h | h
    · simp only [Prod.mk.injEq] at h
      simp [h.1, h.2]
    · have hlt := hs.1 k (List.mem_map_of_mem Prod.fst h)
      have hne : k1 ≠ k := Nat.ne_of_lt hlt
      simp only [hne, ↓reduceIte]
      exact ih hs.2 h

/-! ## Three released instances at capacity three -/

theorem three_live {s : CachedFactory} {a b c : Product}
    (hlen : s.heap.length ≤ 3) (hab : a ≠ b) (hac : a ≠ c) (hbc : b ≠ c)
    (ha : a ∈ s.liveObjects) (hb : b ∈ s.liveObjects) (hc : c ∈ s.liveObjects) :
    (∀ x, x ∈ s.liveObjects ↔ x ∈ [a, b, c]) ∧ s.heap.length = 3 := by
  have hnd : [a, b, c].Nodup := by simp [hab, hac, hbc]
  have hsub : [a, b, c] ⊆ s.liveObjects := by
    intro x hx
    simp only [List.mem_cons, List.mem_singleton, List.not_mem_nil, or_false] at hx
    rcases hx with rfl | rfl | rfl
    · exact ha
    · exact hb
    · exact hc
  have hsp := List.subperm_of_subset hnd hsub
  have hll : s.liveObjects.length = s.heap.length := by simp [CachedFactory.liveObjects]
  have hperm := hsp.perm_of_length_le (by rw [hll]; simpa using hlen)
  constructor
  · intro x
    exact (hperm.mem_iff).symm
  · have := hperm.length_eq
    simp only [List.length_cons, List.length_nil] at this
    omega

theorem registry_empty {s : CachedFactory} {a b c : Product} (hi : Inv s)
    (hlive : ∀ x, x ∈ s.liveObjects ↔ x ∈ [a, b, c])
    (ha : a ∈ idleObjects s.fromKeyToObjVector) (hb : b ∈ idleObjects s.fromKeyToObjVector)
    (hc : c ∈ idleObjects s.fromKeyToObjVector) : s.providedObjects = [] := by
  cases hp : s.providedObjects with
  | nil => rfl
  | cons e rest =>
    exfalso
    have hk : e.1 ∈ ptrKeys s.providedObjects := by
      rw [hp]
      simp [ptrKeys]
    have hl := (hlive e.1).mp ((hi.live e.1).mpr (Or.inr (Or.inr hk)))
    simp only [List.mem_cons, List.mem_singleton, List.not_mem_nil, or_false] at hl
    rcases hl with h | h | h
    · exact hi.disjoint e.1 (Or.inr (h ▸ ha)) hk
    · exact hi.disjoint e.1 (Or.inr (h ▸ hb)) hk
    · exact hi.disjoint e.1 (Or.inr (h ▸ hc)) hk

theorem idle_vector {s : CachedFactory} (hi : Inv s) (x : Product) (kx : Key)
    (hx : x ∈ idleObjects s.fromKeyToObjVector) (hxk : (x, kx) ∈ s.heap)
    (hall : ∀ y, y ∈ idleObjects s.fromKeyToObjVector → (y, kx) ∈ s.heap → y = x) :
    ∃ vx, (kx, vx) ∈ s.fromKeyToObjVector ∧ vx.getLast? = some x ∧ ∀ y ∈ vx, y = x := by
  obtain ⟨k1, vx, hm, hxv⟩ := (mem_idleObjects _ _).mp hx
  have hk1 : k1 = kx := heap_key_unique hi x _ _ (hi.idleKey k1 vx x hm hxv) hxk
  subst hk1
  have hys : ∀ y ∈ vx, y = x := fun y hy =>
    hall y ((mem_idleObjects _ _).mpr ⟨k1, vx, hm, hy⟩) (hi.idleKey k1 vx y hm hy)
  refine ⟨vx, hm, ?_, hys⟩
  cases hl : vx.getLast? with
  | none =>
    rw [List.getLast?_eq_none_iff] at hl
    rw [hl] at hxv
    cases hxv
  | some y => rw [hys y (List.mem_of_getLast?_eq_some hl)]

theorem lru_table_picks_least {s : CachedFactory} {a b c v : Product} {m : HitMap}
    (hi : Inv s) (hep : s.ep = .lru m)
    (hlive : ∀ x, x ∈ s.liveObjects ↔ x ∈ [a, b, c])
    (hsa : ptrFind m a = some 1) (hsb : ptrFind m b = some 1) (hsc : ptrFind m c = some 1)
    (hv : v ∈ [a, b, c]) (hva : v ≤ a) (hvb : v ≤ b) (hvc : v ≤ c) :
    EvictionHelper.getLowerBound m = .ok v := by
  have ht := hi.tracked
  rw [hep] at ht
  obtain ⟨hsorted, hkeys⟩ := ht
  have hone : ∀ e ∈ m, e.2 = 1 := by
    intro e he
    have hk : e.1 ∈ [a, b, c] :=
      (hlive e.1).mp ((hkeys e.1).mp (List.mem_map_of_mem Prod.fst he))
    have hf := ptrFind_of_mem m e.1 e.2 hsorted he
    simp only [List.mem_cons, List.mem_singleton, List.not_mem_nil, or_false] at hk
    rcases hk with h | h | h
    · rw [h, hsa] at hf
      simp only [Option.some.injEq] at hf
      exact hf.symm
    · rw [h, hsb] at hf
      simp only [Option.some.injEq] at hf
      exact hf.symm
    · rw [h, hsc] at hf
      simp only [Option.some.injEq] at hf
      exact hf.symm
  have hvk : v ∈ ptrKeys m := (hkeys v).mpr ((hlive v).mpr hv)
  cases m with
  | nil => simp [ptrKeys] at hvk
  | cons e0 rest =>
    have h0 : e0.1 ∈ [a, b, c] :=
      (hlive e0.1).mp ((hkeys e0.1).mp (by simp [ptrKeys]))
    have hle : v ≤ e0.1 := by
      simp only [List.mem_cons, List.mem_singleton, List.not_mem_nil, or_false] at h0
      rcases h0 with h | h | h
      · rw [h]; exact hva
      · rw [h]; exact hvb
      · rw [h]; exact hvc
    have heq : e0.1 = v := by
      simp only [ptrKeys, List.map_cons, List.mem_cons, List.pairwise_cons] at hvk hsorted
      rcases hvk with h | h
      · exact h.symm
      · have := hsorted.1 v h
        exact absurd this (Nat.not_lt.mpr hle)
    rw [← heq]
    exact getLowerBound_all_equal e0 rest 1 (by decide) hone

/-- The fourth `CreateObject` in closed form: with three idle instances of
score `1` at capacity three, a request for a fourth key removes the instance
of least address `v` and hands out the instance built by the factory. -/
theorem lru_fourth_create_core {s : CachedFactory} {a b c v d : Product}
    {ka kb kc : Key} {m : HitMap} (id : IdentifierType) (parms : List Parm) (env : Env)
    (hi : Inv s) (ham : AmountInv 3 s)
    (hab : a ≠ b) (hac : a ≠ c) (hbc : b ≠ c)
    (hka : (a, ka) ∈ s.heap) (hkb : (b, kb) ∈ s.heap) (hkc : (c, kc) ∈ s.heap)
    (hkda : (⟨id, parms⟩ : Key) ≠ ka) (hkdb : (⟨id, parms⟩ : Key) ≠ kb)
    (hkdc : (⟨id, parms⟩ : Key) ≠ kc)
    (hia : a ∈ idleObjects s.fromKeyToObjVector) (hib : b ∈ idleObjects s.fromKeyToObjVector)
    (hic : c ∈ idleObjects s.fromKeyToObjVector)
    (hep : s.ep = .lru m)
    (hsa : ptrFind m a = some 1) (hsb : ptrFind m b = some 1) (hsc : ptrFind m c = some 1)
    (hv : v ∈ [a, b, c]) (hva : v ≤ a) (hvb : v ≤ b) (hvc : v ≤ c)
    (hfac : s.factory.CreateObject id parms env.alloc = .ok d) :
    ∃ m1, removeFromVectors (mapIndex s.fromKeyToObjVector ⟨id, parms⟩).1 v = some m1 ∧
      s.CreateObject id parms env =
        (CachedFactory.onCreate
          { ((s.getContainerFromKey ⟨id, parms⟩).1.onDestroy v) with
            fromKeyToObjVector := m1
            heap := (d, ⟨id, parms⟩) :: s.heap.filter (fun o => !decide (o.1 = v))
            deleted := s.deleted + 1 }
          d env.clockCreate).provide d ⟨id, parms⟩ := by
  have hla : a ∈ s.liveObjects := List.mem_map_of_mem Prod.fst hka
  have hlb : b ∈ s.liveObjects := List.mem_map_of_mem Prod.fst hkb
  have hlc : c ∈ s.liveObjects := List.mem_map_of_mem Prod.fst hkc
  obtain ⟨hlive, hlen⟩ := three_live ham.2 hab hac hbc hla hlb hlc
  have hreg := registry_empty hi hlive hia hib hic
  have hlow := lru_table_picks_least hi hep hlive hsa hsb hsc hv hva hvb hvc
  have hvidle : v ∈ idleObjects s.fromKeyToObjVector := by
    simp only [List.mem_cons, List.mem_singleton, List.not_mem_nil, or_false] at hv
    rcases hv with h | h | h
    · rw [h]; exact hia
    · rw [h]; exact hib
    · rw [h]; exact hic
  have hidle1 := mapIndex_idle s.fromKeyToObjVector ⟨id, parms⟩
  cases hrem : removeFromVectors (mapIndex s.fromKeyToObjVector ⟨id, parms⟩).1 v with
  | none =>
    rw [removeFromVectors_none, hidle1] at hrem
    exact absurd hvidle hrem
  | some m1 =>
    refine ⟨m1, rfl, ?_⟩
    have hs := shouldCreateObject_full_lru (N := 3) (s.getContainerFromKey ⟨id, parms⟩).1 env m v
      m1 ham (by show 3 ≤ s.heap.length; omega) hep hlow
      (by show ptrFind s.providedObjects v = none; rw [hreg]; rfl) hrem
    have hl : (entryAt (mapIndex s.fromKeyToObjVector ⟨id, parms⟩).1
        (mapIndex s.fromKeyToObjVector ⟨id, parms⟩).2).getLast? = none := by
      cases hlast : (entryAt (mapIndex s.fromKeyToObjVector ⟨id, parms⟩).1
          (mapIndex s.fromKeyToObjVector ⟨id, parms⟩).2).getLast? with
      | none => rfl
      | some y =>
        exfalso
        have hy := List.mem_of_getLast?_eq_some hlast
        have hent := keyAt_entryAt_mem _ _ _ (mapIndex_keyAt s.fromKeyToObjVector ⟨id, parms⟩)
        rcases mapIndex_mem _ _ _ hent with hold | hnew
        · have hyk := hi.idleKey _ _ y hold hy
          have hyl : y ∈ [a, b, c] := (hlive y).mp (List.mem_map_of_mem Prod.fst hyk)
          simp only [List.mem_cons, List.mem_singleton, List.not_mem_nil, or_false] at hyl
          rcases hyl with h | h | h
          · exact hkda (heap_key_unique hi a _ _ (h ▸ hyk) hka)
          · exact hkdb (heap_key_unique hi b _ _ (h ▸ hyk) hkb)
          · exact hkdc (heap_key_unique hi c _ _ (h ▸ hyk) hkc)
        · simp only [Prod.mk.injEq, true_and] at hnew
          rw [hnew] at hy
          cases hy
    exact createObject_miss s _ id parms env d hl hs hfac

/-! ## Refusals of the admission policy -/

theorem canCreate_error (cp : CreationPolicy) (t : Int) (e : Error)
    (h : (cp.canCreate t).1 = .error e) : e = .neverCreate ∨ e = .rateLimited := by
  cases cp with
  | neverCreate =>
    simp only [CreationPolicy.canCreate, Except.error.injEq] at h
    exact Or.inl h.symm
  | alwaysCreate => simp [CreationPolicy.canCreate] at h
  | rateLimited p =>
    simp only [CreationPolicy.canCreate, RateLimitedCreation.canCreate] at h
    split at h
    · simp only [Except.error.injEq] at h
      exact Or.inr h.symm
    · cases h
  | amountLimited p => simp [CreationPolicy.canCreate] at h

/-- Only `AmountLimitedCreation` answers false, and it does so without a
change of its state. -/
theorem canCreate_false (cp : CreationPolicy) (t : Int)
    (h : (cp.canCreate t).1 = .ok false) :
    (cp.canCreate t).2 = cp ∧ ∃ a, cp = .amountLimited a ∧ a.canCreate = false := by
  cases cp with
  | neverCreate => simp [CreationPolicy.canCreate] at h
  | alwaysCreate => simp [CreationPolicy.canCreate] at h
  | rateLimited p =>
    simp only [CreationPolicy.canCreate, RateLimitedCreation.canCreate] at h
    split at h
    · cases h
    · simp at h
  | amountLimited p =>
    simp only [CreationPolicy.canCreate, Except.ok.injEq] at h
    exact ⟨rfl, p, rfl, h⟩

theorem factory_createObject_error (f : Factory) (id : IdentifierType) (parms : List Parm)
    (alloc : Product) (e : Error) (h : f.CreateObject id parms alloc = .error e) :
    e = .unknownType := by
  unfold Factory.CreateObject at h
  split at h
  · cases h
  · simp only [Except.error.injEq] at h
    exact h.symm

theorem evict_error_state (s : CachedFactory) (r : Nat) (e : Error)
    (h : (s.evict r).1 = .error e) : s.evict r = (.error e, s) := by
  rcases evict_outcome s r with ⟨e1, h1⟩ | ⟨x, m1, _, _, h1⟩
  · rw [h1] at h ⊢
    simp only [Except.error.injEq] at h
    rw [h]
  · rw [h1] at h
    cases h

theorem mapIndex_idleUnder (m : KeyToObjVectorMap) (k k1 : Key) :
    idleUnder (mapIndex m k).1 k1 = idleUnder m k1 := by
  induction m with
  | nil =>
    simp only [mapIndex, idleUnder, List.filter]
    split <;> simp [idleObjects]
  | cons e rest ih =>
    obtain ⟨k2, v⟩ := e
    simp only [mapIndex]
    split
    · simp only [idleUnder, List.filter] at ih ⊢
      split
      · simp only [idleObjects_cons]
        rw [ih]
      · exact ih
    · split
      · simp only [idleUnder]
        rw [List.filter_cons]
        split
        · rw [idleObjects_cons]
          rfl
        · rfl
      · rfl

/-! ## Statistics -/

theorem incU_decU (n : Nat) : incU (decU n) = n % 2 ^ 32 := by
  unfold incU decU
  split <;> omega

theorem incU_lt_pow (n : Nat) : incU n < 2 ^ 32 := by
  unfold incU
  omega

theorem shouldCreateObject_null_sp (s : CachedFactory) (env : Env) :
    (s.shouldCreateObject NULL env).2.sp = s.sp ∨
    (s.shouldCreateObject NULL env).2.sp = s.sp.onDestroy := by
  have hev : ∀ t : CachedFactory, (t.evict env.rand).2.sp = t.sp ∨
      (t.evict env.rand).2.sp = t.sp.onDestroy := by
    intro t
    rcases evict_outcome t env.rand with ⟨e, he⟩ | ⟨x, m1, _, _, he⟩
    · rw [he]
      exact Or.inl rfl
    · rw [he]
      exact Or.inr rfl
  rcases shouldCreateObject_null s env with ⟨e, _, he⟩ | ⟨_, he⟩ | ⟨_, ⟨e, _, he⟩ | ⟨_, he⟩⟩
  · rw [he]
    exact Or.inl rfl
  · rw [he]
    exact Or.inl rfl
  · rw [he]
    exact hev _
  · rw [he]
    exact hev _

/-- What a `CreateObject` does to the statistic policy, by the kind of the
call: served from the pool, failed, or served by a construction. -/
theorem createObject_tally (s : CachedFactory) (id : IdentifierType) (parms : List Parm)
    (env : Env) :
    (s.servedFromPool id parms = true ∧ s.builds id parms env = false ∧
      succeeded (s.CreateObject id parms env).1 = true ∧
      (s.CreateObject id parms env).2.sp = s.sp.onFetch) ∨
    (s.servedFromPool id parms = false ∧ s.builds id parms env = false ∧
      succeeded (s.CreateObject id parms env).1 = false ∧
      ((s.CreateObject id parms env).2.sp = s.sp ∨
       (s.CreateObject id parms env).2.sp = s.sp.onDestroy)) ∨
    (s.servedFromPool id parms = false ∧ s.builds id parms env = true ∧
      succeeded (s.CreateObject id parms env).1 = true ∧
      ((s.CreateObject id parms env).2.sp = s.sp.onCreate.onFetch ∨
       (s.CreateObject id parms env).2.sp = s.sp.onDestroy.onCreate.onFetch)) := by
  have hsp := shouldCreateObject_null_sp (s.getContainerFromKey ⟨id, parms⟩).1 env
  have hsp0 : (s.getContainerFromKey ⟨id, parms⟩).1.sp = s.sp := rfl
  rw [hsp0] at hsp
  have hserved : ∀ o : Option Product,
      (entryAt (s.getContainerFromKey ⟨id, parms⟩).1.fromKeyToObjVector
        (s.getContainerFromKey ⟨id, parms⟩).2).getLast? = o →
      s.servedFromPool id parms = (match o with
        | some p => !decide (p = NULL)
        | none => false) := by
    intro o ho
    unfold CachedFactory.servedFromPool CachedFactory.getPointerToObjectInContainer
    rw [ho]
    cases o with
    | none => simp [NULL]
    | some p =>
      by_cases hp : p = NULL
      · simp [hp]
      · simp [hp]
  rcases createObject_cases s id parms env with
    ⟨p, hp, hl, hat, he⟩ | ⟨hl, hat, he⟩ |
    ⟨hl, ⟨e, he1, hat, he⟩ | ⟨_, hat, ⟨e, hf, he⟩ | ⟨p, hf, he⟩⟩⟩
  · refine Or.inl ⟨?_, ?_, ?_, ?_⟩
    · rw [hserved _ hl]
      simp [hp]
    · unfold CachedFactory.builds
      rw [hat]
    · rw [he]
      rfl
    · rw [he]
      rfl
  · refine Or.inr (Or.inl ⟨?_, ?_, ?_, ?_⟩)
    · rw [hserved _ hl]
      simp
    · unfold CachedFactory.builds
      rw [hat]
    · rw [he]
      rfl
    · rw [he]
      exact Or.inl rfl
  · refine Or.inr (Or.inl ⟨?_, ?_, ?_, ?_⟩)
    · rw [hserved _ hl]
    · unfold CachedFactory.builds
      rw [hat]
    · rw [he]
      rfl
    · rw [he]
      exact hsp
  · refine Or.inr (Or.inl ⟨?_, ?_, ?_, ?_⟩)
    · rw [hserved _ hl]
    · unfold CachedFactory.builds
      rw [hat]
      simp only [hf]
      rfl
    · rw [he]
      rfl
    · rw [he]
      exact hsp
  · refine Or.inr (Or.inr ⟨?_, ?_, ?_, ?_⟩)
    · rw [hserved _ hl]
    · unfold CachedFactory.builds
      rw [hat]
      simp only [hf]
      rfl
    · rw [he]
      rfl
    · rw [he]
      rcases hsp with h | h
      · left
        show (StatisticPolicy.onCreate _).onFetch = _
        rw [← h]
      · right
        show (StatisticPolicy.onCreate _).onFetch = _
        rw [← h]

theorem releaseObject_sp (s : CachedFactory) (object : Product) :
    (s.ReleaseObject object).2.sp = s.sp ∨ (s.ReleaseObject object).2.sp = s.sp.onRelease := by
  cases hfind : ptrFind s.providedObjects object with
  | none =>
    rw [releaseObject_none s object hfind]
    exact Or.inl rfl
  | some key =>
    rw [releaseObject_some s object key hfind]
    exact Or.inr rfl

theorem countCreate_create (f : CachedFactory → IdentifierType → List Parm → Env → Bool)
    (s : CachedFactory) (id : IdentifierType) (parms : List Parm) (env : Env)
    (rest : List Op) :
    countCreate f s (.createObject id parms env :: rest) =
      (if f s id parms env then 1 else 0) + countCreate f (s.CreateObject id parms env).2 rest :=
  rfl

theorem countCreate_register (f : CachedFactory → IdentifierType → List Parm → Env → Bool)
    (s : CachedFactory) (id : IdentifierType) (creator : ProductCreator) (rest : List Op) :
    countCreate f s (.register id creator :: rest) =
      countCreate f (s.Register id creator).2 rest := by
  simp [countCreate, step]

theorem countCreate_unregister (f : CachedFactory → IdentifierType → List Parm → Env → Bool)
    (s : CachedFactory) (id : IdentifierType) (rest : List Op) :
    countCreate f s (.unregister id :: rest) = countCreate f (s.Unregister id).2 rest := by
  simp [countCreate, step]

theorem countCreate_release (f : CachedFactory → IdentifierType → List Parm → Env → Bool)
    (s : CachedFactory) (object : Product) (rest : List Op) :
    countCreate f s (.releaseObject object :: rest) =
      countCreate f (s.ReleaseObject object).2 rest := by
  simp [countCreate, step]

/-- Every `CreateObject` that returns is either served from the pool or
served by a construction, not both. -/
theorem fetchCount_eq (s : CachedFactory) (ops : List Op) :
    fetchCount s ops = hitCount s ops + buildCount s ops := by
  unfold fetchCount hitCount buildCount
  induction ops generalizing s with
  | nil => rfl
  | cons op rest ih =>
    cases op with
    | register id creator =>
      simp only [countCreate_register]
      exact ih _
    | unregister id =>
      simp only [countCreate_unregister]
      exact ih _
    | releaseObject object =>
      simp only [countCreate_release]
      exact ih _
    | createObject id parms env =>
      simp only [countCreate_create]
      rw [ih]
      rcases createObject_tally s id parms env with
        ⟨h1, h2, h3, _⟩ | ⟨h1, h2, h3, _⟩ | ⟨h1, h2, h3, _⟩
      · simp only [h1, h2, h3]
        simp
        omega
      · simp only [h1, h2, h3]
        simp
      · simp only [h1, h2, h3]
        simp
        omega

/-- The hit counter and the fetch counter along a sequence of calls. -/
theorem hit_fetched_run (ops : List Op) (s : CachedFactory) (p : SimpleStatisticPolicy)
    (hs : s.sp = .simple p) (hh : p.hit < 2 ^ 32) (hf : p.fetched < 2 ^ 32) :
    ∃ q, (run s ops).sp = .simple q ∧
      q.hit = (p.hit + hitCount s ops) % 2 ^ 32 ∧
      q.fetched = (p.fetched + fetchCount s ops) % 2 ^ 32 := by
  unfold hitCount fetchCount
  induction ops generalizing s p with
  | nil =>
    refine ⟨p, hs, ?_, ?_⟩
    · simp only [countCreate]
      omega
    · simp only [countCreate]
      omega
  | cons op rest ih =>
    cases op with
    | register id creator =>
      simp only [countCreate_register]
      exact ih (s.Register id creator).2 p hs hh hf
    | unregister id =>
      simp only [countCreate_unregister]
      exact ih (s.Unregister id).2 p hs hh hf
    | releaseObject object =>
      simp only [countCreate_release]
      rcases releaseObject_sp s object with h | h
      · exact ih (s.ReleaseObject object).2 p (h.trans hs) hh hf
      · refine ih (s.ReleaseObject object).2 p.onRelease ?_ hh hf
        rw [h, hs]
        rfl
    | createObject id parms env =>
      simp only [countCreate_create]
      have hrun : run s (.createObject id parms env :: rest)
          = run (s.CreateObject id parms env).2 rest := rfl
      rw [hrun]
      rcases createObject_tally s id parms env with
        ⟨h1, _, h3, h4⟩ | ⟨h1, _, h3, h4⟩ | ⟨h1, _, h3, h4⟩
      · have hq : (s.CreateObject id parms env).2.sp = .simple p.onFetch := by
          rw [h4, hs]
          rfl
        obtain ⟨q1, hq1, hq2, hq3⟩ := ih _ p.onFetch hq (incU_lt_pow _) (incU_lt_pow _)
        refine ⟨q1, hq1, ?_, ?_⟩
        · rw [hq2]
          simp only [h1, ↓reduceIte]
          show (incU p.hit + _) % 2 ^ 32 = _
          unfold incU
          omega
        · rw [hq3]
          simp only [h3, ↓reduceIte]
          show (incU p.fetched + _) % 2 ^ 32 = _
          unfold incU
          omega
      · have hq : ∃ q, (s.CreateObject id parms env).2.sp = .simple q ∧
            q.hit = p.hit ∧ q.fetched = p.fetched := by
          rcases h4 with h4 | h4
          · exact ⟨p, h4.trans hs, rfl, rfl⟩
          · refine ⟨p.onDestroy, ?_, rfl, rfl⟩
            rw [h4, hs]
            rfl
        obtain ⟨q, hq0, hqh, hqf⟩ := hq
        obtain ⟨q1, hq1, hq2, hq3⟩ := ih _ q hq0 (hqh ▸ hh) (hqf ▸ hf)
        refine ⟨q1, hq1, ?_, ?_⟩
        · rw [hq2, hqh]
          simp [h1]
        · rw [hq3, hqf]
          simp [h3]
      · have hq : ∃ q, (s.CreateObject id parms env).2.sp = .simple q ∧
            q.hit = incU (decU p.hit) ∧ q.fetched = incU p.fetched := by
          rcases h4 with h4 | h4
          · refine ⟨p.onCreate.onFetch, ?_, rfl, rfl⟩
            rw [h4, hs]
            rfl
          · refine ⟨p.onDestroy.onCreate.onFetch, ?_, rfl, rfl⟩
            rw [h4, hs]
            rfl
        obtain ⟨q, hq0, hqh, hqf⟩ := hq
        obtain ⟨q1, hq1, hq2, hq3⟩ := ih _ q hq0 (hqh ▸ incU_lt_pow _) (hqf ▸ incU_lt_pow _)
        refine ⟨q1, hq1, ?_, ?_⟩
        · rw [hq2, hqh, incU_decU]
          have : p.hit % 2 ^ 32 = p.hit := Nat.mod_eq_of_lt hh
          rw [this]
          simp [h1]
        · rw [hq3, hqf]
          simp only [h3, ↓reduceIte]
          unfold incU
          omega

/-! ## The statistics invariant -/

theorem ptrSet_length {β : Type} (m : PtrMap β) (k : Product) (v : β)
    (h : k ∉ ptrKeys m) : (ptrSet m k v).length = m.length + 1 := by
  induction m with
  | nil => rfl
  | cons e rest ih =>
    obtain ⟨k1, v1⟩ := e
    simp only [ptrKeys, List.map_cons, List.mem_cons, not_or] at h
    simp only [ptrSet]
    split
    · rfl
    · split
      · simp only [List.length_cons]
        rw [ih h.2]
      · rename_i h1 h2
        exfalso
        apply h.1
        exact Nat.le_antisymm (Nat.le_of_not_lt h2) (Nat.le_of_not_lt h1)

theorem ptrErase_length {β : Type} (m : PtrMap β) (k : Product)
    (hs : (ptrKeys m).Pairwise (· < ·)) (h : k ∈ ptrKeys m) :
    (ptrErase m k).length + 1 = m.length := by
  induction m with
  | nil => simp [ptrKeys] at h
  | cons e rest ih =>
    obtain ⟨k1, v1⟩ := e
    simp only [ptrKeys, List.map_cons, List.pairwise_cons, List.mem_cons] at hs h
    simp only [ptrErase, List.filter_cons]
    by_cases hk : k1 = k
    · have hrest : rest.filter (fun e => decide (e.1 ≠ k)) = rest := by
        rw [List.filter_eq_self]
        intro o ho
        have hlt := hs.1 o.1 (List.mem_map_of_mem Prod.fst ho)
        have hne : o.1 ≠ k := by
          rw [← hk]
          exact Nat.ne_of_gt hlt
        simp [hne]
      simp only [hk, ne_eq, not_true_eq_false, decide_False, Bool.false_eq_true, ↓reduceIte]
      rw [hrest]
      rfl
    · have hmem : k ∈ ptrKeys rest := by
        rcases h with h | h
        · exact absurd h.symm hk
        · exact h
      have := ih hs.2 hmem
      simp only [ptrErase, ne_eq] at this
      simp only [ne_eq, hk, not_false_eq_true, decide_True, ↓reduceIte, List.length_cons]
      omega

theorem removeFromVectors_idle (m m1 : KeyToObjVectorMap) (p : Product)
    (h : removeFromVectors m p = some m1) : p ∈ idleObjects m := by
  induction m generalizing m1 with
  | nil => simp [removeFromVectors] at h
  | cons e rest ih =>
    obtain ⟨k1, v⟩ := e
    simp only [removeFromVectors] at h
    rw [idleObjects_cons]
    split at h
    · rename_i hp
      exact List.mem_append_left _ hp
    · cases hr : removeFromVectors rest p with
      | none =>
        rw [hr] at h
        cases h
      | some r => exact List.mem_append_right _ (ih r hr)

theorem statInv_of_eq {s t : CachedFactory} (hsp : t.sp = s.sp)
    (hreg : t.providedObjects = s.providedObjects) (hout : t.outObjects = s.outObjects)
    (hheap : t.heap = s.heap) (hdel : t.deleted = s.deleted) (h : StatInv s) : StatInv t := by
  obtain ⟨p, hp, h1, h2, h3, h4⟩ := h
  refine ⟨p, hsp.trans hp, ?_, ?_, ?_, ?_⟩
  · rw [hreg]
    exact h1
  · rw [hout, hreg]
    exact h2
  · rw [hheap]
    exact h3
  · rw [hheap, hdel]
    exact h4

theorem statInv_evict {s : CachedFactory} (r : Nat) (hi : Inv s) (h : StatInv s) :
    StatInv (s.evict r).2 := by
  rcases evict_outcome s r with ⟨e, he⟩ | ⟨x, m1, _, hrem, he⟩
  · rw [he]
    exact h
  · rw [he]
    obtain ⟨p, hp, h1, h2, h3, h4⟩ := h
    have hlive : x ∈ s.heap.map Prod.fst :=
      (hi.live x).mpr (Or.inr (Or.inl (removeFromVectors_idle _ _ _ hrem)))
    have hlen := heap_filter_length s.heap x hi.heapNodup hlive
    refine ⟨p.onDestroy, ?_, h1, h2, ?_, ?_⟩
    · show s.sp.onDestroy = _
      rw [hp]
      rfl
    · show decU p.allocated = (s.heap.filter (fun o => !decide (o.1 = x))).length % 2 ^ 32
      rw [h3, decU_eq_mod]
      omega
    · show p.created
        = ((s.heap.filter (fun o => !decide (o.1 = x))).length + (s.deleted + 1)) % 2 ^ 32
      rw [h4]
      omega

theorem statInv_shouldCreateObject_null {s : CachedFactory} (env : Env) (hi : Inv s)
    (h : StatInv s) : StatInv (s.shouldCreateObject NULL env).2 := by
  have hcp : StatInv { s with cp := (s.cp.canCreate env.clockCan).2 } :=
    statInv_of_eq rfl rfl rfl rfl rfl h
  rcases shouldCreateObject_null s env with ⟨e, _, he⟩ | ⟨_, he⟩ | ⟨_, ⟨e, _, he⟩ | ⟨_, he⟩⟩
  · rw [he]
    exact hcp
  · rw [he]
    exact hcp
  · rw [he]
    exact statInv_evict env.rand (invH_setCp _ hi) hcp
  · rw [he]
    exact statInv_evict env.rand (invH_setCp _ hi) hcp

theorem statInv_provide {s : CachedFactory} (x : Product) (key : Key)
    (hx : x ∉ ptrKeys s.providedObjects) (h : StatInv s) : StatInv (s.provide x key).2 := by
  obtain ⟨p, hp, h1, h2, h3, h4⟩ := h
  have hlen := ptrSet_length s.providedObjects x key hx
  refine ⟨p.onFetch, ?_, ?_, ?_, h3, h4⟩
  · show s.sp.onFetch = _
    rw [hp]
    rfl
  · show incU p.out = (ptrSet s.providedObjects x key).length % 2 ^ 32
    rw [hlen, h1]
    unfold incU
    omega
  · show incU s.outObjects = (ptrSet s.providedObjects x key).length % 2 ^ 32
    rw [hlen, h2]
    unfold incU
    omega

theorem statInv_construct {s : CachedFactory} (x : Product) (key : Key) (now : Int)
    (h : StatInv s) :
    StatInv (CachedFactory.onCreate { s with heap := (x, key) :: s.heap } x now) := by
  obtain ⟨p, hp, h1, h2, h3, h4⟩ := h
  refine ⟨p.onCreate, ?_, h1, h2, ?_, ?_⟩
  · show s.sp.onCreate = _
    rw [hp]
    rfl
  · show incU p.allocated = ((x, key) :: s.heap).length % 2 ^ 32
    rw [h3, List.length_cons]
    unfold incU
    omega
  · show incU p.created = (((x, key) :: s.heap).length + s.deleted) % 2 ^ 32
    rw [h4, List.length_cons]
    unfold incU
    omega

theorem statInv_releaseObject {s : CachedFactory} (object : Product) (hi : Inv s)
    (h : StatInv s) : StatInv (s.ReleaseObject object).2 := by
  cases hfind : ptrFind s.providedObjects object with
  | none =>
    rw [releaseObject_none s object hfind]
    exact h
  | some key =>
    rw [releaseObject_some s object key hfind]
    obtain ⟨p, hp, h1, h2, h3, h4⟩ := h
    have hlen := ptrErase_length s.providedObjects object hi.sorted
      (ptrFind_some_keys _ _ _ hfind)
    refine ⟨p.onRelease, ?_, ?_, ?_, h3, h4⟩
    · show s.sp.onRelease = _
      rw [hp]
      rfl
    · show decU p.out = (ptrErase s.providedObjects object).length % 2 ^ 32
      rw [h1, decU_eq_mod]
      omega
    · show decU s.outObjects = (ptrErase s.providedObjects object).length % 2 ^ 32
      rw [h2, decU_eq_mod]
      omega

theorem statInv_createObject {s : CachedFactory} (id : IdentifierType) (parms : List Parm)
    (env : Env) (hi : Inv s) (h : StatInv s) (hfresh : s.freshCall id parms env = true) :
    StatInv (s.CreateObject id parms env).2 := by
  have hi1 : InvH [] (s.getContainerFromKey ⟨id, parms⟩).1 :=
    invH_getContainerFromKey ⟨id, parms⟩ hi
  have h1 : StatInv (s.getContainerFromKey ⟨id, parms⟩).1 := statInv_of_eq rfl rfl rfl rfl rfl h
  have hs := statInv_shouldCreateObject_null env hi1 h1
  have hi3 := invH_shouldCreateObject_null env hi1
  rcases createObject_cases s id parms env with
    ⟨p, _, hl, _, he⟩ | ⟨_, _, he⟩ | ⟨_, ⟨e, _, _, he⟩ | ⟨_, hat, ⟨e, _, he⟩ | ⟨p, hf, he⟩⟩⟩
  · rw [he]
    apply statInv_provide
    · show p ∉ ptrKeys s.providedObjects
      apply hi1.disjoint p
      right
      rw [mem_idleObjects]
      have hne : entryAt (s.getContainerFromKey ⟨id, parms⟩).1.fromKeyToObjVector
          (s.getContainerFromKey ⟨id, parms⟩).2 ≠ [] :=
        List.ne_nil_of_mem (List.mem_of_getLast?_eq_some hl)
      obtain ⟨k0, hk0⟩ := entryAt_keyAt _ _ hne
      exact ⟨k0, _, keyAt_entryAt_mem _ _ _ hk0, List.mem_of_getLast?_eq_some hl⟩
    · exact statInv_of_eq rfl rfl rfl rfl rfl h
  · rw [he]
    exact h1
  · rw [he]
    exact hs
  · rw [he]
    exact hs
  · rw [he]
    have hnew := freshCall_fresh s id parms env _ p hfresh hat hf
    apply statInv_provide
    · intro hx
      exact hnew ((hi3.live p).mpr (Or.inr (Or.inr hx)))
    · exact statInv_construct p ⟨id, parms⟩ env.clockCreate hs

theorem statInv_run {s : CachedFactory} (ops : List Op) (hi : Inv s) (h : StatInv s)
    (hfresh : freshRun s ops = true) : StatInv (run s ops) := by
  induction ops generalizing s with
  | nil => exact h
  | cons op rest ih =>
    simp only [freshRun, Bool.and_eq_true] at hfresh
    cases op with
    | register id creator =>
      exact ih (invH_setFactory _ hi) (statInv_of_eq rfl rfl rfl rfl rfl h) hfresh.2
    | unregister id =>
      exact ih (invH_setFactory _ hi) (statInv_of_eq rfl rfl rfl rfl rfl h) hfresh.2
    | createObject id parms env =>
      exact ih (inv_createObject id parms env hi hfresh.1)
        (statInv_createObject id parms env hi h hfresh.1) hfresh.2
    | releaseObject object =>
      exact ih (inv_releaseObject object hi) (statInv_releaseObject object hi h) hfresh.2

/-! ## A run of constructions only -/

theorem entryAt_all_empty (m : KeyToObjVectorMap) (h : ∀ e ∈ m, e.2 = []) (i : Nat) :
    entryAt m i = [] := by
  induction m generalizing i with
  | nil => rfl
  | cons e rest ih =>
    obtain ⟨k, v⟩ := e
    cases i with
    | zero => exact h (k, v) (List.mem_cons_self _ _)
    | succ j => exact ih (fun e he => h e (List.mem_cons_of_mem _ he)) j

theorem atFactoryCall_miss (s s3 : CachedFactory) (id : IdentifierType) (parms : List Parm)
    (env : Env)
    (hl : (entryAt (mapIndex s.fromKeyToObjVector ⟨id, parms⟩).1
            (mapIndex s.fromKeyToObjVector ⟨id, parms⟩).2).getLast? = none)
    (hs : (s.getContainerFromKey ⟨id, parms⟩).1.shouldCreateObject NULL env = (.ok true, s3)) :
    s.atFactoryCall id parms env = some s3 := by
  rcases createObject_cases s id parms env with
    ⟨p, _, hl2, _, _⟩ | ⟨hl2, _, _⟩ | ⟨_, ⟨e, he1, _, _⟩ | ⟨_, hat, _⟩⟩
  · change (entryAt (mapIndex s.fromKeyToObjVector ⟨id, parms⟩).1
      (mapIndex s.fromKeyToObjVector ⟨id, parms⟩).2).getLast? = some p at hl2
    rw [hl] at hl2
    cases hl2
  · change (entryAt (mapIndex s.fromKeyToObjVector ⟨id, parms⟩).1
      (mapIndex s.fromKeyToObjVector ⟨id, parms⟩).2).getLast? = some NULL at hl2
    rw [hl] at hl2
    cases hl2
  · rw [hs] at he1
    cases he1
  · rw [hat, hs]

/-- On a cache with `AlwaysCreate` whose idle pool holds no instance, `n`
calls of `CreateObject(1)` that each get a new address from the allocator
each build an instance, and the registry grows by `n` entries. -/
theorem creates_run (n : Nat) (a : Product) (s : CachedFactory)
    (hcp : s.cp = .alwaysCreate)
    (hfac : assocFind s.factory.associations_ 1 = some newObject)
    (hvec : ∀ e ∈ s.fromKeyToObjVector, e.2 = [])
    (hlive : ∀ x ∈ s.liveObjects, x < a)
    (hreg : ∀ x ∈ ptrKeys s.providedObjects, x < a) :
    freshRun s (createsFrom a n) = true ∧
    (run s (createsFrom a n)).providedObjects.length = s.providedObjects.length + n := by
  induction n generalizing a s with
  | zero => exact ⟨rfl, rfl⟩
  | succ n ih =>
    have hvec1 : ∀ e ∈ (mapIndex s.fromKeyToObjVector ⟨1, []⟩).1, e.2 = [] := by
      intro e he
      rcases mapIndex_mem _ _ e he with h | h
      · exact hvec e h
      · rw [h]
    have hl : (entryAt (mapIndex s.fromKeyToObjVector ⟨1, []⟩).1
        (mapIndex s.fromKeyToObjVector ⟨1, []⟩).2).getLast? = none := by
      rw [entryAt_all_empty _ hvec1]
      rfl
    have hs : (s.getContainerFromKey ⟨1, []⟩).1.shouldCreateObject NULL (envAt a)
        = (.ok true, (s.getContainerFromKey ⟨1, []⟩).1) := by
      have hcp1 : (s.getContainerFromKey ⟨1, []⟩).1.cp = .alwaysCreate := hcp
      generalize (s.getContainerFromKey ⟨1, []⟩).1 = s1 at hcp1 ⊢
      unfold CachedFactory.shouldCreateObject
      simp only [ne_eq, not_true_eq_false, ↓reduceIte, hcp1, CreationPolicy.canCreate]
      rw [← hcp1]
    have hf : (s.getContainerFromKey ⟨1, []⟩).1.factory.CreateObject 1 [] (envAt a).alloc
        = .ok a := by
      show s.factory.CreateObject 1 [] a = .ok a
      unfold Factory.CreateObject
      rw [hfac]
      rfl
    have hstep := createObject_miss s _ 1 [] (envAt a) a hl hs hf
    have hat := atFactoryCall_miss s _ 1 [] (envAt a) hl hs
    have hfreshCall : s.freshCall 1 [] (envAt a) = true := by
      unfold CachedFactory.freshCall
      rw [hat]
      simp only [hf]
      have hna : a ∉ s.liveObjects := fun hx => Nat.lt_irrefl a (hlive a hx)
      have hsame : (s.getContainerFromKey ⟨1, []⟩).1.liveObjects = s.liveObjects := rfl
      rw [hsame]
      simp [hna]
    have hna : a ∉ ptrKeys s.providedObjects := fun hx => Nat.lt_irrefl a (hreg a hx)
    have hpost : ∀ t : CachedFactory, t = (s.CreateObject 1 [] (envAt a)).2 →
        t.cp = .alwaysCreate ∧ assocFind t.factory.associations_ 1 = some newObject ∧
        (∀ e ∈ t.fromKeyToObjVector, e.2 = []) ∧
        (∀ x ∈ t.liveObjects, x < a + 1) ∧
        (∀ x ∈ ptrKeys t.providedObjects, x < a + 1) ∧
        t.providedObjects.length = s.providedObjects.length + 1 := by
      intro t ht
      rw [hstep] at ht
      subst ht
      refine ⟨?_, hfac, hvec1, ?_, ?_, ?_⟩
      · show s.cp.onCreate _ = _
        rw [hcp]
        rfl
      · intro x hx
        change x ∈ (a, (⟨1, []⟩ : Key)).1 :: s.heap.map Prod.fst at hx
        rcases List.mem_cons.mp hx with h | h
        · rw [h]
          exact Nat.lt_succ_self a
        · exact Nat.lt_succ_of_lt (hlive x h)
      · intro x hx
        change x ∈ ptrKeys (ptrSet s.providedObjects a ⟨1, []⟩) at hx
        rcases (mem_ptrKeys_ptrSet _ _ _ _).mp hx with h | h
        · rw [h]
          exact Nat.lt_succ_self a
        · exact Nat.lt_succ_of_lt (hreg x h)
      · exact ptrSet_length s.providedObjects a ⟨1, []⟩ hna
    obtain ⟨p1, p2, p3, p4, p5, p6⟩ := hpost _ rfl
    obtain ⟨ih1, ih2⟩ := ih (a + 1) (s.CreateObject 1 [] (envAt a)).2 p1 p2 p3 p4 p5
    constructor
    · show (s.freshCall 1 [] (envAt a) &&
        freshRun (s.CreateObject 1 [] (envAt a)).2 (createsFrom (a + 1) n)) = true
      rw [hfreshCall, ih1]
      rfl
    · show (run (s.CreateObject 1 [] (envAt a)).2 (createsFrom (a + 1) n)).providedObjects.length
        = _
      rw [ih2, p6]
      omega

/-- On the sample cache without construction parameter, `n` calls of
`CreateObject(1)` leave `n` instances checked out and the out statistic at
`n` modulo `2^32`. -/
theorem creates_out (n : Nat) :
    freshRun noParmCache (createsFrom 1 n) = true ∧
    (run noParmCache (createsFrom 1 n)).providedObjects.length = n ∧
    (run noParmCache (createsFrom 1 n)).stats.getOut = n % 2 ^ 32 := by
  have hcp : noParmCache.cp = .alwaysCreate := rfl
  have hfac : assocFind noParmCache.factory.associations_ 1 = some newObject := rfl
  have hvec : ∀ e ∈ noParmCache.fromKeyToObjVector, e.2 = [] :=
    fun e he => absurd he (List.not_mem_nil e)
  have hlive : ∀ x ∈ noParmCache.liveObjects, x < 1 :=
    fun x hx => absurd hx (List.not_mem_nil x)
  have hreg : ∀ x ∈ ptrKeys noParmCache.providedObjects, x < 1 :=
    fun x hx => absurd hx (List.not_mem_nil x)
  have hzero : noParmCache.providedObjects.length = 0 := rfl
  have hinv : Inv noParmCache := inv_of_isEmpty ⟨rfl, rfl, rfl, rfl⟩
  have hstat : StatInv noParmCache := ⟨SimpleStatisticPolicy.init, rfl, rfl, rfl, rfl, rfl⟩
  obtain ⟨hfresh, hlen⟩ := creates_run n 1 noParmCache hcp hfac hvec hlive hreg
  rw [hzero, Nat.zero_add] at hlen
  obtain ⟨p, hp, hout, _, _, _⟩ := statInv_run (createsFrom 1 n) hinv hstat hfresh
  refine ⟨hfresh, hlen, ?_⟩
  unfold CachedFactory.stats
  rw [hp]
  show p.out = n % 2 ^ 32
  rw [hout, hlen]

/-! ## The factory's associations -/

theorem assocFind_eq_none (m : IdToProductMap) (id : IdentifierType) :
    assocFind m id = none ↔ id ∉ m.map Prod.fst := by
  induction m with
  | nil => simp [assocFind]
  | cons e rest ih =>
    obtain ⟨i, c⟩ := e
    simp only [assocFind, List.map_cons, List.mem_cons, not_or]
    by_cases h : i = id
    · simp [h]
    · simp [h, ih, Ne.symm h]

theorem assocInsert_new (m : IdToProductMap) (id : IdentifierType) (c : ProductCreator)
    (hs : (m.map Prod.fst).Pairwise (· < ·)) :
    ((assocInsert m id c).2 = true ↔ assocFind m id = none) ∧
    ((assocInsert m id c).2 = false → (assocInsert m id c).1 = m) := by
  induction m with
  | nil => simp [assocInsert, assocFind]
  | cons e rest ih =>
    obtain ⟨i, c1⟩ := e
    simp only [List.map_cons, List.pairwise_cons] at hs
    simp only [assocInsert, assocFind]
    by_cases h1 : id < i
    · simp only [h1, ↓reduceIte, true_iff]
      have hne : i ≠ id := ne_of_gt h1
      simp only [hne, ↓reduceIte]
      refine ⟨?_, fun h => by cases h⟩
      rw [assocFind_eq_none]
      intro hmem
      exact lt_asymm h1 (hs.1 id hmem)
    · by_cases h2 : i < id
      · have hne : i ≠ id := ne_of_lt h2
        simp only [h1, h2, hne, ↓reduceIte]
        refine ⟨(ih hs.2).1, fun h => ?_⟩
        rw [(ih hs.2).2 h]
      · have heq : i = id := le_antisymm (not_lt.mp h1) (not_lt.mp h2)
        simp [h1, h2, heq]

theorem assocFind_assocInsert (m : IdToProductMap) (id : IdentifierType) (c : ProductCreator)
    (id1 : IdentifierType) :
    assocFind (assocInsert m id c).1 id1 =
      if id1 = id ∧ (assocInsert m id c).2 = true then some c else assocFind m id1 := by
  induction m with
  | nil =>
    simp only [assocInsert, assocFind]
    by_cases h : id = id1
    · simp [h]
    · simp [h, Ne.symm h]
  | cons e rest ih =>
    obtain ⟨i, c1⟩ := e
    simp only [assocInsert]
    by_cases h1 : id < i
    · simp only [h1, ↓reduceIte, assocFind, and_true]
      by_cases h : id = id1
      · simp [h]
      · simp [h, Ne.symm h]
    · by_cases h2 : i < id
      · simp only [h1, h2, ↓reduceIte, assocFind, ih]
        by_cases h : i = id1
        · have hne : ¬ id1 = id := fun h3 => ne_of_lt h2 (h.trans h3)
          simp [h, hne]
        · simp [h]
      · simp [h1, h2]

theorem assocInsert_sorted (m : IdToProductMap) (id : IdentifierType) (c : ProductCreator)
    (hs : (m.map Prod.fst).Pairwise (· < ·)) :
    ((assocInsert m id c).1.map Prod.fst).Pairwise (· < ·) ∧
    ∀ x ∈ (assocInsert m id c).1.map Prod.fst, x = id ∨ x ∈ m.map Prod.fst := by
  induction m with
  | nil => simp [assocInsert]
  | cons e rest ih =>
    obtain ⟨i, c1⟩ := e
    simp only [List.map_cons, List.pairwise_cons] at hs
    simp only [assocInsert]
    by_cases h1 : id < i
    · simp only [h1, ↓reduceIte, List.map_cons, List.pairwise_cons, List.mem_cons]
      refine ⟨⟨?_, hs.1, hs.2⟩, ?_⟩
      · intro a ha
        rcases ha with rfl | ha
        · exact h1
        · exact lt_trans h1 (hs.1 a ha)
      · intro x hx
        rcases hx with rfl | hx
        · exact Or.inl rfl
        · exact Or.inr hx
    · by_cases h2 : i < id
      · simp only [h1, h2, ↓reduceIte, List.map_cons, List.pairwise_cons, List.mem_cons]
        obtain ⟨ih1, ih2⟩ := ih hs.2
        refine ⟨⟨?_, ih1⟩, ?_⟩
        · intro a ha
          rcases ih2 a ha with rfl | ha
          · exact h2
          · exact hs.1 a ha
        · intro x hx
          rcases hx with rfl | hx
          · exact Or.inr (Or.inl rfl)
          · rcases ih2 x hx with h | h
            · exact Or.inl h
            · exact Or.inr (Or.inr h)
      · simp only [h1, h2, ↓reduceIte, List.map_cons, List.pairwise_cons, List.mem_cons]
        refine ⟨⟨hs.1, hs.2⟩, ?_⟩
        intro x hx
        exact Or.inr hx

theorem assocFind_filter (m : IdToProductMap) (id id1 : IdentifierType) :
    assocFind (m.filter (fun e => decide (e.1 ≠ id))) id1 =
      if id1 = id then none else assocFind m id1 := by
  induction m with
  | nil => simp [assocFind]
  | cons e rest ih =>
    obtain ⟨i, c⟩ := e
    simp only [List.filter_cons]
    by_cases h : i = id
    · subst h
      simp only [ne_eq, not_true_eq_false, decide_False, Bool.false_eq_true, ↓reduceIte, ih,
        assocFind]
      by_cases hx : id1 = i
      · simp [hx]
      · simp [hx, Ne.symm hx]
    · simp only [ne_eq, h, not_false_eq_true, decide_True, ↓reduceIte, assocFind, ih]
      by_cases hx : i = id1
      · have : ¬ id1 = id := fun h3 => h (hx.trans h3)
        simp [hx, this]
      · simp [hx]

/-! ## `NeverCreate` -/

theorem idleObjects_all_empty (m : KeyToObjVectorMap) (h : ∀ e ∈ m, e.2 = []) :
    idleObjects m = [] := by
  induction m with
  | nil => rfl
  | cons e rest ih =>
    obtain ⟨k, v⟩ := e
    rw [idleObjects_cons, ih (fun e he => h e (List.mem_cons_of_mem _ he))]
    have : v = [] := h (k, v) (List.mem_cons_self _ _)
    rw [this]
    rfl

theorem never_createObject {s : CachedFactory} (id : IdentifierType) (parms : List Parm)
    (env : Env) (h : NeverInv s) :
    s.CreateObject id parms env = (.error .neverCreate, (s.getContainerFromKey ⟨id, parms⟩).1) ∧
    s.atFactoryCall id parms env = none ∧
    NeverInv (s.CreateObject id parms env).2 := by
  obtain ⟨hcp, hvec, hreg, hheap⟩ := h
  have hvec1 : ∀ e ∈ (mapIndex s.fromKeyToObjVector ⟨id, parms⟩).1, e.2 = [] := by
    intro e he
    rcases mapIndex_mem _ _ e he with h | h
    · exact hvec e h
    · rw [h]
  have hl : (entryAt (s.getContainerFromKey ⟨id, parms⟩).1.fromKeyToObjVector
      (s.getContainerFromKey ⟨id, parms⟩).2).getLast? = none := by
    show (entryAt (mapIndex s.fromKeyToObjVector ⟨id, parms⟩).1 _).getLast? = none
    rw [entryAt_all_empty _ hvec1]
    rfl
  have hcp1 : (s.getContainerFromKey ⟨id, parms⟩).1.cp = .neverCreate := hcp
  have hinv1 : NeverInv (s.getContainerFromKey ⟨id, parms⟩).1 := ⟨hcp, hvec1, hreg, hheap⟩
  have hsh : (s.getContainerFromKey ⟨id, parms⟩).1.shouldCreateObject NULL env
      = (.error .neverCreate, (s.getContainerFromKey ⟨id, parms⟩).1) := by
    generalize (s.getContainerFromKey ⟨id, parms⟩).1 = s1 at hcp1 ⊢
    unfold CachedFactory.shouldCreateObject
    simp only [ne_eq, not_true_eq_false, ↓reduceIte, hcp1, CreationPolicy.canCreate]
    rw [← hcp1]
  have key : s.CreateObject id parms env
        = (.error .neverCreate, (s.getContainerFromKey ⟨id, parms⟩).1) ∧
      s.atFactoryCall id parms env = none := by
    rcases createObject_cases s id parms env with
      ⟨p, _, hl2, _, _⟩ | ⟨hl2, _, _⟩ | ⟨_, ⟨e, he1, hat, he⟩ | ⟨hok, _⟩⟩
    · rw [hl] at hl2
      cases hl2
    · rw [hl] at hl2
      cases hl2
    · rw [hsh] at he1 he
      simp only [Except.error.injEq] at he1
      subst he1
      exact ⟨he, hat⟩
    · rw [hsh] at hok
      cases hok
  refine ⟨key.1, key.2, ?_⟩
  rw [key.1]
  exact hinv1

theorem never_releaseObject {s : CachedFactory} (object : Product) (h : NeverInv s) :
    s.ReleaseObject object = (.error .cache, s) := by
  apply releaseObject_none
  rw [h.2.2.1]
  rfl

theorem never_run {s : CachedFactory} (ops : List Op) (h : NeverInv s) :
    NeverInv (run s ops) ∧ fetchCount s ops = 0 ∧ buildCount s ops = 0 := by
  unfold fetchCount buildCount
  induction ops generalizing s with
  | nil => exact ⟨h, rfl, rfl⟩
  | cons op rest ih =>
    cases op with
    | register id creator =>
      simp only [countCreate_register]
      exact ih (s := (s.Register id creator).2) h
    | unregister id =>
      simp only [countCreate_unregister]
      exact ih (s := (s.Unregister id).2) h
    | releaseObject object =>
      simp only [countCreate_release]
      have hrun : run s (.releaseObject object :: rest) = run (s.ReleaseObject object).2 rest :=
        rfl
      rw [hrun, never_releaseObject object h]
      exact ih h
    | createObject id parms env =>
      simp only [countCreate_create]
      have hc := never_createObject id parms env h
      have hrun : run s (.createObject id parms env :: rest)
          = run (s.CreateObject id parms env).2 rest := rfl
      rw [hrun]
      obtain ⟨i1, i2, i3⟩ := ih hc.2.2
      refine ⟨i1, ?_, ?_⟩
      · rw [i2]
        have : succeeded (s.CreateObject id parms env).1 = false := by
          rw [hc.1]
          rfl
        simp [this]
      · rw [i3]
        have : s.builds id parms env = false := by
          unfold CachedFactory.builds
          rw [hc.2.1]
        simp [this]

/-! ## The effect of a successful `remove` -/

theorem entryAt_subset_idle (m : KeyToObjVectorMap) (i : Nat) (y : Product)
    (h : y ∈ entryAt m i) : y ∈ idleObjects m := by
  obtain ⟨k, hk⟩ := entryAt_keyAt m i (List.ne_nil_of_mem h)
  exact (mem_idleObjects _ _).mpr ⟨k, _, keyAt_entryAt_mem _ _ _ hk, h⟩

theorem removeFromVectors_entries (m m1 : KeyToObjVectorMap) (x : Product)
    (h : removeFromVectors m x = some m1) (hnd : (idleObjects m).Nodup) (i : Nat) :
    entryAt m1 i = (entryAt m i).filter (fun y => !decide (y = x)) := by
  induction m generalizing m1 i with
  | nil => simp [removeFromVectors] at h
  | cons e rest ih =>
    obtain ⟨k, v⟩ := e
    simp only [removeFromVectors] at h
    rw [idleObjects_cons, List.nodup_append] at hnd
    split at h
    · rename_i hx
      simp only [Option.some.injEq] at h
      subst h
      cases i with
      | zero => rfl
      | succ j =>
        show entryAt rest j = (entryAt rest j).filter _
        symm
        rw [List.filter_eq_self]
        intro y hy
        have hne : y ≠ x := by
          intro hyx
          subst hyx
          exact hnd.2.2 hx (entryAt_subset_idle rest j y hy)
        simp [hne]
    · rename_i hx
      cases hr : removeFromVectors rest x with
      | none =>
        rw [hr] at h
        cases h
      | some r =>
        rw [hr] at h
        simp only [Option.map_some', Option.some.injEq] at h
        subst h
        cases i with
        | zero =>
          show v = v.filter _
          symm
          rw [List.filter_eq_self]
          intro y hy
          have hne : y ≠ x := fun hyx => hx (hyx ▸ hy)
          simp [hne]
        | succ j => exact ih r hr hnd.2.1 j

theorem removeFromVectors_gone (m m1 : KeyToObjVectorMap) (x : Product)
    (h : removeFromVectors m x = some m1) (hnd : (idleObjects m).Nodup) :
    x ∉ idleObjects m1 := by
  have hperm := removeFromVectors_perm m m1 x h hnd
  have hnd1 := (hperm.nodup_iff).mp hnd
  rw [List.nodup_cons] at hnd1
  exact hnd1.1

/-! ## The scores of `EvictLRU` -/

theorem lruInv_of_eq {s t : CachedFactory} {f : Product → Nat} (hep : t.ep = s.ep)
    (hheap : t.heap = s.heap) (h : LruInv s f) : LruInv t f := by
  obtain ⟨m, hm, hall⟩ := h
  refine ⟨m, hep.trans hm, ?_⟩
  intro x hx
  apply hall
  show x ∈ s.heap.map Prod.fst
  rw [← hheap]
  exact hx

theorem lruInv_evict {s : CachedFactory} {f : Product → Nat} (r : Nat) (h : LruInv s f) :
    LruInv (s.evict r).2 f := by
  rcases evict_outcome s r with ⟨e, he⟩ | ⟨x, m1, _, _, he⟩
  · rw [he]
    exact h
  · rw [he]
    obtain ⟨m, hm, hall⟩ := h
    refine ⟨ptrErase m x, ?_, ?_⟩
    · show s.ep.onDestroy x = _
      rw [hm]
      rfl
    · intro y hy
      change y ∈ (s.heap.filter (fun o => !decide (o.1 = x))).map Prod.fst at hy
      rw [liveObjects_filter, List.mem_filter] at hy
      have hne : y ≠ x := by simpa using hy.2
      rw [ptrFind_ptrErase]
      simp only [hne, ↓reduceIte]
      exact hall y hy.1

theorem lruInv_shouldCreateObject_null {s : CachedFactory} {f : Product → Nat} (env : Env)
    (h : LruInv s f) : LruInv (s.shouldCreateObject NULL env).2 f := by
  have hcp : LruInv { s with cp := (s.cp.canCreate env.clockCan).2 } f :=
    lruInv_of_eq rfl rfl h
  rcases shouldCreateObject_null s env with ⟨e, _, he⟩ | ⟨_, he⟩ | ⟨_, ⟨e, _, he⟩ | ⟨_, he⟩⟩
  · rw [he]
    exact hcp
  · rw [he]
    exact hcp
  · rw [he]
    exact lruInv_evict env.rand hcp
  · rw [he]
    exact lruInv_evict env.rand hcp

theorem lruInv_createObject {s : CachedFactory} {f : Product → Nat} (id : IdentifierType)
    (parms : List Parm) (env : Env) (h : LruInv s f) :
    LruInv (s.CreateObject id parms env).2 (tallyStep s f (.createObject id parms env)) := by
  have h1 : LruInv (s.getContainerFromKey ⟨id, parms⟩).1 f := lruInv_of_eq rfl rfl h
  have hs := lruInv_shouldCreateObject_null env h1
  have hnone : s.atFactoryCall id parms env = none →
      tallyStep s f (.createObject id parms env) = f := by
    intro hat
    simp only [tallyStep, CachedFactory.built, hat]
  rcases createObject_cases s id parms env with
    ⟨p, _, hl, hat, he⟩ | ⟨_, hat, he⟩ |
    ⟨_, ⟨e, _, hat, he⟩ | ⟨_, hat, ⟨e, hf, he⟩ | ⟨p, hf, he⟩⟩⟩
  · rw [he, hnone hat]
    obtain ⟨m, hm, hall⟩ := h
    refine ⟨m, ?_, hall⟩
    show s.ep.onFetch p = _
    rw [evictionPolicy_onFetch_eq]
    exact hm
  · rw [he, hnone hat]
    exact h1
  · rw [he, hnone hat]
    exact hs
  · rw [he]
    have : tallyStep s f (.createObject id parms env) = f := by
      simp only [tallyStep, CachedFactory.built, hat, hf]
    rw [this]
    exact hs
  · rw [he]
    have : tallyStep s f (.createObject id parms env) = Function.update f p 0 := by
      simp only [tallyStep, CachedFactory.built, hat, hf]
    rw [this]
    obtain ⟨m, hm, hall⟩ := hs
    refine ⟨ptrSet m p 0, ?_, ?_⟩
    · show (EvictionPolicy.onCreate _ p).onFetch p = _
      rw [evictionPolicy_onFetch_eq]
      show EvictionPolicy.onCreate
        ((s.getContainerFromKey ⟨id, parms⟩).1.shouldCreateObject NULL env).2.ep p = _
      rw [hm]
      rfl
    · intro y hy
      change y ∈ (p, (⟨id, parms⟩ : Key)).1 ::
        ((s.getContainerFromKey ⟨id, parms⟩).1.shouldCreateObject NULL env).2.heap.map Prod.fst
        at hy
      rw [ptrFind_ptrSet]
      by_cases hyp : y = p
      · subst hyp
        simp
      · simp only [hyp, ↓reduceIte, Function.update_noteq hyp]
        rcases List.mem_cons.mp hy with h2 | h2
        · exact absurd h2 hyp
        · exact hall y h2

theorem lruInv_releaseObject {s : CachedFactory} {f : Product → Nat} (object : Product)
    (h : LruInv s f) :
    LruInv (s.ReleaseObject object).2 (tallyStep s f (.releaseObject object)) := by
  cases hfind : ptrFind s.providedObjects object with
  | none =>
    have hr := releaseObject_none s object hfind
    have : tallyStep s f (.releaseObject object) = f := by
      simp only [tallyStep, hr, succeeded]
      rfl
    rw [this, hr]
    exact h
  | some key =>
    have hr := releaseObject_some s object key hfind
    have : tallyStep s f (.releaseObject object)
        = Function.update f object (f object + 1) := by
      simp only [tallyStep, hr, succeeded]
      rfl
    rw [this, hr]
    obtain ⟨m, hm, hall⟩ := h
    refine ⟨ptrSet m object (incU ((ptrFind m object).getD 0)), ?_, ?_⟩
    · show s.ep.onRelease object = _
      rw [hm]
      rfl
    · intro y hy
      rw [ptrFind_ptrSet]
      by_cases hyo : y = object
      · subst hyo
        simp only [↓reduceIte, Function.update_same, Option.some.injEq]
        rw [hall y hy]
        simp only [Option.getD_some]
        unfold incU
        omega
      · simp only [hyo, ↓reduceIte, Function.update_noteq hyo]
        exact hall y hy

theorem lruInv_run {s : CachedFactory} {f : Product → Nat} (ops : List Op) (h : LruInv s f) :
    LruInv (run s ops) (releaseTally s ops f) := by
  induction ops generalizing s f with
  | nil => exact h
  | cons op rest ih =>
    show LruInv (run (step s op) rest) (releaseTally (step s op) rest (tallyStep s f op))
    apply ih
    cases op with
    | register id creator => exact lruInv_of_eq rfl rfl h
    | unregister id => exact lruInv_of_eq rfl rfl h
    | createObject id parms env => exact lruInv_createObject id parms env h
    | releaseObject object => exact lruInv_releaseObject object h

theorem shouldCreateObject_null_lru (s : CachedFactory) (m : HitMap) (env : Env)
    (hm : s.ep = .lru m) :
    ∃ m3, (s.shouldCreateObject NULL env).2.ep = .lru m3 ∧
      ∀ y ∈ (s.shouldCreateObject NULL env).2.liveObjects, ptrFind m3 y = ptrFind m y := by
  have hev : ∀ t : CachedFactory, t.ep = .lru m →
      ∃ m3, (t.evict env.rand).2.ep = .lru m3 ∧
        ∀ y ∈ (t.evict env.rand).2.liveObjects, ptrFind m3 y = ptrFind m y := by
    intro t ht
    rcases evict_outcome t env.rand with ⟨e, he⟩ | ⟨x, m1, _, _, he⟩
    · rw [he]
      exact ⟨m, ht, fun _ _ => rfl⟩
    · rw [he]
      refine ⟨ptrErase m x, ?_, ?_⟩
      · show t.ep.onDestroy x = _
        rw [ht]
        rfl
      · intro y hy
        change y ∈ (t.heap.filter (fun o => !decide (o.1 = x))).map Prod.fst at hy
        rw [liveObjects_filter, List.mem_filter] at hy
        have hne : y ≠ x := by simpa using hy.2
        rw [ptrFind_ptrErase]
        simp only [hne, ↓reduceIte]
  rcases shouldCreateObject_null s env with ⟨e, _, he⟩ | ⟨_, he⟩ | ⟨_, ⟨e, _, he⟩ | ⟨_, he⟩⟩
  · rw [he]
    exact ⟨m, hm, fun _ _ => rfl⟩
  · rw [he]
    exact ⟨m, hm, fun _ _ => rfl⟩
  · rw [he]
    exact hev _ hm
  · rw [he]
    exact hev _ hm

/-- What a `CreateObject` does to the scores of `EvictLRU`: nothing when it is
served from the pool; when it builds an instance, that instance gets the
score `0` and the score of every other live instance stays. -/
theorem createObject_lru_steps (s : CachedFactory) (m : HitMap) (id : IdentifierType)
    (parms : List Parm) (env : Env) (hm : s.ep = .lru m) :
    (s.servedFromPool id parms = true → (s.CreateObject id parms env).2.ep = .lru m) ∧
    (∀ p, s.built id parms env = some p →
      ∃ m1, (s.CreateObject id parms env).2.ep = .lru m1 ∧ ptrFind m1 p = some 0 ∧
        ∀ y, y ≠ p → y ∈ (s.CreateObject id parms env).2.liveObjects →
          ptrFind m1 y = ptrFind m y) := by
  have htally := createObject_tally s id parms env
  have hm1 : (s.getContainerFromKey ⟨id, parms⟩).1.ep = .lru m := hm
  obtain ⟨m3, hm3, hall3⟩ :=
    shouldCreateObject_null_lru (s.getContainerFromKey ⟨id, parms⟩).1 m env hm1
  rcases createObject_cases s id parms env with
    ⟨p, _, hl, hat, he⟩ | ⟨_, hat, he⟩ |
    ⟨_, ⟨e, _, hat, he⟩ | ⟨_, hat, ⟨e, hf, he⟩ | ⟨p, hf, he⟩⟩⟩
  · constructor
    · intro _
      rw [he]
      show s.ep.onFetch p = _
      rw [evictionPolicy_onFetch_eq]
      exact hm
    · intro p1 hb
      simp only [CachedFactory.built, hat] at hb
      cases hb
  · constructor
    · intro hs
      rcases htally with ⟨_, _, h3, _⟩ | ⟨h1, _⟩ | ⟨h1, _⟩
      · rw [he] at h3
        cases h3
      · rw [h1] at hs
        cases hs
      · rw [h1] at hs
        cases hs
    · intro p1 hb
      simp only [CachedFactory.built, hat] at hb
      cases hb
  · constructor
    · intro hs
      rcases htally with ⟨_, _, h3, _⟩ | ⟨h1, _⟩ | ⟨h1, _⟩
      · rw [he] at h3
        cases h3
      · rw [h1] at hs
        cases hs
      · rw [h1] at hs
        cases hs
    · intro p1 hb
      simp only [CachedFactory.built, hat] at hb
      cases hb
  · constructor
    · intro hs
      rcases htally with ⟨_, _, h3, _⟩ | ⟨h1, _⟩ | ⟨h1, _⟩
      · rw [he] at h3
        cases h3
      · rw [h1] at hs
        cases hs
      · rw [h1] at hs
        cases hs
    · intro p1 hb
      simp only [CachedFactory.built, hat, hf] at hb
      cases hb
  · constructor
    · intro hs
      rcases htally with ⟨_, h2, _⟩ | ⟨h1, _⟩ | ⟨h1, _⟩
      · unfold CachedFactory.builds at h2
        rw [hat] at h2
        simp only [hf] at h2
        cases h2
      · rw [h1] at hs
        cases hs
      · rw [h1] at hs
        cases hs
    · intro p1 hb
      simp only [CachedFactory.built, hat, hf, Option.some.injEq] at hb
      subst hb
      rw [he]
      refine ⟨ptrSet m3 p 0, ?_, ?_, ?_⟩
      · show (EvictionPolicy.onCreate _ p).onFetch p = _
        rw [evictionPolicy_onFetch_eq]
        show EvictionPolicy.onCreate
          ((s.getContainerFromKey ⟨id, parms⟩).1.shouldCreateObject NULL env).2.ep p = _
        rw [hm3]
        rfl
      · rw [ptrFind_ptrSet]
        simp
      · intro y hy hlive
        change y ∈ (p, (⟨id, parms⟩ : Key)).1 ::
          ((s.getContainerFromKey ⟨id, parms⟩).1.shouldCreateObject NULL env).2.heap.map
            Prod.fst at hlive
        rw [ptrFind_ptrSet]
        simp only [hy, ↓reduceIte]
        rcases List.mem_cons.mp hlive with h2 | h2
        · exact absurd h2 hy
        · exact hall3 y h2

/-! ## Release and reuse under one key -/

theorem modifyEntry_mem_self (m : KeyToObjVectorMap) (i : Nat) (f : ObjVector → ObjVector)
    (k : Key) (h : keyAt m i = some k) : (k, f (entryAt m i)) ∈ modifyEntry m i f := by
  induction m generalizing i with
  | nil => simp [keyAt] at h
  | cons e rest ih =>
    obtain ⟨k1, v⟩ := e
    cases i with
    | zero =>
      simp only [keyAt, Option.some.injEq] at h
      subst h
      exact List.mem_cons_self _ _
    | succ j => exact List.mem_cons_of_mem _ (ih j h)

theorem mapWF_modifyEntry {n : Nat} (m : KeyToObjVectorMap) (i : Nat)
    (f : ObjVector → ObjVector) (h : MapWF n m) : MapWF n (modifyEntry m i f) := by
  unfold MapWF at h ⊢
  rw [modifyEntry_keys]
  exact h

/-- A lookup under `MapWF` followed by an update of the vector found. -/
theorem mapIndex_modify {n : Nat} (hn : 0 < n) (m : KeyToObjVectorMap) (k : Key)
    (hk : k.values.length = n) (h : MapWF n m) (f : ObjVector → ObjVector) :
    MapWF n (modifyEntry (mapIndex m k).1 (mapIndex m k).2 f) ∧
    (k, f (entryAt (mapIndex m k).1 (mapIndex m k).2))
      ∈ modifyEntry (mapIndex m k).1 (mapIndex m k).2 f ∧
    (∀ v, (k, v) ∈ m → entryAt (mapIndex m k).1 (mapIndex m k).2 = v) := by
  refine ⟨mapWF_modifyEntry _ _ _ (mapIndex_wf n hn m k hk h),
    modifyEntry_mem_self _ _ _ _ (mapIndex_keyAt m k), ?_⟩
  intro v hv
  have hf := mapIndex_found n hn m k v h hv
  rw [hf.1]
  exact hf.2

theorem servedFromPool_of_last (s : CachedFactory) (id : IdentifierType) (parms : List Parm)
    (x : Product) (hx : x ≠ NULL)
    (hl : (entryAt (mapIndex s.fromKeyToObjVector ⟨id, parms⟩).1
            (mapIndex s.fromKeyToObjVector ⟨id, parms⟩).2).getLast? = some x) :
    s.servedFromPool id parms = true := by
  unfold CachedFactory.servedFromPool CachedFactory.getPointerToObjectInContainer
  have hl1 : (entryAt (s.getContainerFromKey ⟨id, parms⟩).1.fromKeyToObjVector
      (s.getContainerFromKey ⟨id, parms⟩).2).getLast? = some x := hl
  rw [hl1]
  simp [hx]

/-- `ReleaseObject` of an instance checked out under `K`: the instance goes to
the back of the vector of `K`. -/
theorem releaseObject_push {n : Nat} (s : CachedFactory) (x : Product) (K : Key)
    (hwf : KeysWF n s) (hx : ptrFind s.providedObjects x = some K) :
    (s.ReleaseObject x).1 = .ok () ∧
    KeysWF n (s.ReleaseObject x).2 ∧
    (s.ReleaseObject x).2.providedObjects = ptrErase s.providedObjects x ∧
    (K, entryAt (mapIndex s.fromKeyToObjVector K).1 (mapIndex s.fromKeyToObjVector K).2 ++ [x])
      ∈ (s.ReleaseObject x).2.fromKeyToObjVector ∧
    (∀ v, (K, v) ∈ s.fromKeyToObjVector →
      (K, v ++ [x]) ∈ (s.ReleaseObject x).2.fromKeyToObjVector) := by
  have hkwf := keysWF_releaseObject x hwf
  have hK : K.values.length = n := hwf.2.2 _ (ptrFind_some_mem _ _ _ hx)
  have hmod := mapIndex_modify hwf.1 s.fromKeyToObjVector K hK hwf.2.1 (fun v => v ++ [x])
  rw [releaseObject_some s x K hx] at hkwf ⊢
  refine ⟨rfl, hkwf, rfl, hmod.2.1, ?_⟩
  intro v hv
  have := hmod.2.1
  rw [hmod.2.2 v hv] at this
  exact this

/-- `CreateObject` for a key whose vector ends with a non-null instance: it is
served from the pool with that instance, which leaves the vector. -/
theorem createObject_pop {n : Nat} (s : CachedFactory) (K : Key) (v : ObjVector)
    (x : Product) (env : Env) (hwf : KeysWF n s) (hK : K.values.length = n)
    (hv : (K, v ++ [x]) ∈ s.fromKeyToObjVector) (hx : x ≠ NULL) :
    (s.CreateObject K.id K.values env).1 = .ok x ∧
    s.servedFromPool K.id K.values = true ∧
    s.atFactoryCall K.id K.values env = none ∧
    KeysWF n (s.CreateObject K.id K.values env).2 ∧
    (K, v) ∈ (s.CreateObject K.id K.values env).2.fromKeyToObjVector ∧
    (s.CreateObject K.id K.values env).2.heap = s.heap := by
  have hkwf := keysWF_createObject K.id K.values env hK hwf
  have hmod := mapIndex_modify hwf.1 s.fromKeyToObjVector K hK hwf.2.1 List.dropLast
  have hentry := hmod.2.2 _ hv
  have hl : (entryAt (mapIndex s.fromKeyToObjVector ⟨K.id, K.values⟩).1
      (mapIndex s.fromKeyToObjVector ⟨K.id, K.values⟩).2).getLast? = some x := by
    show (entryAt (mapIndex s.fromKeyToObjVector K).1
      (mapIndex s.fromKeyToObjVector K).2).getLast? = some x
    rw [hentry]
    simp
  have hhit := createObject_hit s K.id K.values env x hx hl
  have hat : s.atFactoryCall K.id K.values env = none := by
    rcases createObject_cases s K.id K.values env with
      ⟨p, _, _, hat, _⟩ | ⟨_, hat, _⟩ | ⟨hl2, _⟩
    · exact hat
    · exact hat
    · change (entryAt (mapIndex s.fromKeyToObjVector ⟨K.id, K.values⟩).1
        (mapIndex s.fromKeyToObjVector ⟨K.id, K.values⟩).2).getLast? = none at hl2
      rw [hl] at hl2
      cases hl2
  rw [hhit] at hkwf ⊢
  refine ⟨rfl, servedFromPool_of_last s K.id K.values x hx hl, hat, hkwf, ?_, rfl⟩
  show (K, v) ∈ modifyEntry (mapIndex s.fromKeyToObjVector K).1
    (mapIndex s.fromKeyToObjVector K).2 List.dropLast
  have := hmod.2.1
  rw [hentry] at this
  simpa using this

/-! ## The order of the copy made by `getLowerBound` -/

theorem multimapInsert_lex (acc : List (Nat × Product)) (x : Nat × Product)
    (hs : acc.Pairwise (fun a b => a.1 < b.1 ∨ (a.1 = b.1 ∧ a.2 < b.2)))
    (hk : ∀ y ∈ acc, y.2 < x.2) :
    (multimapInsert acc x).Pairwise (fun a b => a.1 < b.1 ∨ (a.1 = b.1 ∧ a.2 < b.2)) := by
  induction acc with
  | nil => simp [multimapInsert]
  | cons y rest ih =>
    simp only [List.pairwise_cons] at hs
    simp only [multimapInsert]
    split
    · rename_i hlt
      simp only [List.pairwise_cons, List.mem_cons]
      refine ⟨?_, hs.1, hs.2⟩
      intro z hz
      rcases hz with rfl | hz
      · exact Or.inl hlt
      · rcases hs.1 z hz with h | h
        · exact Or.inl (Nat.lt_trans hlt h)
        · exact Or.inl (h.1 ▸ hlt)
    · rename_i hlt
      simp only [List.pairwise_cons]
      refine ⟨?_, ih hs.2 (fun z hz => hk z (List.mem_cons_of_mem _ hz))⟩
      intro z hz
      rcases (multimapInsert_mem rest x z).mp hz with h | h
      · subst h
        have hy := hk y (List.mem_cons_self _ _)
        by_cases h1 : y.1 < z.1
        · exact Or.inl h1
        · exact Or.inr ⟨Nat.le_antisymm (Nat.le_of_not_lt hlt) (Nat.le_of_not_lt h1), hy⟩
      · exact hs.1 z h

theorem copyMap_foldl_lex (m : HitMap) (acc : List (Nat × Product))
    (hs : acc.Pairwise (fun a b => a.1 < b.1 ∨ (a.1 = b.1 ∧ a.2 < b.2)))
    (hm : (ptrKeys m).Pairwise (· < ·))
    (hk : ∀ y ∈ acc, ∀ e ∈ m, y.2 < e.1) :
    (m.foldl (fun acc e => multimapInsert acc (e.2, e.1)) acc).Pairwise
      (fun a b => a.1 < b.1 ∨ (a.1 = b.1 ∧ a.2 < b.2)) := by
  induction m generalizing acc with
  | nil => exact hs
  | cons e rest ih =>
    simp only [ptrKeys, List.map_cons, List.pairwise_cons] at hm
    simp only [List.foldl_cons]
    apply ih
    · exact multimapInsert_lex acc (e.2, e.1) hs (fun y hy => hk y hy e (List.mem_cons_self _ _))
    · exact hm.2
    · intro y hy e1 he1
      rcases (multimapInsert_mem acc (e.2, e.1) y).mp hy with h | h
      · rw [h]
        exact hm.1 e1.1 (List.mem_map_of_mem Prod.fst he1)
      · exact hk y h e1 (List.mem_cons_of_mem _ he1)

theorem copyMap_lex (m : HitMap) (hm : (ptrKeys m).Pairwise (· < ·)) :
    (EvictionHelper.copyMap m).Pairwise (fun a b => a.1 < b.1 ∨ (a.1 = b.1 ∧ a.2 < b.2)) := by
  unfold EvictionHelper.copyMap
  exact copyMap_foldl_lex m [] List.Pairwise.nil hm (fun y hy => absurd hy (List.not_mem_nil y))

theorem foldl_max_eq_zero (l : List Nat) (a : Nat) :
    l.foldl max a = 0 ↔ a = 0 ∧ ∀ x ∈ l, x = 0 := by
  induction l generalizing a with
  | nil => simp
  | cons y rest ih =>
    simp only [List.foldl_cons, ih, List.mem_cons, forall_eq_or_imp]
    constructor
    · rintro ⟨h1, h2⟩
      have : a = 0 ∧ y = 0 := by omega
      exact ⟨this.1, this.2, h2⟩
    · rintro ⟨h1, h2, h3⟩
      refine ⟨?_, h3⟩
      subst h1 h2
      rfl

theorem maxScore_eq_zero (m : HitMap) : maxScore m = 0 ↔ ∀ e ∈ m, e.2 = 0 := by
  unfold maxScore
  rw [foldl_max_eq_zero]
  constructor
  · intro h e he
    exact h.2 e.2 (List.mem_map_of_mem Prod.snd he)
  · intro h
    refine ⟨rfl, ?_⟩
    intro x hx
    obtain ⟨e, he, rfl⟩ := List.mem_map.mp hx
    exact h e he

/-- The two ends of the copy decide what `getLowerBound` does on a non-empty
table. -/
theorem getLowerBound_ends (m : HitMap) (hne : m ≠ []) :
    ∃ first last, (EvictionHelper.copyMap m).head? = some first ∧
      (EvictionHelper.copyMap m).getLast? = some last ∧
      EvictionHelper.getLowerBound m
        = (if last.1 = 0 then .error .eviction else .ok first.2) := by
  unfold EvictionHelper.getLowerBound
  have hempty : m.isEmpty = false := by
    cases m with
    | nil => exact absurd rfl hne
    | cons e rest => rfl
  simp only [hempty, Bool.false_eq_true, ↓reduceIte]
  have hmem := copyMap_mem m
  obtain ⟨e0, he0⟩ := List.exists_mem_of_ne_nil m hne
  have hcne : EvictionHelper.copyMap m ≠ [] := by
    intro hnil
    have := (hmem (e0.2, e0.1)).mpr he0
    rw [hnil] at this
    cases this
  generalize EvictionHelper.copyMap m = c at hcne
  cases hlast : c.getLast? with
  | none => exact absurd (List.getLast?_eq_none_iff.mp hlast) hcne
  | some last =>
    cases hfirst : c.head? with
    | none =>
      cases c with
      | nil => exact absurd rfl hcne
      | cons a l => simp at hfirst
    | some first => exact ⟨first, last, rfl, rfl, rfl⟩

/-! ## Admission policies that never answer false -/

theorem neverRefuses_canCreate (cp : CreationPolicy) (t : Int)
    (h : cp.neverRefuses = true) :
    (cp.canCreate t).1 ≠ .ok false ∧ (cp.canCreate t).2.neverRefuses = true := by
  constructor
  · intro hf
    obtain ⟨_, a, ha, _⟩ := canCreate_false cp t hf
    rw [ha] at h
    cases h
  · cases cp with
    | neverCreate => rfl
    | alwaysCreate => rfl
    | rateLimited p => rfl
    | amountLimited p => cases h

theorem neverRefuses_onCreate (cp : CreationPolicy) (now : Int)
    (h : cp.neverRefuses = true) : (cp.onCreate now).neverRefuses = true := by
  cases cp with
  | neverCreate => rfl
  | alwaysCreate => rfl
  | rateLimited p => rfl
  | amountLimited p => cases h

/-- With such a policy `shouldCreateObject(NULL)` never reaches `evict`: it
only updates the state of the admission policy. -/
theorem shouldCreateObject_null_no_evict (s : CachedFactory) (env : Env)
    (h : s.cp.neverRefuses = true) :
    (s.shouldCreateObject NULL env).2 = { s with cp := (s.cp.canCreate env.clockCan).2 } := by
  rcases shouldCreateObject_null s env with ⟨e, _, he⟩ | ⟨_, he⟩ | ⟨hf, _⟩
  · rw [he]
  · rw [he]
  · exact absurd hf (neverRefuses_canCreate s.cp env.clockCan h).1

theorem no_evict_createObject (s : CachedFactory) (id : IdentifierType) (parms : List Parm)
    (env : Env) (h : s.cp.neverRefuses = true) :
    (s.CreateObject id parms env).2.cp.neverRefuses = true ∧
    (s.CreateObject id parms env).2.deleted = s.deleted ∧
    ((s.CreateObject id parms env).2.heap = s.heap ∨
      ∃ e, (s.CreateObject id parms env).2.heap = e :: s.heap) := by
  have h1 : (s.getContainerFromKey ⟨id, parms⟩).1.cp.neverRefuses = true := h
  have hs := shouldCreateObject_null_no_evict (s.getContainerFromKey ⟨id, parms⟩).1 env h1
  have hcan := (neverRefuses_canCreate s.cp env.clockCan h).2
  rcases createObject_cases s id parms env with
    ⟨p, _, _, _, he⟩ | ⟨_, _, he⟩ | ⟨_, ⟨e, _, _, he⟩ | ⟨_, _, ⟨e, _, he⟩ | ⟨p, _, he⟩⟩⟩
  · rw [he]
    exact ⟨h, rfl, Or.inl rfl⟩
  · rw [he]
    exact ⟨h, rfl, Or.inl rfl⟩
  · rw [he, hs]
    exact ⟨hcan, rfl, Or.inl rfl⟩
  · rw [he, hs]
    exact ⟨hcan, rfl, Or.inl rfl⟩
  · rw [he, hs]
    refine ⟨?_, rfl, Or.inr ⟨(p, ⟨id, parms⟩), rfl⟩⟩
    exact neverRefuses_onCreate _ _ hcan

theorem no_evict_releaseObject (s : CachedFactory) (object : Product) :
    (s.ReleaseObject object).2.cp = s.cp ∧
    (s.ReleaseObject object).2.deleted = s.deleted ∧
    (s.ReleaseObject object).2.heap = s.heap := by
  cases hfind : ptrFind s.providedObjects object with
  | none =>
    rw [releaseObject_none s object hfind]
    exact ⟨rfl, rfl, rfl⟩
  | some key =>
    rw [releaseObject_some s object key hfind]
    exact ⟨rfl, rfl, rfl⟩

theorem no_evict_run (ops : List Op) (s : CachedFactory) (h : s.cp.neverRefuses = true) :
    (run s ops).cp.neverRefuses = true ∧ (run s ops).deleted = s.deleted ∧
    ∃ l, (run s ops).heap = l ++ s.heap := by
  induction ops generalizing s with
  | nil => exact ⟨h, rfl, [], rfl⟩
  | cons op rest ih =>
    have hstep : (step s op).cp.neverRefuses = true ∧ (step s op).deleted = s.deleted ∧
        ∃ l, (step s op).heap = l ++ s.heap := by
      cases op with
      | register id creator => exact ⟨h, rfl, [], rfl⟩
      | unregister id => exact ⟨h, rfl, [], rfl⟩
      | createObject id parms env =>
        obtain ⟨h1, h2, h3⟩ := no_evict_createObject s id parms env h
        refine ⟨h1, h2, ?_⟩
        rcases h3 with h3 | ⟨e, h3⟩
        · exact ⟨[], h3⟩
        · exact ⟨[e], h3⟩
      | releaseObject object =>
        obtain ⟨h1, h2, h3⟩ := no_evict_releaseObject s object
        refine ⟨?_, h2, [], h3⟩
        show (s.ReleaseObject object).2.cp.neverRefuses = true
        rw [h1]
        exact h
    obtain ⟨s1, s2, l1, s3⟩ := hstep
    obtain ⟨i1, i2, l2, i3⟩ := ih (step s op) s1
    refine ⟨i1, i2.trans s2, l2 ++ l1, ?_⟩
    show (run (step s op) rest).heap = _
    rw [i3, s3, List.append_assoc]

/-! ## The kind of the eviction policy -/

theorem kind_hooks (ep : EvictionPolicy) (p : Product) :
    (ep.onCreate p).kind = ep.kind ∧ (ep.onFetch p).kind = ep.kind ∧
    (ep.onRelease p).kind = ep.kind ∧ (ep.onDestroy p).kind = ep.kind := by
  cases ep <;> exact ⟨rfl, rfl, rfl, rfl⟩

theorem kind_shouldCreateObject_null (s : CachedFactory) (env : Env) :
    (s.shouldCreateObject NULL env).2.ep.kind = s.ep.kind := by
  have hev : ∀ t : CachedFactory, (t.evict env.rand).2.ep.kind = t.ep.kind := by
    intro t
    rcases evict_outcome t env.rand with ⟨e, he⟩ | ⟨x, m1, _, _, he⟩
    · rw [he]
    · rw [he]
      exact (kind_hooks t.ep x).2.2.2
  rcases shouldCreateObject_null s env with ⟨e, _, he⟩ | ⟨_, he⟩ | ⟨_, ⟨e, _, he⟩ | ⟨_, he⟩⟩
  · rw [he]
  · rw [he]
  · rw [he]
    exact hev _
  · rw [he]
    exact hev _

theorem kind_createObject (s : CachedFactory) (id : IdentifierType) (parms : List Parm)
    (env : Env) : (s.CreateObject id parms env).2.ep.kind = s.ep.kind := by
  have hs := kind_shouldCreateObject_null (s.getContainerFromKey ⟨id, parms⟩).1 env
  have h0 : (s.getContainerFromKey ⟨id, parms⟩).1.ep.kind = s.ep.kind := rfl
  rcases createObject_cases s id parms env with
    ⟨p, _, _, _, he⟩ | ⟨_, _, he⟩ | ⟨_, ⟨e, _, _, he⟩ | ⟨_, _, ⟨e, _, he⟩ | ⟨p, _, he⟩⟩⟩
  · rw [he]
    exact (kind_hooks s.ep p).2.1
  · rw [he]
    rfl
  · rw [he, hs]
    rfl
  · rw [he, hs]
    rfl
  · rw [he]
    show ((EvictionPolicy.onCreate _ p).onFetch p).kind = _
    rw [(kind_hooks _ p).2.1, (kind_hooks _ p).1]
    exact hs

theorem kind_run (ops : List Op) (s : CachedFactory) : (run s ops).ep.kind = s.ep.kind := by
  induction ops generalizing s with
  | nil => rfl
  | cons op rest ih =>
    show (run (step s op) rest).ep.kind = _
    rw [ih]
    cases op with
    | register id creator => rfl
    | unregister id => rfl
    | createObject id parms env => exact kind_createObject s id parms env
    | releaseObject object =>
      show (s.ReleaseObject object).2.ep.kind = _
      cases hfind : ptrFind s.providedObjects object with
      | none => rw [releaseObject_none s object hfind]
      | some key =>
        rw [releaseObject_some s object key hfind]
        exact (kind_hooks s.ep object).2.2.1

/-- With a score table (`EvictLRU`, `EvictAging`) the table has one entry per
object on the free store. -/
theorem table_length {s : CachedFactory} (hi : Inv s) (m : HitMap)
    (hm : s.ep = .lru m ∨ s.ep = .aging m) : m.length = s.heap.length := by
  have ht := hi.tracked
  have hkeys : (ptrKeys m).Pairwise (· < ·) ∧ ∀ p, p ∈ ptrKeys m ↔ p ∈ s.liveObjects := by
    rcases hm with hm | hm
    · rw [hm] at ht
      exact ht
    · rw [hm] at ht
      exact ht
  have hnd : (ptrKeys m).Nodup := hkeys.1.imp (fun hab => Nat.ne_of_lt hab)
  have hperm : (ptrKeys m).Perm s.liveObjects :=
    (List.perm_ext_iff_of_nodup hnd hi.heapNodup).mpr hkeys.2
  have := hperm.length_eq
  simpa [ptrKeys, CachedFactory.liveObjects] using this

theorem configured_kind {N : Nat} {ek : EvictionKind} {sk : StatisticKind} {now : Int}
    {s0 : CachedFactory}
    (hcfg : (CachedFactory.new .amountLimited ek sk now).setMaxCreation N = some s0) :
    s0.ep.kind = ek := by
  simp only [CachedFactory.setMaxCreation, CachedFactory.new, CreationKind.init,
    AmountLimitedCreation.setMaxCreation, AmountLimitedCreation.init] at hcfg
  split at hcfg
  · simp only [Option.map_some', Option.some.injEq] at hcfg
    rw [← hcfg]
    cases ek <;> rfl
  · simp at hcfg

/-! ## Keys of one identifier -/

theorem uniformRun_arity (i : IdentifierType) (n : Nat) (ops : List Op)
    (h : uniformRun i n ops = true) : arityRun n ops = true := by
  induction ops with
  | nil => rfl
  | cons op rest ih =>
    cases op with
    | register id creator => exact ih h
    | unregister id => exact ih h
    | createObject id parms env =>
      simp only [uniformRun, Bool.and_eq_true, decide_eq_true_eq] at h
      simp only [arityRun, Bool.and_eq_true, decide_eq_true_eq]
      exact ⟨h.1.2, ih h.2⟩
    | releaseObject object => exact ih h

/-- Two keys of one identifier with the same positive number of parameters
are compared by their parameter tuples. -/
theorem key_lt_uniform (n : Nat) (hn : 0 < n) (k1 k2 : Key) (h1 : k1.values.length = n)
    (h2 : k2.values.length = n) (hid : k1.id = k2.id) :
    Key.lt k1 k2 = tupleLt k1.values k2.values := by
  rw [key_lt_eq n hn k1 k2 h1 h2, hid]
  simp

/-- On keys of one identifier with the same positive number of parameters
`operator<` is a strict total order: no key is less than itself, the relation
is transitive, and two keys neither of which is less than the other are the
same key. -/
theorem key_lt_strict_on_uniform (i : IdentifierType) (n : Nat) (hn : 0 < n) (a b c : Key)
    (ha : a.id = i ∧ a.values.length = n) (hb : b.id = i ∧ b.values.length = n)
    (hc : c.id = i ∧ c.values.length = n) :
    Key.lt a a = false ∧
    (Key.lt a b = true → Key.lt b a = false) ∧
    (Key.lt a b = true → Key.lt b c = true → Key.lt a c = true) ∧
    (Key.lt a b = false → Key.lt b a = false → a = b) := by
  have hirr : Key.lt a a = false := key_lt_irrefl a (by omega)
  have htrans : ∀ x y z : Key, (x.id = i ∧ x.values.length = n) →
      (y.id = i ∧ y.values.length = n) → (z.id = i ∧ z.values.length = n) →
      Key.lt x y = true → Key.lt y z = true → Key.lt x z = true := by
    intro x y z hx hy hz h1 h2
    rw [key_lt_uniform n hn x y hx.2 hy.2 (hx.1.trans hy.1.symm)] at h1
    rw [key_lt_uniform n hn y z hy.2 hz.2 (hy.1.trans hz.1.symm)] at h2
    rw [key_lt_uniform n hn x z hx.2 hz.2 (hx.1.trans hz.1.symm)]
    exact tupleLt_trans _ _ _ (by rw [hx.2, hy.2]) (by rw [hy.2, hz.2]) h1 h2
  refine ⟨hirr, ?_, htrans a b c ha hb hc, key_equiv_eq a b⟩
  intro h1
  cases h2 : Key.lt b a with
  | false => rfl
  | true =>
    have := htrans a b a ha hb ha h1 h2
    rw [hirr] at this
    cases this

theorem keys_createObject (P : Key → Prop) {s : CachedFactory} (id : IdentifierType)
    (parms : List Parm) (env : Env) (hP : P ⟨id, parms⟩)
    (hm : ∀ k ∈ s.fromKeyToObjVector.map Prod.fst, P k)
    (hr : ∀ e ∈ s.providedObjects, P e.2) :
    (∀ k ∈ (s.CreateObject id parms env).2.fromKeyToObjVector.map Prod.fst, P k) ∧
    (∀ e ∈ (s.CreateObject id parms env).2.providedObjects, P e.2) := by
  have h1 : ∀ k ∈ (s.getContainerFromKey ⟨id, parms⟩).1.fromKeyToObjVector.map Prod.fst,
      P k := by
    intro k hk
    obtain ⟨e, he, hek⟩ := List.mem_map.mp hk
    rcases mapIndex_mem s.fromKeyToObjVector ⟨id, parms⟩ e he with h | h
    · exact hm k (List.mem_map.mpr ⟨e, h, hek⟩)
    · rw [← hek, h]
      exact hP
  have h2 : ∀ e ∈ (s.getContainerFromKey ⟨id, parms⟩).1.providedObjects, P e.2 := hr
  have hframe := shouldCreateObject_null_frame (s.getContainerFromKey ⟨id, parms⟩).1 env
  have hreg : ∀ (m : PtrMap Key) (p : Product), (∀ e ∈ m, P e.2) →
      ∀ e ∈ ptrSet m p (⟨id, parms⟩ : Key), P e.2 := by
    intro m p hall e he
    rcases ptrSet_mem m p _ e he with he | he
    · rw [he]
      exact hP
    · exact hall e he
  rcases createObject_cases s id parms env with
    ⟨p, _, _, _, he⟩ | ⟨_, _, he⟩ | ⟨_, ⟨e, _, _, he⟩ | ⟨_, _, ⟨e, _, he⟩ | ⟨p, _, he⟩⟩⟩
  · rw [he]
    refine ⟨?_, hreg _ p h2⟩
    show ∀ k ∈ (modifyEntry _ _ _).map Prod.fst, P k
    rw [modifyEntry_keys]
    exact h1
  · rw [he]
    exact ⟨h1, h2⟩
  · rw [he]
    refine ⟨?_, ?_⟩
    · rw [hframe.1]
      exact h1
    · rw [hframe.2.1]
      exact h2
  · rw [he]
    refine ⟨?_, ?_⟩
    · rw [hframe.1]
      exact h1
    · rw [hframe.2.1]
      exact h2
  · rw [he]
    refine ⟨?_, ?_⟩
    · show ∀ k ∈ List.map Prod.fst
        ((s.getContainerFromKey ⟨id, parms⟩).1.shouldCreateObject NULL env).2.fromKeyToObjVector,
        P k
      rw [hframe.1]
      exact h1
    · refine hreg _ p ?_
      show ∀ e ∈
        ((s.getContainerFromKey ⟨id, parms⟩).1.shouldCreateObject NULL env).2.providedObjects,
        P e.2
      rw [hframe.2.1]
      exact h2

theorem keys_releaseObject (P : Key → Prop) {s : CachedFactory} (object : Product)
    (hm : ∀ k ∈ s.fromKeyToObjVector.map Prod.fst, P k)
    (hr : ∀ e ∈ s.providedObjects, P e.2) :
    (∀ k ∈ (s.ReleaseObject object).2.fromKeyToObjVector.map Prod.fst, P k) ∧
    (∀ e ∈ (s.ReleaseObject object).2.providedObjects, P e.2) := by
  cases hfind : ptrFind s.providedObjects object with
  | none =>
    rw [releaseObject_none s object hfind]
    exact ⟨hm, hr⟩
  | some key =>
    rw [releaseObject_some s object key hfind]
    have hkey : P key := hr _ (ptrFind_some_mem _ _ _ hfind)
    refine ⟨?_, ?_⟩
    · show ∀ k ∈ (modifyEntry (mapIndex s.fromKeyToObjVector key).1
          (mapIndex s.fromKeyToObjVector key).2 (fun v => v ++ [object])).map Prod.fst, P k
      rw [modifyEntry_keys]
      intro k hk
      obtain ⟨e, he, hek⟩ := List.mem_map.mp hk
      rcases mapIndex_mem s.fromKeyToObjVector key e he with h | h
      · exact hm k (List.mem_map.mpr ⟨e, h, hek⟩)
      · rw [← hek, h]
        exact hkey
    · intro e he
      change e ∈ ptrErase s.providedObjects object at he
      exact hr e (List.mem_of_mem_filter he)

theorem uniform_step {i : IdentifierType} {n : Nat} {s : CachedFactory} (ops : List Op)
    (h : Uniform i n s) (hu : uniformRun i n ops = true) : Uniform i n (run s ops) := by
  induction ops generalizing s with
  | nil => exact h
  | cons op rest ih =>
    cases op with
    | register id creator =>
      exact ih ⟨keysWF_of_same h.1 rfl (fun e he => Or.inl he), h.2.1, h.2.2⟩ hu
    | unregister id =>
      exact ih ⟨keysWF_of_same h.1 rfl (fun e he => Or.inl he), h.2.1, h.2.2⟩ hu
    | createObject id parms env =>
      simp only [uniformRun, Bool.and_eq_true, decide_eq_true_eq] at hu
      have hk := keys_createObject (fun k => k.id = i) id parms env hu.1.1
        (fun k hk => by
          obtain ⟨e, he, hek⟩ := List.mem_map.mp hk
          rw [← hek]
          exact h.2.1 e he) h.2.2
      refine ih ⟨keysWF_createObject id parms env hu.1.2 h.1, ?_, hk.2⟩ hu.2
      intro e he
      exact hk.1 e.1 (List.mem_map_of_mem Prod.fst he)
    | releaseObject object =>
      have hk := keys_releaseObject (fun k => k.id = i) object
        (fun k hk => by
          obtain ⟨e, he, hek⟩ := List.mem_map.mp hk
          rw [← hek]
          exact h.2.1 e he) h.2.2
      refine ih ⟨keysWF_releaseObject object h.1, ?_, hk.2⟩ hu
      intro e he
      exact hk.1 e.1 (List.mem_map_of_mem Prod.fst he)

/-- Along a uniform history every key the cache holds has the identifier and
the arity of the history, and the idle pool stays ordered. -/
theorem uniform_run {i : IdentifierType} {n : Nat} {s0 : CachedFactory} {ops : List Op}
    (h : UniformHistory i n s0 ops) : Uniform i n (run s0 ops) := by
  refine uniform_step ops ⟨keysWF_of_isEmpty h.2.1 h.1, ?_, ?_⟩ h.2.2
  · rw [h.1.1]
    simp
  · rw [h.1.2.1]
    simp

theorem keysWF_history {i : IdentifierType} {n : Nat} {s0 : CachedFactory} {ops : List Op}
    (h : UniformHistory i n s0 ops) : KeysWF n (run s0 ops) := (uniform_run h).1

/-- A lookup of a key that has no entry inserts an empty vector for it and
keeps every other entry. -/
theorem mapIndex_absent (m : KeyToObjVectorMap) (k : Key) (habs : k ∉ m.map Prod.fst) :
    (mapIndex m k).1.Perm ((k, []) :: m) := by
  induction m with
  | nil => exact List.Perm.refl _
  | cons e rest ih =>
    obtain ⟨k1, v⟩ := e
    simp only [List.map_cons, List.mem_cons, not_or] at habs
    simp only [mapIndex]
    split
    · exact ((ih habs.2).cons (k1, v)).trans (List.Perm.swap _ _ _)
    · split
      · exact List.Perm.refl _
      · rename_i h1 h2
        exact absurd (key_equiv_eq k k1 (by simpa using h2) (by simpa using h1)) habs.1

/-- A lookup in the pool of a cache with well-formed keys: the map is left as
it is when the key has an entry, and gets an empty vector for the key
otherwise. -/
theorem getContainerFromKey_pool {n : Nat} (s : CachedFactory) (k : Key) (h : KeysWF n s) :
    (k ∈ s.fromKeyToObjVector.map Prod.fst →
      (s.getContainerFromKey k).1.fromKeyToObjVector = s.fromKeyToObjVector) ∧
    (k ∉ s.fromKeyToObjVector.map Prod.fst →
      (s.getContainerFromKey k).1.fromKeyToObjVector.Perm ((k, []) :: s.fromKeyToObjVector)) := by
  refine ⟨?_, mapIndex_absent _ _⟩
  intro hk
  obtain ⟨e, he, hek⟩ := List.mem_map.mp hk
  obtain ⟨k1, v⟩ := e
  simp only at hek
  subst hek
  exact (mapIndex_found n h.1 s.fromKeyToObjVector k1 v h.2.1 he).1

/-- A `CreateObject` that ends in `EvictionException` stops before the factory
and leaves the cache as the lookup of the key left it. -/
theorem createObject_eviction_state (s : CachedFactory) (id : IdentifierType)
    (parms : List Parm) (env : Env)
    (h : (s.CreateObject id parms env).1 = .error .eviction) :
    s.atFactoryCall id parms env = none ∧
    (s.CreateObject id parms env).2 = (s.getContainerFromKey ⟨id, parms⟩).1 := by
  rcases createObject_cases s id parms env with
    ⟨p, _, _, _, he⟩ | ⟨_, _, he⟩ | ⟨_, ⟨e, he1, hat, he⟩ | ⟨_, _, ⟨e, he1, he⟩ | ⟨p, _, he⟩⟩⟩
  · rw [he] at h
    cases h
  · rw [he] at h
    cases h
  · rw [he] at h ⊢
    simp only [Except.error.injEq] at h
    subst h
    refine ⟨hat, ?_⟩
    generalize (s.getContainerFromKey ⟨id, parms⟩).1 = s1 at he1 ⊢
    rcases shouldCreateObject_null s1 env with
      ⟨e, h1, h2⟩ | ⟨_, h2⟩ | ⟨h1, ⟨e, h3, h2⟩ | ⟨_, h2⟩⟩
    · rw [h2] at he1
      simp only [Except.error.injEq] at he1
      subst he1
      rcases canCreate_error _ _ _ h1 with h4 | h4 <;> cases h4
    · rw [h2] at he1
      cases he1
    · rw [h2] at he1 ⊢
      simp only [Except.error.injEq] at he1
      subst he1
      rw [evict_error_state _ _ _ h3, (canCreate_false _ _ h1).1]
    · rw [h2] at he1
      cases he1
  · rw [he] at h
    simp only [Except.error.injEq] at h
    subst h
    cases factory_createObject_error _ _ _ _ _ he1
  · rw [he] at h
    cases h

/-- A `CreateObject` that misses the pool, is admitted and asks the factory
for an identifier that is not registered: the state it leaves is the state
after the lookup, with the admission policy as `canCreate` left it. -/
theorem createObject_unknown_state (s : CachedFactory) (id : IdentifierType)
    (parms : List Parm) (env : Env)
    (hmiss : (entryAt (mapIndex s.fromKeyToObjVector ⟨id, parms⟩).1
                (mapIndex s.fromKeyToObjVector ⟨id, parms⟩).2).getLast? = none)
    (hcan : (s.cp.canCreate env.clockCan).1 = .ok true)
    (hreg : s.factory.IsRegistered id = false) :
    s.CreateObject id parms env =
      (.error .unknownType,
       { (s.getContainerFromKey ⟨id, parms⟩).1 with
         cp := (s.cp.canCreate env.clockCan).2 }) := by
  have hmiss1 : (entryAt (s.getContainerFromKey ⟨id, parms⟩).1.fromKeyToObjVector
      (s.getContainerFromKey ⟨id, parms⟩).2).getLast? = none := hmiss
  have hcan1 : ((s.getContainerFromKey ⟨id, parms⟩).1.cp.canCreate env.clockCan).1
      = .ok true := hcan
  have hsh : (s.getContainerFromKey ⟨id, parms⟩).1.shouldCreateObject NULL env
      = (.ok true, { (s.getContainerFromKey ⟨id, parms⟩).1 with
          cp := (s.cp.canCreate env.clockCan).2 }) := by
    rcases shouldCreateObject_null (s.getContainerFromKey ⟨id, parms⟩).1 env with
      ⟨e, h1, _⟩ | ⟨_, he⟩ | ⟨h1, _⟩
    · rw [hcan1] at h1
      cases h1
    · exact he
    · rw [hcan1] at h1
      cases h1
  have hfac : ∀ t : CachedFactory, t.factory = s.factory →
      t.factory.CreateObject id parms env.alloc = .error .unknownType := by
    intro t ht
    rw [ht]
    unfold Factory.CreateObject
    unfold Factory.IsRegistered at hreg
    cases hc : assocFind s.factory.associations_ id with
    | none => rfl
    | some c =>
      rw [hc] at hreg
      cases hreg
  rcases createObject_cases s id parms env with
    ⟨p, _, hl, _, _⟩ | ⟨hl, _, _⟩ | ⟨_, ⟨e, he1, _, _⟩ | ⟨_, _, ⟨e, hf, he⟩ | ⟨p, hf, _⟩⟩⟩
  · rw [hmiss1] at hl
    cases hl
  · rw [hmiss1] at hl
    cases hl
  · rw [hsh] at he1
    cases he1
  · rw [hsh] at hf he
    change s.factory.CreateObject id parms env.alloc = .error e at hf
    rw [hfac s rfl] at hf
    simp only [Except.error.injEq] at hf
    rw [he, ← hf]
  · rw [hsh] at hf
    change s.factory.CreateObject id parms env.alloc = .ok p at hf
    rw [hfac s rfl] at hf
    cases hf

theorem uniformRun_append (i : IdentifierType) (n : Nat) (ops ops2 : List Op) :
    uniformRun i n (ops ++ ops2) = (uniformRun i n ops && uniformRun i n ops2) := by
  induction ops with
  | nil => simp [uniformRun]
  | cons op rest ih =>
    cases op with
    | register id creator => simpa [uniformRun] using ih
    | unregister id => simpa [uniformRun] using ih
    | createObject id parms env => simp [uniformRun, ih, Bool.and_assoc]
    | releaseObject object => simpa [uniformRun] using ih

/-- A uniform history that ends with a `CreateObject`: the calls before it
form a uniform history and the call asks for the identifier and the arity of
the history. -/
theorem uniformHistory_before_create {i : IdentifierType} {n : Nat} {s0 : CachedFactory}
    {ops : List Op} {id : IdentifierType} {parms : List Parm} {env : Env}
    (h : UniformHistory i n s0 (ops ++ [.createObject id parms env])) :
    UniformHistory i n s0 ops ∧ id = i ∧ parms.length = n := by
  obtain ⟨h1, h2, h3⟩ := h
  rw [uniformRun_append] at h3
  simp only [uniformRun, Bool.and_true, Bool.and_eq_true, decide_eq_true_eq] at h3
  exact ⟨⟨h1, h2, h3.1⟩, h3.2.1, h3.2.2⟩

theorem idleUnder_cons (e : Key × ObjVector) (m : KeyToObjVectorMap) (k : Key) :
    idleUnder (e :: m) k = (if e.1 = k then e.2 ++ idleUnder m k else idleUnder m k) := by
  unfold idleUnder
  by_cases h : e.1 = k
  · simp [List.filter, h, idleObjects]
  · simp [List.filter, h]

theorem idleUnder_absent (m : KeyToObjVectorMap) (k : Key) (h : k ∉ m.map Prod.fst) :
    idleUnder m k = [] := by
  induction m with
  | nil => rfl
  | cons e rest ih =>
    simp only [List.map_cons, List.mem_cons, not_or] at h
    rw [idleUnder_cons, if_neg (fun heq => h.1 heq.symm)]
    exact ih h.2

/-- In an ordered pool the vector a lookup designates holds the idle
instances stored under the key. -/
theorem entryAt_mapIndex_idleUnder {n : Nat} (hn : 0 < n) (m : KeyToObjVectorMap) (k : Key)
    (h : MapWF n m) :
    entryAt (mapIndex m k).1 (mapIndex m k).2 = idleUnder m k := by
  induction m with
  | nil => rfl
  | cons e rest ih =>
    obtain ⟨k1, v⟩ := e
    have hlen : k1.values.length = n := h.1 k1 (by simp)
    have hirr : Key.lt k1 k1 = false := key_lt_irrefl k1 (by omega)
    have hsorted := h.2
    simp only [List.map_cons, List.pairwise_cons] at hsorted
    have hrest : MapWF n rest :=
      ⟨fun a ha => h.1 a (by simp only [List.map_cons, List.mem_cons]; exact Or.inr ha),
        hsorted.2⟩
    simp only [mapIndex]
    by_cases h1 : Key.lt k1 k = true
    · have hne : k1 ≠ k := by
        intro heq
        rw [← heq, hirr] at h1
        cases h1
      simp only [h1, ↓reduceIte, entryAt]
      rw [idleUnder_cons, if_neg hne]
      exact ih hrest
    · have hnot : k ∉ rest.map Prod.fst := by
        intro hk
        exact h1 (hsorted.1 k hk)
      simp only [h1, Bool.false_eq_true, ↓reduceIte]
      by_cases h2 : Key.lt k k1 = true
      · have hne : k1 ≠ k := by
          intro heq
          rw [heq] at hirr
          rw [heq, hirr] at h2
          cases h2
        simp only [h2, ↓reduceIte, entryAt]
        rw [idleUnder_cons, if_neg hne, idleUnder_absent rest k hnot]
      · have heq : k1 = k :=
          key_equiv_eq k1 k (by simpa using h1) (by simpa using h2)
        simp only [h2, Bool.false_eq_true, ↓reduceIte, entryAt]
        rw [idleUnder_cons, if_pos heq, idleUnder_absent rest k hnot]
        simp

/-! ## The claims -/

/-- C1 (the code departs from the claim on the keys that `operator<` does not
order strictly): a key without parameters is less than itself, and the keys
`(5, (1))` and `(1, (2))` are each less than the other, so that on such keys
`operator<` is not the strict weak ordering `std::map` requires and instances
released into the pool can be lost to it.  On the other keys the claim holds:
starting from a cache that holds no instance, after every sequence of
`Register`, `Unregister`, `CreateObject` and `ReleaseObject` calls (evictions
and their `remove` calls included) whose `CreateObject`s all ask for one
identifier with the same positive number of parameters, each construction
yielding a new instance, no instance is both in an idle-pool vector and in the
checked-out registry, and the instances found in one or the other are exactly
the instances built by the factory and not deleted. -/
theorem pool_and_registry_partition_live_on_uniform_keys (i : IdentifierType) (n : Nat)
    (s0 : CachedFactory) (ops : List Op)
    (hist : UniformHistory i n s0 ops) (hfresh : freshRun s0 ops = true) :
    (Key.lt ⟨1, []⟩ ⟨1, []⟩ = true ∧
      Key.lt ⟨5, [1]⟩ ⟨1, [2]⟩ = true ∧ Key.lt ⟨1, [2]⟩ ⟨5, [1]⟩ = true) ∧
    (∀ x, ¬ (x ∈ idleObjects (run s0 ops).fromKeyToObjVector ∧
              x ∈ ptrKeys (run s0 ops).providedObjects)) ∧
    (∀ x, x ∈ (run s0 ops).liveObjects ↔
      (x ∈ idleObjects (run s0 ops).fromKeyToObjVector ∨
        x ∈ ptrKeys (run s0 ops).providedObjects)) := by
  have h := inv_run ops (inv_of_isEmpty hist.1) hfresh
  refine ⟨by decide, ?_, ?_⟩
  · rintro x ⟨h1, h2⟩
    exact h.disjoint x (Or.inr h1) h2
  · intro x
    rw [h.live x]
    simp

theorem pool_and_registry_partition_live_on_uniform_keys_witness :
    UniformHistory 1 1 sampleCache sampleOps ∧ freshRun sampleCache sampleOps = true ∧
    (∀ x, ¬ (x ∈ idleObjects (run sampleCache sampleOps).fromKeyToObjVector ∧
              x ∈ ptrKeys (run sampleCache sampleOps).providedObjects)) ∧
    (∀ x, x ∈ (run sampleCache sampleOps).liveObjects ↔
      (x ∈ idleObjects (run sampleCache sampleOps).fromKeyToObjVector ∨
        x ∈ ptrKeys (run sampleCache sampleOps).providedObjects)) :=
  ⟨⟨⟨rfl, rfl, rfl, rfl⟩, by decide, by decide⟩, by decide,
   (pool_and_registry_partition_live_on_uniform_keys 1 1 sampleCache sampleOps
     ⟨⟨rfl, rfl, rfl, rfl⟩, by decide, by decide⟩ (by decide)).2⟩

/-- C2: with `AmountLimitedCreation` configured by `setMaxCreation(N)` on a new
cache (`N` an `unsigned`, and positive since the call passed its assertion) and
any eviction policy, after every sequence of calls, successful or failing, in
which each construction yields a new instance, the idle instances and the
checked-out instances together number at most `N`. -/
theorem amount_limit_bounds_live_instances (N : Nat) (hN : N < 2 ^ 32) (ek : EvictionKind)
    (sk : StatisticKind) (now : Int) (s0 : CachedFactory) (ops : List Op)
    (hcfg : (CachedFactory.new .amountLimited ek sk now).setMaxCreation N = some s0)
    (hfresh : freshRun s0 ops = true) :
    (idleObjects (run s0 ops).fromKeyToObjVector).length
      + (run s0 ops).providedObjects.length ≤ N := by
  obtain ⟨hempty, hamount, _⟩ := configured_amount hcfg
  have hinv := inv_run ops (inv_of_isEmpty hempty) hfresh
  have ha := amountInv_run hN ops (inv_of_isEmpty hempty) hamount hfresh
  rw [live_count hinv]
  exact ha.2

theorem amount_limit_bounds_live_instances_witness :
    (2 < 2 ^ 32) ∧
    (CachedFactory.new .amountLimited .lru .simple 0).setMaxCreation 2 = some sampleCache ∧
    freshRun sampleCache sampleOps = true ∧
    (idleObjects (run sampleCache sampleOps).fromKeyToObjVector).length
      + (run sampleCache sampleOps).providedObjects.length ≤ 2 :=
  ⟨by decide, rfl, by decide,
   amount_limit_bounds_live_instances 2 (by decide) .lru .simple 0 sampleCache sampleOps rfl
     (by decide)⟩

/-- C3 (evaluation at the failing input): on a cache whose factory takes no
construction parameter, `CreateObject(1)` returns the new instance `100`,
`ReleaseObject` puts it back in the idle pool, and the next `CreateObject(1)`
does not return it: the factory builds a second instance, `200`, while `100`
stays idle. -/
theorem roundtrip_without_parameters_builds_anew :
    (noParmCache.CreateObject 1 [] (envAt 100)).1 = .ok 100 ∧
    ((noParmCache.CreateObject 1 [] (envAt 100)).2.ReleaseObject 100).1 = .ok () ∧
    ((run noParmCache [.createObject 1 [] (envAt 100), .releaseObject 100]).CreateObject
        1 [] (envAt 200)).1 = .ok 200 ∧
    ((run noParmCache [.createObject 1 [] (envAt 100), .releaseObject 100]).CreateObject
        1 [] (envAt 200)).2.stats.getCreated = 2 ∧
    idleObjects ((run noParmCache [.createObject 1 [] (envAt 100), .releaseObject 100]).CreateObject
        1 [] (envAt 200)).2.fromKeyToObjVector = [100] := by
  refine ⟨rfl, rfl, rfl, rfl, rfl⟩

/-- C4 (evaluation at the failing input): with no construction parameter,
`SimpleStatisticPolicy` and `AlwaysCreate`, two `CreateObject(1)` calls return
the distinct instances `100` and `200` with `getCreated() == 2` and
`getOut() == 2`; after both are released, the third `CreateObject(1)` returns
neither of them but a third instance, `300`, and `getCreated()` is `3`. -/
theorem third_create_without_parameters_builds_third_instance :
    (noParmCache.CreateObject 1 [] (envAt 100)).1 = .ok 100 ∧
    ((run noParmCache [.createObject 1 [] (envAt 100)]).CreateObject 1 [] (envAt 200)).1
      = .ok 200 ∧
    (run noParmCache [.createObject 1 [] (envAt 100),
        .createObject 1 [] (envAt 200)]).stats.getCreated = 2 ∧
    (run noParmCache [.createObject 1 [] (envAt 100),
        .createObject 1 [] (envAt 200)]).stats.getOut = 2 ∧
    ((run noParmCache [.createObject 1 [] (envAt 100), .createObject 1 [] (envAt 200),
        .releaseObject 100, .releaseObject 200]).CreateObject 1 [] (envAt 300)).1 = .ok 300 ∧
    ((run noParmCache [.createObject 1 [] (envAt 100), .createObject 1 [] (envAt 200),
        .releaseObject 100, .releaseObject 200]).CreateObject 1 [] (envAt 300)).2.stats.getCreated
      = 3 := by
  refine ⟨rfl, rfl, rfl, rfl, rfl, rfl⟩

/-- C5: `ReleaseObject` on an instance that is not in the checked-out registry
throws `CacheException` and leaves the whole cache (idle pool, registry,
out-counter, statistics, eviction bookkeeping) as it was; in particular the
second of two `ReleaseObject` calls on the same instance does so. -/
theorem release_of_unowned_instance_is_rejected (s : CachedFactory) (x : Product) :
    (x ∉ ptrKeys s.providedObjects → s.ReleaseObject x = (.error .cache, s)) ∧
    ((s.ReleaseObject x).1 = .ok () →
      (s.ReleaseObject x).2.ReleaseObject x = (.error .cache, (s.ReleaseObject x).2)) := by
  constructor
  · intro h
    exact releaseObject_none s x ((ptrFind_eq_none _ _).mpr h)
  · intro h
    apply releaseObject_none
    cases hfind : ptrFind s.providedObjects x with
    | none =>
      rw [releaseObject_none s x hfind] at h
      cases h
    | some key =>
      rw [releaseObject_some s x key hfind]
      show ptrFind (ptrErase s.providedObjects x) x = none
      rw [ptrFind_ptrErase]
      simp

theorem release_of_unowned_instance_is_rejected_witness :
    (200 ∉ ptrKeys (run sampleCache sampleOps).providedObjects ∧
      (run sampleCache sampleOps).ReleaseObject 200
        = (.error .cache, run sampleCache sampleOps)) ∧
    (((run sampleCache sampleOps).ReleaseObject 300).1 = .ok () ∧
      ((run sampleCache sampleOps).ReleaseObject 300).2.ReleaseObject 300
        = (.error .cache, ((run sampleCache sampleOps).ReleaseObject 300).2)) :=
  ⟨⟨by decide,
    (release_of_unowned_instance_is_rejected (run sampleCache sampleOps) 200).1 (by decide)⟩,
   ⟨rfl, (release_of_unowned_instance_is_rejected (run sampleCache sampleOps) 300).2 rfl⟩⟩

/-- C6: starting from a cache that holds no instance, after any sequence of
calls in which each construction yields a new instance, an instance returned
by `CreateObject(id, parms)` is one the factory built for exactly this
identifier and these parameters (and for no other key). -/
theorem handed_out_instance_was_built_for_its_key (s0 : CachedFactory) (ops : List Op)
    (id : IdentifierType) (parms : List Parm) (env : Env) (x : Product)
    (h0 : s0.IsEmpty)
    (hfresh : freshRun s0 (ops ++ [.createObject id parms env]) = true)
    (hret : ((run s0 ops).CreateObject id parms env).1 = .ok x) :
    ∀ k, (x, k) ∈ ((run s0 ops).CreateObject id parms env).2.heap ↔ k = ⟨id, parms⟩ := by
  have hinv := inv_run _ (inv_of_isEmpty h0) hfresh
  have hrun : run s0 (ops ++ [.createObject id parms env])
      = ((run s0 ops).CreateObject id parms env).2 := by
    simp [run, step, List.foldl_append]
  rw [hrun] at hinv
  have hreg := createObject_ok_registry (run s0 ops) id parms env x hret
  have hmem := hinv.provKey x _ hreg
  intro k
  constructor
  · intro hk
    exact heap_key_unique hinv x _ _ hk hmem
  · intro hk
    rw [hk]
    exact hmem

theorem handed_out_instance_was_built_for_its_key_witness :
    sampleCache.IsEmpty ∧
    freshRun sampleCache (sampleOps ++ [.createObject 1 [8] (envAt 400)]) = true ∧
    ((run sampleCache sampleOps).CreateObject 1 [8] (envAt 400)).1 = .ok 200 ∧
    ∀ k, (200, k) ∈ ((run sampleCache sampleOps).CreateObject 1 [8] (envAt 400)).2.heap
      ↔ k = ⟨1, [8]⟩ :=
  ⟨⟨rfl, rfl, rfl, rfl⟩, by decide, rfl,
   handed_out_instance_was_built_for_its_key sampleCache sampleOps 1 [8] (envAt 400) 200
     ⟨rfl, rfl, rfl, rfl⟩ (by decide) rfl⟩

/-- C7 (counterexample): capacity three with `EvictLRU`; `A = 300`, `B = 200`
and `C = 100` are built under three keys and released once each in the order
`A`, `B`, `C`.  The `CreateObject` for a fourth key evicts `C`, the instance
of least address, not `A`: afterwards `A` and `B` are idle and `C` is gone. -/
theorem lru_evicts_last_released_of_least_address :
    (run lruCache3 lruOps).ep = .lru [(100, 1), (200, 1), (300, 1)] ∧
    ((run lruCache3 lruOps).CreateObject 1 [4] (envAt 400)).1 = .ok 400 ∧
    ((run lruCache3 lruOps).CreateObject 1 [4] (envAt 400)).2.liveObjects = [400, 200, 300] ∧
    idleObjects ((run lruCache3 lruOps).CreateObject 1 [4] (envAt 400)).2.fromKeyToObjVector
      = [300, 200] := by
  refine ⟨rfl, rfl, rfl, rfl⟩

/-- C7 (amended): with `EvictLRU` and `AmountLimitedCreation` at capacity three
on a cache whose calls all ask for one identifier `id` with the same number
`n > 0` of construction parameters (the keys differ in their parameters): when
three distinct non-null instances `a`, `b`, `c`, built under three different
keys, are idle with score `1` each (released once each, in any order), a
`CreateObject` for a fourth key returns the instance `d` built by the factory
and destroys `v`, the one of `a`, `b`, `c` with the least address, and no
other instance; each of the other two is returned by a later `CreateObject`
for its key. -/
theorem lru_evicts_least_address_among_equal_scores (n : Nat)
    (sk : StatisticKind) (now : Int) (s0 : CachedFactory) (ops : List Op)
    (a b c v d : Product) (ka kb kc : Key) (id : IdentifierType) (parms : List Parm)
    (env : Env) (m : HitMap)
    (hcfg : (CachedFactory.new .amountLimited .lru sk now).setMaxCreation 3 = some s0)
    (hist : UniformHistory id n s0 ops) (hfresh : freshRun s0 ops = true)
    (hab : a ≠ b) (hac : a ≠ c) (hbc : b ≠ c)
    (hna : a ≠ NULL) (hnb : b ≠ NULL) (hnc : c ≠ NULL)
    (hka : (a, ka) ∈ (run s0 ops).heap) (hkb : (b, kb) ∈ (run s0 ops).heap)
    (hkc : (c, kc) ∈ (run s0 ops).heap)
    (hkab : ka ≠ kb) (hkac : ka ≠ kc) (hkbc : kb ≠ kc)
    (hia : a ∈ idleObjects (run s0 ops).fromKeyToObjVector)
    (hib : b ∈ idleObjects (run s0 ops).fromKeyToObjVector)
    (hic : c ∈ idleObjects (run s0 ops).fromKeyToObjVector)
    (hep : (run s0 ops).ep = .lru m)
    (hsa : ptrFind m a = some 1) (hsb : ptrFind m b = some 1) (hsc : ptrFind m c = some 1)
    (hkda : (⟨id, parms⟩ : Key) ≠ ka) (hkdb : (⟨id, parms⟩ : Key) ≠ kb)
    (hkdc : (⟨id, parms⟩ : Key) ≠ kc) (hparms : parms.length = n)
    (hfac : (run s0 ops).factory.CreateObject id parms env.alloc = .ok d)
    (hv : v ∈ [a, b, c]) (hva : v ≤ a) (hvb : v ≤ b) (hvc : v ≤ c) :
    ((run s0 ops).CreateObject id parms env).1 = .ok d ∧
    (∀ x, x ∈ ((run s0 ops).CreateObject id parms env).2.liveObjects ↔
      (x = d ∨ (x ∈ [a, b, c] ∧ x ≠ v))) ∧
    (∀ x kx env2, (x = a ∧ kx = ka) ∨ (x = b ∧ kx = kb) ∨ (x = c ∧ kx = kc) → x ≠ v →
      (((run s0 ops).CreateObject id parms env).2.CreateObject kx.id kx.values env2).1
        = .ok x) := by
  obtain ⟨hempty, hamount, _⟩ := configured_amount hcfg
  have hn : 0 < n := hist.2.1
  have hi := inv_run ops (inv_of_isEmpty hempty) hfresh
  have ham := amountInv_run (by decide) ops (inv_of_isEmpty hempty) hamount hfresh
  have hw := keysWF_history hist
  generalize run s0 ops = s at *
  have hla : a ∈ s.liveObjects := List.mem_map_of_mem Prod.fst hka
  have hlb : b ∈ s.liveObjects := List.mem_map_of_mem Prod.fst hkb
  have hlc : c ∈ s.liveObjects := List.mem_map_of_mem Prod.fst hkc
  obtain ⟨hlive, _⟩ := three_live ham.2 hab hac hbc hla hlb hlc
  obtain ⟨m1, hrem, hpost⟩ := lru_fourth_create_core id parms env hi ham hab hac hbc
    hka hkb hkc hkda hkdb hkdc hia hib hic hep hsa hsb hsc hv hva hvb hvc hfac
  have hwf1 : MapWF n m1 := by
    have h1 := mapIndex_wf n hn s.fromKeyToObjVector ⟨id, parms⟩ hparms hw.2.1
    unfold MapWF at h1 ⊢
    rw [removeFromVectors_keys _ _ _ hrem]
    exact h1
  -- every idle instance is one of the three, under its own key
  have hall : ∀ (x : Product) (kx : Key),
      (x = a ∧ kx = ka) ∨ (x = b ∧ kx = kb) ∨ (x = c ∧ kx = kc) →
      ∀ y, y ∈ idleObjects s.fromKeyToObjVector → (y, kx) ∈ s.heap → y = x := by
    intro x kx hx y hy hyk
    have hyl : y ∈ [a, b, c] := (hlive y).mp (List.mem_map_of_mem Prod.fst hyk)
    simp only [List.mem_cons, List.mem_singleton, List.not_mem_nil, or_false] at hyl
    rcases hyl with h | h | h
    · have := heap_key_unique hi a _ _ (h ▸ hyk) hka
      rcases hx with ⟨hx, hk⟩ | ⟨hx, hk⟩ | ⟨hx, hk⟩
      · rw [h, hx]
      · exact absurd (this.symm.trans hk) hkab
      · exact absurd (this.symm.trans hk) hkac
    · have := heap_key_unique hi b _ _ (h ▸ hyk) hkb
      rcases hx with ⟨hx, hk⟩ | ⟨hx, hk⟩ | ⟨hx, hk⟩
      · exact absurd (hk.symm.trans this) hkab
      · rw [h, hx]
      · exact absurd (this.symm.trans hk) hkbc
    · have := heap_key_unique hi c _ _ (h ▸ hyk) hkc
      rcases hx with ⟨hx, hk⟩ | ⟨hx, hk⟩ | ⟨hx, hk⟩
      · exact absurd (hk.symm.trans this) hkac
      · exact absurd (hk.symm.trans this) hkbc
      · rw [h, hx]
  refine ⟨?_, ?_, ?_⟩
  · rw [hpost]
    rfl
  · intro x
    rw [hpost]
    show x ∈ d :: (s.heap.filter (fun o => !decide (o.1 = v))).map Prod.fst ↔ _
    rw [liveObjects_filter, List.mem_cons, List.mem_filter]
    have := hlive x
    simp only [CachedFactory.liveObjects] at this
    rw [this]
    simp
  · intro x kx env2 hx hxv
    have hxidle : x ∈ idleObjects s.fromKeyToObjVector := by
      rcases hx with ⟨hx, _⟩ | ⟨hx, _⟩ | ⟨hx, _⟩
      · rw [hx]; exact hia
      · rw [hx]; exact hib
      · rw [hx]; exact hic
    have hxk : (x, kx) ∈ s.heap := by
      rcases hx with ⟨hx, hk⟩ | ⟨hx, hk⟩ | ⟨hx, hk⟩
      · rw [hx, hk]; exact hka
      · rw [hx, hk]; exact hkb
      · rw [hx, hk]; exact hkc
    have hxn : x ≠ NULL := by
      rcases hx with ⟨hx, _⟩ | ⟨hx, _⟩ | ⟨hx, _⟩
      · rw [hx]; exact hna
      · rw [hx]; exact hnb
      · rw [hx]; exact hnc
    obtain ⟨vx, hvx, hlast, hys⟩ := idle_vector hi x kx hxidle hxk (hall x kx hx)
    have hvx1 : (kx, vx) ∈ m1 := by
      apply removeFromVectors_mem_old _ _ _ hrem (kx, vx) (mapIndex_mem_old _ _ _ hvx)
      intro hvin
      exact hxv (hys v hvin).symm
    have hfound := mapIndex_found n hn m1 kx vx hwf1 hvx1
    rw [hpost]
    have hk : (⟨kx.id, kx.values⟩ : Key) = kx := rfl
    rw [createObject_hit _ kx.id kx.values env2 x hxn]
    · rfl
    · rw [hk]
      show (entryAt (mapIndex m1 kx).1 (mapIndex m1 kx).2).getLast? = some x
      rw [hfound.1, hfound.2]
      exact hlast

theorem lru_evicts_least_address_among_equal_scores_witness :
    (CachedFactory.new .amountLimited .lru .simple 0).setMaxCreation 3 = some lruCache3 ∧
    UniformHistory 1 1 lruCache3 lruOps ∧ freshRun lruCache3 lruOps = true ∧
    (run lruCache3 lruOps).ep = .lru [(100, 1), (200, 1), (300, 1)] ∧
    idleObjects (run lruCache3 lruOps).fromKeyToObjVector = [300, 200, 100] ∧
    ((run lruCache3 lruOps).CreateObject 1 [4] (envAt 400)).1 = .ok 400 ∧
    (∀ x, x ∈ ((run lruCache3 lruOps).CreateObject 1 [4] (envAt 400)).2.liveObjects ↔
      (x = 400 ∨ (x ∈ [300, 200, 100] ∧ x ≠ 100))) ∧
    (∀ (x : Product) (kx : Key) (env2 : Env),
      (x = 300 ∧ kx = ⟨1, [1]⟩) ∨ (x = 200 ∧ kx = ⟨1, [2]⟩) ∨ (x = 100 ∧ kx = ⟨1, [3]⟩) →
      x ≠ 100 →
      (((run lruCache3 lruOps).CreateObject 1 [4] (envAt 400)).2.CreateObject
          kx.id kx.values env2).1 = .ok x) :=
  ⟨rfl, ⟨⟨rfl, rfl, rfl, rfl⟩, by decide, by decide⟩, by decide, rfl, rfl,
   lru_evicts_least_address_among_equal_scores 1 .simple 0 lruCache3 lruOps
    300 200 100 100 400 ⟨1, [1]⟩ ⟨1, [2]⟩ ⟨1, [3]⟩ 1 [4] (envAt 400)
    [(100, 1), (200, 1), (300, 1)]
    rfl ⟨⟨rfl, rfl, rfl, rfl⟩, by decide, by decide⟩ (by decide) (by decide) (by decide)
    (by decide)
    (by decide) (by decide) (by decide) (by decide) (by decide) (by decide)
    (by decide) (by decide) (by decide) (by decide) (by decide) (by decide)
    rfl rfl rfl rfl (by decide) (by decide) (by decide) rfl rfl
    (by decide) (by decide) (by decide) (by decide)⟩

/-- C8 (counterexample): in the score table reached on `sampleCache` by
`mixedOps`, instance `100` has score `0` and instance `200` score `1`, and
`EvictLRU::evict` calls `remove(100)`. -/
theorem lru_evict_passes_instance_of_score_zero :
    (run sampleCache mixedOps).ep = .lru [(100, 0), (200, 1)] ∧
    EvictLRU.evict [(100, 0), (200, 1)] (fun x => x) = .ok 100 ∧
    ptrFind ([(100, 0), (200, 1)] : HitMap) 100 = some 0 := by
  refine ⟨rfl, rfl, rfl⟩

/-- C8 (amended): for every non-empty LRU score table, whenever `evict` calls
`remove(x)`, `x` is a tracked instance of least score and the greatest score in
the table is greater than `0`; the score of `x` itself can be `0`. -/
theorem lru_evict_passes_least_score_when_max_positive (m : HitMap) (x : Product)
    (hne : m ≠ []) (hcall : EvictLRU.evict m (fun y => y) = .ok x) :
    (∃ sx, (x, sx) ∈ m ∧ ∀ e ∈ m, sx ≤ e.2) ∧ ∃ e ∈ m, 0 < e.2 := by
  unfold EvictLRU.evict at hcall
  rcases getLowerBound_spec m hne with ⟨h, _⟩ | ⟨y, sy, h, hm, hmin, hmax⟩
  · rw [h] at hcall
    cases hcall
  · rw [h] at hcall
    simp only [Except.ok.injEq] at hcall
    subst hcall
    exact ⟨⟨sy, hm, hmin⟩, hmax⟩

theorem lru_evict_passes_least_score_when_max_positive_witness :
    ([(100, 0), (200, 1)] : HitMap) ≠ [] ∧
    EvictLRU.evict [(100, 0), (200, 1)] (fun y => y) = .ok 100 ∧
    ((∃ sx, (100, sx) ∈ ([(100, 0), (200, 1)] : HitMap) ∧
        ∀ e ∈ ([(100, 0), (200, 1)] : HitMap), sx ≤ e.2) ∧
      ∃ e ∈ ([(100, 0), (200, 1)] : HitMap), 0 < e.2) :=
  ⟨by decide, rfl,
   lru_evict_passes_least_score_when_max_positive [(100, 0), (200, 1)] 100 (by decide) rfl⟩

/-- C9 (counterexample): on `sampleCache` (capacity two, `EvictLRU`) after
`mixedOps`, instance `200` is idle and instance `100` is checked out; `evict`
selects `100`, `remove` throws `CacheException`, and so does the
`CreateObject` that triggered the eviction. -/
theorem evict_selects_checked_out_instance :
    idleObjects (run sampleCache mixedOps).fromKeyToObjVector = [200] ∧
    ptrKeys (run sampleCache mixedOps).providedObjects = [100] ∧
    (run sampleCache mixedOps).ep.evict 0 (fun x => x) = .ok 100 ∧
    ((run sampleCache mixedOps).evict 0).1 = .error .cache ∧
    ((run sampleCache mixedOps).CreateObject 1 [9] (envAt 300)).1 = .error .cache := by
  refine ⟨rfl, rfl, rfl, rfl, rfl⟩

/-- C9 (amended): in every state reached from a new cache with
`AmountLimitedCreation` set to `N` and any eviction policy by calls that all
ask for one identifier with the same positive number of parameters, a call to
`evict` made when admission is refused (with `rand()` in its range) either
removes exactly one instance, which was idle, and leaves the registry as it
was, or fails with `EvictionException`, or fails with `CacheException` because
the instance selected by the policy is in the checked-out registry; a failing
`evict` leaves the cache unchanged, and no checked-out instance is ever
destroyed. -/
theorem evict_removes_one_idle_instance_or_fails (N : Nat) (hN : N < 2 ^ 32)
    (ek : EvictionKind) (sk : StatisticKind) (now : Int) (i : IdentifierType) (n : Nat)
    (s0 : CachedFactory) (ops : List Op) (t : Int) (r : Nat)
    (hcfg : (CachedFactory.new .amountLimited ek sk now).setMaxCreation N = some s0)
    (hist : UniformHistory i n s0 ops) (hfresh : freshRun s0 ops = true)
    (hrefused : ((run s0 ops).cp.canCreate t).1 = .ok false)
    (hr : r ≤ RAND_MAX) :
    (∃ x, x ∈ idleObjects (run s0 ops).fromKeyToObjVector ∧
      ((run s0 ops).evict r).1 = .ok () ∧
      (idleObjects (run s0 ops).fromKeyToObjVector).Perm
        (x :: idleObjects ((run s0 ops).evict r).2.fromKeyToObjVector) ∧
      (run s0 ops).liveObjects.Perm (x :: ((run s0 ops).evict r).2.liveObjects) ∧
      ((run s0 ops).evict r).2.providedObjects = (run s0 ops).providedObjects) ∨
    (run s0 ops).evict r = (.error .eviction, run s0 ops) ∨
    ((run s0 ops).evict r = (.error .cache, run s0 ops) ∧
      ∃ x, x ∈ ptrKeys (run s0 ops).providedObjects ∧
        (run s0 ops).ep.evict r (fun y => y) = .ok x) := by
  obtain ⟨_, hamount, hpos⟩ := configured_amount hcfg
  have hinv := inv_run ops (inv_of_isEmpty hist.1) hfresh
  have ha := amountInv_run hN ops (inv_of_isEmpty hist.1) hamount hfresh
  have hlive : (run s0 ops).heap ≠ [] := by
    rw [amountInv_canCreate ha t] at hrefused
    simp only [Except.ok.injEq, decide_eq_false_iff_not, Nat.not_lt] at hrefused
    intro hnil
    rw [hnil] at hrefused
    simp only [List.length_nil, Nat.le_zero_eq] at hrefused
    omega
  exact evict_trichotomy r hinv hlive hr

theorem evict_removes_one_idle_instance_or_fails_witness :
    (2 < 2 ^ 32) ∧
    (CachedFactory.new .amountLimited .lru .simple 0).setMaxCreation 2 = some sampleCache ∧
    UniformHistory 1 1 sampleCache sampleOps ∧ freshRun sampleCache sampleOps = true ∧
    ((run sampleCache sampleOps).cp.canCreate 0).1 = .ok false ∧
    (0 ≤ RAND_MAX) ∧
    ((∃ x, x ∈ idleObjects (run sampleCache sampleOps).fromKeyToObjVector ∧
      ((run sampleCache sampleOps).evict 0).1 = .ok () ∧
      (idleObjects (run sampleCache sampleOps).fromKeyToObjVector).Perm
        (x :: idleObjects ((run sampleCache sampleOps).evict 0).2.fromKeyToObjVector) ∧
      (run sampleCache sampleOps).liveObjects.Perm
        (x :: ((run sampleCache sampleOps).evict 0).2.liveObjects) ∧
      ((run sampleCache sampleOps).evict 0).2.providedObjects
        = (run sampleCache sampleOps).providedObjects) ∨
    (run sampleCache sampleOps).evict 0 = (.error .eviction, run sampleCache sampleOps) ∨
    ((run sampleCache sampleOps).evict 0 = (.error .cache, run sampleCache sampleOps) ∧
      ∃ x, x ∈ ptrKeys (run sampleCache sampleOps).providedObjects ∧
        (run sampleCache sampleOps).ep.evict 0 (fun y => y) = .ok x)) :=
  ⟨by decide, rfl, ⟨⟨rfl, rfl, rfl, rfl⟩, by decide, by decide⟩, by decide, rfl, by decide,
   evict_removes_one_idle_instance_or_fails 2 (by decide) .lru .simple 0 1 1 sampleCache
     sampleOps 0 0 rfl ⟨⟨rfl, rfl, rfl, rfl⟩, by decide, by decide⟩ (by decide) rfl
     (by decide)⟩

/-- C10: for every non-empty LRU score table in which every tracked instance
has score `0`, `evict` throws `EvictionException` without calling `remove`,
whatever `remove` is; on a cache it throws and leaves the cache as it was. -/
theorem lru_evict_fails_when_all_scores_zero (m : HitMap) (hne : m ≠ [])
    (hzero : ∀ e ∈ m, e.2 = 0) :
    (∀ (ρ : Type) (remove : Product → ρ), EvictLRU.evict m remove = .error .eviction) ∧
    (∀ (s : CachedFactory) (r : Nat), s.ep = .lru m → s.evict r = (.error .eviction, s)) := by
  have hlow : EvictionHelper.getLowerBound m = .error .eviction := by
    rcases getLowerBound_spec m hne with ⟨h, _⟩ | ⟨_, _, _, _, _, e, he, hpos⟩
    · exact h
    · have := hzero e he
      omega
  constructor
  · intro ρ remove
    unfold EvictLRU.evict
    rw [hlow]
  · intro s r hs
    unfold CachedFactory.evict
    rw [hs]
    simp only [EvictionPolicy.evict, EvictLRU.evict, hlow]

theorem lru_evict_fails_when_all_scores_zero_witness :
    ([(100, 0), (200, 0)] : HitMap) ≠ [] ∧
    (∀ e ∈ ([(100, 0), (200, 0)] : HitMap), e.2 = 0) ∧
    (∀ (ρ : Type) (remove : Product → ρ),
      EvictLRU.evict [(100, 0), (200, 0)] remove = .error .eviction) ∧
    (∀ (s : CachedFactory) (r : Nat), s.ep = .lru [(100, 0), (200, 0)] →
      s.evict r = (.error .eviction, s)) :=
  ⟨by decide, by decide,
   lru_evict_fails_when_all_scores_zero [(100, 0), (200, 0)] (by decide) (by decide)⟩

/-! ## Claims C11 to C20 -/

/-- C11 (the code departs from the claim on the keys that `operator<` does
not order strictly): the keys `(1, (2))` and `(2, (0))` are each less than the
other, so that with several identifiers `operator<` is not the strict weak
ordering `std::map` requires, and the lookup made by a failing `CreateObject`
can drop an entry that holds idle instances.  On the other keys the claim
holds: on a cache whose calls all ask for one identifier with the same
positive number of parameters, if `CreateObject` fails with
`EvictionException`, the factory was not called and no instance was built or
deleted; the idle instances under every key, the checked-out registry, the
out-counter, the state of the admission policy, the statistics counters, the
eviction bookkeeping and the registered creators are what they were before the
call, and the idle pool is the same map when the requested key had an entry,
and has one more entry, an empty vector under the requested key, when it had
none. -/
theorem failed_eviction_leaves_cache_unchanged_on_uniform_keys (i : IdentifierType) (n : Nat)
    (s0 : CachedFactory) (ops : List Op) (parms : List Parm) (env : Env)
    (hist : UniformHistory i n s0 (ops ++ [.createObject i parms env]))
    (h : ((run s0 ops).CreateObject i parms env).1 = .error .eviction) :
    (Key.lt ⟨1, [2]⟩ ⟨2, [0]⟩ = true ∧ Key.lt ⟨2, [0]⟩ ⟨1, [2]⟩ = true) ∧
    (run s0 ops).atFactoryCall i parms env = none ∧
    ((run s0 ops).CreateObject i parms env).2.heap = (run s0 ops).heap ∧
    ((run s0 ops).CreateObject i parms env).2.deleted = (run s0 ops).deleted ∧
    (∀ k, idleUnder ((run s0 ops).CreateObject i parms env).2.fromKeyToObjVector k
            = idleUnder (run s0 ops).fromKeyToObjVector k) ∧
    ((⟨i, parms⟩ : Key) ∈ (run s0 ops).fromKeyToObjVector.map Prod.fst →
      ((run s0 ops).CreateObject i parms env).2.fromKeyToObjVector
        = (run s0 ops).fromKeyToObjVector) ∧
    ((⟨i, parms⟩ : Key) ∉ (run s0 ops).fromKeyToObjVector.map Prod.fst →
      ((run s0 ops).CreateObject i parms env).2.fromKeyToObjVector.Perm
        ((⟨i, parms⟩, []) :: (run s0 ops).fromKeyToObjVector)) ∧
    ((run s0 ops).CreateObject i parms env).2.providedObjects = (run s0 ops).providedObjects ∧
    ((run s0 ops).CreateObject i parms env).2.outObjects = (run s0 ops).outObjects ∧
    ((run s0 ops).CreateObject i parms env).2.cp = (run s0 ops).cp ∧
    ((run s0 ops).CreateObject i parms env).2.sp = (run s0 ops).sp ∧
    ((run s0 ops).CreateObject i parms env).2.ep = (run s0 ops).ep ∧
    ((run s0 ops).CreateObject i parms env).2.factory = (run s0 ops).factory := by
  have hwf := keysWF_history (uniformHistory_before_create hist).1
  generalize run s0 ops = s at *
  obtain ⟨hat, hst⟩ := createObject_eviction_state s i parms env h
  have hpool := getContainerFromKey_pool s ⟨i, parms⟩ hwf
  rw [hst]
  exact ⟨by decide, hat, rfl, rfl, fun k => mapIndex_idleUnder _ _ _, hpool.1, hpool.2,
    rfl, rfl, rfl, rfl, rfl, rfl⟩

theorem failed_eviction_leaves_cache_unchanged_on_uniform_keys_witness :
    UniformHistory 1 1 sampleCache (heldOps ++ [.createObject 1 [9] (envAt 300)]) ∧
    ((run sampleCache heldOps).CreateObject 1 [9] (envAt 300)).1 = .error .eviction ∧
    ((run sampleCache heldOps).CreateObject 1 [9] (envAt 300)).2.heap
      = (run sampleCache heldOps).heap ∧
    (∀ k, idleUnder ((run sampleCache heldOps).CreateObject 1 [9]
        (envAt 300)).2.fromKeyToObjVector k
      = idleUnder (run sampleCache heldOps).fromKeyToObjVector k) :=
  ⟨⟨⟨rfl, rfl, rfl, rfl⟩, by decide, by decide⟩, rfl,
   (failed_eviction_leaves_cache_unchanged_on_uniform_keys 1 1 sampleCache heldOps [9]
      (envAt 300) ⟨⟨rfl, rfl, rfl, rfl⟩, by decide, by decide⟩ rfl).2.2.1,
   (failed_eviction_leaves_cache_unchanged_on_uniform_keys 1 1 sampleCache heldOps [9]
      (envAt 300) ⟨⟨rfl, rfl, rfl, rfl⟩, by decide, by decide⟩ rfl).2.2.2.2.1⟩

/-- C12: on a cache with `SimpleStatisticPolicy` whose counters are zero,
after a sequence of calls in which `K` calls of `CreateObject` return, `M` of
them served from the idle pool and the other `K - M` by a construction,
`getHit()` is `M`, `getFetched()` is `K` and `getMissed()` is `K - M`, all
modulo `2^32`. -/
theorem hit_fetched_missed_counters (s0 : CachedFactory) (ops : List Op)
    (h0 : s0.sp = .simple SimpleStatisticPolicy.init) :
    (run s0 ops).stats.getHit = hitCount s0 ops % 2 ^ 32 ∧
    (run s0 ops).stats.getFetched = fetchCount s0 ops % 2 ^ 32 ∧
    (run s0 ops).stats.getMissed = (fetchCount s0 ops - hitCount s0 ops) % 2 ^ 32 ∧
    fetchCount s0 ops - hitCount s0 ops = buildCount s0 ops ∧
    hitCount s0 ops ≤ fetchCount s0 ops := by
  obtain ⟨q, hq, hhit, hfetched⟩ :=
    hit_fetched_run ops s0 SimpleStatisticPolicy.init h0 (by decide) (by decide)
  have heq := fetchCount_eq s0 ops
  have hstats : (run s0 ops).stats = q := by
    unfold CachedFactory.stats
    rw [hq]
  rw [hstats]
  have h1 : SimpleStatisticPolicy.init.hit = 0 := rfl
  have h2 : SimpleStatisticPolicy.init.fetched = 0 := rfl
  rw [h1, Nat.zero_add] at hhit
  rw [h2, Nat.zero_add] at hfetched
  refine ⟨hhit, hfetched, ?_, by omega, by omega⟩
  unfold SimpleStatisticPolicy.getMissed
  rw [hhit, hfetched]
  omega

theorem hit_fetched_missed_counters_witness :
    sampleCache.sp = .simple SimpleStatisticPolicy.init ∧
    (run sampleCache hitOps).stats.getHit = hitCount sampleCache hitOps % 2 ^ 32 ∧
    (run sampleCache hitOps).stats.getFetched = fetchCount sampleCache hitOps % 2 ^ 32 ∧
    (run sampleCache hitOps).stats.getMissed
      = (fetchCount sampleCache hitOps - hitCount sampleCache hitOps) % 2 ^ 32 ∧
    fetchCount sampleCache hitOps = 3 ∧ hitCount sampleCache hitOps = 1 :=
  ⟨rfl, (hit_fetched_missed_counters sampleCache hitOps rfl).1,
   (hit_fetched_missed_counters sampleCache hitOps rfl).2.1,
   (hit_fetched_missed_counters sampleCache hitOps rfl).2.2.1, by decide, by decide⟩

/-- C13 (counterexample): on a cache with `AlwaysCreate` and
`SimpleStatisticPolicy`, after `2^32` calls of `CreateObject` that each build
a new instance and none released, the registry holds `2^32` instances while
`getOut()` is `0`. -/
theorem out_counter_wraps_at_two_pow_32_checked_out :
    freshRun noParmCache (createsFrom 1 (2 ^ 32)) = true ∧
    (run noParmCache (createsFrom 1 (2 ^ 32))).providedObjects.length = 2 ^ 32 ∧
    (run noParmCache (createsFrom 1 (2 ^ 32))).stats.getOut = 0 := by
  have h := creates_out (2 ^ 32)
  rw [Nat.mod_self] at h
  exact h

/-- C13 (amended): for every sequence of calls on a cache that starts empty
with `SimpleStatisticPolicy`, every construction yielding a new instance:
`getOut()` equals the out-counter of the cache and, modulo `2^32`, the size of
the checked-out registry; `getAllocated()` equals, modulo `2^32`, the number
of instances built and not deleted, which is the number of idle plus
checked-out instances when the calls all ask for one identifier with the same
positive number of parameters; `getDestroyed()` equals, modulo `2^32`, the
number of instances `remove` has deleted. -/
theorem statistics_agree_with_cache_modulo_two_pow_32 (s0 : CachedFactory) (ops : List Op)
    (hempty : s0.IsEmpty) (hsp : s0.sp = .simple SimpleStatisticPolicy.init)
    (hout : s0.outObjects = 0) (hdel : s0.deleted = 0) (hfresh : freshRun s0 ops = true) :
    (run s0 ops).stats.getOut = (run s0 ops).providedObjects.length % 2 ^ 32 ∧
    (run s0 ops).stats.getOut = (run s0 ops).outObjects ∧
    (run s0 ops).stats.getAllocated = (run s0 ops).liveObjects.length % 2 ^ 32 ∧
    (∀ (i : IdentifierType) (n : Nat), UniformHistory i n s0 ops →
      (run s0 ops).stats.getAllocated =
        ((idleObjects (run s0 ops).fromKeyToObjVector).length
          + (run s0 ops).providedObjects.length) % 2 ^ 32) ∧
    (run s0 ops).stats.getDestroyed = (run s0 ops).deleted % 2 ^ 32 := by
  have hinv0 : Inv s0 := inv_of_isEmpty hempty
  have hstat0 : StatInv s0 := by
    refine ⟨SimpleStatisticPolicy.init, hsp, ?_, ?_, ?_, ?_⟩
    · rw [hempty.2.1]
      rfl
    · rw [hempty.2.1, hout]
      rfl
    · rw [hempty.2.2.1]
      rfl
    · rw [hempty.2.2.1, hdel]
      rfl
  have hinv := inv_run ops hinv0 hfresh
  obtain ⟨p, hp, h1, h2, h3, h4⟩ := statInv_run ops hinv0 hstat0 hfresh
  have hcount := live_count hinv
  have hstats : (run s0 ops).stats = p := by
    unfold CachedFactory.stats
    rw [hp]
  rw [hstats]
  refine ⟨h1, ?_, ?_, ?_, ?_⟩
  · show p.out = _
    rw [h1, h2]
  · show p.allocated = _
    rw [h3]
    simp [CachedFactory.liveObjects]
  · intro _ _ _
    show p.allocated = _
    rw [h3, hcount]
  · unfold SimpleStatisticPolicy.getDestroyed
    rw [h3, h4]
    omega

theorem statistics_agree_with_cache_modulo_two_pow_32_witness :
    sampleCache.IsEmpty ∧ sampleCache.sp = .simple SimpleStatisticPolicy.init ∧
    sampleCache.outObjects = 0 ∧ sampleCache.deleted = 0 ∧
    freshRun sampleCache sampleOps = true ∧
    (run sampleCache sampleOps).stats.getDestroyed
      = (run sampleCache sampleOps).deleted % 2 ^ 32 ∧
    (run sampleCache sampleOps).deleted = 1 ∧
    UniformHistory 1 1 sampleCache sampleOps ∧
    (run sampleCache sampleOps).stats.getAllocated =
      ((idleObjects (run sampleCache sampleOps).fromKeyToObjVector).length
        + (run sampleCache sampleOps).providedObjects.length) % 2 ^ 32 :=
  ⟨⟨rfl, rfl, rfl, rfl⟩, rfl, rfl, rfl, by decide,
   (statistics_agree_with_cache_modulo_two_pow_32 sampleCache sampleOps ⟨rfl, rfl, rfl, rfl⟩
      rfl rfl rfl (by decide)).2.2.2.2, by decide,
   ⟨⟨rfl, rfl, rfl, rfl⟩, by decide, by decide⟩,
   (statistics_agree_with_cache_modulo_two_pow_32 sampleCache sampleOps ⟨rfl, rfl, rfl, rfl⟩
      rfl rfl rfl (by decide)).2.2.2.1 1 1 ⟨⟨rfl, rfl, rfl, rfl⟩, by decide, by decide⟩⟩

/-- C14 (the code departs from the claim): `operator<` is not a strict order
on keys of one arity.  With no construction parameter a key is less than
itself.  With one parameter the keys `(1, (5))` and `(2, (3))` are each less
than the other though they differ, and `(1, (5)) < (2, (3)) < (0, (4))` holds
without `(1, (5)) < (0, (4))`. -/
theorem key_lt_is_not_a_strict_order :
    Key.lt ⟨1, []⟩ ⟨1, []⟩ = true ∧
    (Key.lt ⟨1, [5]⟩ ⟨2, [3]⟩ = true ∧ Key.lt ⟨2, [3]⟩ ⟨1, [5]⟩ = true ∧
      (⟨1, [5]⟩ : Key) ≠ ⟨2, [3]⟩) ∧
    (Key.lt ⟨1, [5]⟩ ⟨2, [3]⟩ = true ∧ Key.lt ⟨2, [3]⟩ ⟨0, [4]⟩ = true ∧
      Key.lt ⟨1, [5]⟩ ⟨0, [4]⟩ = false) := by
  decide

/-- C15 (the code departs from the claim): for the keys `(1, (5))` and
`(2, (3))`, whose parameter tuples differ, the code answers `k1 < k2` on the
identifiers alone, although the tuple of `k1` is neither less than nor equal
to the tuple of `k2`: the identifier is consulted before the tuples, not to
break a tie between equal tuples. -/
theorem key_lt_consults_identifier_first :
    Key.lt ⟨1, [5]⟩ ⟨2, [3]⟩ = true ∧
    ¬ (tupleLt [5] [3] = true ∨ (([5] : List Parm) = [3] ∧ (1 : IdentifierType) < 2)) := by
  decide

/-- C16: `operator==` on two keys holds iff their parameter tuples are equal,
that is equal component by component; the identifiers take no part in the
result, two keys with different identifiers and the same tuple compare equal,
and so do any two keys with empty tuples. -/
theorem key_eq_iff_tuples_equal (k1 k2 : Key) :
    (Key.eq k1 k2 = true ↔ k1.values = k2.values) ∧
    (Key.eq k1 k2 = true ↔ ∀ i : Nat, k1.values[i]? = k2.values[i]?) ∧
    (∀ id1 id2 : IdentifierType, Key.eq ⟨id1, k1.values⟩ ⟨id2, k2.values⟩ = Key.eq k1 k2) ∧
    (∀ id1 id2 : IdentifierType, Key.eq ⟨id1, k1.values⟩ ⟨id2, k1.values⟩ = true) ∧
    (∀ id1 id2 : IdentifierType, Key.eq ⟨id1, []⟩ ⟨id2, []⟩ = true) := by
  have hiff : Key.eq k1 k2 = true ↔ k1.values = k2.values := by
    unfold Key.eq
    constructor
    · intro h
      split at h
      · cases h
      · exact of_decide_eq_true h
    · intro h
      simp [h]
  refine ⟨hiff, ?_, ?_, ?_, ?_⟩
  · rw [hiff]
    constructor
    · intro h i
      rw [h]
    · intro h
      exact List.ext_getElem? h
  · intro id1 id2
    rfl
  · intro id1 id2
    simp [Key.eq]
  · intro id1 id2
    rfl

/-- C17 (the code departs from the claim): `EvictAging::onRelease` leaves
every score as it was, because `updateCounter::operator()` receives each
table entry by value; a table `(100 ↦ 0), (200 ↦ 6)` is unchanged by
`onRelease(100)`.  The value the functor computes for the released instance
on its copy has bit 24 set, not bit 31. -/
theorem aging_onRelease_changes_no_score :
    (∀ (m : HitMap) (x : Product), EvictAging.onRelease m x = m) ∧
    EvictAging.onRelease [(100, 0), (200, 6)] 100 = [(100, 0), (200, 6)] ∧
    EvictAging.updateCounter 100 (100, 0) = (100, 2 ^ 24) ∧
    EvictAging.updateCounter 100 (200, 6) = (200, 3) := by
  refine ⟨fun _ _ => rfl, rfl, ?_, ?_⟩ <;> decide

/-- C18 (the code departs from the claim): after `setRate(1, 1000)` two
creation attempts at the same clock reading are both admitted and logged, so
the window holds `maxCreation + 1` creations; only the third attempt is
refused.  After `setRate(0, 1000)` one creation is admitted. -/
theorem rate_limit_admits_one_more_than_maximum :
    (RateLimitedCreation.init 0).setRate 1 1000 = some rateOne ∧
    (rateOne.canCreate 0).1 = .ok true ∧
    (((rateOne.canCreate 0).2.onCreate 0).canCreate 0).1 = .ok true ∧
    ((((rateOne.canCreate 0).2.onCreate 0).canCreate 0).2.onCreate 0).m_vTimes = [0, 0] ∧
    (((((rateOne.canCreate 0).2.onCreate 0).canCreate 0).2.onCreate 0).canCreate 0).1
      = .error .rateLimited ∧
    (∃ p, (RateLimitedCreation.init 0).setRate 0 1000 = some p ∧
      (p.canCreate 0).1 = .ok true) := by
  refine ⟨by decide, rfl, rfl, by decide, rfl, ?_⟩
  exact ⟨_, rfl, rfl⟩

/-- C19 (counterexample): a default rate limiter built at clock reading `0`
admits a creation at reading `0` and logs it at reading `900000`; `canCreate`
at reading `1000001` empties the log although the logged timestamp is inside
the window (`900000 ≥ 1000001 - 1000000`). -/
theorem rate_limit_clean_discards_entry_inside_window :
    ((RateLimitedCreation.init 0).canCreate 0).2.onCreate 900000 = rateLate ∧
    (∀ x ∈ rateLate.m_vTimes, x ≤ 1000001) ∧
    (∀ x ∈ rateLate.m_vTimes, x ≥ 1000001 - rateLate.timeValidity) ∧
    (rateLate.canCreate 1000001).2.m_vTimes = [] ∧
    rateLate.m_vTimes.filter (fun x => decide (x ≥ 1000001 - rateLate.timeValidity))
      = [900000] := by
  decide

/-- C19 (amended): `canCreate` called at clock reading `t` empties the log
when `t - lastUpdate > timeValidity`, and otherwise leaves exactly the logged
timestamps `x ≥ t - timeValidity` in their order; it sets `lastUpdate` to `t`
and then throws iff more than `maxCreation` entries remain, returning true
otherwise.  When no logged timestamp is later than `lastUpdate`, the log left
is in both cases exactly the timestamps inside the window. -/
theorem rate_limit_canCreate_log (p : RateLimitedCreation) (t : Int) :
    (p.canCreate t).2.m_vTimes =
      (if t - p.lastUpdate > p.timeValidity then []
       else p.m_vTimes.filter (fun x => decide (x ≥ t - p.timeValidity))) ∧
    (p.canCreate t).2.lastUpdate = t ∧
    (p.canCreate t).2.maxCreation = p.maxCreation ∧
    (p.canCreate t).2.timeValidity = p.timeValidity ∧
    ((p.canCreate t).1 = .error .rateLimited ↔
      (p.canCreate t).2.m_vTimes.length > p.maxCreation) ∧
    ((p.canCreate t).1 = .ok true ↔
      ¬ (p.canCreate t).2.m_vTimes.length > p.maxCreation) ∧
    ((∀ x ∈ p.m_vTimes, x ≤ p.lastUpdate) →
      (p.canCreate t).2.m_vTimes =
        p.m_vTimes.filter (fun x => decide (x ≥ t - p.timeValidity))) := by
  have hlog : (p.cleanVector t).m_vTimes =
      (if t - p.lastUpdate > p.timeValidity then []
       else p.m_vTimes.filter (fun x => decide (x ≥ t - p.timeValidity))) := by
    unfold RateLimitedCreation.cleanVector
    split
    · rfl
    · simp only
      congr 1
      funext x
      by_cases h : x < t - p.timeValidity
      · have h2 : ¬ (x ≥ t - p.timeValidity) := by omega
        rw [decide_eq_true h, decide_eq_false h2]
        rfl
      · have h2 : x ≥ t - p.timeValidity := by omega
        rw [decide_eq_false h, decide_eq_true h2]
        rfl
  have hmax : (p.cleanVector t).maxCreation = p.maxCreation := by
    unfold RateLimitedCreation.cleanVector
    split <;> rfl
  have hval : (p.cleanVector t).timeValidity = p.timeValidity := by
    unfold RateLimitedCreation.cleanVector
    split <;> rfl
  have hlast : (p.cleanVector t).lastUpdate = t := by
    unfold RateLimitedCreation.cleanVector
    split <;> rfl
  have h2 : (p.canCreate t).2 = p.cleanVector t := by
    unfold RateLimitedCreation.canCreate
    simp only
    split <;> rfl
  have h1 : (p.canCreate t).1 =
      if (p.cleanVector t).m_vTimes.length > (p.cleanVector t).maxCreation
      then .error .rateLimited else .ok true := by
    unfold RateLimitedCreation.canCreate
    simp only
    split <;> rfl
  rw [h2, h1, hmax]
  refine ⟨hlog, hlast, rfl, hval, ?_, ?_, ?_⟩
  · by_cases h : (p.cleanVector t).m_vTimes.length > p.maxCreation
    · simp [h]
    · simp [h]
  · by_cases h : (p.cleanVector t).m_vTimes.length > p.maxCreation
    · simp [h]
    · simp [h]
  · intro hle
    rw [hlog]
    split
    · rename_i hgt
      symm
      rw [List.filter_eq_nil_iff]
      intro x hx
      have := hle x hx
      simp only [decide_eq_true_eq]
      omega
    · rfl

theorem rate_limit_canCreate_log_witness :
    (∀ x ∈ rateOne.m_vTimes, x ≤ rateOne.lastUpdate) ∧
    (rateOne.canCreate 5).2.m_vTimes =
      rateOne.m_vTimes.filter (fun x => decide (x ≥ 5 - rateOne.timeValidity)) :=
  ⟨by decide, (rate_limit_canCreate_log rateOne 5).2.2.2.2.2.2 (by decide)⟩

/-- C20 (counterexample): a cache with `RateLimitedCreation` set to no
creation holds one idle instance that `evict` would remove; a `CreateObject`
for another key fails with the exception of the admission policy, and the idle
instance is still there. -/
theorem rate_limit_refusal_reaches_caller_without_eviction :
    ((run rateCache rateOps).evict 0).1 = .ok () ∧
    ((run rateCache rateOps).CreateObject 1 [8] (envAt 200)).1 = .error .rateLimited ∧
    ((run rateCache rateOps).CreateObject 1 [8] (envAt 200)).2.heap
      = (run rateCache rateOps).heap ∧
    (run rateCache rateOps).heap = [(100, ⟨1, [7]⟩)] := by
  refine ⟨rfl, rfl, ?_, ?_⟩ <;> decide

/-- C20 (amended): on a miss, with `AmountLimitedCreation` at its maximum the
cache calls `evict`, fails with the error of `evict` when it throws and goes on
to the factory otherwise; with `RateLimitedCreation` whose cleaned log holds
more than `maxCreation` entries the call fails with the exception of the
admission policy and nothing is evicted; `AlwaysCreate` never refuses. -/
theorem refusal_evicts_only_with_amount_limit (s : CachedFactory) (id : IdentifierType)
    (parms : List Parm) (env : Env)
    (hmiss : (entryAt (mapIndex s.fromKeyToObjVector ⟨id, parms⟩).1
                (mapIndex s.fromKeyToObjVector ⟨id, parms⟩).2).getLast? = none) :
    (∀ a, s.cp = .amountLimited a → a.maxCreation ≤ a.created →
      (∀ e, ((s.getContainerFromKey ⟨id, parms⟩).1.evict env.rand).1 = .error e →
        s.CreateObject id parms env = (.error e, (s.getContainerFromKey ⟨id, parms⟩).1)) ∧
      (((s.getContainerFromKey ⟨id, parms⟩).1.evict env.rand).1 = .ok () →
        s.atFactoryCall id parms env
          = some ((s.getContainerFromKey ⟨id, parms⟩).1.evict env.rand).2)) ∧
    (∀ p, s.cp = .rateLimited p →
      (p.cleanVector env.clockCan).m_vTimes.length > p.maxCreation →
      s.CreateObject id parms env =
        (.error .rateLimited,
         { (s.getContainerFromKey ⟨id, parms⟩).1 with
           cp := .rateLimited (p.cleanVector env.clockCan) })) ∧
    (s.cp = .alwaysCreate →
      s.atFactoryCall id parms env = some (s.getContainerFromKey ⟨id, parms⟩).1) := by
  have hcases := createObject_cases s id parms env
  have hcp : (s.getContainerFromKey ⟨id, parms⟩).1.cp = s.cp := rfl
  have hmiss1 : (entryAt (s.getContainerFromKey ⟨id, parms⟩).1.fromKeyToObjVector
      (s.getContainerFromKey ⟨id, parms⟩).2).getLast? = none := hmiss
  generalize (s.getContainerFromKey ⟨id, parms⟩).1 = s1 at hcases hcp hmiss1 ⊢
  generalize (s.getContainerFromKey ⟨id, parms⟩).2 = i1 at hcases hmiss1
  have hshould := shouldCreateObject_null s1 env
  have hrest : (∃ e, (s1.shouldCreateObject NULL env).1 = .error e ∧
        s.atFactoryCall id parms env = none ∧
        s.CreateObject id parms env = (.error e, (s1.shouldCreateObject NULL env).2)) ∨
      ((s1.shouldCreateObject NULL env).1 = .ok true ∧
        s.atFactoryCall id parms env = some (s1.shouldCreateObject NULL env).2) := by
    rcases hcases with ⟨p, _, hl, _⟩ | ⟨hl, _⟩ | ⟨_, h | ⟨h1, h2, _⟩⟩
    · rw [hmiss1] at hl
      cases hl
    · rw [hmiss1] at hl
      cases hl
    · exact Or.inl h
    · exact Or.inr ⟨h1, h2⟩
  refine ⟨?_, ?_, ?_⟩
  · intro a ha hfull
    have hcan : s1.cp.canCreate env.clockCan = (.ok false, s1.cp) := by
      rw [hcp, ha]
      simp only [CreationPolicy.canCreate, AmountLimitedCreation.canCreate]
      simp [hfull]
    have hself : ({ s1 with cp := (s1.cp.canCreate env.clockCan).2 } : CachedFactory) = s1 := by
      rw [hcan]
    rw [hself] at hshould
    rcases hshould with ⟨e, h1, _⟩ | ⟨h1, _⟩ | ⟨_, ⟨e, h3, h2⟩ | ⟨h3, h2⟩⟩
    · rw [hcan] at h1
      cases h1
    · rw [hcan] at h1
      cases h1
    · constructor
      · intro e1 he1
        rw [h3] at he1
        simp only [Except.error.injEq] at he1
        subst he1
        rcases hrest with ⟨e2, h4, _, h5⟩ | ⟨h4, _⟩
        · rw [h2] at h4 h5
          simp only [Except.error.injEq] at h4
          subst h4
          rw [h5, evict_error_state _ _ _ h3]
        · rw [h2] at h4
          cases h4
      · intro hok
        rw [h3] at hok
        cases hok
    · constructor
      · intro e1 he1
        rw [h3] at he1
        cases he1
      · intro _
        rcases hrest with ⟨e2, h4, _, _⟩ | ⟨_, h5⟩
        · rw [h2] at h4
          cases h4
        · rw [h5, h2]
  · intro p hp hlen
    have hcan : s1.cp.canCreate env.clockCan
        = (.error .rateLimited, .rateLimited (p.cleanVector env.clockCan)) := by
      have hmax : (p.cleanVector env.clockCan).maxCreation = p.maxCreation := by
        unfold RateLimitedCreation.cleanVector
        split <;> rfl
      rw [hcp, hp]
      simp only [CreationPolicy.canCreate, RateLimitedCreation.canCreate, hmax, hlen, ↓reduceIte]
    rcases hshould with ⟨e, h1, h2⟩ | ⟨h1, _⟩ | ⟨h1, _⟩
    · rw [hcan] at h1 h2
      simp only [Except.error.injEq] at h1
      subst h1
      rcases hrest with ⟨e2, h4, _, h5⟩ | ⟨h4, _⟩
      · rw [h5, h2]
        rw [h2] at h4
        simp only [Except.error.injEq] at h4
        rw [h4]
      · rw [h2] at h4
        cases h4
    · rw [hcan] at h1
      cases h1
    · rw [hcan] at h1
      cases h1
  · intro ha
    have hcan : s1.cp.canCreate env.clockCan = (.ok true, s1.cp) := by
      rw [hcp, ha]
      rfl
    have hself : ({ s1 with cp := (s1.cp.canCreate env.clockCan).2 } : CachedFactory) = s1 := by
      rw [hcan]
    rw [hself] at hshould
    rcases hshould with ⟨e, h1, _⟩ | ⟨_, h2⟩ | ⟨h1, _⟩
    · rw [hcan] at h1
      cases h1
    · rcases hrest with ⟨e2, h4, _, _⟩ | ⟨_, h5⟩
      · rw [h2] at h4
        cases h4
      · rw [h5, h2]
    · rw [hcan] at h1
      cases h1

theorem refusal_evicts_only_with_amount_limit_witness :
    (entryAt (mapIndex (run rateCache rateOps).fromKeyToObjVector ⟨1, [8]⟩).1
      (mapIndex (run rateCache rateOps).fromKeyToObjVector ⟨1, [8]⟩).2).getLast? = none ∧
    (run rateCache rateOps).CreateObject 1 [8] (envAt 200) =
      (.error .rateLimited,
       { ((run rateCache rateOps).getContainerFromKey ⟨1, [8]⟩).1 with
         cp := .rateLimited
           (RateLimitedCreation.cleanVector
             { m_vTimes := [0], maxCreation := 0, timeValidity := 1000000, lastUpdate := 0 }
             (envAt 200).clockCan) }) :=
  ⟨by decide,
   (refusal_evicts_only_with_amount_limit (run rateCache rateOps) 1 [8] (envAt 200)
      (by decide)).2.1 _ rfl (by decide)⟩

/-! ## Claims C21 to C30 -/

/-- C21: `remove(x)` throws `CacheException` iff `x` is in the checked-out
registry or occurs in no vector of the idle pool; it throws nothing else, and
when it throws the cache (free store, idle pool, registry, policies) is as it
was before the call. -/
theorem remove_fails_iff_checked_out_or_not_idle (s : CachedFactory) (x : Product) :
    ((s.remove x).1 = .error .cache ↔
      (x ∈ ptrKeys s.providedObjects ∨ x ∉ idleObjects s.fromKeyToObjVector)) ∧
    ((s.remove x).1 = .ok () ∨ (s.remove x).1 = .error .cache) ∧
    (∀ e, (s.remove x).1 = .error e → (s.remove x).2 = s) := by
  unfold CachedFactory.remove
  cases hp : ptrFind s.providedObjects x with
  | some k =>
    have hk := ptrFind_some_keys _ _ _ hp
    simp [hk]
  | none =>
    have hk := (ptrFind_eq_none _ _).mp hp
    cases hr : removeFromVectors s.fromKeyToObjVector x with
    | none =>
      have hn := (removeFromVectors_none _ _).mp hr
      simp [hk, hn]
    | some m =>
      have hn : ¬ x ∉ idleObjects s.fromKeyToObjVector := by
        rw [← removeFromVectors_none, hr]
        simp
      simp only [hk, hn, or_self, iff_false, true_or, true_and]
      constructor
      · intro h
        cases h
      · intro e h
        cases h

/-- C22: on a cache with `NeverCreate` that starts empty, after every
sequence of calls every `CreateObject`, whatever the identifier and the
parameters, throws the exception of `NeverCreate`; no call of the sequence
returned a handle or built an instance, and the free store, the idle pool and
the checked-out registry are empty. -/
theorem never_create_refuses_every_call (s0 : CachedFactory) (ops : List Op)
    (id : IdentifierType) (parms : List Parm) (env : Env)
    (hempty : s0.IsEmpty) (hcp : s0.cp = .neverCreate) :
    ((run s0 ops).CreateObject id parms env).1 = .error .neverCreate ∧
    fetchCount s0 ops = 0 ∧ buildCount s0 ops = 0 ∧
    (run s0 ops).heap = [] ∧
    idleObjects (run s0 ops).fromKeyToObjVector = [] ∧
    (run s0 ops).providedObjects = [] := by
  have h0 : NeverInv s0 := by
    refine ⟨hcp, ?_, hempty.2.1, hempty.2.2.1⟩
    rw [hempty.1]
    intro e he
    cases he
  obtain ⟨hinv, hf, hb⟩ := never_run ops h0
  refine ⟨?_, hf, hb, hinv.2.2.2, idleObjects_all_empty _ hinv.2.1, hinv.2.2.1⟩
  rw [(never_createObject id parms env hinv).1]

theorem never_create_refuses_every_call_witness :
    neverCache.IsEmpty ∧ neverCache.cp = .neverCreate ∧
    ((run neverCache neverOps).CreateObject 1 [7] (envAt 100)).1 = .error .neverCreate ∧
    fetchCount neverCache neverOps = 0 :=
  ⟨⟨rfl, rfl, rfl, rfl⟩, rfl,
   (never_create_refuses_every_call neverCache neverOps 1 [7] (envAt 100)
      ⟨rfl, rfl, rfl, rfl⟩ rfl).1,
   (never_create_refuses_every_call neverCache neverOps 1 [7] (envAt 100)
      ⟨rfl, rfl, rfl, rfl⟩ rfl).2.1⟩

/-- C23 (the code departs from the claim on the keys that `operator<` does
not order strictly): on a factory without construction parameter, after two
instances `100` and `200` are checked out and released in that order, the next
`CreateObject` builds a new instance `300` instead of returning `200`.  On a
cache whose calls all ask for one identifier with the same positive number of
parameters the claim holds: after `ReleaseObject(A)` then `ReleaseObject(B)`
of two distinct instances checked out under a key `K`, the next `CreateObject`
for `K` returns `B` and the one after it returns `A`, both without calling the
factory. -/
theorem release_order_reused_on_uniform_keys (i : IdentifierType) (n : Nat)
    (s0 : CachedFactory) (ops : List Op) (K : Key) (A B : Product) (env1 env2 : Env)
    (hist : UniformHistory i n s0 ops)
    (hA : ptrFind (run s0 ops).providedObjects A = some K)
    (hB : ptrFind (run s0 ops).providedObjects B = some K)
    (hAB : A ≠ B) (hA0 : A ≠ NULL) (hB0 : B ≠ NULL) :
    (((run noParmCache noParmOps).CreateObject 1 [] (envAt 300)).1 = .ok 300 ∧
      (run noParmCache noParmOps).built 1 [] (envAt 300) = some 300) ∧
    ((run s0 ops).ReleaseObject A).1 = .ok () ∧
    (((run s0 ops).ReleaseObject A).2.ReleaseObject B).1 = .ok () ∧
    ((((run s0 ops).ReleaseObject A).2.ReleaseObject B).2.CreateObject
      K.id K.values env1).1 = .ok B ∧
    (((run s0 ops).ReleaseObject A).2.ReleaseObject B).2.atFactoryCall
      K.id K.values env1 = none ∧
    (((((run s0 ops).ReleaseObject A).2.ReleaseObject B).2.CreateObject
      K.id K.values env1).2.CreateObject K.id K.values env2).1 = .ok A ∧
    ((((run s0 ops).ReleaseObject A).2.ReleaseObject B).2.CreateObject
      K.id K.values env1).2.atFactoryCall K.id K.values env2 = none := by
  have hwf := keysWF_history hist
  generalize run s0 ops = s at *
  have hK : K.values.length = n := hwf.2.2 _ (ptrFind_some_mem _ _ _ hA)
  obtain ⟨r1, w1, g1, m1, _⟩ := releaseObject_push s A K hwf hA
  have hB1 : ptrFind (s.ReleaseObject A).2.providedObjects B = some K := by
    rw [g1, ptrFind_ptrErase]
    simp only [Ne.symm hAB, ↓reduceIte]
    exact hB
  obtain ⟨r2, w2, _, _, m2⟩ := releaseObject_push (s.ReleaseObject A).2 B K w1 hB1
  have m2 := m2 _ m1
  obtain ⟨c1, _, a1, w3, m3, _⟩ :=
    createObject_pop ((s.ReleaseObject A).2.ReleaseObject B).2 K _ B env1 w2 hK m2 hB0
  obtain ⟨c2, _, a2, _, _, _⟩ :=
    createObject_pop _ K _ A env2 w3 hK m3 hA0
  refine ⟨⟨rfl, ?_⟩, r1, r2, c1, a1, c2, a2⟩
  decide

theorem release_order_reused_on_uniform_keys_witness :
    UniformHistory 1 1 sampleCache sameKeyOps ∧
    ptrFind (run sampleCache sameKeyOps).providedObjects 100 = some ⟨1, [7]⟩ ∧
    ptrFind (run sampleCache sameKeyOps).providedObjects 200 = some ⟨1, [7]⟩ ∧
    ((((run sampleCache sameKeyOps).ReleaseObject 100).2.ReleaseObject 200).2.CreateObject
      1 [7] (envAt 300)).1 = .ok 200 ∧
    (((((run sampleCache sameKeyOps).ReleaseObject 100).2.ReleaseObject 200).2.CreateObject
      1 [7] (envAt 300)).2.CreateObject 1 [7] (envAt 400)).1 = .ok 100 :=
  ⟨⟨⟨rfl, rfl, rfl, rfl⟩, by decide, by decide⟩, by decide, by decide,
   (release_order_reused_on_uniform_keys 1 1 sampleCache sameKeyOps
      ⟨1, [7]⟩ 100 200 (envAt 300) (envAt 400)
      ⟨⟨rfl, rfl, rfl, rfl⟩, by decide, by decide⟩
      (by decide) (by decide) (by decide) (by decide) (by decide)).2.2.2.1,
   (release_order_reused_on_uniform_keys 1 1 sampleCache sameKeyOps
      ⟨1, [7]⟩ 100 200 (envAt 300) (envAt 400)
      ⟨⟨rfl, rfl, rfl, rfl⟩, by decide, by decide⟩
      (by decide) (by decide) (by decide) (by decide) (by decide)).2.2.2.2.2.1⟩

/-- C24: with `EvictLRU`, after every sequence of calls on a cache that
starts without instances, the score of every live instance is, modulo `2^32`,
the number of `ReleaseObject` calls on it that returned since it was built.
In every state: a `CreateObject` served from the pool changes no score, one
that builds an instance gives it the score `0` and leaves the score of every
other live instance, and a `ReleaseObject` that returns adds one to the score
of its instance and changes no other score. -/
theorem lru_score_counts_releases (s0 : CachedFactory) (m0 : HitMap) (ops : List Op)
    (hheap : s0.heap = []) (hlru : s0.ep = .lru m0) :
    (∀ x ∈ (run s0 ops).liveObjects, ∃ m, (run s0 ops).ep = .lru m ∧
      ptrFind m x = some (releaseTally s0 ops (fun _ => 0) x % 2 ^ 32)) ∧
    (∀ (s : CachedFactory) (m : HitMap) (id : IdentifierType) (parms : List Parm) (env : Env),
      s.ep = .lru m → s.servedFromPool id parms = true →
      (s.CreateObject id parms env).2.ep = .lru m) ∧
    (∀ (s : CachedFactory) (m : HitMap) (id : IdentifierType) (parms : List Parm) (env : Env)
      (p : Product), s.ep = .lru m → s.built id parms env = some p →
      ∃ m1, (s.CreateObject id parms env).2.ep = .lru m1 ∧ ptrFind m1 p = some 0 ∧
        ∀ y, y ≠ p → y ∈ (s.CreateObject id parms env).2.liveObjects →
          ptrFind m1 y = ptrFind m y) ∧
    (∀ (s : CachedFactory) (m : HitMap) (x : Product), s.ep = .lru m →
      (s.ReleaseObject x).1 = .ok () →
      ∃ m1, (s.ReleaseObject x).2.ep = .lru m1 ∧
        ptrFind m1 x = some (((ptrFind m x).getD 0 + 1) % 2 ^ 32) ∧
        ∀ y, y ≠ x → ptrFind m1 y = ptrFind m y) := by
  refine ⟨?_, ?_, ?_, ?_⟩
  · have h0 : LruInv s0 (fun _ => 0) := by
      refine ⟨m0, hlru, ?_⟩
      intro x hx
      change x ∈ s0.heap.map Prod.fst at hx
      rw [hheap] at hx
      cases hx
    obtain ⟨m, hm, hall⟩ := lruInv_run ops h0
    intro x hx
    exact ⟨m, hm, hall x hx⟩
  · intro s m id parms env hm hs
    exact (createObject_lru_steps s m id parms env hm).1 hs
  · intro s m id parms env p hm hb
    exact (createObject_lru_steps s m id parms env hm).2 p hb
  · intro s m x hm hok
    cases hfind : ptrFind s.providedObjects x with
    | none =>
      rw [releaseObject_none s x hfind] at hok
      cases hok
    | some key =>
      rw [releaseObject_some s x key hfind]
      refine ⟨ptrSet m x (incU ((ptrFind m x).getD 0)), ?_, ?_, ?_⟩
      · show s.ep.onRelease x = _
        rw [hm]
        rfl
      · rw [ptrFind_ptrSet]
        simp [incU]
      · intro y hy
        rw [ptrFind_ptrSet]
        simp [hy]

theorem lru_score_counts_releases_witness :
    lruCache3.heap = [] ∧ lruCache3.ep = .lru [] ∧
    (∀ x ∈ (run lruCache3 lruOps).liveObjects, ∃ m, (run lruCache3 lruOps).ep = .lru m ∧
      ptrFind m x = some (releaseTally lruCache3 lruOps (fun _ => 0) x % 2 ^ 32)) ∧
    releaseTally lruCache3 lruOps (fun _ => 0) 300 = 1 :=
  ⟨rfl, rfl, (lru_score_counts_releases lruCache3 [] lruOps rfl rfl).1, by decide⟩

/-- C25: `Factory::CreateObject(id, parms)` throws the "Unknown Type"
exception iff `id` is not registered, which is the case on a new factory and
after `Unregister(id)`; when `id` is registered it returns what the creator
registered for `id` returns on `parms`.  `CachedFactory::CreateObject` that
reaches the factory with an unregistered `id` fails with that exception. -/
theorem factory_createObject_unknown_iff_unregistered (f : Factory) (id : IdentifierType)
    (parms : List Parm) (alloc : Product) :
    (f.CreateObject id parms alloc = .error .unknownType ↔ f.IsRegistered id = false) ∧
    (∀ e, f.CreateObject id parms alloc = .error e → e = .unknownType) ∧
    (∀ c, assocFind f.associations_ id = some c →
      f.CreateObject id parms alloc = .ok (c parms alloc)) ∧
    (f.IsRegistered id = true →
      ∃ c, assocFind f.associations_ id = some c ∧
        f.CreateObject id parms alloc = .ok (c parms alloc)) ∧
    (f.Unregister id).2.CreateObject id parms alloc = .error .unknownType ∧
    Factory.CreateObject { associations_ := [] } id parms alloc = .error .unknownType ∧
    (∀ (s s3 : CachedFactory) (env : Env), s.factory = f →
      s.atFactoryCall id parms env = some s3 → f.IsRegistered id = false →
      s.CreateObject id parms env = (.error .unknownType, s3)) := by
  have hun : (f.Unregister id).2.CreateObject id parms alloc = .error .unknownType := by
    unfold Factory.CreateObject Factory.Unregister
    simp only
    rw [assocFind_filter]
    simp
  refine ⟨?_, ?_, ?_, ?_, hun, rfl, ?_⟩
  · unfold Factory.CreateObject Factory.IsRegistered
    cases assocFind f.associations_ id <;> simp
  · intro e he
    exact factory_createObject_error _ _ _ _ _ he
  · intro c hc
    unfold Factory.CreateObject
    rw [hc]
  · intro h
    unfold Factory.IsRegistered at h
    unfold Factory.CreateObject
    cases hc : assocFind f.associations_ id with
    | none =>
      rw [hc] at h
      cases h
    | some c => exact ⟨c, rfl, rfl⟩
  · intro s s3 env hf hat hreg
    have hframe := shouldCreateObject_null_frame (s.getContainerFromKey ⟨id, parms⟩).1 env
    have hnone : ∀ t : CachedFactory, t.factory = f →
        t.factory.CreateObject id parms env.alloc = .error .unknownType := by
      intro t ht
      rw [ht]
      unfold Factory.CreateObject
      unfold Factory.IsRegistered at hreg
      cases hc : assocFind f.associations_ id with
      | none => rfl
      | some c =>
        rw [hc] at hreg
        cases hreg
    rcases createObject_cases s id parms env with
      ⟨p, _, _, hat2, _⟩ | ⟨_, hat2, _⟩ |
      ⟨_, ⟨e, _, hat2, _⟩ | ⟨_, hat2, ⟨e, he1, he⟩ | ⟨p, hp, _⟩⟩⟩
    · rw [hat2] at hat
      cases hat
    · rw [hat2] at hat
      cases hat
    · rw [hat2] at hat
      cases hat
    · rw [hat2] at hat
      simp only [Option.some.injEq] at hat
      rw [he, hat]
      rw [hat] at he1
      have := factory_createObject_error _ _ _ _ _ he1
      rw [this]
    · rw [hnone _ (hframe.2.2.trans hf)] at hp
      cases hp

/-- C26: on a factory whose associations are a `std::map` (ascending
identifiers), `Register(id, c)` returns true iff `id` was not registered; when
it returns false the factory is unchanged, when it returns true `id` is
associated with `c`; in both cases the association of every other identifier
is what it was. -/
theorem register_returns_true_iff_new (f : Factory) (id : IdentifierType)
    (c : ProductCreator) (hwf : f.WF) :
    ((f.Register id c).1 = true ↔ f.IsRegistered id = false) ∧
    ((f.Register id c).1 = false → (f.Register id c).2 = f) ∧
    ((f.Register id c).1 = false → ∀ parms alloc,
      (f.Register id c).2.CreateObject id parms alloc = f.CreateObject id parms alloc) ∧
    ((f.Register id c).1 = true →
      assocFind (f.Register id c).2.associations_ id = some c) ∧
    (∀ id1, id1 ≠ id →
      assocFind (f.Register id c).2.associations_ id1 = assocFind f.associations_ id1) ∧
    (f.Register id c).2.WF := by
  have hnew := assocInsert_new f.associations_ id c hwf
  have hfind := assocFind_assocInsert f.associations_ id c
  have hstate : (f.Register id c).1 = false → (f.Register id c).2 = f := by
    intro h
    show ({ associations_ := (assocInsert f.associations_ id c).1 } : Factory) = f
    rw [hnew.2 h]
  refine ⟨?_, hstate, ?_, ?_, ?_, ?_⟩
  · show (assocInsert f.associations_ id c).2 = true ↔ _
    rw [hnew.1]
    unfold Factory.IsRegistered
    cases assocFind f.associations_ id <;> simp
  · intro h parms alloc
    rw [hstate h]
  · intro h
    show assocFind (assocInsert f.associations_ id c).1 id = some c
    have h2 : (assocInsert f.associations_ id c).2 = true := h
    rw [hfind, h2]
    simp
  · intro id1 hne
    show assocFind (assocInsert f.associations_ id c).1 id1 = _
    rw [hfind]
    simp [hne]
  · exact (assocInsert_sorted f.associations_ id c hwf).1

theorem register_returns_true_iff_new_witness :
    noParmCache.factory.WF ∧
    ((noParmCache.factory.Register 1 newObject).1 = true ↔
      noParmCache.factory.IsRegistered 1 = false) ∧
    (noParmCache.factory.Register 1 newObject).1 = false :=
  ⟨by simp [Factory.WF, noParmCache, CachedFactory.Register, Factory.Register,
      CachedFactory.new, assocInsert],
   (register_returns_true_iff_new noParmCache.factory 1 newObject
      (by simp [Factory.WF, noParmCache, CachedFactory.Register, Factory.Register,
        CachedFactory.new, assocInsert])).1,
   by decide⟩

/-- C27 (counterexample): `setRate(0, 1000)` is accepted. -/
theorem setRate_accepts_zero_maximum :
    (RateLimitedCreation.init 0).setRate 0 1000
      = some { m_vTimes := [], maxCreation := 0, timeValidity := 1000000, lastUpdate := 0 } := by
  decide

/-- C27 (amended): the assertion of `setRate(maxCreation, byTime)` fails iff
`byTime` is `0`; every `maxCreation`, also `0`, is accepted, and an accepted
call sets the maximum and the window and leaves the log as it was. -/
theorem setRate_checks_window_only (p : RateLimitedCreation) (maxCreation byTime : Nat) :
    (p.setRate maxCreation byTime = none ↔ byTime = 0) ∧
    (0 < byTime →
      p.setRate maxCreation byTime =
        some { m_vTimes := p.m_vTimes, maxCreation := maxCreation,
               timeValidity := (byTime : Int) * CLOCKS_PER_SEC / 1000,
               lastUpdate := p.lastUpdate }) := by
  refine ⟨?_, ?_⟩
  · unfold RateLimitedCreation.setRate
    by_cases h : byTime > 0
    · have h0 : byTime ≠ 0 := by omega
      simp [h, h0]
    · have h0 : byTime = 0 := by omega
      simp [h0]
  · intro h
    unfold RateLimitedCreation.setRate
    rw [if_pos h]

theorem setRate_checks_window_only_witness :
    0 < 1000 ∧
    rateOne.setRate 0 1000 =
      some { m_vTimes := rateOne.m_vTimes, maxCreation := 0,
             timeValidity := (1000 : Int) * CLOCKS_PER_SEC / 1000,
             lastUpdate := rateOne.lastUpdate } :=
  ⟨by decide, (setRate_checks_window_only rateOne 0 1000).2 (by decide)⟩

/-- C28: in a cache that satisfies the ownership invariant, `remove(x)` on an
idle instance `x` returns; afterwards `x` is in no vector of the idle pool,
the idle pool has the same keys and every vector is what it was without `x`
(the other instances in their order), the registry and the out-counter are
unchanged, the counter of `AmountLimitedCreation` and the `allocated` counter
of the statistics are decremented by one, the eviction policy holds nothing
for `x`, and `x` is deleted. -/
theorem successful_remove_frame (s : CachedFactory) (x : Product) (hi : Inv s)
    (hidle : x ∈ idleObjects s.fromKeyToObjVector) :
    (s.remove x).1 = .ok () ∧
    x ∉ idleObjects (s.remove x).2.fromKeyToObjVector ∧
    (s.remove x).2.fromKeyToObjVector.map Prod.fst = s.fromKeyToObjVector.map Prod.fst ∧
    (∀ i, entryAt (s.remove x).2.fromKeyToObjVector i
        = (entryAt s.fromKeyToObjVector i).filter (fun y => !decide (y = x))) ∧
    (s.remove x).2.providedObjects = s.providedObjects ∧
    (s.remove x).2.outObjects = s.outObjects ∧
    (s.remove x).2.cp = s.cp.onDestroy ∧
    (∀ a, s.cp = .amountLimited a → 0 < a.created → a.created < 2 ^ 32 →
      (s.remove x).2.cp
        = .amountLimited { maxCreation := a.maxCreation, created := a.created - 1 }) ∧
    (s.remove x).2.sp = s.sp.onDestroy ∧
    (∀ p, s.sp = .simple p → 0 < p.allocated → p.allocated < 2 ^ 32 →
      (s.remove x).2.stats.getAllocated = p.allocated - 1 ∧
      (s.remove x).2.stats.getCreated = p.created) ∧
    (s.remove x).2.ep = s.ep.onDestroy x ∧
    x ∉ (s.remove x).2.ep.tracked ∧
    x ∉ (s.remove x).2.liveObjects ∧
    (s.remove x).2.heap = s.heap.filter (fun o => !decide (o.1 = x)) ∧
    (s.remove x).2.deleted = s.deleted + 1 := by
  have hnd : (idleObjects s.fromKeyToObjVector).Nodup := by simpa using hi.nodup
  have hreg : ptrFind s.providedObjects x = none :=
    (ptrFind_eq_none _ _).mpr (hi.disjoint x (Or.inr hidle))
  rcases remove_cases s x with h | ⟨m1, _, hrem, h⟩
  · exfalso
    unfold CachedFactory.remove at h
    rw [hreg] at h
    cases hr : removeFromVectors s.fromKeyToObjVector x with
    | none => exact (removeFromVectors_none _ _).mp hr hidle
    | some m =>
      rw [hr] at h
      cases h
  · rw [h]
    refine ⟨rfl, removeFromVectors_gone _ _ _ hrem hnd, removeFromVectors_keys _ _ _ hrem,
      removeFromVectors_entries _ _ _ hrem hnd, rfl, rfl, rfl, ?_, rfl, ?_, rfl, ?_, ?_, rfl, rfl⟩
    · intro a ha hpos hlt
      show s.cp.onDestroy = _
      rw [ha]
      simp only [CreationPolicy.onDestroy, AmountLimitedCreation.onDestroy]
      rw [decU_pos _ hpos hlt]
    · intro p hp hpos hlt
      have hsp : s.sp.onDestroy = .simple p.onDestroy := by
        rw [hp]
        rfl
      constructor
      · show (CachedFactory.stats _).getAllocated = _
        unfold CachedFactory.stats
        simp only [CachedFactory.onDestroy, hsp]
        show decU p.allocated = _
        exact decU_pos _ hpos hlt
      · show (CachedFactory.stats _).getCreated = _
        unfold CachedFactory.stats
        simp only [CachedFactory.onDestroy, hsp]
        rfl
    · show x ∉ (s.ep.onDestroy x).tracked
      cases s.ep with
      | lru m =>
        show x ∉ ptrKeys (ptrErase m x)
        rw [ptrKeys_ptrErase]
        simp
      | aging m =>
        show x ∉ ptrKeys (ptrErase m x)
        rw [ptrKeys_ptrErase]
        simp
      | random v =>
        show x ∉ v.filter (fun k => !decide (k = x))
        simp
    · show x ∉ (s.heap.filter (fun o => !decide (o.1 = x))).map Prod.fst
      rw [liveObjects_filter]
      simp

theorem successful_remove_frame_witness :
    Inv (run sampleCache rateOps) ∧
    (100 : Product) ∈ idleObjects (run sampleCache rateOps).fromKeyToObjVector ∧
    ((run sampleCache rateOps).remove 100).1 = .ok () ∧
    (100 : Product) ∉ idleObjects ((run sampleCache rateOps).remove 100).2.fromKeyToObjVector :=
  ⟨inv_run rateOps (inv_of_isEmpty ⟨rfl, rfl, rfl, rfl⟩) (by decide), by decide,
   (successful_remove_frame (run sampleCache rateOps) 100
      (inv_run rateOps (inv_of_isEmpty ⟨rfl, rfl, rfl, rfl⟩) (by decide)) (by decide)).1,
   (successful_remove_frame (run sampleCache rateOps) 100
      (inv_run rateOps (inv_of_isEmpty ⟨rfl, rfl, rfl, rfl⟩) (by decide)) (by decide)).2.1⟩

/-- C29: after `onDestroy(x)` an eviction policy holds no bookkeeping for `x`
and that of every other instance is unchanged.  For `EvictLRU` and
`EvictAging` the table has no entry for `x` and the entries of the other
instances with their scores; for `EvictRandom` the log is the previous log
without the occurrences of `x`, the other entries in their order and with
their multiplicities. -/
theorem onDestroy_erases_only_that_instance (x : Product) :
    (∀ m : HitMap,
      EvictLRU.onDestroy m x = m.filter (fun e => decide (e.1 ≠ x)) ∧
      ptrFind (EvictLRU.onDestroy m x) x = none ∧
      ∀ y, y ≠ x → ptrFind (EvictLRU.onDestroy m x) y = ptrFind m y) ∧
    (∀ m : HitMap,
      EvictAging.onDestroy m x = m.filter (fun e => decide (e.1 ≠ x)) ∧
      ptrFind (EvictAging.onDestroy m x) x = none ∧
      ∀ y, y ≠ x → ptrFind (EvictAging.onDestroy m x) y = ptrFind m y) ∧
    (∀ v : List Product,
      EvictRandom.onDestroy v x = v.filter (fun k => decide (k ≠ x)) ∧
      x ∉ EvictRandom.onDestroy v x ∧
      (∀ y, y ≠ x → (EvictRandom.onDestroy v x).count y = v.count y) ∧
      (EvictRandom.onDestroy v x).Sublist v) ∧
    (∀ ep : EvictionPolicy, x ∉ (ep.onDestroy x).tracked ∧
      ∀ y, y ≠ x → (y ∈ (ep.onDestroy x).tracked ↔ y ∈ ep.tracked)) := by
  have htab : ∀ m : HitMap,
      ptrErase m x = m.filter (fun e => decide (e.1 ≠ x)) ∧
      ptrFind (ptrErase m x) x = none ∧
      ∀ y, y ≠ x → ptrFind (ptrErase m x) y = ptrFind m y := by
    intro m
    refine ⟨rfl, ?_, ?_⟩
    · rw [ptrFind_ptrErase]
      simp
    · intro y hy
      rw [ptrFind_ptrErase]
      simp [hy]
  have hkeys : ∀ m : HitMap, x ∉ ptrKeys (ptrErase m x) ∧
      ∀ y, y ≠ x → (y ∈ ptrKeys (ptrErase m x) ↔ y ∈ ptrKeys m) := by
    intro m
    rw [ptrKeys_ptrErase]
    constructor
    · simp
    · intro y hy
      simp [hy]
  have hlog : ∀ v : List Product,
      EvictRandom.onDestroy v x = v.filter (fun k => decide (k ≠ x)) ∧
      x ∉ EvictRandom.onDestroy v x ∧
      (∀ y, y ≠ x → (EvictRandom.onDestroy v x).count y = v.count y) ∧
      (EvictRandom.onDestroy v x).Sublist v := by
    intro v
    have h0 : EvictRandom.onDestroy v x = v.filter (fun k => decide (k ≠ x)) := by
      unfold EvictRandom.onDestroy
      congr 1
      funext k
      by_cases h : k = x
      · simp [h]
      · simp [h]
    rw [h0]
    refine ⟨rfl, ?_, ?_, List.filter_sublist v⟩
    · simp
    · intro y hy
      rw [List.count_filter]
      simp [hy]
  refine ⟨htab, htab, hlog, ?_⟩
  intro ep
  cases ep with
  | lru m => exact hkeys m
  | aging m => exact hkeys m
  | random v =>
    have h := hlog v
    refine ⟨h.2.1, ?_⟩
    intro y hy
    show y ∈ EvictRandom.onDestroy v x ↔ y ∈ v
    rw [h.1]
    simp [hy]

/-- C30: `EvictRandom::evict` on an empty log throws `EvictionException`
without calling `remove`; on a log of `n > 0` entries with `n * RAND_MAX`
inside the range of `size_type` and `rand()` returning `r ≤ RAND_MAX`, the
index `n * r / (RAND_MAX + 1)` is less than `n` and `evict` is one call of
`remove` on the entry of the log at that index. -/
theorem random_evict_index_in_range {ρ : Type} (v : List Product) (r : Nat)
    (remove : Product → ρ) (hne : v ≠ []) (hr : r ≤ RAND_MAX)
    (hov : v.length * RAND_MAX < 2 ^ 64) :
    EvictRandom.evict ([] : List Product) r remove = .error .eviction ∧
    v.length * r / (RAND_MAX + 1) < v.length ∧
    ∃ x, v.get? (v.length * r / (RAND_MAX + 1)) = some x ∧ x ∈ v ∧
      EvictRandom.evict v r remove = .ok (remove x) := by
  have hpos : 0 < v.length := List.length_pos.mpr hne
  have hmod : (v.length * r) % 2 ^ 64 = v.length * r := by
    apply Nat.mod_eq_of_lt
    exact lt_of_le_of_lt (Nat.mul_le_mul_left _ hr) hov
  have hidx := random_index_lt v.length r hpos hr
  rw [hmod] at hidx
  refine ⟨rfl, hidx, ?_⟩
  have hget : v.get? (v.length * r / (RAND_MAX + 1))
      = some (v.get ⟨v.length * r / (RAND_MAX + 1), hidx⟩) := List.get?_eq_get hidx
  refine ⟨_, hget, List.get_mem _ _ _, ?_⟩
  unfold EvictRandom.evict
  have hemp : v.isEmpty = false := by
    cases v with
    | nil => exact absurd rfl hne
    | cons a l => rfl
  rw [hemp, hmod, hget]
  rfl

theorem random_evict_index_in_range_witness :
    ([100, 200, 300] : List Product) ≠ [] ∧ RAND_MAX ≤ RAND_MAX ∧
    ([100, 200, 300] : List Product).length * RAND_MAX < 2 ^ 64 ∧
    ([100, 200, 300] : List Product).length * RAND_MAX / (RAND_MAX + 1)
      < ([100, 200, 300] : List Product).length :=
  ⟨by decide, Nat.le_refl _, by decide,
   (random_evict_index_in_range [100, 200, 300] RAND_MAX (fun y => y) (by decide)
      (Nat.le_refl _) (by decide)).2.1⟩

/-! ## Claims C31 to C39 -/

/-- C31: for two keys with empty parameter tuples `k1 < k2` is true whatever
the identifiers, also for a key and itself, so no such key is equivalent to
itself under `operator<` (equivalent: neither key is less than the other). -/
theorem empty_tuple_key_is_less_than_every_key (k1 k2 : Key) (h1 : k1.values = [])
    (h2 : k2.values = []) :
    Key.lt k1 k2 = true ∧ Key.lt k2 k1 = true ∧ Key.lt k1 k1 = true ∧
    ¬ (Key.lt k1 k1 = false ∧ Key.lt k1 k1 = false) := by
  have hself := key_lt_empty k1 k1 h1 h1
  refine ⟨key_lt_empty k1 k2 h1 h2, key_lt_empty k2 k1 h2 h1, hself, ?_⟩
  rw [hself]
  simp

theorem empty_tuple_key_is_less_than_every_key_witness :
    (⟨1, []⟩ : Key).values = [] ∧ (⟨2, []⟩ : Key).values = [] ∧
    Key.lt ⟨1, []⟩ ⟨2, []⟩ = true ∧ Key.lt ⟨2, []⟩ ⟨1, []⟩ = true ∧
    Key.lt ⟨1, []⟩ ⟨1, []⟩ = true :=
  ⟨rfl, rfl,
   (empty_tuple_key_is_less_than_every_key ⟨1, []⟩ ⟨2, []⟩ rfl rfl).1,
   (empty_tuple_key_is_less_than_every_key ⟨1, []⟩ ⟨2, []⟩ rfl rfl).2.1,
   (empty_tuple_key_is_less_than_every_key ⟨1, []⟩ ⟨2, []⟩ rfl rfl).2.2.1⟩

/-- C32: for two keys with non-empty parameter tuples of one arity, neither
is less than the other iff they have the same identifier and the same tuple;
and the keys `(1, (5))` and `(2, (5))` are equal for `operator==` while the
first is less than the second. -/
theorem key_equivalence_is_identity_not_equality (k1 k2 : Key) (hne : k1.values ≠ [])
    (hlen : k1.values.length = k2.values.length) :
    ((Key.lt k1 k2 = false ∧ Key.lt k2 k1 = false) ↔
      (k1.id = k2.id ∧ k1.values = k2.values)) ∧
    (Key.eq ⟨1, [5]⟩ ⟨2, [5]⟩ = true ∧ Key.lt ⟨1, [5]⟩ ⟨2, [5]⟩ = true ∧
      Key.lt ⟨2, [5]⟩ ⟨1, [5]⟩ = false) := by
  refine ⟨?_, by decide⟩
  constructor
  · rintro ⟨h1, h2⟩
    have := key_equiv_eq k1 k2 h1 h2
    rw [this]
    exact ⟨rfl, rfl⟩
  · rintro ⟨h1, h2⟩
    have hk : k1 = k2 := by
      cases k1
      cases k2
      simp only at h1 h2
      rw [h1, h2]
    subst hk
    have := key_lt_irrefl k1 (List.length_pos.mpr hne)
    exact ⟨this, this⟩

theorem key_equivalence_is_identity_not_equality_witness :
    (⟨1, [5]⟩ : Key).values ≠ [] ∧
    (⟨1, [5]⟩ : Key).values.length = (⟨1, [6]⟩ : Key).values.length ∧
    ((Key.lt ⟨1, [5]⟩ ⟨1, [6]⟩ = false ∧ Key.lt ⟨1, [6]⟩ ⟨1, [5]⟩ = false) ↔
      ((⟨1, [5]⟩ : Key).id = (⟨1, [6]⟩ : Key).id ∧
        (⟨1, [5]⟩ : Key).values = (⟨1, [6]⟩ : Key).values)) :=
  ⟨by decide, by decide,
   (key_equivalence_is_identity_not_equality ⟨1, [5]⟩ ⟨1, [6]⟩ (by decide) (by decide)).1⟩

/-- C33: after every sequence of `onCreate`, `onFetch`, `onRelease` and
`onDestroy` calls on an `EvictAging` policy that starts with an empty table,
every score in the table is `0`; hence `evict` on the table, when it is not
empty, throws `EvictionException` and does not call `remove`. -/
theorem aging_scores_stay_zero (calls : List Hook) :
    (∀ e ∈ EvictAging.hooks [] calls, e.2 = 0) ∧
    (EvictAging.hooks [] calls ≠ [] →
      (∀ (ρ : Type) (remove : Product → ρ),
        EvictAging.evict (EvictAging.hooks [] calls) remove = .error .eviction) ∧
      (∀ (s : CachedFactory) (r : Nat), s.ep = .aging (EvictAging.hooks [] calls) →
        s.evict r = (.error .eviction, s))) := by
  have hall : ∀ (m : HitMap), (∀ e ∈ m, e.2 = 0) →
      ∀ e ∈ EvictAging.hooks m calls, e.2 = 0 := by
    unfold EvictAging.hooks
    induction calls with
    | nil => exact fun m hm => hm
    | cons c rest ih =>
      intro m hm
      simp only [List.foldl_cons]
      apply ih
      cases c with
      | onCreate key =>
        intro e he
        rcases ptrSet_mem m key 0 e he with h | h
        · rw [h]
        · exact hm e h
      | onFetch key => exact hm
      | onRelease key => exact hm
      | onDestroy key =>
        intro e he
        exact hm e (List.mem_of_mem_filter he)
  have hzero := hall [] (fun e he => absurd he (List.not_mem_nil e))
  refine ⟨hzero, ?_⟩
  intro hne
  have hlow : EvictionHelper.getLowerBound (EvictAging.hooks [] calls) = .error .eviction := by
    rcases getLowerBound_spec _ hne with ⟨h, _⟩ | ⟨_, _, _, _, _, e, he, hpos⟩
    · exact h
    · have := hzero e he
      omega
  constructor
  · intro ρ remove
    unfold EvictAging.evict
    rw [hlow]
  · intro s r hs
    unfold CachedFactory.evict
    rw [hs]
    simp only [EvictionPolicy.evict, EvictAging.evict, hlow]

theorem aging_scores_stay_zero_witness :
    EvictAging.hooks [] [.onCreate 100, .onRelease 100, .onRelease 100] ≠ [] ∧
    (∀ (ρ : Type) (remove : Product → ρ),
      EvictAging.evict (EvictAging.hooks [] [.onCreate 100, .onRelease 100, .onRelease 100])
        remove = .error .eviction) :=
  ⟨by decide,
   ((aging_scores_stay_zero [.onCreate 100, .onRelease 100, .onRelease 100]).2
      (by decide)).1⟩

/-- C34: on a non-empty score table (a `std::map`, ascending addresses)
`getLowerBound` throws `EvictionException` iff the greatest score is `0`;
otherwise it returns the instance whose (score, address) pair is the least in
lexicographic order, which may have the score `0`, as `100` has in the table
`100 ↦ 0, 200 ↦ 3`. -/
theorem getLowerBound_returns_least_pair (m : HitMap) (hne : m ≠ [])
    (hsorted : (ptrKeys m).Pairwise (· < ·)) :
    (EvictionHelper.getLowerBound m = .error .eviction ↔ maxScore m = 0) ∧
    (maxScore m ≠ 0 →
      ∃ x sx, EvictionHelper.getLowerBound m = .ok x ∧ (x, sx) ∈ m ∧
        ∀ e ∈ m, sx < e.2 ∨ (sx = e.2 ∧ x ≤ e.1)) ∧
    (maxScore m = 0 ∨ ∃ x, EvictionHelper.getLowerBound m = .ok x) ∧
    EvictionHelper.getLowerBound [(100, 0), (200, 3)] = .ok 100 := by
  obtain ⟨first, last, hfirst, hlast, hlow⟩ := getLowerBound_ends m hne
  have hmem := copyMap_mem m
  have hle := sorted_le_last _ last (copyMap_sorted m) hlast
  have hlastmem : (last.2, last.1) ∈ m :=
    (hmem last).mp (List.mem_of_getLast?_eq_some hlast)
  have hmax : last.1 = 0 ↔ maxScore m = 0 := by
    rw [maxScore_eq_zero]
    constructor
    · intro h e he
      have := hle (e.2, e.1) ((hmem (e.2, e.1)).mpr he)
      simp only at this
      omega
    · intro h
      exact h _ hlastmem
  have hlex := copyMap_lex m hsorted
  have hfirstmem : first ∈ EvictionHelper.copyMap m := by
    cases hc : EvictionHelper.copyMap m with
    | nil =>
      rw [hc] at hfirst
      cases hfirst
    | cons a l =>
      rw [hc] at hfirst
      simp only [List.head?_cons, Option.some.injEq] at hfirst
      rw [← hfirst]
      exact List.mem_cons_self _ _
  have hleast : ∀ y ∈ EvictionHelper.copyMap m,
      first.1 < y.1 ∨ (first.1 = y.1 ∧ first.2 ≤ y.2) := by
    intro y hy
    cases hc : EvictionHelper.copyMap m with
    | nil =>
      rw [hc] at hy
      cases hy
    | cons a l =>
      rw [hc] at hfirst hy hlex
      simp only [List.head?_cons, Option.some.injEq] at hfirst
      subst hfirst
      simp only [List.pairwise_cons] at hlex
      rcases List.mem_cons.mp hy with h | h
      · rw [h]
        exact Or.inr ⟨rfl, Nat.le_refl _⟩
      · rcases hlex.1 y h with h1 | h1
        · exact Or.inl h1
        · exact Or.inr ⟨h1.1, Nat.le_of_lt h1.2⟩
  have hok : maxScore m ≠ 0 → EvictionHelper.getLowerBound m = .ok first.2 := by
    intro h
    rw [hlow]
    have : ¬ last.1 = 0 := fun h0 => h (hmax.mp h0)
    simp [this]
  refine ⟨?_, ?_, ?_, rfl⟩
  · rw [hlow, ← hmax]
    by_cases h : last.1 = 0
    · simp [h]
    · simp [h]
  · intro h
    refine ⟨first.2, first.1, hok h, (hmem first).mp hfirstmem, ?_⟩
    intro e he
    exact hleast (e.2, e.1) ((hmem (e.2, e.1)).mpr he)
  · by_cases h : maxScore m = 0
    · exact Or.inl h
    · exact Or.inr ⟨first.2, hok h⟩

theorem getLowerBound_returns_least_pair_witness :
    ([(100, 0), (200, 3)] : HitMap) ≠ [] ∧
    (ptrKeys ([(100, 0), (200, 3)] : HitMap)).Pairwise (· < ·) ∧
    (EvictionHelper.getLowerBound [(100, 0), (200, 3)] = .error .eviction ↔
      maxScore [(100, 0), (200, 3)] = 0) ∧
    maxScore [(100, 0), (200, 3)] = 3 :=
  ⟨by decide, by decide,
   (getLowerBound_returns_least_pair [(100, 0), (200, 3)] (by decide) (by decide)).1,
   by decide⟩

/-- C35: with `NeverCreate`, `AlwaysCreate` or `RateLimitedCreation`,
`canCreate` never returns false, so `shouldCreateObject` never calls `evict`
(it only updates the state of the admission policy); along every sequence of
calls `remove` deletes nothing and the free store only grows: the number of
live instances never decreases. -/
theorem no_eviction_without_amount_limit (s0 : CachedFactory) (ops ops2 : List Op)
    (h : s0.cp.neverRefuses = true) :
    (∀ t, ((run s0 ops).cp.canCreate t).1 ≠ .ok false) ∧
    (∀ env, ((run s0 ops).shouldCreateObject NULL env).2
      = { (run s0 ops) with cp := ((run s0 ops).cp.canCreate env.clockCan).2 }) ∧
    (run s0 ops).deleted = s0.deleted ∧
    (∃ l, (run s0 ops).heap = l ++ s0.heap) ∧
    s0.liveObjects.length ≤ (run s0 ops).liveObjects.length ∧
    (run s0 ops).liveObjects.length ≤ (run s0 (ops ++ ops2)).liveObjects.length := by
  obtain ⟨h1, h2, l, h3⟩ := no_evict_run ops s0 h
  obtain ⟨_, _, l2, h4⟩ := no_evict_run ops2 (run s0 ops) h1
  have happ : run s0 (ops ++ ops2) = run (run s0 ops) ops2 := by
    unfold run
    rw [List.foldl_append]
  refine ⟨fun t => (neverRefuses_canCreate _ t h1).1,
    fun env => shouldCreateObject_null_no_evict _ env h1, h2, ⟨l, h3⟩, ?_, ?_⟩
  · simp only [CachedFactory.liveObjects, List.length_map, h3, List.length_append]
    omega
  · rw [happ]
    simp only [CachedFactory.liveObjects, List.length_map, h4, List.length_append]
    omega

theorem no_eviction_without_amount_limit_witness :
    rateCache.cp.neverRefuses = true ∧
    (run rateCache rateOps).deleted = rateCache.deleted ∧
    (run rateCache rateOps).liveObjects.length = 1 :=
  ⟨rfl, (no_eviction_without_amount_limit rateCache rateOps [] rfl).2.2.1, by decide⟩

/-- C36: on a cache with `AmountLimitedCreation` configured by
`setMaxCreation(N)` and `EvictLRU` or `EvictAging`, after every sequence of
calls in which each construction yields a new instance, the counter `created`
equals the number of entries of the score table; hence when `canCreate`
returns false the table is not empty and neither `getLowerBound` nor `evict`
fails on the assertion. -/
theorem amount_counter_equals_table_size (N : Nat) (hN : N < 2 ^ 32) (ek : EvictionKind)
    (hek : ek = .lru ∨ ek = .aging) (sk : StatisticKind) (now : Int) (s0 : CachedFactory)
    (ops : List Op)
    (hcfg : (CachedFactory.new .amountLimited ek sk now).setMaxCreation N = some s0)
    (hfresh : freshRun s0 ops = true) :
    ∃ a m, (run s0 ops).cp = .amountLimited a ∧
      ((run s0 ops).ep = .lru m ∨ (run s0 ops).ep = .aging m) ∧
      a.created = m.length ∧
      (a.canCreate = false →
        m ≠ [] ∧ EvictionHelper.getLowerBound m ≠ .error .assertion ∧
        ∀ r, ((run s0 ops).evict r).1 ≠ .error .assertion) := by
  obtain ⟨hempty, hamount, hpos⟩ := configured_amount hcfg
  have hinv := inv_run ops (inv_of_isEmpty hempty) hfresh
  have ha := amountInv_run hN ops (inv_of_isEmpty hempty) hamount hfresh
  have hkind : (run s0 ops).ep.kind = ek := (kind_run ops s0).trans (configured_kind hcfg)
  have hep : ∃ m, (run s0 ops).ep = .lru m ∨ (run s0 ops).ep = .aging m := by
    cases hm : (run s0 ops).ep with
    | lru m => exact ⟨m, Or.inl rfl⟩
    | aging m => exact ⟨m, Or.inr rfl⟩
    | random v =>
      rw [hm] at hkind
      rcases hek with h | h
      · rw [h] at hkind
        cases hkind
      · rw [h] at hkind
        cases hkind
  obtain ⟨m, hm⟩ := hep
  have hlen := table_length hinv m hm
  refine ⟨_, m, ha.1, hm, hlen.symm, ?_⟩
  intro hcan
  have hfull : N ≤ (run s0 ops).heap.length := by
    simpa [AmountLimitedCreation.canCreate] using hcan
  have hne : m ≠ [] := by
    intro hnil
    rw [hnil] at hlen
    simp only [List.length_nil] at hlen
    omega
  have hlow : EvictionHelper.getLowerBound m ≠ .error .assertion := by
    rcases getLowerBound_spec m hne with ⟨h, _⟩ | ⟨x, sx, h, _⟩
    · rw [h]
      intro hc
      cases hc
    · rw [h]
      intro hc
      cases hc
  refine ⟨hne, hlow, ?_⟩
  intro r hc
  have hrem : ∀ x, ((run s0 ops).remove x).1 ≠ .error .assertion := by
    intro x hx
    rcases remove_cases (run s0 ops) x with h | ⟨m1, _, _, h⟩
    · rw [h] at hx
      cases hx
    · rw [h] at hx
      cases hx
  unfold CachedFactory.evict at hc
  rcases hm with hm | hm
  · rw [hm] at hc
    simp only [EvictionPolicy.evict, EvictLRU.evict] at hc
    cases hg : EvictionHelper.getLowerBound m with
    | error e =>
      rw [hg] at hc
      simp only [Except.error.injEq] at hc
      exact hlow (hg.trans (congrArg Except.error hc))
    | ok x =>
      rw [hg] at hc
      exact hrem x hc
  · rw [hm] at hc
    simp only [EvictionPolicy.evict, EvictAging.evict] at hc
    cases hg : EvictionHelper.getLowerBound m with
    | error e =>
      rw [hg] at hc
      simp only [Except.error.injEq] at hc
      exact hlow (hg.trans (congrArg Except.error hc))
    | ok x =>
      rw [hg] at hc
      exact hrem x hc

theorem amount_counter_equals_table_size_witness :
    (2 < 2 ^ 32) ∧ ((EvictionKind.lru = .lru) ∨ (EvictionKind.lru = .aging)) ∧
    (CachedFactory.new .amountLimited .lru .simple 0).setMaxCreation 2 = some sampleCache ∧
    freshRun sampleCache sampleOps = true ∧
    ∃ a m, (run sampleCache sampleOps).cp = .amountLimited a ∧
      ((run sampleCache sampleOps).ep = .lru m ∨ (run sampleCache sampleOps).ep = .aging m) ∧
      a.created = m.length ∧
      (a.canCreate = false →
        m ≠ [] ∧ EvictionHelper.getLowerBound m ≠ .error .assertion ∧
        ∀ r, ((run sampleCache sampleOps).evict r).1 ≠ .error .assertion) :=
  ⟨by decide, Or.inl rfl, rfl, by decide,
   amount_counter_equals_table_size 2 (by decide) .lru (Or.inl rfl) .simple 0 sampleCache
     sampleOps rfl (by decide)⟩

/-- C37 (the code departs from the second half of the claim on the keys that
`operator<` does not order strictly).  First half: `CreateObject` is not
atomic on an unknown identifier; on the sample cache at its capacity of two,
both instances idle, `CreateObject` with the unregistered identifier `99`
fails with the "Unknown Type" exception after `evict` has removed and deleted
the idle instance `100`: one live instance and `getAllocated()` one lower.
Second half: the keys `(2, (1))` and `(3, (0))` are each less than the other,
so that with several identifiers `operator<` is not the strict weak ordering
`std::map` requires, and the lookup made by the failing call can drop an entry
that holds idle instances.  On a cache whose calls all ask for one identifier
with the same positive number of parameters the second half holds: when no
instance is idle under the requested key and the admission policy answers
true, the same failure leaves the free store, the idle instances under every
key, the registry, the counters and the eviction bookkeeping as they were;
the idle pool is the same map when the requested key had an entry and has one
more entry, an empty vector under the requested key, when it had none. -/
theorem unknown_identifier_after_eviction_loses_instance (i : IdentifierType) (n : Nat)
    (s0 : CachedFactory) (ops : List Op) (parms : List Parm) (env : Env)
    (hist : UniformHistory i n s0 (ops ++ [.createObject i parms env]))
    (hmiss : idleUnder (run s0 ops).fromKeyToObjVector ⟨i, parms⟩ = [])
    (hcan : ((run s0 ops).cp.canCreate env.clockCan).1 = .ok true)
    (hreg : (run s0 ops).factory.IsRegistered i = false) :
    (freshRun sampleCache fullOps = true ∧
      (run sampleCache fullOps).liveObjects = [200, 100] ∧
      idleObjects (run sampleCache fullOps).fromKeyToObjVector = [100, 200] ∧
      (run sampleCache fullOps).stats.getAllocated = 2 ∧
      ((run sampleCache fullOps).CreateObject 99 [9] (envAt 300)).1 = .error .unknownType ∧
      ((run sampleCache fullOps).CreateObject 99 [9] (envAt 300)).2.liveObjects = [200] ∧
      idleObjects ((run sampleCache fullOps).CreateObject 99 [9] (envAt 300)).2.fromKeyToObjVector
        = [200] ∧
      ((run sampleCache fullOps).CreateObject 99 [9] (envAt 300)).2.stats.getAllocated = 1 ∧
      ((run sampleCache fullOps).CreateObject 99 [9] (envAt 300)).2.deleted
        = (run sampleCache fullOps).deleted + 1) ∧
    (Key.lt ⟨2, [1]⟩ ⟨3, [0]⟩ = true ∧ Key.lt ⟨3, [0]⟩ ⟨2, [1]⟩ = true) ∧
    (((run s0 ops).CreateObject i parms env).1 = .error .unknownType ∧
      ((run s0 ops).CreateObject i parms env).2.heap = (run s0 ops).heap ∧
      ((run s0 ops).CreateObject i parms env).2.deleted = (run s0 ops).deleted ∧
      (∀ k, idleUnder ((run s0 ops).CreateObject i parms env).2.fromKeyToObjVector k
              = idleUnder (run s0 ops).fromKeyToObjVector k) ∧
      ((⟨i, parms⟩ : Key) ∈ (run s0 ops).fromKeyToObjVector.map Prod.fst →
        ((run s0 ops).CreateObject i parms env).2.fromKeyToObjVector
          = (run s0 ops).fromKeyToObjVector) ∧
      ((⟨i, parms⟩ : Key) ∉ (run s0 ops).fromKeyToObjVector.map Prod.fst →
        ((run s0 ops).CreateObject i parms env).2.fromKeyToObjVector.Perm
          ((⟨i, parms⟩, []) :: (run s0 ops).fromKeyToObjVector)) ∧
      ((run s0 ops).CreateObject i parms env).2.providedObjects
        = (run s0 ops).providedObjects ∧
      ((run s0 ops).CreateObject i parms env).2.outObjects = (run s0 ops).outObjects ∧
      ((run s0 ops).CreateObject i parms env).2.sp = (run s0 ops).sp ∧
      ((run s0 ops).CreateObject i parms env).2.ep = (run s0 ops).ep ∧
      (∀ a, (run s0 ops).cp = .amountLimited a →
        ((run s0 ops).CreateObject i parms env).2.cp = (run s0 ops).cp)) := by
  have hwf := keysWF_history (uniformHistory_before_create hist).1
  generalize run s0 ops = s at *
  have hmiss1 : (entryAt (mapIndex s.fromKeyToObjVector ⟨i, parms⟩).1
      (mapIndex s.fromKeyToObjVector ⟨i, parms⟩).2).getLast? = none := by
    rw [entryAt_mapIndex_idleUnder hwf.1 _ _ hwf.2.1, hmiss]
    rfl
  have hstate := createObject_unknown_state s i parms env hmiss1 hcan hreg
  have hpool := getContainerFromKey_pool s ⟨i, parms⟩ hwf
  refine ⟨⟨by decide, by decide, by decide, by decide, rfl, by decide, by decide, by decide,
    by decide⟩, by decide, ?_⟩
  rw [hstate]
  refine ⟨rfl, rfl, rfl, fun k => mapIndex_idleUnder _ _ _, hpool.1, hpool.2, rfl, rfl, rfl,
    rfl, ?_⟩
  intro a ha
  show (s.cp.canCreate env.clockCan).2 = s.cp
  rw [ha]
  rfl

theorem unknown_identifier_after_eviction_loses_instance_witness :
    UniformHistory 1 1 sampleCache
      (idleUnregisteredOps ++ [.createObject 1 [9] (envAt 300)]) ∧
    idleUnder (run sampleCache idleUnregisteredOps).fromKeyToObjVector ⟨1, [9]⟩ = [] ∧
    ((run sampleCache idleUnregisteredOps).cp.canCreate (envAt 300).clockCan).1 = .ok true ∧
    (run sampleCache idleUnregisteredOps).factory.IsRegistered 1 = false ∧
    idleObjects (run sampleCache idleUnregisteredOps).fromKeyToObjVector = [100] ∧
    ((run sampleCache idleUnregisteredOps).CreateObject 1 [9] (envAt 300)).1
      = .error .unknownType ∧
    ((run sampleCache idleUnregisteredOps).CreateObject 1 [9] (envAt 300)).2.heap
      = (run sampleCache idleUnregisteredOps).heap :=
  ⟨⟨⟨rfl, rfl, rfl, rfl⟩, by decide, by decide⟩, by decide, rfl, by decide, by decide,
   (unknown_identifier_after_eviction_loses_instance 1 1 sampleCache idleUnregisteredOps [9]
      (envAt 300) ⟨⟨rfl, rfl, rfl, rfl⟩, by decide, by decide⟩
      (by decide) rfl (by decide)).2.2.1,
   (unknown_identifier_after_eviction_loses_instance 1 1 sampleCache idleUnregisteredOps [9]
      (envAt 300) ⟨⟨rfl, rfl, rfl, rfl⟩, by decide, by decide⟩
      (by decide) rfl (by decide)).2.2.2.1⟩

/-- C38: after every sequence of calls on a cache that starts empty, each
construction yielding a new instance, no instance occurs twice in the vectors
of the idle pool taken together and none is both idle and checked out; hence a
`remove` of an idle instance takes exactly one element out of the vectors, and
a `CreateObject` that returns an instance returns one that was not checked out
and that is, afterwards, checked out and in no vector. -/
theorem idle_instances_occur_once (s0 : CachedFactory) (ops : List Op)
    (hempty : s0.IsEmpty) (hfresh : freshRun s0 ops = true) :
    (idleObjects (run s0 ops).fromKeyToObjVector).Nodup ∧
    (∀ x, (idleObjects (run s0 ops).fromKeyToObjVector).count x ≤ 1) ∧
    (∀ x ∈ idleObjects (run s0 ops).fromKeyToObjVector,
      x ∉ ptrKeys (run s0 ops).providedObjects) ∧
    (∀ x ∈ idleObjects (run s0 ops).fromKeyToObjVector,
      ((run s0 ops).remove x).1 = .ok () ∧
      (idleObjects ((run s0 ops).remove x).2.fromKeyToObjVector).length + 1
        = (idleObjects (run s0 ops).fromKeyToObjVector).length ∧
      x ∉ idleObjects ((run s0 ops).remove x).2.fromKeyToObjVector) ∧
    (∀ id parms env p, (run s0 ops).freshCall id parms env = true →
      ((run s0 ops).CreateObject id parms env).1 = .ok p →
      p ∉ ptrKeys (run s0 ops).providedObjects ∧
      p ∈ ptrKeys ((run s0 ops).CreateObject id parms env).2.providedObjects ∧
      p ∉ idleObjects ((run s0 ops).CreateObject id parms env).2.fromKeyToObjVector) := by
  have hi := inv_run ops (inv_of_isEmpty hempty) hfresh
  generalize run s0 ops = s at hi
  have hnd : (idleObjects s.fromKeyToObjVector).Nodup := by simpa using hi.nodup
  refine ⟨hnd, fun x => List.nodup_iff_count_le_one.mp hnd x,
    fun x hx => hi.disjoint x (Or.inr hx), ?_, ?_⟩
  · intro x hx
    have hreg : ptrFind s.providedObjects x = none :=
      (ptrFind_eq_none _ _).mpr (hi.disjoint x (Or.inr hx))
    rcases remove_cases s x with h | ⟨m1, _, hrem, h⟩
    · exfalso
      unfold CachedFactory.remove at h
      rw [hreg] at h
      cases hr : removeFromVectors s.fromKeyToObjVector x with
      | none => exact (removeFromVectors_none _ _).mp hr hx
      | some m =>
        rw [hr] at h
        cases h
    · rw [h]
      have hperm := removeFromVectors_perm _ _ _ hrem hnd
      refine ⟨rfl, ?_, removeFromVectors_gone _ _ _ hrem hnd⟩
      have := hperm.length_eq
      simp only [List.length_cons] at this
      exact this.symm
  · intro id parms env p hf hok
    have hpost := inv_createObject id parms env hi hf
    have hregp := createObject_ok_registry s id parms env p hok
    have hin : p ∈ ptrKeys (s.CreateObject id parms env).2.providedObjects :=
      ptrFind_some_keys _ _ _ hregp
    refine ⟨?_, hin, fun hidle => hpost.disjoint p (Or.inr hidle) hin⟩
    have hi1 : InvH [] (s.getContainerFromKey ⟨id, parms⟩).1 :=
      invH_getContainerFromKey ⟨id, parms⟩ hi
    have hi3 := invH_shouldCreateObject_null env hi1
    have hframe := shouldCreateObject_null_frame (s.getContainerFromKey ⟨id, parms⟩).1 env
    rcases createObject_cases s id parms env with
      ⟨q, _, hl, _, he⟩ | ⟨_, _, he⟩ | ⟨_, ⟨e, _, _, he⟩ | ⟨_, hat, ⟨e, _, he⟩ | ⟨q, hq, he⟩⟩⟩
    · rw [he, provide_fst] at hok
      simp only [Except.ok.injEq] at hok
      subst hok
      apply hi1.disjoint q
      right
      exact entryAt_subset_idle _ _ q (List.mem_of_getLast?_eq_some hl)
    · rw [he] at hok
      cases hok
    · rw [he] at hok
      cases hok
    · rw [he] at hok
      cases hok
    · rw [he, provide_fst] at hok
      simp only [Except.ok.injEq] at hok
      subst hok
      have hnew := freshCall_fresh s id parms env _ q hf hat hq
      intro hx
      apply hnew
      apply (hi3.live q).mpr
      right
      right
      rw [hframe.2.1]
      exact hx

theorem idle_instances_occur_once_witness :
    sampleCache.IsEmpty ∧ freshRun sampleCache fullOps = true ∧
    (idleObjects (run sampleCache fullOps).fromKeyToObjVector).Nodup :=
  ⟨⟨rfl, rfl, rfl, rfl⟩, by decide,
   (idle_instances_occur_once sampleCache fullOps ⟨rfl, rfl, rfl, rfl⟩ (by decide)).1⟩

/-- C39 (the code departs from the claim on the keys that `operator<` does
not order strictly): on a factory without construction parameter and a cache
at its capacity of one, whose only instance `100` is idle, `CreateObject(1)`
does not return `100`: it consults the admission policy, evicts `100` and
builds `200`, and after `Unregister(1)` it fails with "Unknown Type".  On a
cache whose calls all ask for one identifier with the same positive number of
parameters the claim holds: when the vector of a key `K` ends with a non-null
instance, `CreateObject` for `K` returns it whatever the admission policy and
the registrations are, without calling the factory, and leaves the free store,
the number of deletions, the admission state, the eviction bookkeeping and
`getCreated()` unchanged. -/
theorem pool_hit_skips_admission_on_uniform_keys (i : IdentifierType) (n : Nat)
    (s0 : CachedFactory) (ops : List Op) (K : Key) (v : ObjVector) (x : Product) (env : Env)
    (hist : UniformHistory i n s0 ops)
    (hv : (K, v ++ [x]) ∈ (run s0 ops).fromKeyToObjVector) (hx : x ≠ NULL) :
    (idleObjects (run oneCache noParmOneOps).fromKeyToObjVector = [100] ∧
      (run oneCache noParmOneOps).stats.getCreated = 1 ∧
      ((run oneCache noParmOneOps).CreateObject 1 [] (envAt 200)).1 = .ok 200 ∧
      ((run oneCache noParmOneOps).CreateObject 1 [] (envAt 200)).2.liveObjects = [200] ∧
      ((run oneCache noParmOneOps).CreateObject 1 [] (envAt 200)).2.deleted = 1 ∧
      ((run oneCache noParmOneOps).CreateObject 1 [] (envAt 200)).2.stats.getCreated = 2 ∧
      ((run oneCache (noParmOneOps ++ [.unregister 1])).CreateObject 1 [] (envAt 200)).1
        = .error .unknownType) ∧
    ((run s0 ops).CreateObject K.id K.values env).1 = .ok x ∧
    (run s0 ops).atFactoryCall K.id K.values env = none ∧
    ((run s0 ops).CreateObject K.id K.values env).2.heap = (run s0 ops).heap ∧
    ((run s0 ops).CreateObject K.id K.values env).2.deleted = (run s0 ops).deleted ∧
    ((run s0 ops).CreateObject K.id K.values env).2.cp = (run s0 ops).cp ∧
    ((run s0 ops).CreateObject K.id K.values env).2.ep = (run s0 ops).ep ∧
    ((run s0 ops).CreateObject K.id K.values env).2.stats.getCreated
      = (run s0 ops).stats.getCreated ∧
    ((run s0 ops).CreateObject K.id K.values env).2.factory = (run s0 ops).factory := by
  have hwf := keysWF_history hist
  generalize run s0 ops = s at *
  have hK : K.values.length = n := hwf.2.1.1 K (List.mem_map_of_mem Prod.fst hv)
  obtain ⟨c1, _, c3, _, _, c6⟩ := createObject_pop s K v x env hwf hK hv hx
  have hmod := mapIndex_modify hwf.1 s.fromKeyToObjVector K hK hwf.2.1 List.dropLast
  have hl : (entryAt (mapIndex s.fromKeyToObjVector ⟨K.id, K.values⟩).1
      (mapIndex s.fromKeyToObjVector ⟨K.id, K.values⟩).2).getLast? = some x := by
    show (entryAt (mapIndex s.fromKeyToObjVector K).1
      (mapIndex s.fromKeyToObjVector K).2).getLast? = some x
    rw [hmod.2.2 _ hv]
    simp
  have hhit := createObject_hit s K.id K.values env x hx hl
  refine ⟨⟨by decide, by decide, rfl, by decide, by decide, by decide, rfl⟩,
    c1, c3, c6, ?_, ?_, ?_, ?_, ?_⟩
  · rw [hhit]
    rfl
  · rw [hhit]
    rfl
  · rw [hhit]
    show s.ep.onFetch x = s.ep
    exact evictionPolicy_onFetch_eq s.ep x
  · rw [hhit]
    show (CachedFactory.stats _).getCreated = _
    unfold CachedFactory.stats
    show (match s.sp.onFetch with
      | .simple p => p
      | .noStatistic => SimpleStatisticPolicy.init).getCreated = _
    cases s.sp with
    | noStatistic => rfl
    | simple p => rfl
  · rw [hhit]
    rfl

theorem pool_hit_skips_admission_on_uniform_keys_witness :
    UniformHistory 1 1 sampleCache unregisteredOps ∧
    ((run sampleCache unregisteredOps).cp.canCreate 0).1 = .ok false ∧
    (run sampleCache unregisteredOps).factory.IsRegistered 1 = false ∧
    ((run sampleCache unregisteredOps).CreateObject 1 [7] (envAt 300)).1 = .ok 100 :=
  ⟨⟨⟨rfl, rfl, rfl, rfl⟩, by decide, by decide⟩, rfl, by decide,
   (pool_hit_skips_admission_on_uniform_keys 1 1 sampleCache unregisteredOps
      ⟨1, [7]⟩ [] 100 (envAt 300) ⟨⟨rfl, rfl, rfl, rfl⟩, by decide, by decide⟩
      (by decide) (by decide)).2.1⟩

end Loki
